import Mathlib

/-!
Instanced foliage: a verification development.

A shallow embedding of the instance-management core of
`Engine/Source/Runtime/Foliage/Private/InstancedFoliage.cpp`
(`FFoliageMeshInfo`, `AInstancedFoliageActor`, `UFoliageType` and the placement code), followed
by theorems about it.

Conventions of the embedding.

* Coordinates are exact integers (`Int`); floating-point rounding is not modelled.
* `TArray<T>` is `List T`; an out-of-range subscript and a failed `check(...)` make the
  operation return `none`.
* `TSet<int32>` is a duplicate-free `List Nat` kept in slot order; `TMap<K, V>` is an
  association list with at most one pair per key.
* A `UFoliageType*` is an `Option Nat` (the identity of the object) and a `UActorComponent*` an
  `Option UActorComponent` (identity and current transform), `none` being `nullptr`.
* The random source `FMath::FRand()` is a sequence of draws `Rand` together with the number of
  draws made so far; ages and growth scales, which the code divides, are rationals.
* What a function asks of the world (the hits of a sweep, an overlap test, the object behind a
  pointer) is an argument of its embedding.
-/

namespace Foliage

/-! ## Engine value types -/

/-- Three-component vector (`FVector`), with exact integer coordinates. -/
structure FVector where
  X : Int
  Y : Int
  Z : Int
deriving DecidableEq

/-- Euler rotation (`FRotator`). -/
structure FRotator where
  Pitch : Int
  Yaw : Int
  Roll : Int
deriving DecidableEq

/-- Rotation, translation and scale triple (`FTransform`). -/
structure FTransform where
  Rotation : FRotator
  Translation : FVector
  Scale3D : FVector
deriving DecidableEq

/-- Sphere (`FSphere`): centre and radius `W`. -/
structure FSphere where
  Center : FVector
  W : Int
deriving DecidableEq

/-- Axis-aligned box (`FBox`): minimum and maximum corner. -/
structure FBox where
  Min : FVector
  Max : FVector
deriving DecidableEq

/-- Component-wise difference of two vectors (`FVector::operator-`). -/
def FVector.sub (a b : FVector) : FVector := ⟨a.X - b.X, a.Y - b.Y, a.Z - b.Z⟩

/-- Component-wise sum of two vectors (`FVector::operator+`). -/
def FVector.add (a b : FVector) : FVector := ⟨a.X + b.X, a.Y + b.Y, a.Z + b.Z⟩

/-- Squared length of a vector (`FVector::SizeSquared`). -/
def FVector.SizeSquared (a : FVector) : Int := a.X * a.X + a.Y * a.Y + a.Z * a.Z

/-- Modelled from the spec: `FBox::BuildAABB(Origin, Extent)` is declared in the engine core,
outside the files at hand; the box centred at `Origin` reaching `Extent` along each axis. -/
def FBox.BuildAABB (Origin Extent : FVector) : FBox := ⟨Origin.sub Extent, Origin.add Extent⟩

/-- Closed containment of a point in a box. -/
def FBox.IsInside (B : FBox) (P : FVector) : Bool :=
  decide (B.Min.X ≤ P.X) && decide (P.X ≤ B.Max.X) &&
  decide (B.Min.Y ≤ P.Y) && decide (P.Y ≤ B.Max.Y) &&
  decide (B.Min.Z ≤ P.Z) && decide (P.Z ≤ B.Max.Z)

/-- Modelled from the spec: `FSphere::IsInside` is declared in the engine core, outside the
files at hand; the spec calls it the exact distance re-test.  Sphere `A` is inside sphere `O`
when the distance of the centres plus the radius of `A` is at most the radius of `O`; without
square roots, `0 ≤ O.W - A.W` and the squared distance is at most `(O.W - A.W)^2`. -/
def FSphere.IsInside (A O : FSphere) : Bool :=
  decide (A.W ≤ O.W) &&
  decide ((A.Center.sub O.Center).SizeSquared ≤ (O.W - A.W) * (O.W - A.W))

/-! ## Containers -/

/-- Embedding of `TArray::RemoveAtSwap(Index)`: the last element is moved into slot `Index` and
the array
shrinks by one. -/
def TArray.RemoveAtSwap {α : Type} (xs : List α) (Index : Nat) : List α :=
  match xs.getLast? with
  | none => xs
  | some l => (xs.set Index l).dropLast

/-- Embedding of `TSet::Add`: an element already present is kept in its slot, a new one takes
the next slot. -/
def TSet.Add (s : List Nat) (x : Nat) : List Nat :=
  if x ∈ s then s else s ++ [x]

/-- Embedding of `TSet::Remove`. -/
def TSet.Remove (s : List Nat) (x : Nat) : List Nat :=
  s.filter (fun y => y != x)

/-- Embedding of `TMap::Find`. -/
def TMap.Find {κ ν : Type} [DecidableEq κ] (m : List (κ × ν)) (k : κ) : Option ν :=
  match m with
  | [] => none
  | p :: rest => if p.1 = k then some p.2 else TMap.Find rest k

/-- Embedding of `TMap::Remove`. -/
def TMap.Remove {κ ν : Type} [DecidableEq κ] (m : List (κ × ν)) (k : κ) : List (κ × ν) :=
  m.filter (fun p => decide (p.1 ≠ k))

/-- Embedding of `TMap::Add(Key, Value)`: the value stored under an existing key is replaced. -/
def TMap.Add {κ ν : Type} [DecidableEq κ] (m : List (κ × ν)) (k : κ) (v : ν) : List (κ × ν) :=
  match m with
  | [] => [(k, v)]
  | p :: rest => if p.1 = k then (k, v) :: rest else p :: TMap.Add rest k v

/-! ## Foliage data -/

/-- Modelled from the spec: the flag bit `FOLIAGE_InstanceDeleted` (the deleted tombstone of
the legacy layout) is declared in `InstancedFoliage.h`, which is not among the files at hand;
one bit of the flag word, and no theorem below depends on which. -/
def FOLIAGE_InstanceDeleted : Nat := 8

/-- Modelled from the spec: `FFoliageInstanceBaseCache::InvalidBaseId` is declared in
`InstancedFoliage.h`, which is not among the files at hand; the spec reserves id 0
for "no base". -/
def InvalidBaseId : Nat := 0

/-- One placed instance (`FFoliageInstance`); the fields are those the serializer
`operator<<(FArchive&, FFoliageInstance&)` writes. -/
structure FFoliageInstance where
  Location : FVector
  Rotation : FRotator
  DrawScale3D : FVector
  PreAlignRotation : FRotator
  ProceduralGuid : Nat
  Flags : Nat
  ZOffset : Int
  BaseId : Nat
deriving DecidableEq

/-- Modelled from the spec: `FFoliageInstance::GetInstanceWorldTransform` is declared in
`InstancedFoliage.h`; the transform handed to the render sink is built from the rotation,
location and draw scale of the instance. -/
def FFoliageInstance.GetInstanceWorldTransform (I : FFoliageInstance) : FTransform :=
  ⟨I.Rotation, I.Location, I.DrawScale3D⟩

/-- Modelled from the spec: edge length of a cell of the uniform grid of the spatial hash
(a fixed constant; the spec fixes no value and no theorem below depends on it). -/
def HashCellSize : Int := 512

/-- Grid cell of a location. -/
def HashCell (L : FVector) : Int × Int × Int :=
  (L.X / HashCellSize, L.Y / HashCellSize, L.Z / HashCellSize)

/-- Modelled from the spec: the spatial hash `FFoliageInstanceHash` is declared in
`InstancedFoliage.h`, which is not among the files at hand.  A uniform grid mapping locations
to instance indices: the entries `(cell, index)` of all buckets, one per pair. -/
structure FFoliageInstanceHash where
  CellMap : List ((Int × Int × Int) × Nat)
deriving DecidableEq

/-- Modelled from the spec: `Insert(location, index)` puts the index into the bucket of the
cell of the location (buckets are sets). -/
def FFoliageInstanceHash.InsertInstance (H : FFoliageInstanceHash) (L : FVector) (Idx : Nat) :
    FFoliageInstanceHash :=
  if (HashCell L, Idx) ∈ H.CellMap then H else ⟨H.CellMap ++ [(HashCell L, Idx)]⟩

/-- Modelled from the spec: `Remove(location, index)`; removing a pair that is not present is a
silent no-op. -/
def FFoliageInstanceHash.RemoveInstance (H : FFoliageInstanceHash) (L : FVector) (Idx : Nat) :
    FFoliageInstanceHash :=
  ⟨H.CellMap.filter (fun e => e != (HashCell L, Idx))⟩

/-- Modelled from the spec: `Clear()`. -/
def FFoliageInstanceHash.Empty (_H : FFoliageInstanceHash) : FFoliageInstanceHash := ⟨[]⟩

/-- Whether a cell lies in the range of cells a box touches. -/
def CellTouchesBox (B : FBox) (c : Int × Int × Int) : Bool :=
  decide ((HashCell B.Min).1 ≤ c.1) && decide (c.1 ≤ (HashCell B.Max).1) &&
  decide ((HashCell B.Min).2.1 ≤ c.2.1) && decide (c.2.1 ≤ (HashCell B.Max).2.1) &&
  decide ((HashCell B.Min).2.2 ≤ c.2.2) && decide (c.2.2 ≤ (HashCell B.Max).2.2)

/-- Modelled from the spec: `QueryBox(box)` returns the indices of every bucket whose cell the
box touches, a superset of the indices located in the box. -/
def FFoliageInstanceHash.GetInstancesOverlappingBox (H : FFoliageInstanceHash) (B : FBox) :
    List Nat :=
  (H.CellMap.filter (fun e => CellTouchesBox B e.1)).map (fun e => e.2)

/-- Modelled from the spec: the render sink `UHierarchicalInstancedStaticMeshComponent` is an
engine class outside the files at hand.  It holds one transform per instance
(`PerInstanceSMData`) and the selection buffer `SelectedInstances`. -/
structure UHierarchicalInstancedStaticMeshComponent where
  PerInstanceSMData : List FTransform
  SelectedInstances : List Bool
deriving DecidableEq

/-- Modelled from the spec: `append(transform)` of the render sink. -/
def UHierarchicalInstancedStaticMeshComponent.AddInstanceWorldSpace
    (C : UHierarchicalInstancedStaticMeshComponent) (T : FTransform) :
    UHierarchicalInstancedStaticMeshComponent :=
  { C with PerInstanceSMData := C.PerInstanceSMData ++ [T] }

/-- Modelled from the spec: `remove(index)` of the render sink; the transform buffer is
compacted like the instance array so that both stay index-aligned. -/
def UHierarchicalInstancedStaticMeshComponent.RemoveInstance
    (C : UHierarchicalInstancedStaticMeshComponent) (Idx : Nat) :
    UHierarchicalInstancedStaticMeshComponent :=
  { C with PerInstanceSMData := TArray.RemoveAtSwap C.PerInstanceSMData Idx }

/-- Modelled from the spec: `update(index, transform)` of the render sink. -/
def UHierarchicalInstancedStaticMeshComponent.UpdateInstanceTransform
    (C : UHierarchicalInstancedStaticMeshComponent) (Idx : Nat) (T : FTransform) :
    UHierarchicalInstancedStaticMeshComponent :=
  { C with PerInstanceSMData := C.PerInstanceSMData.set Idx T }

/-- The per-foliage-type collection (`FFoliageMeshInfo`). -/
structure FFoliageMeshInfo where
  Component : Option UHierarchicalInstancedStaticMeshComponent
  FoliageTypeUpdateGuid : Nat
  Instances : List FFoliageInstance
  InstanceHash : FFoliageInstanceHash
  ComponentHash : List (Nat × List Nat)
  SelectedIndices : List Nat
deriving DecidableEq

/-- The constructor `FFoliageMeshInfo::FFoliageMeshInfo()`: no component, everything empty. -/
def FFoliageMeshInfo.new : FFoliageMeshInfo :=
  ⟨none, 0, [], ⟨[]⟩, [], []⟩

/-- Scaling mode of a foliage type (`EFoliageScaling`). -/
inductive EFoliageScaling where
  | Uniform
  | Free
  | LockXY
  | LockXZ
  | LockYZ
deriving DecidableEq

/-- Closed range of numbers (`FFloatInterval`). -/
structure FFloatInterval where
  Min : Int
  Max : Int
deriving DecidableEq

/-- Modelled from the spec: `FFloatInterval::Interpolate` is declared in the engine core, outside
the files at hand; the spec speaks of scale distributions with min/max ranges, and the value at
`Alpha` is the linear interpolation between the two ends. -/
def FFloatInterval.Interpolate (R : FFloatInterval) (Alpha : Int) : Int :=
  R.Min + Alpha * (R.Max - R.Min)

/-- The part of a foliage type (`UFoliageType`) the operations read.  Placement numbers are exact
integers like the coordinates; ages and growth scales, which the code divides, are rationals. -/
structure UFoliageType where
  UpdateGuid : Nat
  Density : Int
  AlignToNormal : Bool
  RandomYaw : Bool
  Scaling : EFoliageScaling
  ScaleX : FFloatInterval
  ScaleY : FFloatInterval
  ScaleZ : FFloatInterval
  AlignMaxAngle : Int
  RandomPitchAngle : Int
  ZOffset : FFloatInterval
  OverriddenLightMapRes : Int
  MinScale : ℚ
  MaxScale : ℚ
  MaxAge : ℚ
  ScaleCurve : List (ℚ × ℚ)
  ChangeCount : Nat
deriving DecidableEq

/-- The constructor `UFoliageType::UFoliageType`: the defaults of the fields above; `Guid` is the
value `FGuid::NewGuid()` yields for `UpdateGuid`. -/
def UFoliageType.new (Guid : Nat) : UFoliageType :=
  { UpdateGuid := Guid
    Density := 100
    AlignToNormal := true
    RandomYaw := true
    Scaling := EFoliageScaling.Uniform
    ScaleX := ⟨1, 1⟩
    ScaleY := ⟨1, 1⟩
    ScaleZ := ⟨1, 1⟩
    AlignMaxAngle := 0
    RandomPitchAngle := 0
    ZOffset := ⟨0, 0⟩
    OverriddenLightMapRes := 8
    MinScale := 1
    MaxScale := 3
    MaxAge := 10
    ScaleCurve := [(0, 0), (1, 1)]
    ChangeCount := 0 }

/-! ## Foliage type operations -/

/-- The statements of `case EFoliageScaling::LockYZ` in `UFoliageType::GetRandomScale`: one
shared draw for Y and Z, then an own draw for X, all three assigned into `Result`.  `Rand` is
the sequence of values `FMath::FRand()` yields and `k` the number of draws made so far. -/
def UFoliageType.GetRandomScale.CaseLockYZ (T : UFoliageType) (Rand : Nat → Int) (k : Nat)
    (Result : FVector) : FVector × Nat :=
  let LockRand := Rand k
  let R1 := { Result with X := T.ScaleX.Interpolate (Rand (k + 1)) }
  let R2 := { R1 with Y := T.ScaleY.Interpolate LockRand }
  ({ R2 with Z := T.ScaleZ.Interpolate LockRand }, k + 2)

/-- Embedding of `UFoliageType::GetRandomScale`: the scale vector and the number of draws made
afterwards.  The case for `LockXZ` does not end in `break`, so control runs on into the
statements of the case for `LockYZ`, which assign all three components again. -/
def UFoliageType.GetRandomScale (T : UFoliageType) (Rand : Nat → Int) (k : Nat) :
    FVector × Nat :=
  let Result : FVector := ⟨1, 1, 1⟩
  match T.Scaling with
  | EFoliageScaling.Uniform =>
    let X := T.ScaleX.Interpolate (Rand k)
    (⟨X, X, X⟩, k + 1)
  | EFoliageScaling.Free =>
    (⟨T.ScaleX.Interpolate (Rand k), T.ScaleY.Interpolate (Rand (k + 1)),
      T.ScaleZ.Interpolate (Rand (k + 2))⟩, k + 3)
  | EFoliageScaling.LockXY =>
    let LockRand := Rand k
    (⟨T.ScaleX.Interpolate LockRand, T.ScaleY.Interpolate LockRand,
      T.ScaleZ.Interpolate (Rand (k + 1))⟩, k + 2)
  | EFoliageScaling.LockXZ =>
    let LockRand := Rand k
    let R1 : FVector := ⟨T.ScaleX.Interpolate LockRand, T.ScaleY.Interpolate (Rand (k + 1)),
      T.ScaleZ.Interpolate LockRand⟩
    UFoliageType.GetRandomScale.CaseLockYZ T Rand (k + 2) R1
  | EFoliageScaling.LockYZ =>
    UFoliageType.GetRandomScale.CaseLockYZ T Rand k Result

/-- Modelled from the spec: `FMath::Clamp` is declared in the engine core, outside the files at
hand; the value limited to the closed range from `Min` to `Max`. -/
def FMath.Clamp (X Min Max : ℚ) : ℚ :=
  if X < Min then Min else if X < Max then X else Max

/-- Embedding of `UFoliageType::GetScaleForAge`.  `Eval` is the evaluation of a rich curve
(`FRichCurve::Eval`, engine code outside the files at hand) given its keys. -/
def UFoliageType.GetScaleForAge (T : UFoliageType) (Eval : List (ℚ × ℚ) → ℚ → ℚ) (Age : ℚ) : ℚ :=
  let Time := FMath.Clamp (if T.MaxAge = 0 then 1 else Age / T.MaxAge) 0 1
  let Scale := Eval T.ScaleCurve Time
  T.MinScale + (T.MaxScale - T.MinScale) * Scale

/-- The loop of `UFoliageType::GetNextAge` with `Remaining` steps still allowed: the age grows
by one per step as long as the grown age does not exceed `MaxAge`. -/
def UFoliageType.GetNextAgeLoop (T : UFoliageType) : Nat → ℚ → ℚ
  | 0, NewAge => NewAge
  | Remaining + 1, NewAge =>
    let GrowAge := NewAge + 1
    if GrowAge ≤ T.MaxAge then UFoliageType.GetNextAgeLoop T Remaining GrowAge
    else NewAge

/-- Embedding of `UFoliageType::GetNextAge`; the loop `for (Count = 0; Count < NumSteps;
++Count)` makes no step when `NumSteps` is not positive. -/
def UFoliageType.GetNextAge (T : UFoliageType) (CurrentAge : ℚ) (NumSteps : Int) : ℚ :=
  UFoliageType.GetNextAgeLoop T NumSteps.toNat CurrentAge

/-- The value of a 32-bit two's complement integer that exact arithmetic gave `x`. -/
def Int32.Wrap (x : Int) : Int := (x + 2147483648) % 4294967296 - 2147483648

/-- The bit pattern of a 32-bit integer, as a natural number below `2^32`. -/
def Int32.Bits (x : Int) : Nat := (x % 4294967296).toNat

/-- Bitwise complement of a 32-bit integer (`~x`). -/
def Int32.Not (x : Int) : Int := Int32.Wrap (-x - 1)

/-- Bitwise conjunction of two 32-bit integers (`x & y`). -/
def Int32.And (x y : Int) : Int := Int32.Wrap ((Int32.Bits x &&& Int32.Bits y : Nat) : Int)

/-! ## Collection operations -/

namespace FFoliageMeshInfo

/-- Embedding of `FFoliageMeshInfo::AddToBaseHash`. -/
def AddToBaseHash (M : FFoliageMeshInfo) (InstanceIndex : Nat) : Option FFoliageMeshInfo :=
  match M.Instances[InstanceIndex]? with
  | none => none
  | some Instance =>
    match TMap.Find M.ComponentHash Instance.BaseId with
    | none =>
      let NewSet := TSet.Add [] InstanceIndex
      some { M with ComponentHash := M.ComponentHash ++ [(Instance.BaseId, NewSet)] }
    | some InstanceSet =>
      let NewSet := TSet.Add InstanceSet InstanceIndex
      some { M with ComponentHash := TMap.Add M.ComponentHash Instance.BaseId NewSet }

/-- Embedding of `FFoliageMeshInfo::RemoveFromBaseHash`. -/
def RemoveFromBaseHash (M : FFoliageMeshInfo) (InstanceIndex : Nat) : Option FFoliageMeshInfo :=
  match M.Instances[InstanceIndex]? with
  | none => none
  | some Instance =>
    match TMap.Find M.ComponentHash Instance.BaseId with
    | none => some M
    | some InstanceSet =>
      let NewSet := TSet.Remove InstanceSet InstanceIndex
      if NewSet.length = 0 then
        some { M with ComponentHash := TMap.Remove M.ComponentHash Instance.BaseId }
      else
        some { M with ComponentHash := TMap.Add M.ComponentHash Instance.BaseId NewSet }

/-- Embedding of `FFoliageMeshInfo::AddInstance(InIFA, InSettings, InNewInstance)`: the overload
that
stores the instance as given. -/
def AddInstance (M : FFoliageMeshInfo) (_InSettings : UFoliageType)
    (InNewInstance : FFoliageInstance) : Option FFoliageMeshInfo :=
  let Component : UHierarchicalInstancedStaticMeshComponent :=
    match M.Component with
    | none => ⟨[], []⟩
    | some C => C
  let InstanceIndex := M.Instances.length
  let M1 := { M with Component := some Component, Instances := M.Instances ++ [InNewInstance] }
  match M1.Instances[InstanceIndex]? with
  | none => none
  | some AddedInstance =>
    match M1.AddToBaseHash InstanceIndex with
    | none => none
    | some M2 =>
      let Hash := M2.InstanceHash.InsertInstance AddedInstance.Location InstanceIndex
      let M3 := { M2 with InstanceHash := Hash }
      let InstanceToWorld := InNewInstance.GetInstanceWorldTransform
      some { M3 with Component := some (Component.AddInstanceWorldSpace InstanceToWorld) }

/-- One pass of the `while (InstancesToRemove.Num())` loop of `RemoveInstances`; the result is
the collection and the pending set after the pass. -/
def RemoveInstancesPass (M : FFoliageMeshInfo) (InstancesToRemove : List Nat) :
    Option (FFoliageMeshInfo × List Nat) :=
  match InstancesToRemove with
  | [] => none
  | InstanceIndex :: _ =>
    match M.Instances[InstanceIndex]?, M.Component with
    | some Instance, some Component =>
      match M.RemoveFromBaseHash InstanceIndex with
      | none => none
      | some M1 =>
        let M2 := { M1 with
          InstanceHash := M1.InstanceHash.RemoveInstance Instance.Location InstanceIndex
          Component := some (Component.RemoveInstance InstanceIndex)
          SelectedIndices := TSet.Remove M1.SelectedIndices InstanceIndex
          Instances := TArray.RemoveAtSwap M1.Instances InstanceIndex }
        if InstanceIndex ≠ M2.Instances.length ∧ M2.Instances.length ≠ 0 then
          match M2.Instances[InstanceIndex]? with
          | none => none
          | some SwappedInstance =>
            let Hash1 := M2.InstanceHash.RemoveInstance SwappedInstance.Location M2.Instances.length
            let Hash2 := Hash1.InsertInstance SwappedInstance.Location InstanceIndex
            let CompHash :=
              match TMap.Find M2.ComponentHash SwappedInstance.BaseId with
              | none => M2.ComponentHash
              | some InstanceSet =>
                TMap.Add M2.ComponentHash SwappedInstance.BaseId
                  (TSet.Add (TSet.Remove InstanceSet M2.Instances.length) InstanceIndex)
            let Selected :=
              if M2.Instances.length ∈ M2.SelectedIndices then
                TSet.Add (TSet.Remove M2.SelectedIndices M2.Instances.length) InstanceIndex
              else M2.SelectedIndices
            let InstanceIndexToRemove :=
              if M2.Instances.length ∈ InstancesToRemove then M2.Instances.length else InstanceIndex
            let M3 := { M2 with
              InstanceHash := Hash2, ComponentHash := CompHash, SelectedIndices := Selected }
            some (M3, TSet.Remove InstancesToRemove InstanceIndexToRemove)
        else
          some (M2, TSet.Remove InstancesToRemove InstanceIndex)
    | _, _ => none

/-- The `while (InstancesToRemove.Num())` loop of `RemoveInstances`, with a bound on the number
of passes. -/
def RemoveInstancesLoop : Nat → FFoliageMeshInfo → List Nat → Option FFoliageMeshInfo
  | _, M, [] => some M
  | 0, _, _ :: _ => none
  | fuel + 1, M, i :: rest =>
    match RemoveInstancesPass M (i :: rest) with
    | none => none
    | some (M1, Pending) => RemoveInstancesLoop fuel M1 Pending

/-- Embedding of `FFoliageMeshInfo::RemoveInstances`: the work set is built from the array
argument, then
the loop runs; one pass per element of the work set is allowed. -/
def RemoveInstances (M : FFoliageMeshInfo) (InInstancesToRemove : List Nat) :
    Option FFoliageMeshInfo :=
  if InInstancesToRemove.length = 0 then some M
  else
    match M.Component with
    | none => none
    | some _ =>
      let InstancesToRemove := InInstancesToRemove.foldl TSet.Add []
      RemoveInstancesLoop InstancesToRemove.length M InstancesToRemove

/-- Embedding of `FFoliageMeshInfo::DuplicateInstances`. -/
def DuplicateInstances (M : FFoliageMeshInfo) (InSettings : UFoliageType) :
    List Nat → Option FFoliageMeshInfo
  | [] => some M
  | InstanceIndex :: rest =>
    match M.Instances[InstanceIndex]? with
    | none => none
    | some TempInstance =>
      match M.AddInstance InSettings TempInstance with
      | none => none
      | some M1 => DuplicateInstances M1 InSettings rest

/-- The re-add loop of `ReallocateClusters` over the old instance array. -/
def ReAddInstances (M : FFoliageMeshInfo) (InSettings : UFoliageType) :
    List FFoliageInstance → Option FFoliageMeshInfo
  | [] => some M
  | Instance :: rest =>
    if Instance.Flags &&& FOLIAGE_InstanceDeleted = 0 then
      match M.AddInstance InSettings Instance with
      | none => none
      | some M1 => ReAddInstances M1 InSettings rest
    else ReAddInstances M InSettings rest

/-- Embedding of `FFoliageMeshInfo::ReallocateClusters`. -/
def ReallocateClusters (M : FFoliageMeshInfo) (InSettings : UFoliageType) :
    Option FFoliageMeshInfo :=
  let OldInstances := M.Instances
  let M1 : FFoliageMeshInfo :=
    { Component := none
      FoliageTypeUpdateGuid := InSettings.UpdateGuid
      Instances := []
      InstanceHash := M.InstanceHash.Empty
      ComponentHash := []
      SelectedIndices := [] }
  ReAddInstances M1 InSettings OldInstances

/-- The loop `for (int32 i : InInstances)` of `SelectInstances`, in the selecting and in the
deselecting branch: the index enters or leaves `SelectedIndices` and its bit in the selection
buffer of the component is set to `bSelect`; a bit outside the buffer is `none`. -/
def SelectLoop (bSelect : Bool) (SelectedIndices : List Nat)
    (Component : UHierarchicalInstancedStaticMeshComponent) :
    List Nat → Option (List Nat × UHierarchicalInstancedStaticMeshComponent)
  | [] => some (SelectedIndices, Component)
  | i :: Rest =>
    if i < Component.SelectedInstances.length then
      SelectLoop bSelect
        (if bSelect then TSet.Add SelectedIndices i else TSet.Remove SelectedIndices i)
        { Component with SelectedInstances := Component.SelectedInstances.set i bSelect } Rest
    else none

/-- Embedding of `FFoliageMeshInfo::SelectInstances(InIFA, bSelect, InInstances)`. -/
def SelectInstances (M : FFoliageMeshInfo) (bSelect : Bool) (InInstances : List Nat) :
    Option FFoliageMeshInfo :=
  if InInstances.length ≠ 0 then
    match M.Component with
    | none => none
    | some Component =>
      if bSelect then
        let C1 :=
          if Component.SelectedInstances.length ≠ Component.PerInstanceSMData.length then
            { Component with
              SelectedInstances := List.replicate Component.PerInstanceSMData.length false }
          else Component
        (SelectLoop true M.SelectedIndices C1 InInstances).map
          (fun R => { M with SelectedIndices := R.1, Component := some R.2 })
      else
        if Component.SelectedInstances.length ≠ 0 then
          (SelectLoop false M.SelectedIndices Component InInstances).map
            (fun R => { M with SelectedIndices := R.1, Component := some R.2 })
        else some M
  else some M

/-- The loop of `GetInstancesInsideSphere` over the indices the box query returned. -/
def CollectInsideSphere (M : FFoliageMeshInfo) (Sphere : FSphere) :
    List Nat → List Nat → Option (List Nat)
  | [], OutInstances => some OutInstances
  | Idx :: rest, OutInstances =>
    match M.Instances[Idx]? with
    | none => none
    | some Instance =>
      if (FSphere.mk Instance.Location 0).IsInside Sphere then
        CollectInsideSphere M Sphere rest (OutInstances ++ [Idx])
      else CollectInsideSphere M Sphere rest OutInstances

/-- Embedding of `FFoliageMeshInfo::GetInstancesInsideSphere`; the result is `OutInstances`
after the call. -/
def GetInstancesInsideSphere (M : FFoliageMeshInfo) (Sphere : FSphere)
    (OutInstances : List Nat) : Option (List Nat) :=
  let TempInstances := M.InstanceHash.GetInstancesOverlappingBox
    (FBox.BuildAABB Sphere.Center ⟨Sphere.W, Sphere.W, Sphere.W⟩)
  CollectInsideSphere M Sphere TempInstances OutInstances

/-- The loop of `CheckForOverlappingInstanceExcluding` over the indices the box query
returned; it returns at the first hit. -/
def AnyOverlapExcluding (M : FFoliageMeshInfo) (TestInstanceIdx : Nat) (Sphere : FSphere)
    (ExcludeInstances : List Nat) : List Nat → Option Bool
  | [] => some false
  | Idx :: rest =>
    if Idx ≠ TestInstanceIdx ∧ Idx ∉ ExcludeInstances then
      match M.Instances[Idx]? with
      | none => none
      | some Instance =>
        if (FSphere.mk Instance.Location 0).IsInside Sphere then some true
        else AnyOverlapExcluding M TestInstanceIdx Sphere ExcludeInstances rest
    else AnyOverlapExcluding M TestInstanceIdx Sphere ExcludeInstances rest

/-- Embedding of `FFoliageMeshInfo::CheckForOverlappingInstanceExcluding`. -/
def CheckForOverlappingInstanceExcluding (M : FFoliageMeshInfo) (TestInstanceIdx : Nat)
    (Radius : Int) (ExcludeInstances : List Nat) : Option Bool :=
  match M.Instances[TestInstanceIdx]? with
  | none => none
  | some TestInstance =>
    let Sphere : FSphere := ⟨TestInstance.Location, Radius⟩
    let TempInstances := M.InstanceHash.GetInstancesOverlappingBox
      (FBox.BuildAABB Sphere.Center ⟨Sphere.W, Sphere.W, Sphere.W⟩)
    AnyOverlapExcluding M TestInstanceIdx Sphere ExcludeInstances TempInstances

/-- Embedding of `FFoliageMeshInfo::GetInstanceCount`. -/
def GetInstanceCount (M : FFoliageMeshInfo) : Nat := M.Instances.length

end FFoliageMeshInfo

/-! ## Auxiliary notions used by the theorems -/

/-- Base-index map after `RemoveFromBaseHash` took index `i` out of the set of base `b`. -/
def BaseHashRemoved (m : List (Nat × List Nat)) (b i : Nat) : List (Nat × List Nat) :=
  match TMap.Find m b with
  | none => m
  | some s => if (TSet.Remove s i).length = 0 then TMap.Remove m b else TMap.Add m b (TSet.Remove s i)

/-- Base-index map after the swapped instance of base `b` was renumbered from `last` to `i`. -/
def BaseHashRenumbered (m : List (Nat × List Nat)) (b last i : Nat) : List (Nat × List Nat) :=
  match TMap.Find m b with
  | none => m
  | some s => TMap.Add m b (TSet.Add (TSet.Remove s last) i)

/-- Base-index map after `AddToBaseHash` put index `i` into the set of base `b`. -/
def BaseHashAdded (m : List (Nat × List Nat)) (b i : Nat) : List (Nat × List Nat) :=
  match TMap.Find m b with
  | none => m ++ [(b, TSet.Add [] i)]
  | some s => TMap.Add m b (TSet.Add s i)

/-- Every set stored in a base-index map is duplicate-free. -/
def SetsNodup (m : List (Nat × List Nat)) : Prop :=
  ∀ b s, TMap.Find m b = some s → s.Nodup

/-- The collection one pass of the loop of `RemoveInstances` leaves, written field by field:
`i` is the index picked, `inst` the instance at `i`, `C` the render component and `last` the instance
in the last slot. -/
def PassResult (M : FFoliageMeshInfo) (i : Nat) (inst : FFoliageInstance)
    (C : UHierarchicalInstancedStaticMeshComponent) (last : FFoliageInstance) :
    FFoliageMeshInfo :=
  let n1 := M.Instances.length - 1
  let Sel := TSet.Remove M.SelectedIndices i
  if i ≠ n1 then
    { Component := some (C.RemoveInstance i)
      FoliageTypeUpdateGuid := M.FoliageTypeUpdateGuid
      Instances := TArray.RemoveAtSwap M.Instances i
      InstanceHash :=
        ((M.InstanceHash.RemoveInstance inst.Location i).RemoveInstance
          last.Location n1).InsertInstance last.Location i
      ComponentHash :=
        BaseHashRenumbered (BaseHashRemoved M.ComponentHash inst.BaseId i) last.BaseId n1 i
      SelectedIndices := if n1 ∈ Sel then TSet.Add (TSet.Remove Sel n1) i else Sel }
  else
    { Component := some (C.RemoveInstance i)
      FoliageTypeUpdateGuid := M.FoliageTypeUpdateGuid
      Instances := TArray.RemoveAtSwap M.Instances i
      InstanceHash := M.InstanceHash.RemoveInstance inst.Location i
      ComponentHash := BaseHashRemoved M.ComponentHash inst.BaseId i
      SelectedIndices := Sel }

/-- The collection `AddInstance` leaves, written field by field. -/
def AddResult (M : FFoliageMeshInfo) (I : FFoliageInstance) : FFoliageMeshInfo :=
  { Component :=
      some ((match M.Component with
        | none => (⟨[], []⟩ : UHierarchicalInstancedStaticMeshComponent)
        | some C => C).AddInstanceWorldSpace I.GetInstanceWorldTransform)
    FoliageTypeUpdateGuid := M.FoliageTypeUpdateGuid
    Instances := M.Instances ++ [I]
    InstanceHash := M.InstanceHash.InsertInstance I.Location M.Instances.length
    ComponentHash := BaseHashAdded M.ComponentHash I.BaseId M.Instances.length
    SelectedIndices := M.SelectedIndices }

/-- The exact re-test of `GetInstancesInsideSphere` for index `j`: the instance at `j` exists
and its location is inside the sphere. -/
def InsideSphereAt (M : FFoliageMeshInfo) (Sphere : FSphere) (j : Nat) : Bool :=
  match M.Instances[j]? with
  | none => false
  | some I => (FSphere.mk I.Location 0).IsInside Sphere

/-- Pending set after one pass over an array of length `n` that picked index `i`. -/
def NextPending (n : Nat) (P : List Nat) (i : Nat) : List Nat :=
  if i ≠ n - 1 ∧ n - 1 ∈ P then TSet.Remove P (n - 1) else TSet.Remove P i

/-- The elements of `xs` at the positions not listed in `P`, in array order. -/
def InstancesNotIn {α : Type} (xs : List α) (P : List Nat) : List α :=
  (List.range xs.length).filterMap (fun j => if j ∈ P then none else xs[j]?)

/-- What the loop of `RemoveInstances` relies on: the pending set is duplicate-free, every
pending index is in range, and the render component exists. -/
def PendingOK (M : FFoliageMeshInfo) (P : List Nat) : Prop :=
  P.Nodup ∧ (∀ j ∈ P, j < M.Instances.length) ∧ M.Component.isSome = true

/-! ## Base cache and foliage actor -/

/-- A base component (`UActorComponent`) as the foliage code sees it: its identity and its
current world transform. -/
structure UActorComponent where
  Id : Nat
  Location : FVector
  Rotation : FRotator
  DrawScale : FVector
deriving DecidableEq

/-- Cached snapshot of a base (`FFoliageInstanceBaseInfo`). -/
structure FFoliageInstanceBaseInfo where
  BasePtr : Nat
  CachedLocation : FVector
  CachedRotation : FRotator
  CachedDrawScale : FVector
deriving DecidableEq

/-- Modelled from the spec: the base cache `FFoliageInstanceBaseCache` is declared and
implemented outside the files at hand.  A table from base id to the snapshot of the base,
and the next id to allocate. -/
structure FFoliageInstanceBaseCache where
  NextBaseId : Nat
  InstanceBaseMap : List (Nat × FFoliageInstanceBaseInfo)
deriving DecidableEq

/-- Modelled from the spec: the first id handed out is 1, id 0 being reserved. -/
def FFoliageInstanceBaseCache.new : FFoliageInstanceBaseCache := ⟨1, []⟩

/-- Id under which the object with identity `Id` is registered, `InvalidBaseId` if none. -/
def FindBaseId (m : List (Nat × FFoliageInstanceBaseInfo)) (Id : Nat) : Nat :=
  match m with
  | [] => InvalidBaseId
  | p :: rest => if p.2.BasePtr = Id then p.1 else FindBaseId rest Id

/-- Modelled from the spec: `GetBaseId(object)`, the non-allocating lookup; a null object and
an object that is not registered give `InvalidBaseId`. -/
def FFoliageInstanceBaseCache.GetInstanceBaseId (Cache : FFoliageInstanceBaseCache)
    (InComponent : Option UActorComponent) : Nat :=
  match InComponent with
  | none => InvalidBaseId
  | some Comp => FindBaseId Cache.InstanceBaseMap Comp.Id

/-- Modelled from the spec: `AddOrGetBaseId(object)` returns the existing id if the object
was already registered, else allocates the next id and snapshots its current transform; a
null object has no base. The result is the id and the cache after the call. -/
def FFoliageInstanceBaseCache.AddInstanceBaseId (Cache : FFoliageInstanceBaseCache)
    (InComponent : Option UActorComponent) : Nat × FFoliageInstanceBaseCache :=
  match InComponent with
  | none => (InvalidBaseId, Cache)
  | some Comp =>
    if Cache.GetInstanceBaseId (some Comp) ≠ InvalidBaseId then
      (Cache.GetInstanceBaseId (some Comp), Cache)
    else
      (Cache.NextBaseId,
        { NextBaseId := Cache.NextBaseId + 1
          InstanceBaseMap := Cache.InstanceBaseMap ++
            [(Cache.NextBaseId, ⟨Comp.Id, Comp.Location, Comp.Rotation, Comp.DrawScale⟩)] })

/-- A base cache in which `InvalidBaseId` is neither handed out next nor the key of an entry;
the fresh cache is such a cache and registering a base keeps it so. -/
def FFoliageInstanceBaseCache.Valid (Cache : FFoliageInstanceBaseCache) : Prop :=
  Cache.NextBaseId ≠ InvalidBaseId ∧ ∀ p ∈ Cache.InstanceBaseMap, p.1 ≠ InvalidBaseId

instance (Cache : FFoliageInstanceBaseCache) : Decidable Cache.Valid := by
  unfold FFoliageInstanceBaseCache.Valid; infer_instance

/-- Embedding of `FFoliageMeshInfo::AddInstance(InIFA, InSettings, InNewInstance,
InBaseComponent)`: the
overload that resolves the base id through the base cache of the actor.  The result is the
cache and the collection after the call. -/
def FFoliageMeshInfo.AddInstanceOnBase (M : FFoliageMeshInfo)
    (Cache : FFoliageInstanceBaseCache) (InSettings : UFoliageType)
    (InNewInstance : FFoliageInstance) (InBaseComponent : Option UActorComponent) :
    Option (FFoliageInstanceBaseCache × FFoliageMeshInfo) :=
  let Instance : FFoliageInstance :=
    { InNewInstance with BaseId := (Cache.AddInstanceBaseId InBaseComponent).1 }
  match M.AddInstance InSettings Instance with
  | none => none
  | some M1 => some ((Cache.AddInstanceBaseId InBaseComponent).2, M1)

/-- The foliage actor (`AInstancedFoliageActor`): the base cache and one collection per
foliage type; a key is the identity of a `UFoliageType` object, `none` being `nullptr`. -/
structure AInstancedFoliageActor where
  InstanceBaseCache : FFoliageInstanceBaseCache
  FoliageMeshes : List (Option Nat × FFoliageMeshInfo)
deriving DecidableEq

namespace AInstancedFoliageActor

/-- Embedding of `AInstancedFoliageActor::FindMesh`. -/
def FindMesh (A : AInstancedFoliageActor) (InType : Option Nat) : Option FFoliageMeshInfo :=
  TMap.Find A.FoliageMeshes InType

/-- The body of the loop of `DeleteInstancesForComponent` for one collection. -/
def DeleteInstancesOfBase (BaseId : Nat) (MeshInfo : FFoliageMeshInfo) :
    Option FFoliageMeshInfo :=
  match TMap.Find MeshInfo.ComponentHash BaseId with
  | none => some MeshInfo
  | some InstanceSet => MeshInfo.RemoveInstances InstanceSet

/-- The loop `for (auto& MeshPair : FoliageMeshes)` of `DeleteInstancesForComponent`. -/
def DeleteInstancesLoop (BaseId : Nat) :
    List (Option Nat × FFoliageMeshInfo) → Option (List (Option Nat × FFoliageMeshInfo))
  | [] => some []
  | MeshPair :: rest =>
    match DeleteInstancesOfBase BaseId MeshPair.2 with
    | none => none
    | some MeshInfo =>
      match DeleteInstancesLoop BaseId rest with
      | none => none
      | some rest1 => some ((MeshPair.1, MeshInfo) :: rest1)

/-- Embedding of `AInstancedFoliageActor::DeleteInstancesForComponent(InComponent)`. -/
def DeleteInstancesForComponent (A : AInstancedFoliageActor)
    (InComponent : Option UActorComponent) : Option AInstancedFoliageActor :=
  let BaseId := A.InstanceBaseCache.GetInstanceBaseId InComponent
  if BaseId = InvalidBaseId then some A
  else
    match DeleteInstancesLoop BaseId A.FoliageMeshes with
    | none => none
    | some Meshes => some { A with FoliageMeshes := Meshes }

/-- Embedding of `AInstancedFoliageActor::DeleteInstancesForComponent(InComponent, FoliageType)`. -/
def DeleteInstancesForComponentOfType (A : AInstancedFoliageActor)
    (InComponent : Option UActorComponent) (FoliageType : Option Nat) :
    Option AInstancedFoliageActor :=
  let BaseId := A.InstanceBaseCache.GetInstanceBaseId InComponent
  if BaseId = InvalidBaseId then some A
  else
    match A.FindMesh FoliageType with
    | none => some A
    | some MeshInfo =>
      match DeleteInstancesOfBase BaseId MeshInfo with
      | none => none
      | some MeshInfo1 =>
        some { A with FoliageMeshes := TMap.Add A.FoliageMeshes FoliageType MeshInfo1 }

/-- Modelled from the spec: `GetInstanceBaseInfo(BaseId)` of the base cache, the snapshot
stored under the id. -/
def GetInstanceBaseInfo (Cache : FFoliageInstanceBaseCache) (BaseId : Nat) :
    Option FFoliageInstanceBaseInfo :=
  TMap.Find Cache.InstanceBaseMap BaseId

/-- Modelled from the spec: `UpdateCachedTransform(object)` of the base cache replaces the
snapshot of the object by its current transform; the result is the new snapshot and the
cache after the call. -/
def UpdateInstanceBaseInfoTransform (Cache : FFoliageInstanceBaseCache)
    (Comp : UActorComponent) : FFoliageInstanceBaseInfo × FFoliageInstanceBaseCache :=
  let NewInfo : FFoliageInstanceBaseInfo :=
    ⟨Comp.Id, Comp.Location, Comp.Rotation, Comp.DrawScale⟩
  (NewInfo, { Cache with InstanceBaseMap :=
    Cache.InstanceBaseMap.map (fun p => if p.2.BasePtr = Comp.Id then (p.1, NewInfo) else p) })

/-- The body of the inner loop of `MoveInstancesForMovedComponent` for one index.  `Delta`
stands for the matrix arithmetic of the engine (`FRotationMatrix(Rotation) *
FTranslationMatrix(Location) * DeltaTransfrom`, then `GetOrigin` and `Rotator`), which is
outside the files at hand: it maps the rotation and location of an instance to its new
location and rotation. -/
def MoveInstanceWithBase (Delta : FRotator → FVector → FVector × FRotator)
    (MeshInfo : FFoliageMeshInfo) (InstanceIndex : Nat) : Option FFoliageMeshInfo :=
  match MeshInfo.Instances[InstanceIndex]? with
  | none => none
  | some Instance =>
    let Hash1 := MeshInfo.InstanceHash.RemoveInstance Instance.Location InstanceIndex
    let Moved : FFoliageInstance :=
      { Instance with
        Location := (Delta Instance.Rotation Instance.Location).1
        Rotation := (Delta Instance.Rotation Instance.Location).2 }
    match MeshInfo.Component with
    | none => none
    | some C =>
      some { MeshInfo with
        Instances := MeshInfo.Instances.set InstanceIndex Moved
        Component := some (C.UpdateInstanceTransform InstanceIndex Moved.GetInstanceWorldTransform)
        InstanceHash := Hash1.InsertInstance Moved.Location InstanceIndex }

/-- The inner loop `for (int32 InstanceIndex : *InstanceSet)` of
`MoveInstancesForMovedComponent`. -/
def MoveInstancesWithBase (Delta : FRotator → FVector → FVector × FRotator)
    (MeshInfo : FFoliageMeshInfo) : List Nat → Option FFoliageMeshInfo
  | [] => some MeshInfo
  | InstanceIndex :: rest =>
    match MoveInstanceWithBase Delta MeshInfo InstanceIndex with
    | none => none
    | some MeshInfo1 => MoveInstancesWithBase Delta MeshInfo1 rest

/-- The loop `for (auto& MeshPair : FoliageMeshes)` of `MoveInstancesForMovedComponent`. -/
def MoveInstancesLoop (Delta : FRotator → FVector → FVector × FRotator) (BaseId : Nat) :
    List (Option Nat × FFoliageMeshInfo) → Option (List (Option Nat × FFoliageMeshInfo))
  | [] => some []
  | MeshPair :: rest =>
    let Moved : Option FFoliageMeshInfo :=
      match TMap.Find MeshPair.2.ComponentHash BaseId with
      | none => some MeshPair.2
      | some InstanceSet =>
        if InstanceSet.length ≠ 0 then MoveInstancesWithBase Delta MeshPair.2 InstanceSet
        else some MeshPair.2
    match Moved with
    | none => none
    | some MeshInfo =>
      match MoveInstancesLoop Delta BaseId rest with
      | none => none
      | some rest1 => some ((MeshPair.1, MeshInfo) :: rest1)

/-- Embedding of `AInstancedFoliageActor::MoveInstancesForMovedComponent`.  `DeltaOf Old New`
stands for
the matrix arithmetic of the engine that turns the old and the new snapshot of the base into
the map applied to every instance anchored to it. -/
def MoveInstancesForMovedComponent
    (DeltaOf : FFoliageInstanceBaseInfo → FFoliageInstanceBaseInfo →
      FRotator → FVector → FVector × FRotator)
    (A : AInstancedFoliageActor) (InComponent : Option UActorComponent) :
    Option AInstancedFoliageActor :=
  let BaseId := A.InstanceBaseCache.GetInstanceBaseId InComponent
  if BaseId = InvalidBaseId then some A
  else
    match InComponent, GetInstanceBaseInfo A.InstanceBaseCache BaseId with
    | some Comp, some OldBaseInfo =>
      let Updated := UpdateInstanceBaseInfoTransform A.InstanceBaseCache Comp
      match MoveInstancesLoop (DeltaOf OldBaseInfo Updated.1) BaseId A.FoliageMeshes with
      | none => none
      | some Meshes => some { InstanceBaseCache := Updated.2, FoliageMeshes := Meshes }
    | _, _ => none

/-- Embedding of `AInstancedFoliageActor::FindOrAddMesh` on the map of collections: the
collection of
the type, and the map, in which `AddMesh` has put a fresh collection carrying the
`UpdateGuid` of the type when there was none.  `TypeObject` gives the object a foliage type
pointer designates.  (The display order `AddMesh` assigns to the type is not modelled.) -/
def FindOrAddMesh (TypeObject : Nat → UFoliageType)
    (Meshes : List (Option Nat × FFoliageMeshInfo)) (InType : Nat) :
    FFoliageMeshInfo × List (Option Nat × FFoliageMeshInfo) :=
  match TMap.Find Meshes (some InType) with
  | some MeshInfo => (MeshInfo, Meshes)
  | none =>
    let MeshInfo : FFoliageMeshInfo :=
      { FFoliageMeshInfo.new with FoliageTypeUpdateGuid := (TypeObject InType).UpdateGuid }
    (MeshInfo, TMap.Add Meshes (some InType) MeshInfo)

/-- The loop `MeshInfo.Instances[InstanceIndex].BaseId = NewBaseId` over the instance set,
in `MoveInstancesToNewComponent`. -/
def SetBaseIds (NewBaseId : Nat) (Instances : List FFoliageInstance) :
    List Nat → Option (List FFoliageInstance)
  | [] => some Instances
  | InstanceIndex :: rest =>
    match Instances[InstanceIndex]? with
    | none => none
    | some Instance =>
      SetBaseIds NewBaseId (Instances.set InstanceIndex { Instance with BaseId := NewBaseId }) rest

/-- The loop that re-adds the instances of the set to the collection of the other actor, in
`MoveInstancesToNewComponent`. -/
def AddMovedInstances (FoliageType : UFoliageType) (NewBaseId : Nat)
    (Instances : List FFoliageInstance) (NewMeshInfo : FFoliageMeshInfo) :
    List Nat → Option FFoliageMeshInfo
  | [] => some NewMeshInfo
  | InstanceIndex :: rest =>
    match Instances[InstanceIndex]? with
    | none => none
    | some Instance =>
      match NewMeshInfo.AddInstance FoliageType { Instance with BaseId := NewBaseId } with
      | none => none
      | some NewMeshInfo1 =>
        AddMovedInstances FoliageType NewBaseId Instances NewMeshInfo1 rest

/-- The loop `for (auto& MeshPair : FoliageMeshes)` of `MoveInstancesToNewComponent` when the
new foliage actor is this actor: the instances of the old base are remapped in place. -/
def RemapLoop (OldBaseId NewBaseId : Nat) :
    List (Option Nat × FFoliageMeshInfo) → Option (List (Option Nat × FFoliageMeshInfo))
  | [] => some []
  | MeshPair :: rest =>
    match MeshPair.1 with
    | none => none
    | some _ =>
      let Removed := TMap.Remove MeshPair.2.ComponentHash OldBaseId
      let Remapped : Option FFoliageMeshInfo :=
        match TMap.Find MeshPair.2.ComponentHash OldBaseId with
        | none => some { MeshPair.2 with ComponentHash := Removed }
        | some InstanceSet =>
          if InstanceSet.length ≠ 0 then
            match SetBaseIds NewBaseId MeshPair.2.Instances InstanceSet with
            | none => none
            | some Instances =>
              some { MeshPair.2 with
                Instances := Instances
                ComponentHash := TMap.Add Removed NewBaseId InstanceSet }
          else some { MeshPair.2 with ComponentHash := Removed }
      match Remapped with
      | none => none
      | some MeshInfo =>
        match RemapLoop OldBaseId NewBaseId rest with
        | none => none
        | some rest1 => some ((MeshPair.1, MeshInfo) :: rest1)

/-- The body of the loop of `MoveInstancesToNewComponent` for one collection when the new
foliage actor is another actor; `NewMeshes` and the second component of the result are the
collections of that actor.  `IsLocal` says whether a foliage type lives in the package of
this actor (`FoliageType->GetOutermost() == GetOutermost()`), `DuplicateOf` gives the object
`StaticDuplicateObject` creates for it. -/
def MoveMesh (IsLocal : Nat → Bool) (DuplicateOf : Nat → Nat) (TypeObject : Nat → UFoliageType)
    (OldBaseId NewBaseId : Nat) (Key : Nat) (MeshInfo : FFoliageMeshInfo)
    (NewMeshes : List (Option Nat × FFoliageMeshInfo)) :
    Option (FFoliageMeshInfo × List (Option Nat × FFoliageMeshInfo)) :=
  let FoliageType := if IsLocal Key then DuplicateOf Key else Key
  let Removed : FFoliageMeshInfo :=
    { MeshInfo with ComponentHash := TMap.Remove MeshInfo.ComponentHash OldBaseId }
  match TMap.Find MeshInfo.ComponentHash OldBaseId with
  | none => some (Removed, NewMeshes)
  | some InstanceSet =>
    if InstanceSet.length ≠ 0 then
      let Found := FindOrAddMesh TypeObject NewMeshes FoliageType
      match AddMovedInstances (TypeObject FoliageType) NewBaseId Removed.Instances
          Found.1 InstanceSet with
      | none => none
      | some NewMeshInfo =>
        match Removed.RemoveInstances InstanceSet with
        | none => none
        | some MeshInfo1 =>
          some (MeshInfo1, TMap.Add Found.2 (some FoliageType) NewMeshInfo)
    else some (Removed, NewMeshes)

/-- The loop `for (auto& MeshPair : FoliageMeshes)` of `MoveInstancesToNewComponent` when the
new foliage actor is another actor. -/
def MoveLoop (IsLocal : Nat → Bool) (DuplicateOf : Nat → Nat) (TypeObject : Nat → UFoliageType)
    (OldBaseId NewBaseId : Nat) :
    List (Option Nat × FFoliageMeshInfo) → List (Option Nat × FFoliageMeshInfo) →
    Option (List (Option Nat × FFoliageMeshInfo) × List (Option Nat × FFoliageMeshInfo))
  | [], NewMeshes => some ([], NewMeshes)
  | MeshPair :: rest, NewMeshes =>
    match MeshPair.1 with
    | none => none
    | some Key =>
      match MoveMesh IsLocal DuplicateOf TypeObject OldBaseId NewBaseId Key MeshPair.2
          NewMeshes with
      | none => none
      | some (MeshInfo, NewMeshes1) =>
        match MoveLoop IsLocal DuplicateOf TypeObject OldBaseId NewBaseId rest NewMeshes1 with
        | none => none
        | some (rest1, NewMeshes2) => some ((MeshPair.1, MeshInfo) :: rest1, NewMeshes2)

/-- Embedding of `AInstancedFoliageActor::MoveInstancesToNewComponent`.  `NewIFA` is the foliage
actor of
the level of the new component: `none` when it is this actor, otherwise the other actor.  The
result is this actor and the other actor after the call. -/
def MoveInstancesToNewComponent (IsLocal : Nat → Bool) (DuplicateOf : Nat → Nat)
    (TypeObject : Nat → UFoliageType) (A : AInstancedFoliageActor)
    (NewIFA : Option AInstancedFoliageActor)
    (InOldComponent : Option UActorComponent) (InNewComponent : UActorComponent) :
    Option (AInstancedFoliageActor × Option AInstancedFoliageActor) :=
  let OldBaseId := A.InstanceBaseCache.GetInstanceBaseId InOldComponent
  match NewIFA with
  | none =>
    let New := A.InstanceBaseCache.AddInstanceBaseId (some InNewComponent)
    match RemapLoop OldBaseId New.1 A.FoliageMeshes with
    | none => none
    | some Meshes => some ({ InstanceBaseCache := New.2, FoliageMeshes := Meshes }, none)
  | some Other =>
    let New := Other.InstanceBaseCache.AddInstanceBaseId (some InNewComponent)
    match MoveLoop IsLocal DuplicateOf TypeObject OldBaseId New.1 A.FoliageMeshes
        Other.FoliageMeshes with
    | none => none
    | some (Meshes, NewMeshes) =>
      some ({ A with FoliageMeshes := Meshes },
        some { InstanceBaseCache := New.2, FoliageMeshes := NewMeshes })

end AInstancedFoliageActor

/-- Total number of indices over all base-index sets (`ComponentHashTotal` of `CheckValid`). -/
def ComponentHashTotal (M : FFoliageMeshInfo) : Nat :=
  (M.ComponentHash.map (fun p => p.2.length)).sum

/-- Number of `(cell, index)` entries the spatial hash holds. -/
def InstanceHashTotal (M : FFoliageMeshInfo) : Nat := M.InstanceHash.CellMap.length

/-- Instance count of the render component (`PerInstanceSMData.Num()`), zero without one. -/
def ComponentInstanceCount (M : FFoliageMeshInfo) : Nat :=
  match M.Component with
  | none => 0
  | some C => C.PerInstanceSMData.length

/-- Index `j` is stored in the base-index set of base `b`. -/
def InBase (m : List (Nat × List Nat)) (b j : Nat) : Prop :=
  ∃ s, TMap.Find m b = some s ∧ j ∈ s

/-- The keys of a map, in slot order. -/
def TMap.Keys {κ ν : Type} (m : List (κ × ν)) : List κ := m.map Prod.fst

/-- The pairs `(base, index)` a base-index map stores. -/
def BaseHashEntries (m : List (Nat × List Nat)) : List (Nat × Nat) :=
  m.flatMap (fun p => p.2.map (fun j => (p.1, j)))

/-- The spatial hash holds exactly one entry `(cell of Instances[i].Location, i)` per index. -/
def HashConsistent (M : FFoliageMeshInfo) : Prop :=
  M.InstanceHash.CellMap.Perm
    (M.Instances.enum.map (fun p => (HashCell p.2.Location, p.1)))

/-- The base-index map holds index `i` under `Instances[i].BaseId` for every index, and
nothing else; no key occurs twice. -/
def BaseHashConsistent (M : FFoliageMeshInfo) : Prop :=
  (TMap.Keys M.ComponentHash).Nodup ∧
  (BaseHashEntries M.ComponentHash).Perm (M.Instances.enum.map (fun p => (p.2.BaseId, p.1)))

/-- The render component exists when there are instances and holds their transforms in
array order. -/
def ComponentConsistent (M : FFoliageMeshInfo) : Prop :=
  match M.Component with
  | none => M.Instances = []
  | some C => C.PerInstanceSMData = M.Instances.map FFoliageInstance.GetInstanceWorldTransform

/-- A collection whose indexes and render component agree with its instance array. -/
def WellFormed (M : FFoliageMeshInfo) : Prop :=
  HashConsistent M ∧ BaseHashConsistent M ∧ ComponentConsistent M

instance (M : FFoliageMeshInfo) : Decidable (HashConsistent M) := by
  unfold HashConsistent; infer_instance

instance (M : FFoliageMeshInfo) : Decidable (BaseHashConsistent M) := by
  unfold BaseHashConsistent; infer_instance

instance (M : FFoliageMeshInfo) : Decidable (ComponentConsistent M) := by
  unfold ComponentConsistent; cases M.Component <;> infer_instance

instance (M : FFoliageMeshInfo) : Decidable (WellFormed M) := by
  unfold WellFormed; infer_instance

/-- Membership form of base-index consistency, restricted to the bases satisfying `keep`;
bases outside `keep` have no set at all. -/
def BaseRel (keep : Nat → Prop) (xs : List FFoliageInstance) (m : List (Nat × List Nat)) :
    Prop :=
  (TMap.Keys m).Nodup ∧
  (∀ b s, TMap.Find m b = some s → s.Nodup) ∧
  (∀ b, ¬ keep b → TMap.Find m b = none) ∧
  ∀ b j, keep b → (InBase m b j ↔ ∃ I, xs[j]? = some I ∧ b = I.BaseId)

/-- Membership form of spatial-hash consistency. -/
def HashRel (xs : List FFoliageInstance) (H : List ((Int × Int × Int) × Nat)) : Prop :=
  H.Nodup ∧ ∀ c j, (c, j) ∈ H ↔ ∃ I, xs[j]? = some I ∧ c = HashCell I.Location

/-- The public mutating operations of a collection. -/
inductive MeshOp where
  | Add (Settings : UFoliageType) (Instance : FFoliageInstance)
  | Remove (Indices : List Nat)
  | Duplicate (Settings : UFoliageType) (Indices : List Nat)
  | Reallocate (Settings : UFoliageType)

/-- Run one operation. -/
def MeshOp.Apply (M : FFoliageMeshInfo) : MeshOp → Option FFoliageMeshInfo
  | .Add S I => M.AddInstance S I
  | .Remove L => M.RemoveInstances L
  | .Duplicate S L => M.DuplicateInstances S L
  | .Reallocate S => M.ReallocateClusters S

/-- The indices an operation is given are indices of the instance array. -/
def MeshOp.InRange (M : FFoliageMeshInfo) : MeshOp → Prop
  | .Add _ _ => True
  | .Remove L => ∀ i ∈ L, i < M.Instances.length
  | .Duplicate _ L => ∀ i ∈ L, i < M.Instances.length
  | .Reallocate _ => True

/-- Successive calls of `AddInstance`, one per instance of the list. -/
def AddInstances (M : FFoliageMeshInfo) (S : UFoliageType) :
    List FFoliageInstance → Option FFoliageMeshInfo
  | [] => some M
  | I :: rest =>
    match M.AddInstance S I with
    | none => none
    | some M1 => AddInstances M1 S rest

/-- The collections reachable from the empty collection by public mutating operations whose
index arguments are in range. -/
inductive Reachable : FFoliageMeshInfo → Prop where
  | empty : Reachable FFoliageMeshInfo.new
  | step (M : FFoliageMeshInfo) (op : MeshOp) (M1 : FFoliageMeshInfo) :
      Reachable M → op.InRange M → op.Apply M = some M1 → Reachable M1

/-- All instances of all collections of a map, collection by collection. -/
def AllInstances (Meshes : List (Option Nat × FFoliageMeshInfo)) : List FFoliageInstance :=
  Meshes.flatMap (fun p => p.2.Instances)

/-- An instance re-anchored to base `b`. -/
def Rebased (b : Nat) (I : FFoliageInstance) : FFoliageInstance := { I with BaseId := b }

/-! ## Matrix arithmetic of a base move -/

/-- Modelled from the spec: the engine matrix `FMatrix` is declared in the engine core, outside
the files at hand; a four by four matrix acting on row vectors, with exact integer entries
like the coordinates. -/
abbrev FMatrix : Type := Matrix (Fin 4) (Fin 4) Int

/-- Negation of a vector (`FVector::operator-`). -/
def FVector.neg (a : FVector) : FVector := ⟨-a.X, -a.Y, -a.Z⟩

/-- Component-wise quotient of two vectors (`FVector::operator/`). -/
def FVector.div (a b : FVector) : FVector := ⟨a.X / b.X, a.Y / b.Y, a.Z / b.Z⟩

/-- Modelled from the spec: `FTranslationMatrix(Delta)` is declared in the engine core, outside
the files at hand; the identity with the translation in the last row. -/
def FTranslationMatrix (Delta : FVector) : FMatrix :=
  Matrix.of ![![1, 0, 0, 0], ![0, 1, 0, 0], ![0, 0, 1, 0], ![Delta.X, Delta.Y, Delta.Z, 1]]

/-- Modelled from the spec: `FScaleMatrix(Scale)` is declared in the engine core, outside the
files at hand; the diagonal matrix of the three scale factors. -/
def FScaleMatrix (Scale : FVector) : FMatrix :=
  Matrix.of ![![Scale.X, 0, 0, 0], ![0, Scale.Y, 0, 0], ![0, 0, Scale.Z, 0], ![0, 0, 0, 1]]

/-- Modelled from the spec: `FMatrix::GetOrigin` is declared in the engine core, outside the
files at hand; the translation part, which is the last row. -/
def FMatrix.GetOrigin (M : FMatrix) : FVector := ⟨M 3 0, M 3 1, M 3 2⟩

/-- Modelled from the spec: the rotation arithmetic of the engine, declared outside the files
at hand: the matrix of a rotator (`FRotationMatrix`), the matrix of the inverse rotation
(`FInverseRotationMatrix`) and the rotator of a matrix (`FMatrix::Rotator`). -/
structure FRotationEngine where
  FRotationMatrix : FRotator → FMatrix
  FInverseRotationMatrix : FRotator → FMatrix
  Rotator : FMatrix → FRotator

/-- The matrix `DeltaTransfrom` of `MoveInstancesForMovedComponent`. -/
def DeltaTransfrom (E : FRotationEngine) (OldBaseInfo NewBaseInfo : FFoliageInstanceBaseInfo) :
    FMatrix :=
  FTranslationMatrix OldBaseInfo.CachedLocation.neg *
    E.FInverseRotationMatrix OldBaseInfo.CachedRotation *
    FScaleMatrix (NewBaseInfo.CachedDrawScale.div OldBaseInfo.CachedDrawScale) *
    E.FRotationMatrix NewBaseInfo.CachedRotation *
    FTranslationMatrix NewBaseInfo.CachedLocation

/-- The matrix arithmetic of `MoveInstancesForMovedComponent` on one instance: the new
transform `FRotationMatrix(Rotation) * FTranslationMatrix(Location) * DeltaTransfrom`, of which
the origin becomes the location and the rotator the rotation. -/
def BaseDelta (E : FRotationEngine) (OldBaseInfo NewBaseInfo : FFoliageInstanceBaseInfo)
    (Rotation : FRotator) (Location : FVector) : FVector × FRotator :=
  let NewTransform : FMatrix :=
    E.FRotationMatrix Rotation * FTranslationMatrix Location *
      DeltaTransfrom E OldBaseInfo NewBaseInfo
  (NewTransform.GetOrigin, E.Rotator NewTransform)

/-- The instance the inner loop of `MoveInstancesForMovedComponent` writes back: location and
rotation as the matrix arithmetic `Delta` gives them, the other fields as they were. -/
def MovedBy (Delta : FRotator → FVector → FVector × FRotator) (I : FFoliageInstance) :
    FFoliageInstance :=
  { I with
    Location := (Delta I.Rotation I.Location).1
    Rotation := (Delta I.Rotation I.Location).2 }

/-- The instance a base move by `T` makes of an instance anchored to base `BaseId`: the
location shifted by `T`, the rotation read back from the moved transform; an instance anchored
elsewhere is as it was. -/
def ShiftedWithBase (E : FRotationEngine) (BaseId : Nat) (T : FVector) (I : FFoliageInstance) :
    FFoliageInstance :=
  if I.BaseId = BaseId then
    { I with
      Location := I.Location.add T
      Rotation := E.Rotator (E.FRotationMatrix I.Rotation * FTranslationMatrix (I.Location.add T)) }
  else I

/-! ## Loading -/

/-- The serialisation version `FFoliageCustomVersion::FoliageUsingHierarchicalISMC`. -/
def FFoliageCustomVersion.FoliageUsingHierarchicalISMC : Nat := 1

/-- The serialisation version `FFoliageCustomVersion::ProceduralGuid`. -/
def FFoliageCustomVersion.ProceduralGuid : Nat := 4

/-- The serialisation version `FFoliageCustomVersion::CrossLevelBase`. -/
def FFoliageCustomVersion.CrossLevelBase : Nat := 5

/-- The serialisation version `FFoliageCustomVersion::LatestVersion`. -/
def FFoliageCustomVersion.LatestVersion : Nat := 7

/-- The constant `INDEX_NONE`. -/
def INDEX_NONE : Int := -1

/-- Modelled from the spec: `FGuid::IsValid` is declared in the engine core, outside the files at
hand; with a GUID held as a number, the valid GUIDs are those other than the zero GUID. -/
def FGuid.IsValid (G : Nat) : Bool := decide (G ≠ 0)

/-- An instance of the legacy layout (`FFoliageInstance_Deprecated`): the placement fields and
a pointer to the base component in place of a base id. -/
structure FFoliageInstance_Deprecated where
  Base : Option UActorComponent
  Location : FVector
  Rotation : FRotator
  DrawScale3D : FVector
  PreAlignRotation : FRotator
  ProceduralGuid : Nat
  Flags : Nat
  ZOffset : Int
deriving DecidableEq

/-- The values an archive of the legacy layout stores for one instance, in the order the
legacy reader takes them; `OldClusterIndex` is stored only before version
`FoliageUsingHierarchicalISMC` and `ProceduralGuid` only from version `ProceduralGuid` on. -/
structure FLegacyInstanceData where
  Base : Option UActorComponent
  Location : FVector
  Rotation : FRotator
  DrawScale3D : FVector
  OldClusterIndex : Int
  PreAlignRotation : FRotator
  Flags : Nat
  ZOffset : Int
  ProceduralGuid : Nat
deriving DecidableEq

/-- Embedding of the legacy reader `operator<<(FArchive&, FFoliageInstance_Deprecated&)`, loading:
`CustomVer` is the custom version of the archive, `Ar` the values it stores, and `Instance` the
instance read into. -/
def FFoliageInstance_Deprecated.Load (CustomVer : Nat) (ArIsFilterEditorOnly : Bool)
    (Ar : FLegacyInstanceData) (Instance : FFoliageInstance_Deprecated) :
    FFoliageInstance_Deprecated :=
  let I1 := { Instance with
    Base := Ar.Base
    Location := Ar.Location
    Rotation := Ar.Rotation
    DrawScale3D := Ar.DrawScale3D }
  let I2 :=
    if CustomVer < FFoliageCustomVersion.FoliageUsingHierarchicalISMC then
      let OldClusterIndex := Ar.OldClusterIndex
      let J := { I1 with
        PreAlignRotation := Ar.PreAlignRotation
        Flags := Ar.Flags }
      if OldClusterIndex = INDEX_NONE then
        { J with Flags := J.Flags ||| FOLIAGE_InstanceDeleted }
      else J
    else
      { I1 with
        PreAlignRotation := Ar.PreAlignRotation
        Flags := Ar.Flags }
  let I3 := { I2 with ZOffset := Ar.ZOffset }
  if !ArIsFilterEditorOnly ∧ FFoliageCustomVersion.ProceduralGuid ≤ CustomVer then
    { I3 with ProceduralGuid := Ar.ProceduralGuid }
  else I3

/-- A collection of the legacy layout (`FFoliageMeshInfo_Deprecated`). -/
structure FFoliageMeshInfo_Deprecated where
  Component : Option UHierarchicalInstancedStaticMeshComponent
  FoliageTypeUpdateGuid : Nat
  Instances : List FFoliageInstance_Deprecated
deriving DecidableEq

/-- The loop over the legacy instances in `ConvertDeprecatedFoliageMeshes`: each instance keeps
its placement fields and its procedural GUID and gets the base id the cache gives its base. -/
def ConvertDeprecatedInstances (Cache : FFoliageInstanceBaseCache)
    (Instances : List FFoliageInstance) :
    List FFoliageInstance_Deprecated → FFoliageInstanceBaseCache × List FFoliageInstance
  | [] => (Cache, Instances)
  | DeprecatedInstance :: Rest =>
    let Instance : FFoliageInstance :=
      { Location := DeprecatedInstance.Location
        Rotation := DeprecatedInstance.Rotation
        DrawScale3D := DeprecatedInstance.DrawScale3D
        PreAlignRotation := DeprecatedInstance.PreAlignRotation
        ProceduralGuid := DeprecatedInstance.ProceduralGuid
        Flags := DeprecatedInstance.Flags
        ZOffset := DeprecatedInstance.ZOffset
        BaseId := (Cache.AddInstanceBaseId DeprecatedInstance.Base).1 }
    ConvertDeprecatedInstances (Cache.AddInstanceBaseId DeprecatedInstance.Base).2
      (Instances ++ [Instance]) Rest

/-- Embedding of `ConvertDeprecatedFoliageMeshes`: every legacy collection becomes a fresh
collection under the same key, with the component and the cached GUID of the legacy one and the
converted instances; the indexes stay empty.  (The level map of the base cache is not
modelled.) -/
def ConvertDeprecatedFoliageMeshes (IFA : AInstancedFoliageActor) :
    List (Option Nat × FFoliageMeshInfo_Deprecated) → AInstancedFoliageActor
  | [] => IFA
  | Pair :: Rest =>
    let Converted := ConvertDeprecatedInstances IFA.InstanceBaseCache [] Pair.2.Instances
    let FoliageMesh : FFoliageMeshInfo :=
      { FFoliageMeshInfo.new with
        Component := Pair.2.Component
        FoliageTypeUpdateGuid := Pair.2.FoliageTypeUpdateGuid
        Instances := Converted.2 }
    ConvertDeprecatedFoliageMeshes
      { InstanceBaseCache := Converted.1
        FoliageMeshes := TMap.Add IFA.FoliageMeshes Pair.1 FoliageMesh } Rest

/-- The loop of `PostLoad` that fills the two indexes again, over the indices still to visit. -/
def RebuildHashLoop (MeshInfo : FFoliageMeshInfo) : List Nat → Option FFoliageMeshInfo
  | [] => some MeshInfo
  | InstanceIdx :: Rest =>
    match MeshInfo.AddToBaseHash InstanceIdx with
    | none => none
    | some M1 =>
      match M1.Instances[InstanceIdx]? with
      | none => none
      | some Instance =>
        RebuildHashLoop
          { M1 with InstanceHash := M1.InstanceHash.InsertInstance Instance.Location InstanceIdx }
          Rest

/-- The block `// Update the hash.` of `PostLoad`: both indexes are emptied and filled again
from the instance array. -/
def RebuildHash (MeshInfo : FFoliageMeshInfo) : Option FFoliageMeshInfo :=
  RebuildHashLoop
    { MeshInfo with ComponentHash := [], InstanceHash := MeshInfo.InstanceHash.Empty }
    (List.range MeshInfo.Instances.length)

/-- The reconciliation of the cached GUID in `PostLoad`: on a mismatch the collection is
reallocated when the cached GUID is valid, and the GUID of the foliage type is copied. -/
def ReconcileUpdateGuid (MeshInfo : FFoliageMeshInfo) (FoliageType : UFoliageType) :
    Option FFoliageMeshInfo :=
  if MeshInfo.FoliageTypeUpdateGuid ≠ FoliageType.UpdateGuid then
    let Reallocated :=
      if FGuid.IsValid MeshInfo.FoliageTypeUpdateGuid then
        MeshInfo.ReallocateClusters FoliageType
      else some MeshInfo
    Reallocated.map (fun M => { M with FoliageTypeUpdateGuid := FoliageType.UpdateGuid })
  else some MeshInfo

/-- The body of the loop `for (auto& MeshPair : FoliageMeshes)` of `PostLoad` for one
collection; `LinkerVersion` is `GetLinkerCustomVersion(FFoliageCustomVersion::GUID)`.  (Clearing
the transactional flag of the component changes nothing that is modelled.) -/
def PostLoadMesh (LinkerVersion : Nat) (FoliageType : UFoliageType)
    (MeshInfo : FFoliageMeshInfo) : Option FFoliageMeshInfo :=
  let Repaired :=
    if MeshInfo.Instances.length ≠ 0 ∧ MeshInfo.Component = none then
      MeshInfo.ReallocateClusters FoliageType
    else some MeshInfo
  match Repaired.bind (fun M => ReconcileUpdateGuid M FoliageType) with
  | none => none
  | some M2 =>
    match RebuildHash M2 with
    | none => none
    | some M3 =>
      if LinkerVersion < FFoliageCustomVersion.FoliageUsingHierarchicalISMC then
        M3.ReallocateClusters FoliageType
      else some M3

/-- The loop `for (auto& MeshPair : FoliageMeshes)` of `PostLoad`; dereferencing a null foliage
type is `none`. -/
def PostLoadLoop (TypeObject : Nat → UFoliageType) (LinkerVersion : Nat) :
    List (Option Nat × FFoliageMeshInfo) → Option (List (Option Nat × FFoliageMeshInfo))
  | [] => some []
  | MeshPair :: Rest =>
    match MeshPair.1 with
    | none => none
    | some FoliageType =>
      match PostLoadMesh LinkerVersion (TypeObject FoliageType) MeshPair.2 with
      | none => none
      | some M1 =>
        (PostLoadLoop TypeObject LinkerVersion Rest).map (fun Done => (MeshPair.1, M1) :: Done)

/-- The block of `PostLoad` that removes the null key: `FoliageMeshes.Remove(nullptr)`, repeated
as long as a call removed something. -/
def RemoveNullMeshes (FoliageMeshes : List (Option Nat × FFoliageMeshInfo)) :
    List (Option Nat × FFoliageMeshInfo) :=
  let bContainsNull := decide (0 < (FoliageMeshes.filter (fun p => decide (p.1 = none))).length)
  let M1 := TMap.Remove FoliageMeshes none
  if bContainsNull then TMap.Remove M1 none else M1

/-- Modelled from the spec: `FFoliageInstanceBaseCache::CompactInstanceBaseCache` is implemented
outside the files at hand.  The spec has it drop the cache entries of the bases that no
instance refers to any more and that can no longer be resolved; `IsResolvable` tells whether
the object with the given identity still resolves. -/
def FFoliageInstanceBaseCache.CompactInstanceBaseCache (IsResolvable : Nat → Bool)
    (IFA : AInstancedFoliageActor) : AInstancedFoliageActor :=
  let InUse (BaseId : Nat) : Bool :=
    IFA.FoliageMeshes.any (fun p => p.2.Instances.any (fun I => decide (I.BaseId = BaseId)))
  { IFA with
    InstanceBaseCache :=
      { IFA.InstanceBaseCache with
        InstanceBaseMap :=
          IFA.InstanceBaseCache.InstanceBaseMap.filter
            (fun p => InUse p.1 || IsResolvable p.2.BasePtr) } }

/-- Embedding of the editor part of `AInstancedFoliageActor::PostLoad`.  `LinkerVersion` is the
custom version the actor was saved with and `FoliageMeshes_Deprecated` the member of that name,
which is emptied; `TypeObject` gives the object a foliage type pointer designates. -/
def AInstancedFoliageActor.PostLoad (IFA : AInstancedFoliageActor)
    (TypeObject : Nat → UFoliageType) (IsResolvable : Nat → Bool) (LinkerVersion : Nat)
    (FoliageMeshes_Deprecated : List (Option Nat × FFoliageMeshInfo_Deprecated)) :
    Option AInstancedFoliageActor :=
  let A1 :=
    if LinkerVersion < FFoliageCustomVersion.CrossLevelBase then
      ConvertDeprecatedFoliageMeshes IFA FoliageMeshes_Deprecated
    else IFA
  let A2 := { A1 with FoliageMeshes := RemoveNullMeshes A1.FoliageMeshes }
  match PostLoadLoop TypeObject LinkerVersion A2.FoliageMeshes with
  | none => none
  | some Meshes =>
    some (FFoliageInstanceBaseCache.CompactInstanceBaseCache IsResolvable
      { A2 with FoliageMeshes := Meshes })

/-- Embedding of `AInstancedFoliageActor::NotifyFoliageTypeChanged`; the collection found is
reallocated in place. -/
def AInstancedFoliageActor.NotifyFoliageTypeChanged (IFA : AInstancedFoliageActor)
    (TypeObject : Nat → UFoliageType) (FoliageType : Option Nat) :
    Option AInstancedFoliageActor :=
  match IFA.FindMesh FoliageType with
  | none => some IFA
  | some MeshInfo =>
    match FoliageType with
    | none => none
    | some TypeId =>
      (MeshInfo.ReallocateClusters (TypeObject TypeId)).map
        (fun M1 => { IFA with FoliageMeshes := TMap.Add IFA.FoliageMeshes FoliageType M1 })

/-- The loop `for (TObjectIterator<AInstancedFoliageActor> It; It; ++It)` of
`PostEditChangeProperty` over the loaded actors. -/
def NotifyLoadedActors (TypeObject : Nat → UFoliageType) (FoliageType : Nat) :
    List AInstancedFoliageActor → Option (List AInstancedFoliageActor)
  | [] => some []
  | IFA :: Rest =>
    match IFA.NotifyFoliageTypeChanged TypeObject (some FoliageType) with
    | none => none
    | some IFA1 => (NotifyLoadedActors TypeObject FoliageType Rest).map (fun Done => IFA1 :: Done)

/-- Embedding of `UFoliageType::PostEditChangeProperty`, on the foliage type with identity
`Self`.  `NewGuid` is the value `FGuid::NewGuid()` yields, `bReallocationRequired` the answer of
`IsFoliageReallocationRequiredForPropertyChange` and `Actors` the loaded foliage actors.  In
`OverriddenLightMapRes + 3 & ~3` the sum binds first; both operations are those of `int32`.
The result is the foliage type after the call and the actors after the notifications. -/
def UFoliageType.PostEditChangeProperty (T : UFoliageType) (Self : Nat) (NewGuid : Nat)
    (bReallocationRequired : Bool) (Actors : List AInstancedFoliageActor) :
    UFoliageType × Option (List AInstancedFoliageActor) :=
  let T1 := { T with
    OverriddenLightMapRes :=
      if 4 < T.OverriddenLightMapRes then
        Int32.And (Int32.Wrap (T.OverriddenLightMapRes + 3)) (Int32.Not 3)
      else 4 }
  let T2 := { T1 with ChangeCount := T1.ChangeCount + 1 }
  let T3 := { T2 with UpdateGuid := NewGuid }
  (T3, if bReallocationRequired then NotifyLoadedActors (fun _ => T3) Self Actors
       else some Actors)

/-! ## Placement -/

/-- Modelled from the spec: the flag bit `FOLIAGE_AlignToNormal` (alignment applied) is declared
in `InstancedFoliage.h`, outside the files at hand. -/
def FOLIAGE_AlignToNormal : Nat := 1

/-- Modelled from the spec: the flag bit `FOLIAGE_NoRandomYaw` (no random yaw) is declared in
`InstancedFoliage.h`, outside the files at hand. -/
def FOLIAGE_NoRandomYaw : Nat := 2

/-- Modelled from the spec: the placement mode `EFoliagePlacementMode` is declared in a header
outside the files at hand; the spec tells manual from procedural placement. -/
inductive EFoliagePlacementMode where
  | Manual
  | Procedural
deriving DecidableEq

/-- Modelled from the spec: engine enumeration `ECollisionEnabled`, declared outside the files at
hand; `FoliageTrace` compares it with `QueryAndPhysics`. -/
inductive ECollisionEnabled where
  | NoCollision
  | QueryOnly
  | QueryAndPhysics
deriving DecidableEq

/-- Modelled from the spec: engine enumeration `ECollisionResponse`, declared outside the files
at hand; `FoliageTrace` compares it with `ECR_Block`. -/
inductive ECollisionResponse where
  | ECR_Ignore
  | ECR_Overlap
  | ECR_Block
deriving DecidableEq

/-- What `FoliageTrace` reads of a body (`FBodyInstance`): its collision setting and its response
to the `ECC_WorldStatic` channel. -/
structure FBodyInstance where
  CollisionEnabled : ECollisionEnabled
  ResponseToWorldStatic : ECollisionResponse
deriving DecidableEq

/-- What `FoliageTrace` reads of a hit component (`UPrimitiveComponent`): the body
`GetBodyInstance()` returns and the level `GetComponentLevel()` returns, `none` being
`nullptr`. -/
structure UPrimitiveComponent where
  BodyInstance : Option FBodyInstance
  ComponentLevel : Option Nat
deriving DecidableEq

/-- What `FoliageTrace` reads of a procedural foliage component: its GUID. -/
structure UProceduralFoliageComponent where
  ProceduralGuid : Nat
deriving DecidableEq

/-- What `FoliageTrace` reads of a procedural foliage actor (the spawning volume): its
component. -/
structure AProceduralFoliageActor where
  ProceduralComponent : Option UProceduralFoliageComponent
deriving DecidableEq

/-- The actor of a hit as far as the `Cast`s of `FoliageTrace` tell actors apart: a procedural
foliage blocking volume (with its `ProceduralFoliageActor` pointer), an instanced foliage
actor, a procedural foliage actor, or any other actor. -/
inductive AActor where
  | ProceduralFoliageBlockingVolume (ProceduralFoliageActor : Option AProceduralFoliageActor)
  | InstancedFoliageActor
  | ProceduralFoliageActor
  | Other
deriving DecidableEq

/-- What `FoliageTrace` reads of a sweep hit (`FHitResult`); `none` is an invalid weak
pointer. -/
structure FHitResult where
  Actor : Option AActor
  Component : Option UPrimitiveComponent
  ImpactPoint : FVector
deriving DecidableEq

/-- The fields of `FDesiredFoliageInstance` read by the placement code.  `Rotation` holds the
rotator of the desired quaternion and `ProceduralVolumeBodyInstance` the identity of the body of
the procedural volume (`none` being `nullptr`). -/
structure FDesiredFoliageInstance where
  StartTrace : FVector
  EndTrace : FVector
  Rotation : FRotator
  TraceRadius : Int
  Age : ℚ
  ProceduralGuid : Nat
  PlacementMode : EFoliagePlacementMode
  ProceduralVolumeBodyInstance : Option Nat
deriving DecidableEq

/-- How one pass of the loop of `FoliageTrace` ends: with a `return` (the value and the content
of `OutHit`), or by going on to the next hit with the current `bInsideProceduralVolume`. -/
inductive FoliageTraceStep where
  | Return (Value : Bool) (OutHit : FHitResult)
  | Continue (bInsideProceduralVolume : Bool)
deriving DecidableEq

/-- The part of the loop body of `FoliageTrace` after the procedural block: the test of the
hit body and of the component.  Dereferencing a null component or body is `none`. -/
def FoliageTraceBlocking (DesiredInstance : FDesiredFoliageInstance) (Hit : FHitResult)
    (bInsideProceduralVolume : Bool) : Option FoliageTraceStep :=
  match Hit.Component with
  | none => none
  | some Component =>
    match Component.BodyInstance with
    | none => none
    | some BodyInstance =>
      if BodyInstance.CollisionEnabled ≠ ECollisionEnabled.QueryAndPhysics ∨
          BodyInstance.ResponseToWorldStatic ≠ ECollisionResponse.ECR_Block then
        some (FoliageTraceStep.Continue bInsideProceduralVolume)
      else if Component.ComponentLevel.isSome then
        some (FoliageTraceStep.Return
          (decide (DesiredInstance.PlacementMode ≠ EFoliagePlacementMode.Procedural) ||
            bInsideProceduralVolume) Hit)
      else
        some (FoliageTraceStep.Continue bInsideProceduralVolume)

/-- The update `if (bInsideProceduralVolume == false) bInsideProceduralVolume = ...OverlapTest`
of `FoliageTrace`; `OverlapTest Body Point` is the answer of the physics query on the body of
the procedural volume, and a null body pointer is `none`. -/
def FoliageTraceInside (OverlapTest : Nat → FVector → Bool)
    (DesiredInstance : FDesiredFoliageInstance) (Hit : FHitResult)
    (bInsideProceduralVolume : Bool) : Option Bool :=
  if bInsideProceduralVolume = false then
    match DesiredInstance.ProceduralVolumeBodyInstance with
    | none => none
    | some Body => some (OverlapTest Body Hit.ImpactPoint)
  else
    some bInsideProceduralVolume

/-- One pass of the loop `for (const FHitResult& Hit : Hits)` of `FoliageTrace`. -/
def FoliageTraceBody (OverlapTest : Nat → FVector → Bool)
    (DesiredInstance : FDesiredFoliageInstance) (OutHit : FHitResult) (Hit : FHitResult)
    (bInsideProceduralVolume : Bool) : Option FoliageTraceStep :=
  if DesiredInstance.PlacementMode = EFoliagePlacementMode.Procedural then
    match Hit.Actor with
    | none => FoliageTraceBlocking DesiredInstance Hit bInsideProceduralVolume
    | some (AActor.ProceduralFoliageBlockingVolume ProceduralFoliageActor) =>
      let Veto : Bool :=
        match ProceduralFoliageActor with
        | none => true
        | some Actor =>
          match Actor.ProceduralComponent with
          | none => true
          | some ProceduralComponent =>
            decide (ProceduralComponent.ProceduralGuid = DesiredInstance.ProceduralGuid)
      if Veto then
        some (FoliageTraceStep.Return false OutHit)
      else
        (FoliageTraceInside OverlapTest DesiredInstance Hit bInsideProceduralVolume).bind
          (FoliageTraceBlocking DesiredInstance Hit)
    | some AActor.InstancedFoliageActor => some (FoliageTraceStep.Return false OutHit)
    | some AActor.ProceduralFoliageActor =>
      some (FoliageTraceStep.Continue bInsideProceduralVolume)
    | some AActor.Other =>
      (FoliageTraceInside OverlapTest DesiredInstance Hit bInsideProceduralVolume).bind
        (FoliageTraceBlocking DesiredInstance Hit)
  else
    FoliageTraceBlocking DesiredInstance Hit bInsideProceduralVolume

/-- The loop of `FoliageTrace` over the hits still to visit; after the last hit the function
returns false and `OutHit` is as it was. -/
def FoliageTraceLoop (OverlapTest : Nat → FVector → Bool)
    (DesiredInstance : FDesiredFoliageInstance) (OutHit : FHitResult) :
    List FHitResult → Bool → Option (Bool × FHitResult)
  | [], _ => some (false, OutHit)
  | Hit :: Rest, bInsideProceduralVolume =>
    match FoliageTraceBody OverlapTest DesiredInstance OutHit Hit bInsideProceduralVolume with
    | none => none
    | some (FoliageTraceStep.Return Value Out) => some (Value, Out)
    | some (FoliageTraceStep.Continue bInside) =>
      FoliageTraceLoop OverlapTest DesiredInstance OutHit Rest bInside

/-- Embedding of `AInstancedFoliageActor::FoliageTrace`: `Hits` is what the sweep of the world
(`SweepMultiByObjectType`) found, in sweep order; the result is the returned flag and the
content of `OutHit`. -/
def AInstancedFoliageActor.FoliageTrace (OverlapTest : Nat → FVector → Bool)
    (Hits : List FHitResult) (OutHit : FHitResult)
    (DesiredInstance : FDesiredFoliageInstance) : Option (Bool × FHitResult) :=
  FoliageTraceLoop OverlapTest DesiredInstance OutHit Hits false

/-- The hits the claim about non-procedural traces speaks of: collision enabled as
`QueryAndPhysics`, a `Block` response on the world-static channel, and a component that
belongs to a level. -/
def FHitResult.IsBlocking (Hit : FHitResult) : Bool :=
  match Hit.Component with
  | none => false
  | some Component =>
    match Component.BodyInstance with
    | none => false
    | some BodyInstance =>
      decide (BodyInstance.CollisionEnabled = ECollisionEnabled.QueryAndPhysics) &&
      decide (BodyInstance.ResponseToWorldStatic = ECollisionResponse.ECR_Block) &&
      Component.ComponentLevel.isSome

/-- Modelled from the spec: what `PlaceInstance` calls outside the files at hand.
`NormalTilt Normal MaxAngle` is the rotation that tilts the up axis onto the surface normal,
limited to the maximum angle when that is positive; `Compose A B` is the rotation `B` followed
by `A` (`FRotator(FQuat(A) * FQuat(B))`); `TransformPosition` is `FTransform::TransformPosition`;
`Eval` evaluates a rich curve; `UniformScale` is the conversion `FVector(float)` of a growth
scale into a scale vector; `FindBrushComponent` answers the brush lookup on a hit component
(`none` when the component is no model component or no brush is found); and
`CheckCollisionWithWorld` is the outcome of the collision test against the world. -/
structure FPlacementEngine where
  NormalTilt : FVector → Int → FRotator
  Compose : FRotator → FRotator → FRotator
  TransformPosition : FTransform → FVector → FVector
  Eval : List (ℚ × ℚ) → ℚ → ℚ
  UniformScale : ℚ → FVector
  FindBrushComponent : UPrimitiveComponent → FVector → Option (Option UPrimitiveComponent)
  CheckCollisionWithWorld : UFoliageType → FFoliageInstance → FVector → FVector → Bool

/-- Modelled from the spec: `FFoliageInstance::AlignToNormal` is declared in
`InstancedFoliage.h`, outside the files at hand.  The alignment flag is set, the rotation so far
is kept as the pre-alignment rotation, and the new rotation is the tilt onto the surface normal
(limited to the maximum angle) applied after the rotation so far. -/
def FFoliageInstance.AlignToNormal (E : FPlacementEngine) (I : FFoliageInstance)
    (InNormal : FVector) (AlignMaxAngle : Int) : FFoliageInstance :=
  { I with
    Flags := I.Flags ||| FOLIAGE_AlignToNormal
    PreAlignRotation := I.Rotation
    Rotation := E.Compose (E.NormalTilt InNormal AlignMaxAngle) I.Rotation }

/-- A candidate placement (`FPotentialInstance`). -/
structure FPotentialInstance where
  HitLocation : FVector
  HitNormal : FVector
  HitComponent : Option UPrimitiveComponent
  HitWeight : Int
  DesiredInstance : FDesiredFoliageInstance
deriving DecidableEq

/-- Embedding of `FPotentialInstance::PlaceInstance`.  `Rand` is the sequence of values
`FMath::FRand()` yields and `k` the number of draws made before the call; the result is the
returned flag, the instance written through `Inst`, the candidate itself (its hit component may
be replaced) and the number of draws made afterwards.  With integer offsets the test
`FMath::Abs(Inst.ZOffset) > KINDA_SMALL_NUMBER` is `0 < |Inst.ZOffset|`. -/
def FPotentialInstance.PlaceInstance (P : FPotentialInstance) (E : FPlacementEngine)
    (Rand : Nat → Int) (k : Nat) (Settings : UFoliageType) (Inst : FFoliageInstance)
    (bSkipCollision : Bool) : Bool × FFoliageInstance × FPotentialInstance × Nat :=
  let Procedural : Bool :=
    decide (P.DesiredInstance.PlacementMode = EFoliagePlacementMode.Procedural)
  let Scale : FVector × Nat :=
    if Procedural then
      (E.UniformScale (Settings.GetScaleForAge E.Eval P.DesiredInstance.Age), k)
    else
      Settings.GetRandomScale Rand k
  let I1 := { Inst with DrawScale3D := Scale.1 }
  let k1 := Scale.2
  let I2 := { I1 with ZOffset := Settings.ZOffset.Interpolate (Rand k1) }
  let k2 := k1 + 1
  let I3 := { I2 with Location := P.HitLocation }
  let Rotated : FFoliageInstance × Nat :=
    if Procedural then
      ({ I3 with
         Rotation := P.DesiredInstance.Rotation
         Flags := I3.Flags ||| FOLIAGE_NoRandomYaw }, k2)
    else
      let Rotation : FRotator := ⟨Rand k2 * Settings.RandomPitchAngle, 0, 0⟩
      if Settings.RandomYaw then
        ({ I3 with Rotation := { Rotation with Yaw := Rand (k2 + 1) * 360 } }, k2 + 2)
      else
        ({ I3 with
           Rotation := Rotation
           Flags := I3.Flags ||| FOLIAGE_NoRandomYaw }, k2 + 1)
  let I4 := Rotated.1
  let I5 :=
    if Settings.AlignToNormal then I4.AlignToNormal E P.HitNormal Settings.AlignMaxAngle
    else I4
  let I6 :=
    if 0 < |I5.ZOffset| then
      { I5 with Location := E.TransformPosition I5.GetInstanceWorldTransform ⟨0, 0, I5.ZOffset⟩ }
    else I5
  let P1 : FPotentialInstance :=
    match P.HitComponent with
    | none => P
    | some ModelComponent =>
      match E.FindBrushComponent ModelComponent P.HitLocation with
      | none => P
      | some BrushComponent => { P with HitComponent := BrushComponent }
  (bSkipCollision || E.CheckCollisionWithWorld Settings I6 P.HitNormal P.HitLocation,
    I6, P1, Rotated.2)

/-! ## Selecting one instance -/

/-- The body of the loop of `SelectInstance` that deselects everything, for one collection: a
collection with selected indices must have its component (`check`), whose selection buffer is
emptied; the selection set is emptied. -/
def DeselectMesh (MeshInfo : FFoliageMeshInfo) : Option FFoliageMeshInfo :=
  if 0 < MeshInfo.SelectedIndices.length then
    match MeshInfo.Component with
    | none => none
    | some Component =>
      let C1 :=
        if 0 < Component.SelectedInstances.length then
          { Component with SelectedInstances := [] }
        else Component
      some { MeshInfo with Component := some C1, SelectedIndices := [] }
  else
    some { MeshInfo with SelectedIndices := [] }

/-- The loop `for (auto& MeshPair : FoliageMeshes)` of `SelectInstance` that deselects
everything. -/
def DeselectAllLoop :
    List (Option Nat × FFoliageMeshInfo) → Option (List (Option Nat × FFoliageMeshInfo))
  | [] => some []
  | MeshPair :: Rest =>
    match DeselectMesh MeshPair.2 with
    | none => none
    | some MeshInfo =>
      (DeselectAllLoop Rest).map (fun Done => (MeshPair.1, MeshInfo) :: Done)

/-- The search loop of `SelectInstance` for the collection whose component is `InComponent`;
the last collection that matches is kept.  A component pointer is identified by the collection
that owns the component: `InComponent` is the key of that collection, and it is equal to the
component pointer of a collection when the keys agree and that pointer is not null. -/
def FindMeshOfComponent (InComponent : Option Nat) :
    List (Option Nat × FFoliageMeshInfo) → Option (Option Nat × FFoliageMeshInfo) →
    Option (Option Nat × FFoliageMeshInfo)
  | [], Found => Found
  | MeshPair :: Rest, Found =>
    if MeshPair.1 = InComponent ∧ MeshPair.2.Component ≠ none then
      FindMeshOfComponent InComponent Rest (some MeshPair)
    else FindMeshOfComponent InComponent Rest Found

/-- The block `if (MeshInfo) { ... }` of `SelectInstance` on the collection found, whose
component is `InComponent`; a bit outside the selection buffer is `none`. -/
def SelectInstanceInMesh (MeshInfo : FFoliageMeshInfo) (InInstanceIndex : Nat)
    (bToggle : Bool) : Option FFoliageMeshInfo :=
  match MeshInfo.Component with
  | none => none
  | some InComponent =>
    let bIsSelected := decide (InInstanceIndex ∈ MeshInfo.SelectedIndices)
    let C1 :=
      if InInstanceIndex < InComponent.SelectedInstances.length then
        { InComponent with
          SelectedInstances := InComponent.SelectedInstances.set InInstanceIndex false }
      else InComponent
    let Sel1 :=
      if bIsSelected then TSet.Remove MeshInfo.SelectedIndices InInstanceIndex
      else MeshInfo.SelectedIndices
    if !bToggle || !bIsSelected then
      let C2 :=
        if C1.SelectedInstances.length < C1.PerInstanceSMData.length then
          { C1 with SelectedInstances := List.replicate C1.PerInstanceSMData.length false }
        else C1
      if InInstanceIndex < C2.SelectedInstances.length then
        some { MeshInfo with
          Component := some { C2 with
            SelectedInstances := C2.SelectedInstances.set InInstanceIndex true }
          SelectedIndices := TSet.Add Sel1 InInstanceIndex }
      else none
    else
      some { MeshInfo with Component := some C1, SelectedIndices := Sel1 }

/-- Embedding of `AInstancedFoliageActor::SelectInstance`.  `InComponent` is `none` for the null
pointer and otherwise the key of the collection that owns the component; the collection found
is changed in place.  The index is a natural number: the code subscripts the selection buffer
with it, which a negative index fails. -/
def AInstancedFoliageActor.SelectInstance (IFA : AInstancedFoliageActor)
    (InComponent : Option (Option Nat)) (InInstanceIndex : Nat) (bToggle : Bool) :
    Option AInstancedFoliageActor :=
  let Deselected :=
    if !bToggle then DeselectAllLoop IFA.FoliageMeshes else some IFA.FoliageMeshes
  match Deselected with
  | none => none
  | some Meshes =>
    match InComponent with
    | none => some { IFA with FoliageMeshes := Meshes }
    | some Key =>
      match FindMeshOfComponent Key Meshes none with
      | none => some { IFA with FoliageMeshes := Meshes }
      | some (FoliageType, MeshInfo) =>
        (SelectInstanceInMesh MeshInfo InInstanceIndex bToggle).map
          (fun MeshInfo1 =>
            { IFA with FoliageMeshes := TMap.Add Meshes FoliageType MeshInfo1 })

/-- The collection the deselecting loop of `SelectInstance` leaves when it returns: no index
selected and, if some index was, the selection buffer of the component emptied. -/
def ClearSelection (MeshInfo : FFoliageMeshInfo) : FFoliageMeshInfo :=
  { MeshInfo with
    SelectedIndices := []
    Component :=
      if 0 < MeshInfo.SelectedIndices.length then
        MeshInfo.Component.map (fun Component =>
          if 0 < Component.SelectedInstances.length then
            { Component with SelectedInstances := [] }
          else Component)
      else MeshInfo.Component }

/-! ## The crash allocator

A shallow embedding of `Engine/Source/Runtime/Core/Private/HAL/MallocCrash.cpp`.  Addresses and
`uint32` values are natural numbers, with `uint32` arithmetic taken modulo `2^32`; a pointer to
a pool is the index of the pool, `none` being `nullptr`; a call that ends the process
(`RequestExit`), fails a `check`, reads outside an array or never returns is `none`. -/

/-- Sum of two `uint32` values. -/
def Uint32.Add (a b : Nat) : Nat := (a + b) % 4294967296

/-- Difference of two `uint32` values. -/
def Uint32.Sub (a b : Nat) : Nat := (a + 4294967296 - b % 4294967296) % 4294967296

/-- Product of two `uint32` values. -/
def Uint32.Mul (a b : Nat) : Nat := (a * b) % 4294967296

/-- Modelled from the spec: the constants `MallocCrash.h` declares, outside the files at hand:
the overhead per allocation (the size of the header `FPtrInfo`), the size of the large pool,
the required alignment, and the page size `SafePageSize()` yields. -/
structure FMallocCrashEnum where
  PER_ALLOC_OVERHEAD : Nat
  LARGE_MEMORYPOOL_SIZE : Nat
  REQUIRED_ALIGNMENT : Nat
  SafePageSize : Nat
deriving DecidableEq

/-- Modelled from the spec: the engine template `Align(Value, Alignment)`, declared outside the
files at hand: the value rounded up to a multiple of the alignment, as a `uint32`. -/
def Align (Value Alignment : Nat) : Nat :=
  Uint32.Mul ((Value + Alignment - 1) / Alignment) Alignment

/-- Describes a pool (`FPoolDesc`): block size and number of blocks. -/
structure FPoolDesc where
  Size : Nat
  NumAllocs : Nat
deriving DecidableEq

/-- The table `AllPoolDesc` of `FMallocCrash::GetPoolDesc`. -/
def AllPoolDesc : List FPoolDesc :=
  [⟨64, 224⟩, ⟨96, 144⟩, ⟨128, 80⟩, ⟨192, 560⟩, ⟨256, 384⟩, ⟨384, 208⟩, ⟨512, 48⟩, ⟨768, 32⟩,
   ⟨1024, 32⟩, ⟨2048, 32⟩, ⟨4096, 32⟩, ⟨8192, 32⟩, ⟨16384, 16⟩, ⟨32768, 16⟩]

/-- The constant `NUM_POOLS`, the number of entries of the table `AllPoolDesc[NUM_POOLS]`. -/
def NUM_POOLS : Nat := 14

/-- Embedding of `FMallocCrash::GetPoolDesc`. -/
def GetPoolDesc (Index : Nat) : Option FPoolDesc := AllPoolDesc[Index]?

/-- Modelled from the spec: the header `FPtrInfo` of an allocation is declared in
`MallocCrash.h`, outside the files at hand: the size of the allocation (0 in a fresh header)
and the pointer handed to the caller. -/
structure FPtrInfo where
  Size : Nat
  Ptr : Nat
deriving DecidableEq

/-- A pool of blocks of one size (`FMallocCrashPool`); `Allocations` holds the headers of the
first `MaxNumAllocations` slots of the fixed array, the others being null. -/
structure FMallocCrashPool where
  NumUsed : Nat
  MaxUsedIndex : Nat
  MaxNumUsed : Nat
  TotalNumUsed : Nat
  AllocationSize : Nat
  Allocations : List FPtrInfo
  MaxNumAllocations : Nat
deriving DecidableEq

/-- The allocator (`FMallocCrash`).  `LargeAllocations` holds the headers written into the large
pool, which the code keeps in the pool memory itself. -/
structure FMallocCrash where
  CrashedThreadId : Nat
  LargeMemoryPool : Nat
  LargeMemoryPoolOffset : Nat
  SmallMemoryPool : Nat
  SmallMemoryPoolOffset : Nat
  Pools : List FMallocCrashPool
  LargeAllocations : List FPtrInfo
deriving DecidableEq

/-- The loop of `FMallocCrash::GetSmallPoolTotalSize` over the pool descriptions. -/
def GetSmallPoolTotalSizeLoop (K : FMallocCrashEnum) : List FPoolDesc → Nat → Option Nat
  | [], TotalSize => some TotalSize
  | PoolDesc :: Rest, TotalSize =>
    if PoolDesc.NumAllocs % 16 = 0 ∧ PoolDesc.Size % 16 = 0 then
      GetSmallPoolTotalSizeLoop K Rest
        (Uint32.Add TotalSize
          (Uint32.Mul PoolDesc.NumAllocs (Uint32.Add PoolDesc.Size K.PER_ALLOC_OVERHEAD)))
    else none

/-- Embedding of `FMallocCrash::GetSmallPoolTotalSize`. -/
def GetSmallPoolTotalSize (K : FMallocCrashEnum) : Option Nat :=
  (GetSmallPoolTotalSizeLoop K AllPoolDesc 0).map (fun TotalSize => Align TotalSize K.SafePageSize)

/-- Embedding of `FMallocCrash::AllocateFromSmallPool`: the address handed out and the allocator
afterwards. -/
def FMallocCrash.AllocateFromSmallPool (K : FMallocCrashEnum) (M : FMallocCrash)
    (AllocationSize : Nat) : Option (Nat × FMallocCrash) :=
  match GetSmallPoolTotalSize K with
  | none => none
  | some TotalSize =>
    if Uint32.Add M.SmallMemoryPoolOffset AllocationSize ≤ TotalSize then
      let ReturnMemoryPoolOffset := M.SmallMemoryPoolOffset
      some (M.SmallMemoryPool + ReturnMemoryPoolOffset,
        { M with SmallMemoryPoolOffset := Uint32.Add M.SmallMemoryPoolOffset AllocationSize })
    else none

/-- The first loop of the constructor of `FMallocCrashPool`: one block per slot is taken from
the small pool and its header, with size 0, points past the overhead. -/
def FMallocCrashPool.AllocateSlots (K : FMallocCrashEnum) (AllocationSize : Nat) :
    Nat → FMallocCrash → List FPtrInfo → Option (List FPtrInfo × FMallocCrash)
  | 0, Outer, Allocations => some (Allocations, Outer)
  | Remaining + 1, Outer, Allocations =>
    match Outer.AllocateFromSmallPool K AllocationSize with
    | none => none
    | some (NewPtr, Outer1) =>
      FMallocCrashPool.AllocateSlots K AllocationSize Remaining Outer1
        (Allocations ++ [⟨0, NewPtr + K.PER_ALLOC_OVERHEAD⟩])

/-- Embedding of the constructor `FMallocCrashPool::FMallocCrashPool(PoolDesc, Outer)`. -/
def FMallocCrashPool.new (K : FMallocCrashEnum) (PoolDesc : FPoolDesc) (Outer : FMallocCrash) :
    Option (FMallocCrashPool × FMallocCrash) :=
  let AllocationSize := Uint32.Add PoolDesc.Size K.PER_ALLOC_OVERHEAD
  (FMallocCrashPool.AllocateSlots K AllocationSize PoolDesc.NumAllocs Outer []).map
    (fun R =>
      ({ NumUsed := 0
         MaxUsedIndex := 0
         MaxNumUsed := 0
         TotalNumUsed := 0
         AllocationSize := AllocationSize
         Allocations := R.1
         MaxNumAllocations := PoolDesc.NumAllocs }, R.2))

/-- The loop of `FMallocCrash::InitializeSmallPools` over the pool descriptions. -/
def InitializeSmallPoolsLoop (K : FMallocCrashEnum) :
    List FPoolDesc → FMallocCrash → Option FMallocCrash
  | [], M => some M
  | PoolDesc :: Rest, M =>
    match FMallocCrashPool.new K PoolDesc M with
    | none => none
    | some (Pool, M1) => InitializeSmallPoolsLoop K Rest { M1 with Pools := M1.Pools ++ [Pool] }

/-- Embedding of `FMallocCrash::InitializeSmallPools`. -/
def FMallocCrash.InitializeSmallPools (K : FMallocCrashEnum) (M : FMallocCrash) :
    Option FMallocCrash :=
  match InitializeSmallPoolsLoop K AllPoolDesc M, GetSmallPoolTotalSize K with
  | some M1, some TotalSize => if M1.SmallMemoryPoolOffset ≤ TotalSize then some M1 else none
  | _, _ => none

/-- Embedding of the constructor `FMallocCrash::FMallocCrash`: `LargeMemoryPool` and
`SmallMemoryPool` are the addresses the operating system returned (a null address or an
address off the required alignment ends the process). -/
def FMallocCrash.new (K : FMallocCrashEnum) (LargeMemoryPool SmallMemoryPool : Nat) :
    Option FMallocCrash :=
  if SmallMemoryPool = 0 ∨ LargeMemoryPool = 0 then none
  else if LargeMemoryPool % K.REQUIRED_ALIGNMENT ≠ 0 ∨
      SmallMemoryPool % K.REQUIRED_ALIGNMENT ≠ 0 then none
  else
    FMallocCrash.InitializeSmallPools K
      { CrashedThreadId := 0
        LargeMemoryPool := LargeMemoryPool
        LargeMemoryPoolOffset := 0
        SmallMemoryPool := SmallMemoryPool
        SmallMemoryPoolOffset := 0
        Pools := []
        LargeAllocations := [] }

/-- Embedding of `FMallocCrash::SetAsGMalloc`: the calling thread becomes the crashed thread. -/
def FMallocCrash.SetAsGMalloc (M : FMallocCrash) (CurrentThreadId : Nat) : FMallocCrash :=
  { M with CrashedThreadId := CurrentThreadId }

/-- The loop of `FMallocCrash::FindPoolFromSize` from pool `Index` on. -/
def FindPoolFromSizeLoop (K : FMallocCrashEnum) (AllocationSize : Nat) :
    List FMallocCrashPool → Nat → Option Nat
  | [], _ => none
  | Pool :: Rest, Index =>
    if AllocationSize ≤ Uint32.Sub Pool.AllocationSize K.PER_ALLOC_OVERHEAD then some Index
    else FindPoolFromSizeLoop K AllocationSize Rest (Index + 1)

/-- Embedding of `FMallocCrash::FindPoolFromSize`: the index of the pool returned, `none` for
the null pointer that stands for the large pool. -/
def FMallocCrash.FindPoolFromSize (K : FMallocCrashEnum) (M : FMallocCrash)
    (AllocationSize : Nat) : Option Nat :=
  FindPoolFromSizeLoop K AllocationSize M.Pools 0

/-- The search loop of `AllocateFromPool` from slot `Index` on, with `Remaining` slots to
visit: the first slot whose header has size 0. -/
def FirstUnused (Allocations : List FPtrInfo) : Nat → Nat → Option (Option Nat)
  | _, 0 => some none
  | Index, Remaining + 1 =>
    match Allocations[Index]? with
    | none => none
    | some PtrIt =>
      if PtrIt.Size = 0 then some (some Index)
      else FirstUnused Allocations (Index + 1) Remaining

/-- Embedding of `FMallocCrashPool::AllocateFromPool`: the pointer returned and the pool
afterwards; running out of slots ends the process. -/
def FMallocCrashPool.AllocateFromPool (Pool : FMallocCrashPool) (InAllocationSize : Nat) :
    Option (Nat × FMallocCrashPool) :=
  match FirstUnused Pool.Allocations 0 Pool.MaxNumAllocations with
  | none => none
  | some none => none
  | some (some Index) =>
    match Pool.Allocations[Index]? with
    | none => none
    | some PtrInfo =>
      let NumUsed := Uint32.Add Pool.NumUsed 1
      some (PtrInfo.Ptr,
        { Pool with
          MaxUsedIndex := max Pool.MaxUsedIndex Index
          NumUsed := NumUsed
          TotalNumUsed := Uint32.Add Pool.TotalNumUsed 1
          MaxNumUsed := max Pool.MaxNumUsed NumUsed
          Allocations := Pool.Allocations.set Index { PtrInfo with Size := InAllocationSize } })

/-- The search loop of `TryFreeFromPool`: the first slot whose header points to `Ptr`. -/
def FirstWithPtr (Allocations : List FPtrInfo) (Ptr : Nat) : Nat → Nat → Option (Option Nat)
  | _, 0 => some none
  | Index, Remaining + 1 =>
    match Allocations[Index]? with
    | none => none
    | some PtrIt =>
      if PtrIt.Ptr = Ptr then some (some Index)
      else FirstWithPtr Allocations Ptr (Index + 1) Remaining

/-- Embedding of `FMallocCrashPool::TryFreeFromPool`. -/
def FMallocCrashPool.TryFreeFromPool (Pool : FMallocCrashPool) (Ptr : Nat) :
    Option FMallocCrashPool :=
  match FirstWithPtr Pool.Allocations Ptr 0 Pool.MaxNumAllocations with
  | none => none
  | some none => some Pool
  | some (some Index) =>
    match Pool.Allocations[Index]? with
    | none => none
    | some PtrIt =>
      some { Pool with
        Allocations := Pool.Allocations.set Index { PtrIt with Size := 0 }
        NumUsed := Uint32.Sub Pool.NumUsed 1 }

/-- Embedding of `FMallocCrash::IsOnCrashedThread`; any other thread sleeps for ever. -/
def FMallocCrash.IsOnCrashedThread (M : FMallocCrash) (CurrentThreadId : Nat) : Option Bool :=
  if M.CrashedThreadId = CurrentThreadId then some true else none

/-- Embedding of `FMallocCrash::Malloc` (`Size` is cut to 32 bits; an alignment above 16 is only
reported): the pointer returned and the allocator afterwards. -/
def FMallocCrash.Malloc (K : FMallocCrashEnum) (M : FMallocCrash) (CurrentThreadId : Nat)
    (Size : Nat) (_Alignment : Nat) : Option (Nat × FMallocCrash) :=
  let Size32 := Size % 4294967296
  match M.IsOnCrashedThread CurrentThreadId with
  | none => none
  | some false => some (0, M)
  | some true =>
    match M.FindPoolFromSize K Size32 with
    | some PoolIndex =>
      match M.Pools[PoolIndex]? with
      | none => none
      | some Pool =>
        (Pool.AllocateFromPool Size32).map
          (fun R => (R.1, { M with Pools := M.Pools.set PoolIndex R.2 }))
    | none =>
      let SizeWithOverhead := Uint32.Add Size32 K.PER_ALLOC_OVERHEAD
      let Offset := Align M.LargeMemoryPoolOffset K.REQUIRED_ALIGNMENT
      if Uint32.Add Offset SizeWithOverhead ≤ K.LARGE_MEMORYPOOL_SIZE then
        let ReturnMemoryPoolOffset := Offset
        let PtrInfo : FPtrInfo :=
          ⟨Size32, M.LargeMemoryPool + ReturnMemoryPoolOffset + K.PER_ALLOC_OVERHEAD⟩
        some (PtrInfo.Ptr,
          { M with
            LargeMemoryPoolOffset := Uint32.Add Offset SizeWithOverhead
            LargeAllocations := M.LargeAllocations ++ [PtrInfo] })
      else none

/-- Embedding of `FMallocCrash::IsPtrInSmallPool`. -/
def FMallocCrash.IsPtrInSmallPool (K : FMallocCrashEnum) (M : FMallocCrash) (Ptr : Nat) :
    Option Bool :=
  (GetSmallPoolTotalSize K).map
    (fun TotalSize => decide (M.SmallMemoryPool ≤ Ptr ∧ Ptr < M.SmallMemoryPool + TotalSize))

/-- Embedding of `FMallocCrash::GetAllocationSize(Original)`: the size in the header that
precedes the pointer; the headers are those of the slots of the pools and of the large
allocations, and a pointer without a header is `none`. -/
def FMallocCrash.GetAllocationSize (M : FMallocCrash) (Original : Nat) : Option Nat :=
  ((M.Pools.flatMap (fun Pool => Pool.Allocations) ++ M.LargeAllocations).find?
    (fun PtrInfo => decide (PtrInfo.Ptr = Original))).map (fun PtrInfo => PtrInfo.Size)

/-- Embedding of `FMallocCrash::Free`. -/
def FMallocCrash.Free (K : FMallocCrashEnum) (M : FMallocCrash) (CurrentThreadId : Nat)
    (Ptr : Nat) : Option FMallocCrash :=
  match M.IsOnCrashedThread CurrentThreadId with
  | none => none
  | some false => some M
  | some true =>
    match M.IsPtrInSmallPool K Ptr with
    | none => none
    | some true =>
      match M.GetAllocationSize Ptr with
      | none => none
      | some Size =>
        match M.FindPoolFromSize K Size with
        | none => some M
        | some PoolIndex =>
          match M.Pools[PoolIndex]? with
          | none => none
          | some Pool =>
            (Pool.TryFreeFromPool Ptr).map
              (fun Pool1 => { M with Pools := M.Pools.set PoolIndex Pool1 })
    | some false => some M

/-! ## Sample data -/

/-- A sample instance at `(x, 0, 0)` anchored to base `b`. -/
def SampleInstance (x : Int) (b : Nat) : FFoliageInstance :=
  ⟨⟨x, 0, 0⟩, ⟨0, 0, 0⟩, ⟨1, 1, 1⟩, ⟨0, 0, 0⟩, 0, 0, 0, b⟩

/-- A sample collection of five instances `[A, B, C, D, E]` with its indexes and render
component, as five calls of `AddInstance` on an empty collection leave it. -/
def SampleMeshInfo : FFoliageMeshInfo :=
  { Component := some ⟨[(SampleInstance 0 1).GetInstanceWorldTransform,
                        (SampleInstance 600 2).GetInstanceWorldTransform,
                        (SampleInstance 1200 1).GetInstanceWorldTransform,
                        (SampleInstance 1800 0).GetInstanceWorldTransform,
                        (SampleInstance 2400 2).GetInstanceWorldTransform], []⟩
    FoliageTypeUpdateGuid := 0
    Instances := [SampleInstance 0 1, SampleInstance 600 2, SampleInstance 1200 1,
                  SampleInstance 1800 0, SampleInstance 2400 2]
    InstanceHash := ⟨[((0, 0, 0), 0), ((1, 0, 0), 1), ((2, 0, 0), 2), ((3, 0, 0), 3),
                      ((4, 0, 0), 4)]⟩
    ComponentHash := [(1, [0, 2]), (2, [1, 4]), (0, [3])]
    SelectedIndices := [] }


/-- The collection two calls of `AddInstance` on the empty collection leave. -/
def SampleTwo : FFoliageMeshInfo :=
  AddResult (AddResult FFoliageMeshInfo.new (SampleInstance 0 1)) (SampleInstance 600 2)

/-- A sample base component with identity `Id`. -/
def SampleComponent (Id : Nat) : UActorComponent := ⟨Id, ⟨0, 0, 0⟩, ⟨0, 0, 0⟩, ⟨1, 1, 1⟩⟩

/-- A sample actor: components 7 and 8 are registered under the base ids 1 and 2, and the
only collection is the sample collection, kept under foliage type 10. -/
def SampleActor : AInstancedFoliageActor :=
  { InstanceBaseCache :=
      { NextBaseId := 3
        InstanceBaseMap := [(1, ⟨7, ⟨0, 0, 0⟩, ⟨0, 0, 0⟩, ⟨1, 1, 1⟩⟩),
                            (2, ⟨8, ⟨0, 0, 0⟩, ⟨0, 0, 0⟩, ⟨1, 1, 1⟩⟩)] }
    FoliageMeshes := [(some 10, SampleMeshInfo)] }

/-- A collection with two instances, the first anchored to base 1 and the second to base 2. -/
def TwoBasesMeshInfo : FFoliageMeshInfo :=
  { Component := some ⟨[(SampleInstance 0 1).GetInstanceWorldTransform,
                        (SampleInstance 600 2).GetInstanceWorldTransform], []⟩
    FoliageTypeUpdateGuid := 0
    Instances := [SampleInstance 0 1, SampleInstance 600 2]
    InstanceHash := ⟨[((0, 0, 0), 0), ((1, 0, 0), 1)]⟩
    ComponentHash := [(1, [0]), (2, [1])]
    SelectedIndices := [] }

/-- An actor whose only collection is `TwoBasesMeshInfo`; components 7 and 8 are registered
under the base ids 1 and 2. -/
def TwoBasesActor : AInstancedFoliageActor :=
  { InstanceBaseCache := SampleActor.InstanceBaseCache
    FoliageMeshes := [(some 10, TwoBasesMeshInfo)] }

/-- A hit on ordinary blocking ground: query-and-physics collision, blocking response, a
component that belongs to level 1. -/
def SampleGroundHit : FHitResult :=
  ⟨some AActor.Other,
   some ⟨some ⟨ECollisionEnabled.QueryAndPhysics, ECollisionResponse.ECR_Block⟩, some 1⟩,
   ⟨0, 0, 0⟩⟩

/-- A hit on a surface without collision. -/
def SampleNoCollisionHit : FHitResult :=
  ⟨some AActor.Other,
   some ⟨some ⟨ECollisionEnabled.NoCollision, ECollisionResponse.ECR_Block⟩, some 1⟩,
   ⟨0, 0, 50⟩⟩

/-- A hit on an instanced foliage actor, on a body that would otherwise qualify. -/
def SampleFoliageActorHit : FHitResult :=
  ⟨some AActor.InstancedFoliageActor,
   some ⟨some ⟨ECollisionEnabled.QueryAndPhysics, ECollisionResponse.ECR_Block⟩, some 1⟩,
   ⟨0, 0, 100⟩⟩

/-- A hit on the procedural spawning volume. -/
def SampleSpawningVolumeHit : FHitResult :=
  ⟨some AActor.ProceduralFoliageActor,
   some ⟨some ⟨ECollisionEnabled.QueryAndPhysics, ECollisionResponse.ECR_Block⟩, some 1⟩,
   ⟨0, 0, 200⟩⟩

/-- A hit on a blocking volume that has no owning procedural actor. -/
def SampleBlockingVolumeHit : FHitResult :=
  ⟨some (AActor.ProceduralFoliageBlockingVolume none),
   some ⟨some ⟨ECollisionEnabled.QueryAndPhysics, ECollisionResponse.ECR_Block⟩, some 1⟩,
   ⟨0, 0, 300⟩⟩

/-- The initial content of `OutHit` in the samples: a hit without actor and component. -/
def SampleOutHit : FHitResult := ⟨none, none, ⟨0, 0, 0⟩⟩

/-- A desired instance traced straight down through the origin in the given mode. -/
def SampleDesired (Mode : EFoliagePlacementMode) : FDesiredFoliageInstance :=
  { StartTrace := ⟨0, 0, 1000⟩
    EndTrace := ⟨0, 0, -1000⟩
    Rotation := ⟨0, 0, 0⟩
    TraceRadius := 0
    Age := 0
    ProceduralGuid := 3
    PlacementMode := Mode
    ProceduralVolumeBodyInstance := some 0 }

/-- A placement engine for the samples: no tilt and the rotation unchanged on an upward normal,
positions translated by the translation of the transform, curves evaluated as the identity, no
brush, no collision. -/
def SampleEngine : FPlacementEngine :=
  { NormalTilt := fun _ _ => ⟨0, 0, 0⟩
    Compose := fun A B => ⟨A.Pitch + B.Pitch, A.Yaw + B.Yaw, A.Roll + B.Roll⟩
    TransformPosition := fun T V => T.Translation.add V
    Eval := fun _ t => t
    UniformScale := fun s => ⟨⌊s⌋, ⌊s⌋, ⌊s⌋⟩
    FindBrushComponent := fun _ _ => none
    CheckCollisionWithWorld := fun _ _ _ _ => true }

/-- A candidate on a horizontal surface at the origin, normal straight up, manual mode. -/
def SamplePotential : FPotentialInstance :=
  ⟨⟨0, 0, 0⟩, ⟨0, 0, 1⟩, none, 1, SampleDesired EFoliagePlacementMode.Manual⟩

/-- A collection loaded with the zero GUID cached: a component, one live instance and one
instance that carries the deleted flag, and indexes that were not saved. -/
def StaleMeshInfo : FFoliageMeshInfo :=
  { Component := some ⟨[(SampleInstance 0 1).GetInstanceWorldTransform,
      (SampleInstance 600 1).GetInstanceWorldTransform], []⟩
    FoliageTypeUpdateGuid := 0
    Instances := [SampleInstance 0 1,
      { SampleInstance 600 1 with Flags := FOLIAGE_InstanceDeleted }]
    InstanceHash := ⟨[]⟩
    ComponentHash := []
    SelectedIndices := [] }

/-- An actor holding the stale collection under foliage type 10. -/
def StaleActor : AInstancedFoliageActor :=
  ⟨SampleActor.InstanceBaseCache, [(some 10, StaleMeshInfo)]⟩

/-- What a legacy archive of version 0 stores for an instance deleted from its cluster. -/
def SampleLegacyData : FLegacyInstanceData :=
  { Base := none
    Location := ⟨100, 0, 0⟩
    Rotation := ⟨0, 0, 0⟩
    DrawScale3D := ⟨1, 1, 1⟩
    OldClusterIndex := -1
    PreAlignRotation := ⟨0, 0, 0⟩
    Flags := 1
    ZOffset := 0
    ProceduralGuid := 0 }

/-- The instance a legacy reader starts from. -/
def SampleLegacyInstance : FFoliageInstance_Deprecated :=
  ⟨none, ⟨0, 0, 0⟩, ⟨0, 0, 0⟩, ⟨1, 1, 1⟩, ⟨0, 0, 0⟩, 0, 0, 0⟩

/-- A rotation engine for the samples: every rotator has the identity matrix, and the rotator
of every matrix is the zero rotator (the sample instances and bases are not rotated). -/
def SampleRotationEngine : FRotationEngine :=
  { FRotationMatrix := fun _ => 1
    FInverseRotationMatrix := fun _ => 1
    Rotator := fun _ => ⟨0, 0, 0⟩ }

/-- Component 7 after a move by `(100, 0, 0)`, rotation and scale as cached. -/
def SampleMovedComponent : UActorComponent := ⟨7, ⟨100, 0, 0⟩, ⟨0, 0, 0⟩, ⟨1, 1, 1⟩⟩

/-- The sample collection with index 0 in the selection set and an empty selection buffer in
the render component. -/
def SelectedMeshInfo : FFoliageMeshInfo :=
  { SampleMeshInfo with SelectedIndices := [0] }

/-- The sample collection with its last instance, at index 4, selected. -/
def LastSelectedMeshInfo : FFoliageMeshInfo :=
  { SampleMeshInfo with SelectedIndices := [4] }

/-- An actor that holds the sample collection twice: under the null foliage type and under
foliage type 10. -/
def NullKeyActor : AInstancedFoliageActor :=
  ⟨SampleActor.InstanceBaseCache, [(none, SampleMeshInfo), (some 10, SampleMeshInfo)]⟩

/-- Constants for the samples of the crash allocator: headers of 16 bytes, a large pool of two
megabytes, alignment 16, pages of 65536 bytes. -/
def SampleEnum : FMallocCrashEnum :=
  { PER_ALLOC_OVERHEAD := 16
    LARGE_MEMORYPOOL_SIZE := 2097152
    REQUIRED_ALIGNMENT := 16
    SafePageSize := 65536 }

/-- The crash allocator as its constructor leaves it for the sample constants, with the large
pool at address `1048576` and the small pool at address `4194304`, made the allocator of
thread 1. -/
def SampleMallocCrash : FMallocCrash :=
  ((FMallocCrash.new SampleEnum 1048576 4194304).getD ⟨0, 0, 0, 0, 0, [], []⟩).SetAsGMalloc 1

/-- An actor with two collections: the sample collection with index 0 selected, under foliage
type 10, and the collection of two instances with nothing selected, under foliage type 11. -/
def TwoMeshesActor : AInstancedFoliageActor :=
  ⟨SampleActor.InstanceBaseCache, [(some 10, SelectedMeshInfo), (some 11, TwoBasesMeshInfo)]⟩

/-! # Theorems -/

/-! ## Container lemmas -/

theorem TSet.mem_Add {s : List Nat} {x y : Nat} : y ∈ TSet.Add s x ↔ y ∈ s ∨ y = x := by
  unfold TSet.Add
  split
  · constructor
    · intro h; exact Or.inl h
    · rintro (h | h)
      · exact h
      · subst h; assumption
  · simp

theorem TSet.nodup_Add {s : List Nat} {x : Nat} (h : s.Nodup) : (TSet.Add s x).Nodup := by
  unfold TSet.Add
  split
  · exact h
  · rename_i hx
    exact List.nodup_append.2 ⟨h, List.nodup_singleton x, by
      intro a ha hb
      simp at hb
      subst hb
      exact hx ha⟩

theorem TSet.mem_Remove {s : List Nat} {x y : Nat} : y ∈ TSet.Remove s x ↔ y ∈ s ∧ y ≠ x := by
  simp [TSet.Remove]

theorem TSet.nodup_Remove {s : List Nat} {x : Nat} (h : s.Nodup) : (TSet.Remove s x).Nodup :=
  h.filter _

theorem TSet.Remove_of_not_mem {s : List Nat} {x : Nat} (h : x ∉ s) : TSet.Remove s x = s := by
  unfold TSet.Remove
  rw [List.filter_eq_self]
  intro a ha
  simp only [bne_iff_ne, ne_eq]
  rintro rfl
  exact h ha

theorem TSet.length_Remove {s : List Nat} {x : Nat} (h : s.Nodup) (hx : x ∈ s) :
    (TSet.Remove s x).length + 1 = s.length := by
  induction s with
  | nil => simp at hx
  | cons a t ih =>
    have hnd := List.nodup_cons.1 h
    by_cases hax : a = x
    · subst hax
      have : TSet.Remove (a :: t) a = t := by
        have h1 : TSet.Remove (a :: t) a = TSet.Remove t a := by simp [TSet.Remove]
        rw [h1, TSet.Remove_of_not_mem hnd.1]
      rw [this]; simp
    · have hxt : x ∈ t := by
        rcases List.mem_cons.1 hx with h1 | h1
        · exact absurd h1.symm hax
        · exact h1
      have : TSet.Remove (a :: t) x = a :: TSet.Remove t x := by
        simp [TSet.Remove, hax]
      rw [this]
      simp only [List.length_cons]
      rw [ih hnd.2 hxt]

theorem TSet.mem_foldl_Add (L : List Nat) (acc : List Nat) (y : Nat) :
    y ∈ L.foldl TSet.Add acc ↔ y ∈ acc ∨ y ∈ L := by
  induction L generalizing acc with
  | nil => simp
  | cons a t ih =>
    simp only [List.foldl_cons, ih, TSet.mem_Add, List.mem_cons]
    tauto

theorem TSet.nodup_foldl_Add (L : List Nat) (acc : List Nat) (h : acc.Nodup) :
    (L.foldl TSet.Add acc).Nodup := by
  induction L generalizing acc with
  | nil => simpa using h
  | cons a t ih => exact ih _ (TSet.nodup_Add h)

theorem TArray.RemoveAtSwap_concat {α : Type} (ys : List α) (l : α) (i : Nat) :
    TArray.RemoveAtSwap (ys ++ [l]) i = ys.set i l := by
  unfold TArray.RemoveAtSwap
  rw [List.getLast?_concat]
  simp only
  by_cases h : i < ys.length
  · rw [List.set_append_left _ _ h, List.dropLast_concat]
  · have h1 : ys.length ≤ i := Nat.le_of_not_lt h
    rw [List.set_append_right _ _ h1]
    have h2 : ys.set i l = ys := List.set_eq_of_length_le h1
    rw [h2]
    cases hk : i - ys.length with
    | zero => simp
    | succ k => simp

theorem TArray.length_RemoveAtSwap {α : Type} (xs : List α) (i : Nat) :
    (TArray.RemoveAtSwap xs i).length = xs.length - 1 := by
  rcases List.eq_nil_or_concat xs with h | ⟨ys, l, h⟩
  · subst h; simp [TArray.RemoveAtSwap]
  · subst h; rw [List.concat_eq_append, TArray.RemoveAtSwap_concat]; simp

/-! ## The removal loop, seen from the instance array -/

theorem FFoliageMeshInfo.RemoveFromBaseHash_eq (M : FFoliageMeshInfo) (i : Nat)
    (inst : FFoliageInstance) (h : M.Instances[i]? = some inst) :
    M.RemoveFromBaseHash i
      = some { M with ComponentHash := BaseHashRemoved M.ComponentHash inst.BaseId i } := by
  unfold FFoliageMeshInfo.RemoveFromBaseHash BaseHashRemoved
  rw [h]
  simp only
  cases hf : TMap.Find M.ComponentHash inst.BaseId with
  | none => simp
  | some s =>
    simp only
    split <;> rfl

theorem TArray.getElem?_RemoveAtSwap {α : Type} (xs : List α) (i j : Nat)
    (hi : i < xs.length) :
    (TArray.RemoveAtSwap xs i)[j]?
      = if j = xs.length - 1 then none else if j = i then xs[xs.length - 1]? else xs[j]? := by
  rcases List.eq_nil_or_concat xs with h | ⟨ys, l, h⟩
  · subst h; simp at hi
  rw [List.concat_eq_append] at h
  subst h
  rw [TArray.RemoveAtSwap_concat]
  have hlen : (ys ++ [l]).length - 1 = ys.length := by simp
  rw [hlen]
  simp only [List.length_append, List.length_singleton] at hi
  by_cases hj : j = ys.length
  · subst hj
    simp
  · rw [if_neg hj]
    by_cases hji : j = i
    · subst hji
      have hjl : j < ys.length := by omega
      rw [if_pos rfl, List.getElem?_set_self hjl]
      simp
    · rw [if_neg hji, List.getElem?_set_ne (Ne.symm hji)]
      by_cases hjl : j < ys.length
      · rw [List.getElem?_append_left hjl]
      · have h1 : ys.length ≤ j := by omega
        have h2 : (ys ++ [l]).length ≤ j := by
          simp only [List.length_append, List.length_singleton]; omega
        rw [List.getElem?_eq_none h1, List.getElem?_eq_none h2]

theorem FFoliageMeshInfo.RemoveInstancesPass_eq (M : FFoliageMeshInfo) (i : Nat) (rest : List Nat)
    (inst : FFoliageInstance) (C : UHierarchicalInstancedStaticMeshComponent)
    (last : FFoliageInstance)
    (h : M.Instances[i]? = some inst) (hC : M.Component = some C)
    (hlast : M.Instances[M.Instances.length - 1]? = some last) :
    M.RemoveInstancesPass (i :: rest)
        = some (PassResult M i inst C last, NextPending M.Instances.length (i :: rest) i) := by
  have hi : i < M.Instances.length := (List.getElem?_eq_some_iff.1 h).1
  have hlen := TArray.length_RemoveAtSwap M.Instances i
  unfold FFoliageMeshInfo.RemoveInstancesPass PassResult
  simp only [h, hC, FFoliageMeshInfo.RemoveFromBaseHash_eq M i inst h]
  by_cases hne : i ≠ M.Instances.length - 1
  · have hsw : i ≠ (TArray.RemoveAtSwap M.Instances i).length ∧
        (TArray.RemoveAtSwap M.Instances i).length ≠ 0 := by
      rw [hlen]; omega
    rw [if_pos hsw, if_pos hne]
    have hsw2 : (TArray.RemoveAtSwap M.Instances i)[i]? = some last := by
      rw [TArray.getElem?_RemoveAtSwap _ _ _ hi, if_neg hne, if_pos rfl, hlast]
    simp only [hsw2]
    have hP : NextPending M.Instances.length (i :: rest) i
        = TSet.Remove (i :: rest)
            (if (TArray.RemoveAtSwap M.Instances i).length ∈ i :: rest
              then (TArray.RemoveAtSwap M.Instances i).length else i) := by
      unfold NextPending
      rw [hlen]
      simp only [hne, ne_eq, not_false_eq_true, true_and]
      split <;> rfl
    rw [hP, hlen]
    rfl
  · have hsw : ¬ (i ≠ (TArray.RemoveAtSwap M.Instances i).length ∧
        (TArray.RemoveAtSwap M.Instances i).length ≠ 0) := by
      rw [hlen]; omega
    rw [if_neg hsw, if_neg hne]
    have hP : NextPending M.Instances.length (i :: rest) i = TSet.Remove (i :: rest) i := by
      unfold NextPending
      have : ¬ (i ≠ M.Instances.length - 1 ∧ M.Instances.length - 1 ∈ i :: rest) := by
        intro hh; exact hne hh.1
      rw [if_neg this]
    rw [hP]

theorem filterMap_range_congr {α : Type} (g g1 : Nat → Option α) (m : Nat)
    (h : ∀ j, j < m → g1 j = g j) : (List.range m).filterMap g1 = (List.range m).filterMap g := by
  induction m with
  | zero => rfl
  | succ k ih =>
    rw [List.range_succ, List.filterMap_append, List.filterMap_append,
      ih (fun j hj => h j (Nat.lt_succ_of_lt hj))]
    have hk := h k (Nat.lt_succ_self k)
    rw [List.filterMap_cons, List.filterMap_cons, hk]
    simp only [List.filterMap_nil]

theorem InstancesNotIn_concat {α : Type} (ys : List α) (l : α) (P : List Nat) :
    InstancesNotIn (ys ++ [l]) P
      = InstancesNotIn ys P ++ (if ys.length ∈ P then [] else [l]) := by
  unfold InstancesNotIn
  rw [List.length_append, List.length_singleton, List.range_succ, List.filterMap_append]
  congr 1
  · apply filterMap_range_congr
    intro j hj
    by_cases hp : j ∈ P
    · simp [hp]
    · simp only [hp, if_false]
      rw [List.getElem?_append_left hj]
  · by_cases hp : ys.length ∈ P
    · simp [hp]
    · simp [hp]

theorem InstancesNotIn_nil {α : Type} (xs : List α) : InstancesNotIn xs [] = xs := by
  induction xs using List.reverseRecOn with
  | nil => rfl
  | append_singleton ys l ih => rw [InstancesNotIn_concat, ih]; simp

theorem filterMap_range_update {α : Type} (g g1 : Nat → Option α) (i m : Nat) (l : α)
    (hi : i < m) (hgi : g i = none) (hg1i : g1 i = some l)
    (hagree : ∀ j, j ≠ i → g1 j = g j) :
    ((List.range m).filterMap g1).Perm ((List.range m).filterMap g ++ [l]) := by
  induction m with
  | zero => omega
  | succ k ih =>
    rw [List.range_succ, List.filterMap_append, List.filterMap_append]
    by_cases hik : i = k
    · subst hik
      rw [filterMap_range_congr g g1 i (fun j hj => hagree j (by omega))]
      simp [hgi, hg1i]
    · have hlt : i < k := by omega
      have h1 := ih hlt
      have h2 : List.filterMap g1 [k] = List.filterMap g [k] := by
        rw [List.filterMap_cons, List.filterMap_cons, hagree k (fun h => hik h.symm)]
        simp only [List.filterMap_nil]
      rw [h2]
      have e1 : ((List.range k).filterMap g ++ [l]) ++ List.filterMap g [k]
          = (List.range k).filterMap g ++ ([l] ++ List.filterMap g [k]) := List.append_assoc _ _ _
      have e2 : ((List.range k).filterMap g ++ List.filterMap g [k]) ++ [l]
          = (List.range k).filterMap g ++ (List.filterMap g [k] ++ [l]) := List.append_assoc _ _ _
      rw [e2]
      refine (List.Perm.append_right _ h1).trans ?_
      rw [e1]
      exact List.Perm.append_left _ List.perm_append_comm

/-- One pass keeps the multiset of the instances that are not pending. -/
theorem InstancesNotIn_pass {α : Type} (xs : List α) (P : List Nat) (i : Nat)
    (hiP : i ∈ P) (hr : ∀ j ∈ P, j < xs.length) :
    (InstancesNotIn (TArray.RemoveAtSwap xs i) (NextPending xs.length P i)).Perm
      (InstancesNotIn xs P) := by
  have hi : i < xs.length := hr i hiP
  rcases List.eq_nil_or_concat xs with h | ⟨ys, l, h⟩
  · subst h; simp at hi
  rw [List.concat_eq_append] at h
  subst h
  rw [TArray.RemoveAtSwap_concat, InstancesNotIn_concat]
  have hlen : (ys ++ [l]).length - 1 = ys.length := by simp
  simp only [List.length_append, List.length_singleton] at hi
  unfold NextPending
  rw [hlen]
  by_cases hlast : ys.length ∈ P
  · -- the last slot is pending: it is the one dropped from the pending set
    have hNP : (if i ≠ ys.length ∧ ys.length ∈ P then TSet.Remove P ys.length
        else TSet.Remove P i) = TSet.Remove P ys.length := by
      by_cases hil : i = ys.length
      · subst hil; simp
      · simp [hil, hlast]
    rw [hNP, if_pos hlast, List.append_nil]
    unfold InstancesNotIn
    rw [List.length_set]
    apply List.Perm.of_eq
    apply filterMap_range_congr
    intro j hj
    have hjm : j ∈ TSet.Remove P ys.length ↔ j ∈ P := by
      rw [TSet.mem_Remove]
      constructor
      · exact fun h => h.1
      · exact fun h => ⟨h, by omega⟩
    by_cases hjP : j ∈ P
    · simp [hjP, hjm]
    · have hji : i ≠ j := by rintro rfl; exact hjP hiP
      simp only [hjm, hjP, if_false]
      rw [List.getElem?_set_ne hji]
  · -- the last slot survives: it moves into slot `i`
    have hil : i ≠ ys.length := by rintro rfl; exact hlast hiP
    have hilt : i < ys.length := by omega
    have hNP : (if i ≠ ys.length ∧ ys.length ∈ P then TSet.Remove P ys.length
        else TSet.Remove P i) = TSet.Remove P i := by
      simp [hlast]
    rw [hNP, if_neg hlast]
    unfold InstancesNotIn
    rw [List.length_set]
    apply filterMap_range_update _ _ i ys.length l hilt
    · simp [hiP]
    · simp [TSet.mem_Remove, List.getElem?_set_self hilt]
    · intro j hj
      have hjm : j ∈ TSet.Remove P i ↔ j ∈ P := by
        rw [TSet.mem_Remove]
        constructor
        · exact fun h => h.1
        · exact fun h => ⟨h, hj⟩
      simp only [hjm]
      rw [List.getElem?_set_ne (Ne.symm hj)]

theorem NextPending_nodup {n : Nat} {P : List Nat} {i : Nat} (h : P.Nodup) :
    (NextPending n P i).Nodup := by
  unfold NextPending
  split <;> exact TSet.nodup_Remove h

theorem NextPending_length {n : Nat} {P : List Nat} {i : Nat} (h : P.Nodup) (hiP : i ∈ P) :
    (NextPending n P i).length + 1 = P.length := by
  unfold NextPending
  split
  · rename_i hc; exact TSet.length_Remove h hc.2
  · exact TSet.length_Remove h hiP

theorem NextPending_lt {n : Nat} {P : List Nat} {i : Nat}
    (hr : ∀ j ∈ P, j < n) : ∀ j ∈ NextPending n P i, j < n - 1 := by
  intro j hj
  unfold NextPending at hj
  split at hj
  · rw [TSet.mem_Remove] at hj
    have := hr j hj.1
    omega
  · rename_i hc
    rw [TSet.mem_Remove] at hj
    have h1 := hr j hj.1
    by_cases hjl : j = n - 1
    · subst hjl
      exfalso
      apply hc
      exact ⟨fun h => hj.2 h.symm, hj.1⟩
    · omega

theorem NextPending_subset {n : Nat} {P : List Nat} {i : Nat} :
    ∀ j ∈ NextPending n P i, j ∈ P := by
  intro j hj
  unfold NextPending at hj
  split at hj <;> exact (TSet.mem_Remove.1 hj).1

theorem PendingOK_pass (M : FFoliageMeshInfo) (i : Nat) (rest : List Nat)
    (h : PendingOK M (i :: rest)) :
    ∃ inst C last, M.Instances[i]? = some inst ∧ M.Component = some C ∧
      M.Instances[M.Instances.length - 1]? = some last ∧
      M.RemoveInstancesPass (i :: rest)
        = some (PassResult M i inst C last, NextPending M.Instances.length (i :: rest) i)
      ∧ (PassResult M i inst C last).Instances = TArray.RemoveAtSwap M.Instances i
      ∧ PendingOK (PassResult M i inst C last)
          (NextPending M.Instances.length (i :: rest) i) := by
  obtain ⟨hnd, hr, hC⟩ := h
  have hi : i < M.Instances.length := hr i (List.mem_cons_self _ _)
  obtain ⟨C, hC1⟩ := Option.isSome_iff_exists.1 hC
  have hl : M.Instances.length - 1 < M.Instances.length := by omega
  have h1 := FFoliageMeshInfo.RemoveInstancesPass_eq M i rest _ C _
    (List.getElem?_eq_getElem hi) hC1 (List.getElem?_eq_getElem hl)
  have hI : (PassResult M i M.Instances[i] C M.Instances[M.Instances.length - 1]).Instances
      = TArray.RemoveAtSwap M.Instances i := by
    unfold PassResult; simp only; split <;> rfl
  have hCo : (PassResult M i M.Instances[i] C
      M.Instances[M.Instances.length - 1]).Component.isSome = true := by
    unfold PassResult; simp only; split <;> rfl
  refine ⟨_, C, _, List.getElem?_eq_getElem hi, hC1, List.getElem?_eq_getElem hl, h1, hI,
    NextPending_nodup hnd, ?_, hCo⟩
  intro j hj
  rw [hI, TArray.length_RemoveAtSwap]
  exact NextPending_lt hr j hj

theorem PassResult_Instances (M : FFoliageMeshInfo) (i : Nat) (inst : FFoliageInstance)
    (C : UHierarchicalInstancedStaticMeshComponent) (last : FFoliageInstance) :
    (PassResult M i inst C last).Instances = TArray.RemoveAtSwap M.Instances i := by
  unfold PassResult; simp only; split <;> rfl

theorem PassResult_Component (M : FFoliageMeshInfo) (i : Nat) (inst : FFoliageInstance)
    (C : UHierarchicalInstancedStaticMeshComponent) (last : FFoliageInstance) :
    (PassResult M i inst C last).Component = some (C.RemoveInstance i) := by
  unfold PassResult; simp only; split <;> rfl

theorem PassResult_FoliageTypeUpdateGuid (M : FFoliageMeshInfo) (i : Nat)
    (inst : FFoliageInstance) (C : UHierarchicalInstancedStaticMeshComponent)
    (last : FFoliageInstance) :
    (PassResult M i inst C last).FoliageTypeUpdateGuid = M.FoliageTypeUpdateGuid := by
  unfold PassResult; simp only; split <;> rfl

/-- Induction principle for the loop of `RemoveInstances`: a relation between collection and
pending set that every pass keeps holds, with an empty pending set, for the collection the
loop returns; the loop does return when it is allowed one pass per pending index. -/
theorem RemoveInstancesLoop_induction (R : FFoliageMeshInfo → List Nat → Prop)
    (hstep : ∀ (M : FFoliageMeshInfo) (i : Nat) (rest : List Nat) (inst : FFoliageInstance)
      (C : UHierarchicalInstancedStaticMeshComponent) (last : FFoliageInstance),
      PendingOK M (i :: rest) → R M (i :: rest) →
      M.Instances[i]? = some inst → M.Component = some C →
      M.Instances[M.Instances.length - 1]? = some last →
      R (PassResult M i inst C last) (NextPending M.Instances.length (i :: rest) i)) :
    ∀ (fuel : Nat) (M : FFoliageMeshInfo) (P : List Nat),
      PendingOK M P → P.length ≤ fuel → R M P →
      ∃ M1, FFoliageMeshInfo.RemoveInstancesLoop fuel M P = some M1 ∧ R M1 [] := by
  intro fuel
  induction fuel with
  | zero =>
    intro M P _ hlen hR
    cases P with
    | nil => exact ⟨M, rfl, hR⟩
    | cons i rest => simp at hlen
  | succ k ih =>
    intro M P hok hlen hR
    cases P with
    | nil => exact ⟨M, rfl, hR⟩
    | cons i rest =>
      obtain ⟨inst, C, last, e1, e2, e3, h1, _, h3⟩ := PendingOK_pass M i rest hok
      have hR1 := hstep M i rest inst C last hok hR e1 e2 e3
      have hl := NextPending_length (n := M.Instances.length) hok.1 (List.mem_cons_self i rest)
      have hlen1 : (NextPending M.Instances.length (i :: rest) i).length ≤ k := by
        simp only [List.length_cons] at hlen hl
        omega
      obtain ⟨M2, h4, h5⟩ := ih _ _ h3 hlen1 hR1
      refine ⟨M2, ?_, h5⟩
      show (match FFoliageMeshInfo.RemoveInstancesPass M (i :: rest) with
        | none => none
        | some (M1, Pending) => FFoliageMeshInfo.RemoveInstancesLoop k M1 Pending) = some M2
      rw [h1]
      exact h4

/-- Entry into the loop: `RemoveInstances` on a list of in-range indices. -/
theorem RemoveInstances_induction (R : FFoliageMeshInfo → List Nat → Prop)
    (hstep : ∀ (M : FFoliageMeshInfo) (i : Nat) (rest : List Nat) (inst : FFoliageInstance)
      (C : UHierarchicalInstancedStaticMeshComponent) (last : FFoliageInstance),
      PendingOK M (i :: rest) → R M (i :: rest) →
      M.Instances[i]? = some inst → M.Component = some C →
      M.Instances[M.Instances.length - 1]? = some last →
      R (PassResult M i inst C last) (NextPending M.Instances.length (i :: rest) i))
    (M : FFoliageMeshInfo) (L : List Nat)
    (hL : ∀ i ∈ L, i < M.Instances.length)
    (hC : M.Instances ≠ [] → M.Component.isSome = true)
    (hR : R M (L.foldl TSet.Add [])) :
    ∃ M1, M.RemoveInstances L = some M1 ∧ R M1 [] := by
  unfold FFoliageMeshInfo.RemoveInstances
  cases L with
  | nil => exact ⟨M, by simp, hR⟩
  | cons a t =>
    have ha : a < M.Instances.length := hL a (List.mem_cons_self _ _)
    have hne : M.Instances ≠ [] := by
      intro h; rw [h] at ha; simp at ha
    have hC1 := hC hne
    obtain ⟨C, hC2⟩ := Option.isSome_iff_exists.1 hC1
    have hok : PendingOK M ((a :: t).foldl TSet.Add []) := by
      refine ⟨TSet.nodup_foldl_Add _ _ List.nodup_nil, ?_, hC1⟩
      intro j hj
      rw [TSet.mem_foldl_Add] at hj
      rcases hj with hj | hj
      · simp at hj
      · exact hL j hj
    obtain ⟨M1, h1, h2⟩ :=
      RemoveInstancesLoop_induction R hstep _ M _ hok (Nat.le_refl _) hR
    refine ⟨M1, ?_, h2⟩
    simp only [List.length_cons, Nat.succ_ne_zero, if_false, hC2]
    exact h1

theorem InstancesNotIn_congr {α : Type} (xs : List α) (P Q : List Nat)
    (h : ∀ j, j ∈ P ↔ j ∈ Q) : InstancesNotIn xs P = InstancesNotIn xs Q := by
  unfold InstancesNotIn
  apply filterMap_range_congr
  intro j _
  by_cases hj : j ∈ Q
  · simp [hj, (h j).2 hj]
  · have : j ∉ P := fun hp => hj ((h j).1 hp)
    simp [hj, this]

theorem length_foldl_Add (L : List Nat) : (L.foldl TSet.Add []).length = L.dedup.length := by
  apply List.Perm.length_eq
  rw [List.perm_ext_iff_of_nodup (TSet.nodup_foldl_Add _ _ List.nodup_nil) (List.nodup_dedup L)]
  intro a
  rw [TSet.mem_foldl_Add, List.mem_dedup]
  simp

/-- The array part of what `RemoveInstances` does, for any list of in-range indices. -/
theorem RemoveInstances_array (M : FFoliageMeshInfo) (L : List Nat)
    (hL : ∀ i ∈ L, i < M.Instances.length)
    (hC : M.Instances ≠ [] → M.Component.isSome = true) :
    ∃ M1, M.RemoveInstances L = some M1 ∧
      M1.Instances.length + L.dedup.length = M.Instances.length ∧
      M1.Instances.Perm (InstancesNotIn M.Instances L) := by
  let R : FFoliageMeshInfo → List Nat → Prop := fun N P =>
    N.Instances.length + L.dedup.length = M.Instances.length + P.length ∧
    (InstancesNotIn N.Instances P).Perm (InstancesNotIn M.Instances L)
  have hstep : ∀ (N : FFoliageMeshInfo) (i : Nat) (rest : List Nat) (inst : FFoliageInstance)
      (C : UHierarchicalInstancedStaticMeshComponent) (last : FFoliageInstance),
      PendingOK N (i :: rest) → R N (i :: rest) →
      N.Instances[i]? = some inst → N.Component = some C →
      N.Instances[N.Instances.length - 1]? = some last →
      R (PassResult N i inst C last) (NextPending N.Instances.length (i :: rest) i) := by
    intro N i rest inst C last hok hR _ _ _
    have hI := PassResult_Instances N i inst C last
    have hi : i < N.Instances.length := hok.2.1 i (List.mem_cons_self _ _)
    constructor
    · have hl := NextPending_length (n := N.Instances.length) hok.1 (List.mem_cons_self i rest)
      rw [hI, TArray.length_RemoveAtSwap]
      have h0 : N.Instances.length + L.dedup.length
          = M.Instances.length + (i :: rest).length := hR.1
      omega
    · rw [hI]
      exact (InstancesNotIn_pass N.Instances (i :: rest) i (List.mem_cons_self _ _)
        hok.2.1).trans hR.2
  have hR0 : R M (L.foldl TSet.Add []) := by
    constructor
    · rw [length_foldl_Add]
    · apply List.Perm.of_eq
      apply InstancesNotIn_congr
      intro j
      rw [TSet.mem_foldl_Add]
      simp
  obtain ⟨M1, h1, h2, h3⟩ := RemoveInstances_induction R hstep M L hL hC hR0
  refine ⟨M1, h1, ?_, ?_⟩
  · simpa using h2
  · simpa [InstancesNotIn_nil] using h3

/-! ## Map lemmas -/

theorem TMap.Find_Add {κ ν : Type} [DecidableEq κ] (m : List (κ × ν)) (k k1 : κ) (v : ν) :
    TMap.Find (TMap.Add m k v) k1 = if k1 = k then some v else TMap.Find m k1 := by
  induction m with
  | nil =>
    by_cases h : k1 = k
    · subst h; simp [TMap.Add, TMap.Find]
    · have h2 : ¬ k = k1 := fun e => h e.symm
      simp [TMap.Add, TMap.Find, h, h2]
  | cons p rest ih =>
    unfold TMap.Add
    by_cases hp : p.1 = k
    · rw [if_pos hp]
      by_cases h : k1 = k
      · subst h; simp [TMap.Find]
      · have h2 : ¬ k = k1 := fun e => h e.symm
        have h3 : ¬ p.1 = k1 := by rw [hp]; exact h2
        simp [TMap.Find, h, h2, h3]
    · rw [if_neg hp]
      by_cases h3 : p.1 = k1
      · have h : ¬ k1 = k := by rw [← h3]; exact hp
        simp [TMap.Find, h3, h]
      · simp only [TMap.Find, h3, if_false]
        exact ih

theorem TMap.Find_Remove {κ ν : Type} [DecidableEq κ] (m : List (κ × ν)) (k k1 : κ) :
    TMap.Find (TMap.Remove m k) k1 = if k1 = k then none else TMap.Find m k1 := by
  induction m with
  | nil => simp [TMap.Remove, TMap.Find]
  | cons p rest ih =>
    unfold TMap.Remove at ih ⊢
    by_cases hp : p.1 = k
    · have hf : List.filter (fun p => decide (p.1 ≠ k)) (p :: rest)
          = List.filter (fun p => decide (p.1 ≠ k)) rest := by
        simp [List.filter_cons, hp]
      rw [hf, ih]
      by_cases h : k1 = k
      · simp [h]
      · have h3 : ¬ p.1 = k1 := by rw [hp]; exact fun e => h e.symm
        simp [TMap.Find, h, h3]
    · have hf : List.filter (fun p => decide (p.1 ≠ k)) (p :: rest)
          = p :: List.filter (fun p => decide (p.1 ≠ k)) rest := by
        simp [List.filter_cons, hp]
      rw [hf]
      by_cases h3 : p.1 = k1
      · have h : ¬ k1 = k := by rw [← h3]; exact hp
        simp [TMap.Find, h3, h]
      · simp only [TMap.Find, h3, if_false]
        exact ih

theorem TMap.Find_append {κ ν : Type} [DecidableEq κ] (m l : List (κ × ν)) (k : κ) :
    TMap.Find (m ++ l) k
      = match TMap.Find m k with
        | some v => some v
        | none => TMap.Find l k := by
  induction m with
  | nil => simp [TMap.Find]
  | cons p rest ih =>
    by_cases hp : p.1 = k
    · simp [TMap.Find, hp]
    · simp only [List.cons_append, TMap.Find, hp, if_false]
      exact ih

theorem TMap.Find_eq_none_iff {κ ν : Type} [DecidableEq κ] (m : List (κ × ν)) (k : κ) :
    TMap.Find m k = none ↔ k ∉ TMap.Keys m := by
  induction m with
  | nil => simp [TMap.Find, TMap.Keys]
  | cons p rest ih =>
    by_cases hp : p.1 = k
    · simp [TMap.Find, TMap.Keys, hp]
    · have hp2 : ¬ k = p.1 := fun e => hp e.symm
      simp only [TMap.Find, hp, if_false, ih, TMap.Keys, List.map_cons, List.mem_cons, hp2,
        false_or]

theorem TMap.mem_iff_Find {κ ν : Type} [DecidableEq κ] (m : List (κ × ν)) (k : κ) (v : ν)
    (hnd : (TMap.Keys m).Nodup) : (k, v) ∈ m ↔ TMap.Find m k = some v := by
  induction m with
  | nil => simp [TMap.Find]
  | cons p rest ih =>
    have hnd1 := List.nodup_cons.1 (by simpa [TMap.Keys] using hnd : (p.1 :: rest.map Prod.fst).Nodup)
    by_cases hp : p.1 = k
    · have hnot : (k, v) ∉ rest := by
        intro hm
        apply hnd1.1
        rw [hp]
        exact List.mem_map.2 ⟨(k, v), hm, rfl⟩
      simp only [List.mem_cons, hnot, or_false, TMap.Find, hp, if_true, Option.some.injEq]
      constructor
      · intro h; rw [← h]
      · intro h; rw [← h, ← hp]
    · have hne : (k, v) ≠ p := by
        intro e; apply hp; rw [← e]
      simp only [List.mem_cons, hne, false_or, TMap.Find, hp, if_false]
      exact ih hnd1.2

theorem TMap.Keys_Add_nodup {κ ν : Type} [DecidableEq κ] (m : List (κ × ν)) (k : κ) (v : ν)
    (hnd : (TMap.Keys m).Nodup) : (TMap.Keys (TMap.Add m k v)).Nodup := by
  induction m with
  | nil => simp [TMap.Add, TMap.Keys]
  | cons p rest ih =>
    have hnd1 := List.nodup_cons.1 (by simpa [TMap.Keys] using hnd : (p.1 :: rest.map Prod.fst).Nodup)
    unfold TMap.Add
    by_cases hp : p.1 = k
    · rw [if_pos hp]
      simp only [TMap.Keys, List.map_cons]
      rw [← hp]
      exact List.nodup_cons.2 hnd1
    · rw [if_neg hp]
      simp only [TMap.Keys, List.map_cons]
      refine List.nodup_cons.2 ⟨?_, ih hnd1.2⟩
      intro hm
      have h1 : TMap.Find (TMap.Add rest k v) p.1 ≠ none := by
        rw [Ne, TMap.Find_eq_none_iff]
        exact fun h => h hm
      rw [TMap.Find_Add, if_neg hp] at h1
      rw [Ne, TMap.Find_eq_none_iff] at h1
      exact h1 hnd1.1

theorem TMap.Keys_Remove_nodup {κ ν : Type} [DecidableEq κ] (m : List (κ × ν)) (k : κ)
    (hnd : (TMap.Keys m).Nodup) : (TMap.Keys (TMap.Remove m k)).Nodup := by
  unfold TMap.Keys TMap.Remove at *
  exact (List.filter_sublist m).map Prod.fst |>.nodup hnd

theorem TMap.Keys_append_nodup {κ ν : Type} [DecidableEq κ] (m : List (κ × ν)) (k : κ) (v : ν)
    (hnd : (TMap.Keys m).Nodup) (hk : TMap.Find m k = none) :
    (TMap.Keys (m ++ [(k, v)])).Nodup := by
  rw [TMap.Find_eq_none_iff] at hk
  unfold TMap.Keys at *
  rw [List.map_append]
  refine List.nodup_append.2 ⟨hnd, by simp, ?_⟩
  intro a ha hb
  simp at hb
  subst hb
  exact hk ha

/-! ## Base-index map lemmas -/

theorem InBase_BaseHashRemoved (m : List (Nat × List Nat)) (b0 i b j : Nat) :
    InBase (BaseHashRemoved m b0 i) b j ↔ InBase m b j ∧ ¬ (b = b0 ∧ j = i) := by
  unfold BaseHashRemoved InBase
  cases hf : TMap.Find m b0 with
  | none =>
    simp only
    constructor
    · rintro ⟨s, h1, h2⟩
      refine ⟨⟨s, h1, h2⟩, ?_⟩
      rintro ⟨rfl, _⟩
      rw [hf] at h1; cases h1
    · rintro ⟨h, _⟩; exact h
  | some s0 =>
    simp only
    by_cases hb : b = b0
    · subst hb
      split
      · rename_i hlen
        rw [TMap.Find_Remove, if_pos rfl]
        constructor
        · rintro ⟨s, h1, _⟩; cases h1
        · rintro ⟨⟨s, h1, h2⟩, hji⟩
          exfalso
          have hs : s0 = s := Option.some.inj (hf.symm.trans h1)
          subst hs
          have hmem : j ∈ TSet.Remove s0 i :=
            TSet.mem_Remove.2 ⟨h2, fun e => hji ⟨rfl, e⟩⟩
          rw [List.length_eq_zero] at hlen
          rw [hlen] at hmem
          simp at hmem
      · rw [TMap.Find_Add]
        simp only [if_true, Option.some.injEq, exists_eq_left', hf, true_and]
        rw [TSet.mem_Remove]
    · have key : ∀ m1 : List (Nat × List Nat), TMap.Find m1 b = TMap.Find m b →
          ((∃ s, TMap.Find m1 b = some s ∧ j ∈ s) ↔
            (∃ s, TMap.Find m b = some s ∧ j ∈ s) ∧ ¬ (b = b0 ∧ j = i)) := by
        intro m1 h1
        rw [h1]
        constructor
        · intro h; exact ⟨h, fun hh => hb hh.1⟩
        · intro h; exact h.1
      split
      · apply key; rw [TMap.Find_Remove, if_neg hb]
      · apply key; rw [TMap.Find_Add, if_neg hb]

theorem Find_BaseHashRemoved_of_ne (m : List (Nat × List Nat)) (b0 i b : Nat) (hb : b ≠ b0) :
    TMap.Find (BaseHashRemoved m b0 i) b = TMap.Find m b := by
  unfold BaseHashRemoved
  cases hf : TMap.Find m b0 with
  | none => rfl
  | some s0 =>
    simp only
    split
    · rw [TMap.Find_Remove, if_neg hb]
    · rw [TMap.Find_Add, if_neg hb]

theorem Find_BaseHashRemoved_none (m : List (Nat × List Nat)) (b0 i b : Nat)
    (h : TMap.Find m b = none) : TMap.Find (BaseHashRemoved m b0 i) b = none := by
  by_cases hb : b = b0
  · subst hb
    unfold BaseHashRemoved
    rw [h]
    exact h
  · rw [Find_BaseHashRemoved_of_ne m b0 i b hb, h]

theorem Keys_BaseHashRemoved (m : List (Nat × List Nat)) (b0 i : Nat)
    (h : (TMap.Keys m).Nodup) : (TMap.Keys (BaseHashRemoved m b0 i)).Nodup := by
  unfold BaseHashRemoved
  cases hf : TMap.Find m b0 with
  | none => exact h
  | some s0 =>
    simp only
    split
    · exact TMap.Keys_Remove_nodup m b0 h
    · exact TMap.Keys_Add_nodup m b0 _ h

theorem SetsNodup_BaseHashRemoved (m : List (Nat × List Nat)) (b0 i : Nat)
    (h : SetsNodup m) : SetsNodup (BaseHashRemoved m b0 i) := by
  intro b s hs
  by_cases hb : b = b0
  · subst hb
    unfold BaseHashRemoved at hs
    cases hf : TMap.Find m b with
    | none => rw [hf] at hs; simp only at hs; rw [hf] at hs; cases hs
    | some s0 =>
      rw [hf] at hs
      simp only at hs
      split at hs
      · rw [TMap.Find_Remove] at hs; simp at hs
      · rw [TMap.Find_Add] at hs
        simp only [if_true, Option.some.injEq] at hs
        rw [← hs]
        exact TSet.nodup_Remove (h b s0 hf)
  · rw [Find_BaseHashRemoved_of_ne m b0 i b hb] at hs
    exact h b s hs

theorem InBase_BaseHashRenumbered (m : List (Nat × List Nat)) (b0 last i b j : Nat)
    (hsome : TMap.Find m b0 ≠ none) :
    InBase (BaseHashRenumbered m b0 last i) b j
      ↔ (InBase m b j ∧ ¬ (b = b0 ∧ j = last)) ∨ (b = b0 ∧ j = i) := by
  unfold BaseHashRenumbered InBase
  cases hf : TMap.Find m b0 with
  | none => exact absurd hf hsome
  | some s0 =>
    simp only
    rw [TMap.Find_Add]
    by_cases hb : b = b0
    · subst hb
      simp only [if_true, Option.some.injEq, exists_eq_left', hf, true_and]
      rw [TSet.mem_Add, TSet.mem_Remove]
    · rw [if_neg hb]
      simp [hb]

theorem Find_BaseHashRenumbered_none (m : List (Nat × List Nat)) (b0 last i b : Nat)
    (h : TMap.Find m b = none) : TMap.Find (BaseHashRenumbered m b0 last i) b = none := by
  unfold BaseHashRenumbered
  cases hf : TMap.Find m b0 with
  | none => exact h
  | some s0 =>
    simp only
    rw [TMap.Find_Add]
    by_cases hb : b = b0
    · subst hb; rw [hf] at h; cases h
    · rw [if_neg hb]; exact h

theorem Keys_BaseHashRenumbered (m : List (Nat × List Nat)) (b0 last i : Nat)
    (h : (TMap.Keys m).Nodup) : (TMap.Keys (BaseHashRenumbered m b0 last i)).Nodup := by
  unfold BaseHashRenumbered
  cases hf : TMap.Find m b0 with
  | none => exact h
  | some s0 => exact TMap.Keys_Add_nodup m b0 _ h

theorem SetsNodup_BaseHashRenumbered (m : List (Nat × List Nat)) (b0 last i : Nat)
    (h : SetsNodup m) : SetsNodup (BaseHashRenumbered m b0 last i) := by
  intro b s hs
  unfold BaseHashRenumbered at hs
  cases hf : TMap.Find m b0 with
  | none => rw [hf] at hs; exact h b s hs
  | some s0 =>
    rw [hf] at hs
    simp only at hs
    rw [TMap.Find_Add] at hs
    by_cases hb : b = b0
    · subst hb
      simp only [if_true, Option.some.injEq] at hs
      rw [← hs]
      exact TSet.nodup_Add (TSet.nodup_Remove (h b s0 hf))
    · rw [if_neg hb] at hs
      exact h b s hs

theorem InBase_BaseHashAdded (m : List (Nat × List Nat)) (b0 i b j : Nat) :
    InBase (BaseHashAdded m b0 i) b j ↔ InBase m b j ∨ (b = b0 ∧ j = i) := by
  unfold BaseHashAdded InBase
  cases hf : TMap.Find m b0 with
  | none =>
    simp only
    rw [TMap.Find_append]
    by_cases hb : b = b0
    · subst hb
      simp [hf, TMap.Find, TSet.Add]
    · have hb2 : ¬ b0 = b := fun e => hb e.symm
      cases hfb : TMap.Find m b with
      | none => simp [TMap.Find, hb, hb2]
      | some s => simp [hb]
  | some s0 =>
    simp only
    rw [TMap.Find_Add]
    by_cases hb : b = b0
    · subst hb
      simp only [if_true, Option.some.injEq, exists_eq_left', hf, true_and]
      rw [TSet.mem_Add]
    · rw [if_neg hb]
      simp [hb]

theorem Keys_BaseHashAdded (m : List (Nat × List Nat)) (b0 i : Nat)
    (h : (TMap.Keys m).Nodup) : (TMap.Keys (BaseHashAdded m b0 i)).Nodup := by
  unfold BaseHashAdded
  cases hf : TMap.Find m b0 with
  | none => exact TMap.Keys_append_nodup m b0 _ h hf
  | some s0 => exact TMap.Keys_Add_nodup m b0 _ h

theorem SetsNodup_BaseHashAdded (m : List (Nat × List Nat)) (b0 i : Nat)
    (h : SetsNodup m) : SetsNodup (BaseHashAdded m b0 i) := by
  intro b s hs
  unfold BaseHashAdded at hs
  cases hf : TMap.Find m b0 with
  | none =>
    rw [hf] at hs
    simp only at hs
    rw [TMap.Find_append] at hs
    cases hfb : TMap.Find m b with
    | none =>
      rw [hfb] at hs
      simp only [TMap.Find] at hs
      split at hs
      · cases hs; exact TSet.nodup_Add List.nodup_nil
      · cases hs
    | some s1 =>
      rw [hfb] at hs
      cases hs
      exact h b s hfb
  | some s0 =>
    rw [hf] at hs
    simp only at hs
    rw [TMap.Find_Add] at hs
    by_cases hb : b = b0
    · subst hb
      simp only [if_true, Option.some.injEq] at hs
      rw [← hs]
      exact TSet.nodup_Add (h b s0 hf)
    · rw [if_neg hb] at hs
      exact h b s hs

/-! ## Spatial hash lemmas -/

theorem FFoliageInstanceHash.mem_InsertInstance (H : FFoliageInstanceHash) (L : FVector)
    (Idx : Nat) (e : (Int × Int × Int) × Nat) :
    e ∈ (H.InsertInstance L Idx).CellMap ↔ e ∈ H.CellMap ∨ e = (HashCell L, Idx) := by
  unfold FFoliageInstanceHash.InsertInstance
  split
  · rename_i h
    constructor
    · exact fun h1 => Or.inl h1
    · rintro (h1 | h1)
      · exact h1
      · rw [h1]; exact h
  · simp

theorem FFoliageInstanceHash.nodup_InsertInstance (H : FFoliageInstanceHash) (L : FVector)
    (Idx : Nat) (h : H.CellMap.Nodup) : (H.InsertInstance L Idx).CellMap.Nodup := by
  unfold FFoliageInstanceHash.InsertInstance
  split
  · exact h
  · rename_i hx
    refine List.nodup_append.2 ⟨h, List.nodup_singleton _, ?_⟩
    intro a ha hb
    simp at hb
    subst hb
    exact hx ha

theorem FFoliageInstanceHash.mem_RemoveInstance (H : FFoliageInstanceHash) (L : FVector)
    (Idx : Nat) (e : (Int × Int × Int) × Nat) :
    e ∈ (H.RemoveInstance L Idx).CellMap ↔ e ∈ H.CellMap ∧ e ≠ (HashCell L, Idx) := by
  simp [FFoliageInstanceHash.RemoveInstance]

theorem FFoliageInstanceHash.nodup_RemoveInstance (H : FFoliageInstanceHash) (L : FVector)
    (Idx : Nat) (h : H.CellMap.Nodup) : (H.RemoveInstance L Idx).CellMap.Nodup :=
  h.filter _

theorem exists_some_and {α : Type} (a : α) (P : α → Prop) :
    (∃ I, some a = some I ∧ P I) ↔ P a := by
  constructor
  · rintro ⟨I, h1, h2⟩
    cases h1
    exact h2
  · intro h; exact ⟨a, rfl, h⟩

theorem exists_none_and {α : Type} (P : α → Prop) :
    (∃ I, (none : Option α) = some I ∧ P I) ↔ False := by
  constructor
  · rintro ⟨I, h1, _⟩; cases h1
  · exact False.elim

/-- One pass keeps the spatial hash consistent with the instance array. -/
theorem HashRel_pass (M : FFoliageMeshInfo) (i : Nat) (inst : FFoliageInstance)
    (C : UHierarchicalInstancedStaticMeshComponent) (last : FFoliageInstance)
    (hH : HashRel M.Instances M.InstanceHash.CellMap)
    (h : M.Instances[i]? = some inst)
    (hlast : M.Instances[M.Instances.length - 1]? = some last) :
    HashRel (PassResult M i inst C last).Instances
      (PassResult M i inst C last).InstanceHash.CellMap := by
  have hi : i < M.Instances.length := (List.getElem?_eq_some_iff.1 h).1
  rw [PassResult_Instances]
  obtain ⟨hnd, hmem⟩ := hH
  unfold PassResult
  simp only
  by_cases hne : i ≠ M.Instances.length - 1
  · rw [if_pos hne]
    simp only
    refine ⟨FFoliageInstanceHash.nodup_InsertInstance _ _ _
      (FFoliageInstanceHash.nodup_RemoveInstance _ _ _
        (FFoliageInstanceHash.nodup_RemoveInstance _ _ _ hnd)), ?_⟩
    intro c j
    rw [FFoliageInstanceHash.mem_InsertInstance, FFoliageInstanceHash.mem_RemoveInstance,
      FFoliageInstanceHash.mem_RemoveInstance, hmem, TArray.getElem?_RemoveAtSwap _ _ _ hi]
    simp only [ne_eq, Prod.mk.injEq]
    by_cases hj1 : j = M.Instances.length - 1
    · subst hj1
      rw [if_pos rfl, hlast, exists_some_and, exists_none_and]
      tauto
    · rw [if_neg hj1]
      by_cases hji : j = i
      · subst hji
        rw [if_pos rfl, h, hlast, exists_some_and, exists_some_and]
        tauto
      · rw [if_neg hji]
        generalize (∃ I, M.Instances[j]? = some I ∧ c = HashCell I.Location) = Q
        tauto
  · rw [if_neg hne]
    simp only
    have hie : i = M.Instances.length - 1 := by omega
    refine ⟨FFoliageInstanceHash.nodup_RemoveInstance _ _ _ hnd, ?_⟩
    intro c j
    rw [FFoliageInstanceHash.mem_RemoveInstance, hmem, TArray.getElem?_RemoveAtSwap _ _ _ hi]
    simp only [ne_eq, Prod.mk.injEq]
    by_cases hj1 : j = M.Instances.length - 1
    · have hji : j = i := by omega
      subst hji
      rw [if_pos hj1, h, exists_some_and, exists_none_and]
      tauto
    · have hji : j ≠ i := by omega
      rw [if_neg hj1, if_neg hji]
      generalize (∃ I, M.Instances[j]? = some I ∧ c = HashCell I.Location) = Q
      tauto

theorem getElem?_concat_eq {α : Type} (xs : List α) (a : α) (j : Nat) :
    (xs ++ [a])[j]? = if j = xs.length then some a else xs[j]? := by
  by_cases hj : j < xs.length
  · have : j ≠ xs.length := by omega
    rw [List.getElem?_append_left hj, if_neg this]
  · by_cases hje : j = xs.length
    · subst hje; simp
    · have h1 : xs.length ≤ j := by omega
      have h2 : (xs ++ [a]).length ≤ j := by
        simp only [List.length_append, List.length_singleton]; omega
      rw [if_neg hje, List.getElem?_eq_none h1, List.getElem?_eq_none h2]

/-- Appending an instance and inserting its location keeps the spatial hash consistent. -/
theorem HashRel_add (xs : List FFoliageInstance) (H : FFoliageInstanceHash)
    (I : FFoliageInstance) (hH : HashRel xs H.CellMap) :
    HashRel (xs ++ [I]) (H.InsertInstance I.Location xs.length).CellMap := by
  obtain ⟨hnd, hmem⟩ := hH
  refine ⟨FFoliageInstanceHash.nodup_InsertInstance _ _ _ hnd, ?_⟩
  intro c j
  rw [FFoliageInstanceHash.mem_InsertInstance, hmem, getElem?_concat_eq]
  simp only [Prod.mk.injEq]
  by_cases hj : j = xs.length
  · subst hj
    rw [if_pos rfl, List.getElem?_eq_none (Nat.le_refl _), exists_some_and, exists_none_and]
    tauto
  · rw [if_neg hj]
    generalize (∃ I, xs[j]? = some I ∧ c = HashCell I.Location) = Q
    tauto

/-- One pass keeps the base-index map consistent with the instance array (on the bases
satisfying `keep`). -/
theorem BaseRel_pass (keep : Nat → Prop) (M : FFoliageMeshInfo) (i : Nat)
    (inst : FFoliageInstance) (C : UHierarchicalInstancedStaticMeshComponent)
    (last : FFoliageInstance)
    (hB : BaseRel keep M.Instances M.ComponentHash)
    (h : M.Instances[i]? = some inst)
    (hlast : M.Instances[M.Instances.length - 1]? = some last) :
    BaseRel keep (PassResult M i inst C last).Instances
      (PassResult M i inst C last).ComponentHash := by
  have hi : i < M.Instances.length := (List.getElem?_eq_some_iff.1 h).1
  rw [PassResult_Instances]
  obtain ⟨hkeys, hsets, hnone, hrel⟩ := hB
  unfold PassResult
  simp only
  by_cases hne : i ≠ M.Instances.length - 1
  · rw [if_pos hne]
    simp only
    refine ⟨Keys_BaseHashRenumbered _ _ _ _ (Keys_BaseHashRemoved _ _ _ hkeys),
      SetsNodup_BaseHashRenumbered _ _ _ _ (SetsNodup_BaseHashRemoved _ _ _ hsets),
      fun b hb => Find_BaseHashRenumbered_none _ _ _ _ _
        (Find_BaseHashRemoved_none _ _ _ _ (hnone b hb)), ?_⟩
    intro b j hkb
    by_cases hk : keep last.BaseId
    · have hin : InBase (BaseHashRemoved M.ComponentHash inst.BaseId i) last.BaseId
          (M.Instances.length - 1) :=
        (InBase_BaseHashRemoved _ _ _ _ _).2
          ⟨(hrel _ _ hk).2 ⟨last, hlast, rfl⟩, fun hh => hne hh.2.symm⟩
      have hsome : TMap.Find (BaseHashRemoved M.ComponentHash inst.BaseId i) last.BaseId
          ≠ none := by
        obtain ⟨s, hs, _⟩ := hin
        rw [hs]; exact Option.some_ne_none s
      rw [InBase_BaseHashRenumbered _ _ _ _ _ _ hsome, InBase_BaseHashRemoved, hrel b j hkb,
        TArray.getElem?_RemoveAtSwap _ _ _ hi]
      by_cases hj1 : j = M.Instances.length - 1
      · subst hj1
        rw [if_pos rfl, hlast, exists_some_and, exists_none_and]
        tauto
      · rw [if_neg hj1]
        by_cases hji : j = i
        · subst hji
          rw [if_pos rfl, h, hlast, exists_some_and, exists_some_and]
          tauto
        · rw [if_neg hji]
          generalize (∃ I, M.Instances[j]? = some I ∧ b = I.BaseId) = Q
          tauto
    · have hfn : TMap.Find (BaseHashRemoved M.ComponentHash inst.BaseId i) last.BaseId
          = none := Find_BaseHashRemoved_none _ _ _ _ (hnone _ hk)
      have hsame : BaseHashRenumbered (BaseHashRemoved M.ComponentHash inst.BaseId i)
          last.BaseId (M.Instances.length - 1) i
          = BaseHashRemoved M.ComponentHash inst.BaseId i := by
        unfold BaseHashRenumbered
        rw [hfn]
      have hbl : b ≠ last.BaseId := by
        rintro rfl; exact hk hkb
      rw [hsame, InBase_BaseHashRemoved, hrel b j hkb, TArray.getElem?_RemoveAtSwap _ _ _ hi]
      by_cases hj1 : j = M.Instances.length - 1
      · subst hj1
        rw [if_pos rfl, hlast, exists_some_and, exists_none_and]
        tauto
      · rw [if_neg hj1]
        by_cases hji : j = i
        · subst hji
          rw [if_pos rfl, h, hlast, exists_some_and, exists_some_and]
          tauto
        · rw [if_neg hji]
          generalize (∃ I, M.Instances[j]? = some I ∧ b = I.BaseId) = Q
          tauto
  · rw [if_neg hne]
    simp only
    have hie : i = M.Instances.length - 1 := by omega
    refine ⟨Keys_BaseHashRemoved _ _ _ hkeys, SetsNodup_BaseHashRemoved _ _ _ hsets,
      fun b hb => Find_BaseHashRemoved_none _ _ _ _ (hnone b hb), ?_⟩
    intro b j hkb
    rw [InBase_BaseHashRemoved, hrel b j hkb, TArray.getElem?_RemoveAtSwap _ _ _ hi]
    by_cases hj1 : j = M.Instances.length - 1
    · have hji : j = i := by omega
      subst hji
      rw [if_pos hj1, h, exists_some_and, exists_none_and]
      tauto
    · have hji : j ≠ i := by omega
      rw [if_neg hj1, if_neg hji]
      generalize (∃ I, M.Instances[j]? = some I ∧ b = I.BaseId) = Q
      tauto

/-- Appending an instance and registering its index keeps the base-index map consistent. -/
theorem BaseRel_add (keep : Nat → Prop) (xs : List FFoliageInstance)
    (m : List (Nat × List Nat)) (I : FFoliageInstance) (hk : keep I.BaseId)
    (hB : BaseRel keep xs m) :
    BaseRel keep (xs ++ [I]) (BaseHashAdded m I.BaseId xs.length) := by
  obtain ⟨hkeys, hsets, hnone, hrel⟩ := hB
  refine ⟨Keys_BaseHashAdded _ _ _ hkeys, SetsNodup_BaseHashAdded _ _ _ hsets, ?_, ?_⟩
  · intro b hb
    have hbI : b ≠ I.BaseId := by rintro rfl; exact hb hk
    have h1 := hnone b hb
    unfold BaseHashAdded
    cases hf : TMap.Find m I.BaseId with
    | none =>
      simp only
      rw [TMap.Find_append, h1]
      simp only [TMap.Find]
      rw [if_neg (fun e => hbI e.symm)]
    | some s0 =>
      simp only
      rw [TMap.Find_Add, if_neg hbI, h1]
  · intro b j hkb
    rw [InBase_BaseHashAdded, hrel b j hkb, getElem?_concat_eq]
    by_cases hj : j = xs.length
    · subst hj
      rw [if_pos rfl, List.getElem?_eq_none (Nat.le_refl _), exists_some_and, exists_none_and]
      tauto
    · rw [if_neg hj]
      generalize (∃ I, xs[j]? = some I ∧ b = I.BaseId) = Q
      tauto

/-! ## The decidable and the membership forms of consistency -/

theorem mem_enum_map {β : Type} (xs : List FFoliageInstance) (f : FFoliageInstance → β)
    (c : β) (j : Nat) :
    (c, j) ∈ xs.enum.map (fun p => (f p.2, p.1)) ↔ ∃ I, xs[j]? = some I ∧ c = f I := by
  rw [List.mem_map]
  constructor
  · rintro ⟨⟨k, I⟩, hm, he⟩
    simp only [Prod.mk.injEq] at he
    obtain ⟨h1, h2⟩ := he
    subst h2
    exact ⟨I, List.mk_mem_enum_iff_getElem?.1 hm, h1.symm⟩
  · rintro ⟨I, h1, h2⟩
    exact ⟨(j, I), List.mk_mem_enum_iff_getElem?.2 h1, by rw [h2]⟩

theorem nodup_enum_map {β : Type} (xs : List FFoliageInstance) (f : FFoliageInstance → β) :
    (xs.enum.map (fun p => (f p.2, p.1))).Nodup := by
  apply List.Nodup.of_map Prod.snd
  rw [List.map_map]
  have : (Prod.snd ∘ fun p : Nat × FFoliageInstance => (f p.2, p.1)) = Prod.fst := by
    funext p; rfl
  rw [this, List.enum_map_fst]
  exact List.nodup_range _

theorem length_enum_map {β : Type} (xs : List FFoliageInstance) (f : FFoliageInstance → β) :
    (xs.enum.map (fun p => (f p.2, p.1))).length = xs.length := by
  rw [List.length_map, ← List.length_map xs.enum Prod.fst, List.enum_map_fst, List.length_range]

theorem HashConsistent_iff (M : FFoliageMeshInfo) :
    HashConsistent M ↔ HashRel M.Instances M.InstanceHash.CellMap := by
  unfold HashConsistent HashRel
  have hN := nodup_enum_map M.Instances (fun I => HashCell I.Location)
  have hM := mem_enum_map M.Instances (fun I => HashCell I.Location)
  constructor
  · intro hp
    refine ⟨(hp.nodup_iff).2 hN, ?_⟩
    intro c j
    rw [hp.mem_iff]
    exact hM c j
  · rintro ⟨hnd, hmem⟩
    rw [List.perm_ext_iff_of_nodup hnd hN]
    rintro ⟨c, j⟩
    rw [hmem]
    exact (hM c j).symm

theorem mem_BaseHashEntries (m : List (Nat × List Nat)) (hk : (TMap.Keys m).Nodup)
    (b j : Nat) : (b, j) ∈ BaseHashEntries m ↔ InBase m b j := by
  unfold BaseHashEntries InBase
  rw [List.mem_flatMap]
  constructor
  · rintro ⟨⟨b1, s⟩, hm, hj⟩
    rw [List.mem_map] at hj
    obtain ⟨k, hk1, hk2⟩ := hj
    simp only [Prod.mk.injEq] at hk2
    obtain ⟨h1, h2⟩ := hk2
    subst h1 h2
    exact ⟨s, (TMap.mem_iff_Find m _ s hk).1 hm, hk1⟩
  · rintro ⟨s, hs, hj⟩
    exact ⟨(b, s), (TMap.mem_iff_Find m b s hk).2 hs, List.mem_map.2 ⟨j, hj, rfl⟩⟩

theorem nodup_BaseHashEntries_iff (m : List (Nat × List Nat)) (hk : (TMap.Keys m).Nodup) :
    (BaseHashEntries m).Nodup ↔ SetsNodup m := by
  unfold BaseHashEntries SetsNodup
  rw [List.nodup_flatMap]
  constructor
  · rintro ⟨h1, _⟩ b s hs
    have hm := (TMap.mem_iff_Find m b s hk).2 hs
    have := h1 (b, s) hm
    exact List.Nodup.of_map _ this
  · intro h
    constructor
    · rintro ⟨b, s⟩ hm
      have hs := h b s ((TMap.mem_iff_Find m b s hk).1 hm)
      exact hs.map (fun x y hxy => (Prod.mk.inj hxy).2)
    · have hkp : List.Pairwise (fun p q : Nat × List Nat => p.1 ≠ q.1) m := by
        have := hk
        unfold TMap.Keys at this
        rw [List.Nodup, List.pairwise_map] at this
        exact this
      refine hkp.imp ?_
      intro p q hpq
      intro x hx hy
      simp only [List.mem_map] at hx hy
      obtain ⟨j1, _, e1⟩ := hx
      obtain ⟨j2, _, e2⟩ := hy
      rw [← e2] at e1
      exact hpq (Prod.mk.inj e1).1

theorem BaseHashConsistent_iff (M : FFoliageMeshInfo) :
    BaseHashConsistent M ↔ BaseRel (fun _ => True) M.Instances M.ComponentHash := by
  unfold BaseHashConsistent BaseRel
  constructor
  · rintro ⟨hk, hp⟩
    have hnd : (BaseHashEntries M.ComponentHash).Nodup := (hp.nodup_iff).2 (nodup_enum_map _ _)
    refine ⟨hk, (nodup_BaseHashEntries_iff _ hk).1 hnd, fun b hb => absurd trivial hb, ?_⟩
    intro b j _
    rw [← mem_BaseHashEntries _ hk, hp.mem_iff, mem_enum_map]
  · rintro ⟨hk, hs, _, hrel⟩
    refine ⟨hk, ?_⟩
    rw [List.perm_ext_iff_of_nodup ((nodup_BaseHashEntries_iff _ hk).2 hs) (nodup_enum_map _ _)]
    rintro ⟨b, j⟩
    rw [mem_BaseHashEntries _ hk, hrel b j trivial, mem_enum_map]

theorem ComponentHashTotal_eq (M : FFoliageMeshInfo) :
    ComponentHashTotal M = (BaseHashEntries M.ComponentHash).length := by
  unfold ComponentHashTotal BaseHashEntries
  rw [List.length_flatMap]
  congr 1
  apply List.map_congr_left
  intro p _
  simp

/-- In a well-formed collection the four counts agree. -/
theorem WellFormed_counts (M : FFoliageMeshInfo) (h : WellFormed M) :
    M.Instances.length = ComponentHashTotal M ∧
    M.Instances.length = InstanceHashTotal M ∧
    M.Instances.length = ComponentInstanceCount M := by
  obtain ⟨hH, hB, hC⟩ := h
  refine ⟨?_, ?_, ?_⟩
  · rw [ComponentHashTotal_eq, hB.2.length_eq, length_enum_map]
  · unfold InstanceHashTotal
    rw [List.Perm.length_eq hH]
    exact (length_enum_map M.Instances (fun I => HashCell I.Location)).symm
  · unfold ComponentInstanceCount
    unfold ComponentConsistent at hC
    cases hc : M.Component with
    | none => rw [hc] at hC; simp only at hC; rw [hC]; rfl
    | some C => rw [hc] at hC; simp only at hC ⊢; rw [hC, List.length_map]

/-! ## Well-formedness is kept by every operation -/

theorem FFoliageMeshInfo.AddInstance_eq (M : FFoliageMeshInfo) (S : UFoliageType)
    (I : FFoliageInstance) : M.AddInstance S I = some (AddResult M I) := by
  unfold FFoliageMeshInfo.AddInstance FFoliageMeshInfo.AddToBaseHash AddResult BaseHashAdded
  have h1 : (M.Instances ++ [I])[M.Instances.length]? = some I := by
    rw [getElem?_concat_eq, if_pos rfl]
  simp only [h1]
  cases hf : TMap.Find M.ComponentHash I.BaseId <;> rfl

theorem TArray.RemoveAtSwap_map {α β : Type} (f : α → β) (xs : List α) (i : Nat) :
    TArray.RemoveAtSwap (xs.map f) i = (TArray.RemoveAtSwap xs i).map f := by
  rcases List.eq_nil_or_concat xs with h | ⟨ys, l, h⟩
  · subst h; rfl
  rw [List.concat_eq_append] at h
  subst h
  rw [List.map_append, List.map_singleton, TArray.RemoveAtSwap_concat,
    TArray.RemoveAtSwap_concat]
  apply List.ext_getElem?
  intro j
  rw [List.getElem?_map, List.getElem?_set, List.getElem?_set, List.length_map,
    List.getElem?_map]
  by_cases hij : i = j
  · simp only [hij, if_true]
    split <;> rfl
  · simp only [hij, if_false]

theorem ComponentConsistent_pass (M : FFoliageMeshInfo) (i : Nat) (inst : FFoliageInstance)
    (C : UHierarchicalInstancedStaticMeshComponent) (last : FFoliageInstance)
    (hC : M.Component = some C) (h : ComponentConsistent M) :
    ComponentConsistent (PassResult M i inst C last) := by
  unfold ComponentConsistent at h ⊢
  rw [hC] at h
  simp only at h
  rw [PassResult_Component, PassResult_Instances]
  simp only [UHierarchicalInstancedStaticMeshComponent.RemoveInstance]
  rw [h, TArray.RemoveAtSwap_map]

/-- The membership form of well-formedness. -/
theorem WellFormed_iff (M : FFoliageMeshInfo) :
    WellFormed M ↔ HashRel M.Instances M.InstanceHash.CellMap ∧
      BaseRel (fun _ => True) M.Instances M.ComponentHash ∧ ComponentConsistent M := by
  unfold WellFormed
  rw [HashConsistent_iff, BaseHashConsistent_iff]

theorem WellFormed_new : WellFormed FFoliageMeshInfo.new := by decide

theorem WellFormed_AddResult (M : FFoliageMeshInfo) (I : FFoliageInstance)
    (h : WellFormed M) : WellFormed (AddResult M I) := by
  rw [WellFormed_iff] at h ⊢
  obtain ⟨hH, hB, hC⟩ := h
  refine ⟨HashRel_add _ _ _ hH, BaseRel_add _ _ _ _ trivial hB, ?_⟩
  unfold ComponentConsistent at hC ⊢
  unfold AddResult
  simp only [UHierarchicalInstancedStaticMeshComponent.AddInstanceWorldSpace]
  cases hc : M.Component with
  | none =>
    rw [hc] at hC
    simp only at hC
    rw [hC]
    rfl
  | some C =>
    rw [hc] at hC
    simp only at hC ⊢
    rw [hC, List.map_append, List.map_singleton]

theorem WellFormed_Component (M : FFoliageMeshInfo) (h : WellFormed M) :
    M.Instances ≠ [] → M.Component.isSome = true := by
  intro hne
  have hC := h.2.2
  unfold ComponentConsistent at hC
  cases hc : M.Component with
  | none => rw [hc] at hC; exact absurd hC hne
  | some C => rfl

/-- On in-range indices `RemoveInstances` returns and keeps the collection well-formed. -/
theorem WellFormed_RemoveInstances (M : FFoliageMeshInfo) (L : List Nat)
    (hL : ∀ i ∈ L, i < M.Instances.length) (h : WellFormed M) :
    ∃ M1, M.RemoveInstances L = some M1 ∧ WellFormed M1 := by
  apply RemoveInstances_induction (fun N _ => WellFormed N) _ M L hL
    (WellFormed_Component M h) h
  intro N i rest inst C last _ hR e1 e2 e3
  rw [WellFormed_iff] at hR ⊢
  exact ⟨HashRel_pass N i inst C last hR.1 e1 e3, BaseRel_pass _ N i inst C last hR.2.1 e1 e3,
    ComponentConsistent_pass N i inst C last e2 hR.2.2⟩

theorem WellFormed_DuplicateInstances (S : UFoliageType) (L : List Nat) :
    ∀ (M : FFoliageMeshInfo), (∀ i ∈ L, i < M.Instances.length) → WellFormed M →
      ∃ M1, M.DuplicateInstances S L = some M1 ∧ WellFormed M1 ∧
        M.Instances.length ≤ M1.Instances.length := by
  induction L with
  | nil => intro M _ h; exact ⟨M, rfl, h, Nat.le_refl _⟩
  | cons a t ih =>
    intro M hL h
    have ha : a < M.Instances.length := hL a (List.mem_cons_self _ _)
    have hlen : (AddResult M M.Instances[a]).Instances.length = M.Instances.length + 1 := by
      simp [AddResult]
    obtain ⟨M1, h1, h2, h3⟩ := ih (AddResult M M.Instances[a])
      (fun i hi => by rw [hlen]; exact Nat.lt_succ_of_lt (hL i (List.mem_cons_of_mem _ hi)))
      (WellFormed_AddResult M _ h)
    refine ⟨M1, ?_, h2, by omega⟩
    unfold FFoliageMeshInfo.DuplicateInstances
    rw [List.getElem?_eq_getElem ha]
    simp only [FFoliageMeshInfo.AddInstance_eq]
    exact h1

theorem WellFormed_ReAddInstances (S : UFoliageType) (Old : List FFoliageInstance) :
    ∀ (M : FFoliageMeshInfo), WellFormed M →
      ∃ M1, M.ReAddInstances S Old = some M1 ∧ WellFormed M1 := by
  induction Old with
  | nil => intro M h; exact ⟨M, rfl, h⟩
  | cons I t ih =>
    intro M h
    unfold FFoliageMeshInfo.ReAddInstances
    split
    · simp only [FFoliageMeshInfo.AddInstance_eq]
      exact ih _ (WellFormed_AddResult M I h)
    · exact ih M h

theorem WellFormed_empty (g : Nat) :
    WellFormed ⟨none, g, [], ⟨[]⟩, [], []⟩ := by
  refine ⟨?_, ⟨?_, ?_⟩, ?_⟩
  · exact List.Perm.refl _
  · exact List.nodup_nil
  · exact List.Perm.refl _
  · rfl

theorem WellFormed_ReallocateClusters (M : FFoliageMeshInfo) (S : UFoliageType) :
    ∃ M1, M.ReallocateClusters S = some M1 ∧ WellFormed M1 := by
  unfold FFoliageMeshInfo.ReallocateClusters
  apply WellFormed_ReAddInstances
  exact WellFormed_empty _

/-- Every operation on in-range indices returns and keeps the collection well-formed. -/
theorem WellFormed_Apply (M : FFoliageMeshInfo) (op : MeshOp) (h : WellFormed M)
    (hr : op.InRange M) : ∃ M1, op.Apply M = some M1 ∧ WellFormed M1 := by
  cases op with
  | Add S I => exact ⟨_, FFoliageMeshInfo.AddInstance_eq M S I, WellFormed_AddResult M I h⟩
  | Remove L => exact WellFormed_RemoveInstances M L hr h
  | Duplicate S L =>
    obtain ⟨M1, h1, h2, _⟩ := WellFormed_DuplicateInstances S L M hr h
    exact ⟨M1, h1, h2⟩
  | Reallocate S => exact WellFormed_ReallocateClusters M S

theorem Reachable_WellFormed (M : FFoliageMeshInfo) (h : Reachable M) : WellFormed M := by
  induction h with
  | empty => exact WellFormed_new
  | step M op M1 _ hr ha ih =>
    obtain ⟨M2, h1, h2⟩ := WellFormed_Apply M op ih hr
    rw [ha] at h1
    cases h1
    exact h2

theorem Reachable_AddResult (M : FFoliageMeshInfo) (I : FFoliageInstance) (h : Reachable M) :
    Reachable (AddResult M I) :=
  Reachable.step M (MeshOp.Add (UFoliageType.new 0) I) (AddResult M I) h trivial
    (FFoliageMeshInfo.AddInstance_eq M (UFoliageType.new 0) I)

theorem Reachable_SampleTwo : Reachable SampleTwo :=
  Reachable_AddResult _ _ (Reachable_AddResult _ _ Reachable.empty)

/-! ## Spatial queries -/

theorem sq_le_sq_bound (d w : Int) (hw : 0 ≤ w) (h : d * d ≤ w * w) : -w ≤ d ∧ d ≤ w := by
  constructor
  · by_contra hc
    have h1 : d < -w := by omega
    nlinarith
  · by_contra hc
    have h1 : w < d := by omega
    nlinarith

/-- A point that passes the sphere re-test lies in the bounding box of the sphere. -/
theorem FSphere.IsInside_BuildAABB (p : FVector) (S : FSphere)
    (h : (FSphere.mk p 0).IsInside S = true) :
    (FBox.BuildAABB S.Center ⟨S.W, S.W, S.W⟩).IsInside p = true := by
  unfold FSphere.IsInside at h
  simp only [Bool.and_eq_true, decide_eq_true_eq, FVector.sub, FVector.SizeSquared,
    sub_zero] at h
  obtain ⟨hw, hd⟩ := h
  have hx : (p.X - S.Center.X) * (p.X - S.Center.X) ≤ S.W * S.W := by nlinarith [mul_self_nonneg (p.Y - S.Center.Y), mul_self_nonneg (p.Z - S.Center.Z)]
  have hy : (p.Y - S.Center.Y) * (p.Y - S.Center.Y) ≤ S.W * S.W := by nlinarith [mul_self_nonneg (p.X - S.Center.X), mul_self_nonneg (p.Z - S.Center.Z)]
  have hz : (p.Z - S.Center.Z) * (p.Z - S.Center.Z) ≤ S.W * S.W := by nlinarith [mul_self_nonneg (p.X - S.Center.X), mul_self_nonneg (p.Y - S.Center.Y)]
  have bx := sq_le_sq_bound _ _ hw hx
  have bY := sq_le_sq_bound _ _ hw hy
  have bz := sq_le_sq_bound _ _ hw hz
  unfold FBox.IsInside FBox.BuildAABB FVector.sub FVector.add
  simp only [Bool.and_eq_true, decide_eq_true_eq]
  refine ⟨⟨⟨⟨⟨?_, ?_⟩, ?_⟩, ?_⟩, ?_⟩, ?_⟩ <;> omega

/-- The cell of a point of a box is among the cells the box touches. -/
theorem CellTouchesBox_of_IsInside (B : FBox) (p : FVector) (h : B.IsInside p = true) :
    CellTouchesBox B (HashCell p) = true := by
  unfold FBox.IsInside at h
  simp only [Bool.and_eq_true, decide_eq_true_eq] at h
  obtain ⟨⟨⟨⟨⟨h1, h2⟩, h3⟩, h4⟩, h5⟩, h6⟩ := h
  have hc : (0 : Int) < HashCellSize := by decide
  unfold CellTouchesBox HashCell
  simp only [Bool.and_eq_true, decide_eq_true_eq]
  exact ⟨⟨⟨⟨⟨Int.ediv_le_ediv hc h1, Int.ediv_le_ediv hc h2⟩, Int.ediv_le_ediv hc h3⟩,
    Int.ediv_le_ediv hc h4⟩, Int.ediv_le_ediv hc h5⟩, Int.ediv_le_ediv hc h6⟩

theorem FFoliageMeshInfo.CollectInsideSphere_eq (M : FFoliageMeshInfo) (Sphere : FSphere) :
    ∀ (Temp Out : List Nat), (∀ j ∈ Temp, j < M.Instances.length) →
      M.CollectInsideSphere Sphere Temp Out
        = some (Out ++ Temp.filter (InsideSphereAt M Sphere)) := by
  intro Temp
  induction Temp with
  | nil => intro Out _; simp [FFoliageMeshInfo.CollectInsideSphere]
  | cons a t ih =>
    intro Out hr
    have ha : a < M.Instances.length := hr a (List.mem_cons_self _ _)
    have ht : ∀ j ∈ t, j < M.Instances.length := fun j hj => hr j (List.mem_cons_of_mem _ hj)
    unfold FFoliageMeshInfo.CollectInsideSphere
    rw [List.getElem?_eq_getElem ha]
    simp only
    have hq : InsideSphereAt M Sphere a = (FSphere.mk M.Instances[a].Location 0).IsInside Sphere := by
      unfold InsideSphereAt
      rw [List.getElem?_eq_getElem ha]
    by_cases hin : (FSphere.mk M.Instances[a].Location 0).IsInside Sphere = true
    · rw [if_pos hin, ih _ ht, List.filter_cons, hq, hin]
      simp
    · rw [if_neg hin, ih _ ht, List.filter_cons, hq]
      simp [hin]

/-- What the box query returns on a consistent hash: no index twice, only indices of the
array, and every index whose cell the box touches. -/
theorem GetInstancesOverlappingBox_spec (M : FFoliageMeshInfo) (B : FBox)
    (h : HashConsistent M) :
    (M.InstanceHash.GetInstancesOverlappingBox B).Nodup ∧
    ∀ j, j ∈ M.InstanceHash.GetInstancesOverlappingBox B ↔
      ∃ I, M.Instances[j]? = some I ∧ CellTouchesBox B (HashCell I.Location) = true := by
  have hrel := (HashConsistent_iff M).1 h
  unfold FFoliageInstanceHash.GetInstancesOverlappingBox
  constructor
  · have h1 : (M.InstanceHash.CellMap.map Prod.snd).Nodup := by
      have hp : (M.InstanceHash.CellMap.map Prod.snd).Perm
          ((M.Instances.enum.map (fun p => (HashCell p.2.Location, p.1))).map Prod.snd) :=
        List.Perm.map _ h
      rw [hp.nodup_iff, List.map_map]
      have : (Prod.snd ∘ fun p : Nat × FFoliageInstance => (HashCell p.2.Location, p.1))
          = Prod.fst := by funext p; rfl
      rw [this, List.enum_map_fst]
      exact List.nodup_range _
    exact ((List.filter_sublist _).map Prod.snd).nodup h1
  · intro j
    rw [List.mem_map]
    constructor
    · rintro ⟨⟨c, k⟩, hm, he⟩
      simp only at he
      subst he
      rw [List.mem_filter] at hm
      obtain ⟨I, hI, hc⟩ := (hrel.2 c k).1 hm.1
      refine ⟨I, hI, ?_⟩
      rw [← hc]; exact hm.2
    · rintro ⟨I, hI, ht⟩
      refine ⟨(HashCell I.Location, j), ?_, rfl⟩
      rw [List.mem_filter]
      exact ⟨(hrel.2 _ j).2 ⟨I, hI, rfl⟩, ht⟩

/-- On a consistent hash `GetInstancesInsideSphere` returns, and appends each index that
passes the re-test once and no other index. -/
theorem GetInstancesInsideSphere_spec (M : FFoliageMeshInfo) (Sphere : FSphere)
    (Out : List Nat) (h : HashConsistent M) :
    ∃ found, M.GetInstancesInsideSphere Sphere Out = some (Out ++ found) ∧ found.Nodup ∧
      ∀ i, i ∈ found ↔
        ∃ I, M.Instances[i]? = some I ∧ (FSphere.mk I.Location 0).IsInside Sphere = true := by
  obtain ⟨hnd, hmem⟩ := GetInstancesOverlappingBox_spec M
    (FBox.BuildAABB Sphere.Center ⟨Sphere.W, Sphere.W, Sphere.W⟩) h
  have hr : ∀ j ∈ M.InstanceHash.GetInstancesOverlappingBox
      (FBox.BuildAABB Sphere.Center ⟨Sphere.W, Sphere.W, Sphere.W⟩),
      j < M.Instances.length := by
    intro j hj
    obtain ⟨I, hI, _⟩ := (hmem j).1 hj
    exact (List.getElem?_eq_some_iff.1 hI).1
  refine ⟨_, FFoliageMeshInfo.CollectInsideSphere_eq M Sphere _ Out hr, hnd.filter _, ?_⟩
  intro i
  rw [List.mem_filter, hmem]
  unfold InsideSphereAt
  constructor
  · rintro ⟨⟨I, hI, _⟩, hq⟩
    rw [hI] at hq
    exact ⟨I, hI, hq⟩
  · rintro ⟨I, hI, hq⟩
    refine ⟨⟨I, hI, CellTouchesBox_of_IsInside _ _ (FSphere.IsInside_BuildAABB _ _ hq)⟩, ?_⟩
    rw [hI]
    exact hq

theorem FFoliageMeshInfo.AnyOverlapExcluding_spec (M : FFoliageMeshInfo) (t : Nat)
    (Sphere : FSphere) (E : List Nat) :
    ∀ (Temp : List Nat), (∀ j ∈ Temp, j < M.Instances.length) →
      ∃ res, M.AnyOverlapExcluding t Sphere E Temp = some res ∧
        (res = true ↔ ∃ j ∈ Temp, j ≠ t ∧ j ∉ E ∧ InsideSphereAt M Sphere j = true) := by
  intro Temp
  induction Temp with
  | nil =>
    intro _
    exact ⟨false, rfl, by simp⟩
  | cons a rest ih =>
    intro hr
    have ha : a < M.Instances.length := hr a (List.mem_cons_self _ _)
    obtain ⟨res, h1, h2⟩ := ih (fun j hj => hr j (List.mem_cons_of_mem _ hj))
    have hq : InsideSphereAt M Sphere a
        = (FSphere.mk M.Instances[a].Location 0).IsInside Sphere := by
      unfold InsideSphereAt
      rw [List.getElem?_eq_getElem ha]
    unfold FFoliageMeshInfo.AnyOverlapExcluding
    by_cases hc : a ≠ t ∧ a ∉ E
    · rw [if_pos hc, List.getElem?_eq_getElem ha]
      simp only
      by_cases hin : (FSphere.mk M.Instances[a].Location 0).IsInside Sphere = true
      · rw [if_pos hin]
        refine ⟨true, rfl, ?_⟩
        simp only [true_iff]
        exact ⟨a, List.mem_cons_self _ _, hc.1, hc.2, by rw [hq]; exact hin⟩
      · rw [if_neg hin]
        refine ⟨res, h1, ?_⟩
        rw [h2]
        constructor
        · rintro ⟨j, hj, hrest⟩
          exact ⟨j, List.mem_cons_of_mem _ hj, hrest⟩
        · rintro ⟨j, hj, h3, h4, h5⟩
          rcases List.mem_cons.1 hj with hja | hjr
          · subst hja
            rw [hq] at h5
            exact absurd h5 hin
          · exact ⟨j, hjr, h3, h4, h5⟩
    · rw [if_neg hc]
      refine ⟨res, h1, ?_⟩
      rw [h2]
      constructor
      · rintro ⟨j, hj, hrest⟩
        exact ⟨j, List.mem_cons_of_mem _ hj, hrest⟩
      · rintro ⟨j, hj, h3, h4, h5⟩
        rcases List.mem_cons.1 hj with hja | hjr
        · subst hja
          exact absurd ⟨h3, h4⟩ hc
        · exact ⟨j, hjr, h3, h4, h5⟩

/-- On a consistent hash the overlap test returns, and says whether some other, not excluded instance
lies inside the sphere around the tested one. -/
theorem CheckForOverlappingInstanceExcluding_spec (M : FFoliageMeshInfo) (t : Nat)
    (Radius : Int) (E : List Nat) (h : HashConsistent M) (T : FFoliageInstance)
    (ht : M.Instances[t]? = some T) :
    ∃ res, M.CheckForOverlappingInstanceExcluding t Radius E = some res ∧
      (res = true ↔ ∃ j I, j ≠ t ∧ j ∉ E ∧ M.Instances[j]? = some I ∧
        (FSphere.mk I.Location 0).IsInside ⟨T.Location, Radius⟩ = true) := by
  obtain ⟨_, hmem⟩ := GetInstancesOverlappingBox_spec M
    (FBox.BuildAABB T.Location ⟨Radius, Radius, Radius⟩) h
  have hr : ∀ j ∈ M.InstanceHash.GetInstancesOverlappingBox
      (FBox.BuildAABB T.Location ⟨Radius, Radius, Radius⟩), j < M.Instances.length := by
    intro j hj
    obtain ⟨I, hI, _⟩ := (hmem j).1 hj
    exact (List.getElem?_eq_some_iff.1 hI).1
  obtain ⟨res, h1, h2⟩ :=
    FFoliageMeshInfo.AnyOverlapExcluding_spec M t ⟨T.Location, Radius⟩ E _ hr
  refine ⟨res, ?_, ?_⟩
  · unfold FFoliageMeshInfo.CheckForOverlappingInstanceExcluding
    rw [ht]
    exact h1
  · rw [h2]
    constructor
    · rintro ⟨j, hj, h3, h4, h5⟩
      obtain ⟨I, hI, _⟩ := (hmem j).1 hj
      refine ⟨j, I, h3, h4, hI, ?_⟩
      unfold InsideSphereAt at h5
      rw [hI] at h5
      exact h5
    · rintro ⟨j, I, h3, h4, hI, h5⟩
      refine ⟨j, (hmem j).2 ⟨I, hI, CellTouchesBox_of_IsInside _ _
        (FSphere.IsInside_BuildAABB _ ⟨T.Location, Radius⟩ h5)⟩, h3, h4, ?_⟩
      unfold InsideSphereAt
      rw [hI]
      exact h5

theorem AddInstances_spec (S : UFoliageType) (insts : List FFoliageInstance) :
    ∀ (M : FFoliageMeshInfo), WellFormed M →
      ∃ M1, AddInstances M S insts = some M1 ∧ M1.Instances = M.Instances ++ insts ∧
        WellFormed M1 := by
  induction insts with
  | nil => intro M h; exact ⟨M, rfl, by simp, h⟩
  | cons I t ih =>
    intro M h
    obtain ⟨M1, h1, h2, h3⟩ := ih (AddResult M I) (WellFormed_AddResult M I h)
    refine ⟨M1, ?_, ?_, h3⟩
    · unfold AddInstances
      simp only [FFoliageMeshInfo.AddInstance_eq]
      exact h1
    · rw [h2]
      simp [AddResult]

theorem mem_of_mem_InstancesNotIn {α : Type} (xs : List α) (P : List Nat) (a : α)
    (h : a ∈ InstancesNotIn xs P) : a ∈ xs := by
  unfold InstancesNotIn at h
  rw [List.mem_filterMap] at h
  obtain ⟨j, _, hj⟩ := h
  split at hj
  · cases hj
  · obtain ⟨hlt, he⟩ := List.getElem?_eq_some_iff.1 hj
    rw [← he]
    exact List.getElem_mem hlt

/-! ## Deleting the instances of a base -/

theorem InstancesNotIn_eq_filter {α : Type} (q : α → Bool) :
    ∀ (xs : List α) (P : List Nat),
      (∀ j a, xs[j]? = some a → (j ∈ P ↔ q a = true)) →
      InstancesNotIn xs P = xs.filter (fun a => !q a) := by
  intro xs
  induction xs using List.reverseRecOn with
  | nil => intro P _; rfl
  | append_singleton ys l ih =>
    intro P h
    have hys : ∀ j a, ys[j]? = some a → (j ∈ P ↔ q a = true) := by
      intro j a hj
      apply h j a
      rw [List.getElem?_append_left (List.getElem?_eq_some_iff.1 hj).1]
      exact hj
    have hl : ys.length ∈ P ↔ q l = true := by
      apply h
      rw [getElem?_concat_eq, if_pos rfl]
    rw [InstancesNotIn_concat, ih P hys, List.filter_append]
    congr 1
    by_cases hq : q l = true
    · rw [if_pos (hl.2 hq)]
      simp [hq]
    · rw [if_neg (fun hp => hq (hl.1 hp))]
      simp [hq]

/-- In a well-formed collection the set stored under base `b` is the set of the indices
whose instance has `BaseId = b`. -/
theorem WellFormed_Find (M : FFoliageMeshInfo) (h : WellFormed M) (b : Nat) (s : List Nat)
    (hs : TMap.Find M.ComponentHash b = some s) :
    ∀ j I, M.Instances[j]? = some I → (j ∈ s ↔ I.BaseId = b) := by
  have hB := ((WellFormed_iff M).1 h).2.1
  intro j I hI
  have := hB.2.2.2 b j trivial
  constructor
  · intro hj
    obtain ⟨I1, h1, h2⟩ := this.1 ⟨s, hs, hj⟩
    rw [hI] at h1
    cases h1
    exact h2.symm
  · intro hb
    obtain ⟨s1, h1, h2⟩ := this.2 ⟨I, hI, hb.symm⟩
    rw [hs] at h1
    cases h1
    exact h2

theorem WellFormed_Find_lt (M : FFoliageMeshInfo) (h : WellFormed M) (b : Nat) (s : List Nat)
    (hs : TMap.Find M.ComponentHash b = some s) : ∀ j ∈ s, j < M.Instances.length := by
  have hB := ((WellFormed_iff M).1 h).2.1
  intro j hj
  obtain ⟨I1, h1, _⟩ := (hB.2.2.2 b j trivial).1 ⟨s, hs, hj⟩
  exact (List.getElem?_eq_some_iff.1 h1).1

/-- One collection: the instances anchored to base `b` go, the others stay. -/
theorem DeleteInstancesOfBase_spec (b : Nat) (M : FFoliageMeshInfo) (h : WellFormed M) :
    ∃ M1, AInstancedFoliageActor.DeleteInstancesOfBase b M = some M1 ∧ WellFormed M1 ∧
      M1.Instances.Perm (M.Instances.filter (fun I => decide (I.BaseId ≠ b))) := by
  unfold AInstancedFoliageActor.DeleteInstancesOfBase
  cases hf : TMap.Find M.ComponentHash b with
  | none =>
    refine ⟨M, rfl, h, ?_⟩
    apply List.Perm.of_eq
    symm
    rw [List.filter_eq_self]
    intro I hI
    have hB := ((WellFormed_iff M).1 h).2.1
    obtain ⟨j, hj, hje⟩ := List.getElem_of_mem hI
    simp only [decide_eq_true_eq]
    intro hb
    obtain ⟨s, hs, _⟩ := (hB.2.2.2 b j trivial).2
      ⟨I, by rw [List.getElem?_eq_getElem hj, hje], hb.symm⟩
    rw [hf] at hs
    cases hs
  | some s =>
    simp only
    have hr := WellFormed_Find_lt M h b s hf
    obtain ⟨M1, h1, h2⟩ := WellFormed_RemoveInstances M s hr h
    obtain ⟨M2, h3, _, h5⟩ := RemoveInstances_array M s hr (WellFormed_Component M h)
    have hM : M2 = M1 := Option.some.inj (h3.symm.trans h1)
    subst hM
    refine ⟨M2, h1, h2, ?_⟩
    have he := InstancesNotIn_eq_filter (fun I : FFoliageInstance => decide (I.BaseId = b))
      M.Instances s (fun j I hI => by
        rw [WellFormed_Find M h b s hf j I hI]; simp)
    rw [he] at h5
    have hfe : (fun I : FFoliageInstance => !decide (I.BaseId = b))
        = (fun I => decide (I.BaseId ≠ b)) := by
      funext I; simp
    rw [hfe] at h5
    exact h5

theorem DeleteInstancesLoop_spec (b : Nat) :
    ∀ (Meshes : List (Option Nat × FFoliageMeshInfo)), (∀ p ∈ Meshes, WellFormed p.2) →
      ∃ Meshes1, AInstancedFoliageActor.DeleteInstancesLoop b Meshes = some Meshes1 ∧
        List.Forall₂ (fun p q => q.1 = p.1 ∧ WellFormed q.2 ∧
          q.2.Instances.Perm (p.2.Instances.filter (fun I => decide (I.BaseId ≠ b))))
          Meshes Meshes1 := by
  intro Meshes
  induction Meshes with
  | nil => intro _; exact ⟨[], rfl, List.Forall₂.nil⟩
  | cons p rest ih =>
    intro hwf
    obtain ⟨M1, h1, h2, h3⟩ := DeleteInstancesOfBase_spec b p.2 (hwf p (List.mem_cons_self _ _))
    obtain ⟨rest1, h4, h5⟩ := ih (fun q hq => hwf q (List.mem_cons_of_mem _ hq))
    refine ⟨(p.1, M1) :: rest1, ?_, List.Forall₂.cons ⟨rfl, h2, h3⟩ h5⟩
    unfold AInstancedFoliageActor.DeleteInstancesLoop
    rw [h1, h4]

/-! ## Moving the instances of a base to another actor -/

theorem BaseRel_Remove (xs : List FFoliageInstance) (m : List (Nat × List Nat)) (old : Nat)
    (h : BaseRel (fun _ => True) xs m) :
    BaseRel (fun b => b ≠ old) xs (TMap.Remove m old) := by
  obtain ⟨hk, hs, _, hrel⟩ := h
  refine ⟨TMap.Keys_Remove_nodup m old hk, ?_, ?_, ?_⟩
  · intro b s hbs
    rw [TMap.Find_Remove] at hbs
    split at hbs
    · cases hbs
    · exact hs b s hbs
  · intro b hb
    have : b = old := not_not.1 hb
    rw [TMap.Find_Remove, if_pos this]
  · intro b j hb
    rw [← hrel b j trivial]
    unfold InBase
    rw [TMap.Find_Remove, if_neg hb]

theorem BaseRel_weaken (xs : List FFoliageInstance) (m : List (Nat × List Nat)) (old : Nat)
    (h : BaseRel (fun b => b ≠ old) xs m) (hx : ∀ I ∈ xs, I.BaseId ≠ old) :
    BaseRel (fun _ => True) xs m := by
  obtain ⟨hk, hs, hnone, hrel⟩ := h
  refine ⟨hk, hs, fun b hb => absurd trivial hb, ?_⟩
  intro b j _
  by_cases hb : b = old
  · subst hb
    constructor
    · rintro ⟨s, h1, _⟩
      rw [hnone b (not_not.2 rfl)] at h1
      cases h1
    · rintro ⟨I, hI, hb2⟩
      obtain ⟨hlt, he⟩ := List.getElem?_eq_some_iff.1 hI
      exact absurd hb2.symm (hx I (by rw [← he]; exact List.getElem_mem hlt))
  · exact hrel b j hb

/-- The source collection of a move: once the set of the old base has been taken out of the
base-index map, removing the indices of that set leaves a well-formed collection holding the
instances of the other bases. -/
theorem RemoveInstances_after_RemoveAndCopyValue (M : FFoliageMeshInfo) (old : Nat)
    (s : List Nat) (h : WellFormed M) (hs : TMap.Find M.ComponentHash old = some s) :
    ∃ M1, FFoliageMeshInfo.RemoveInstances
        { M with ComponentHash := TMap.Remove M.ComponentHash old } s = some M1 ∧
      WellFormed M1 ∧
      M1.Instances.Perm (M.Instances.filter (fun I => decide (I.BaseId ≠ old))) := by
  have hr := WellFormed_Find_lt M h old s hs
  have hw := (WellFormed_iff M).1 h
  have hC := WellFormed_Component M h
  let N0 : FFoliageMeshInfo := { M with ComponentHash := TMap.Remove M.ComponentHash old }
  have hind := RemoveInstances_induction
    (fun N _ => HashRel N.Instances N.InstanceHash.CellMap ∧
      BaseRel (fun b => b ≠ old) N.Instances N.ComponentHash ∧ ComponentConsistent N)
    (by
      intro N i rest inst C last _ hR e1 e2 e3
      exact ⟨HashRel_pass N i inst C last hR.1 e1 e3,
        BaseRel_pass _ N i inst C last hR.2.1 e1 e3,
        ComponentConsistent_pass N i inst C last e2 hR.2.2⟩)
    N0 s hr hC ⟨hw.1, BaseRel_Remove _ _ old hw.2.1, hw.2.2⟩
  obtain ⟨M1, h1, h2, h3, h4⟩ := hind
  obtain ⟨M2, h5, _, h7⟩ := RemoveInstances_array N0 s hr hC
  have hM : M2 = M1 := Option.some.inj (h5.symm.trans h1)
  subst hM
  have he := InstancesNotIn_eq_filter (fun I : FFoliageInstance => decide (I.BaseId = old))
    M.Instances s (fun j I hI => by
      rw [WellFormed_Find M h old s hs j I hI]; simp)
  have hfe : (fun I : FFoliageInstance => !decide (I.BaseId = old))
      = (fun I => decide (I.BaseId ≠ old)) := by
    funext I; simp
  rw [hfe] at he
  have h8 : M2.Instances.Perm (M.Instances.filter (fun I => decide (I.BaseId ≠ old))) := by
    rw [← he]; exact h7
  refine ⟨M2, h1, ?_, h8⟩
  rw [WellFormed_iff]
  refine ⟨h2, BaseRel_weaken _ _ old h3 ?_, h4⟩
  intro I hI
  have := h8.subset hI
  rw [List.mem_filter] at this
  simpa using this.2

theorem AddMovedInstances_spec (FT : UFoliageType) (new : Nat) (xs : List FFoliageInstance) :
    ∀ (s : List Nat) (N : FFoliageMeshInfo), (∀ j ∈ s, j < xs.length) →
      ∃ N1, AInstancedFoliageActor.AddMovedInstances FT new xs N s = some N1 ∧
        N1.Instances = N.Instances ++ s.filterMap (fun j => (xs[j]?).map (Rebased new)) := by
  intro s
  induction s with
  | nil => intro N _; exact ⟨N, rfl, by simp⟩
  | cons a t ih =>
    intro N hr
    have ha : a < xs.length := hr a (List.mem_cons_self _ _)
    obtain ⟨N1, h1, h2⟩ := ih (AddResult N (Rebased new xs[a]))
      (fun j hj => hr j (List.mem_cons_of_mem _ hj))
    refine ⟨N1, ?_, ?_⟩
    · unfold AInstancedFoliageActor.AddMovedInstances
      rw [List.getElem?_eq_getElem ha]
      simp only [FFoliageMeshInfo.AddInstance_eq]
      exact h1
    · rw [h2, List.filterMap_cons, List.getElem?_eq_getElem ha]
      simp [AddResult]

theorem filterMap_range_filter_eq {α β : Type} (q : α → Bool) (f : α → β) :
    ∀ (xs : List α) (P : Nat → Bool), (∀ j a, xs[j]? = some a → P j = q a) →
      ((List.range xs.length).filter P).filterMap (fun j => (xs[j]?).map f)
        = (xs.filter q).map f := by
  intro xs
  induction xs using List.reverseRecOn with
  | nil => intro P _; rfl
  | append_singleton ys l ih =>
    intro P h
    have hys : ∀ j a, ys[j]? = some a → P j = q a := by
      intro j a hj
      apply h j a
      rw [List.getElem?_append_left (List.getElem?_eq_some_iff.1 hj).1]
      exact hj
    have hl : P ys.length = q l := by
      apply h
      rw [getElem?_concat_eq, if_pos rfl]
    rw [List.length_append, List.length_singleton, List.range_succ, List.filter_append,
      List.filterMap_append, List.filter_append, List.map_append, ← ih P hys]
    congr 1
    · apply List.filterMap_congr
      intro j hj
      have hjl : j < ys.length := List.mem_range.1 (List.mem_filter.1 hj).1
      rw [List.getElem?_append_left hjl]
    · by_cases hq : q l = true
      · simp [hl, hq]
      · simp [hl, hq]

/-- The instances at the indices of a duplicate-free index set characterised by a predicate
are, up to order, the instances satisfying the predicate. -/
theorem filterMap_getElem_perm {β : Type} (q : FFoliageInstance → Bool)
    (f : FFoliageInstance → β) (xs : List FFoliageInstance) (s : List Nat) (hnd : s.Nodup)
    (hr : ∀ j ∈ s, j < xs.length)
    (hs : ∀ j I, xs[j]? = some I → (j ∈ s ↔ q I = true)) :
    (s.filterMap (fun j => (xs[j]?).map f)).Perm ((xs.filter q).map f) := by
  have hp : s.Perm ((List.range xs.length).filter (fun j => decide (j ∈ s))) := by
    rw [List.perm_ext_iff_of_nodup hnd ((List.nodup_range _).filter _)]
    intro j
    rw [List.mem_filter, List.mem_range]
    simp only [decide_eq_true_eq]
    exact ⟨fun h => ⟨hr j h, h⟩, fun h => h.2⟩
  refine (hp.filterMap _).trans (List.Perm.of_eq ?_)
  apply filterMap_range_filter_eq q f xs
  intro j I hI
  by_cases hq : q I = true
  · rw [hq]; simpa using (hs j I hI).2 hq
  · have : j ∉ s := fun hj => hq ((hs j I hI).1 hj)
    simp [this, hq]

theorem AllInstances_Add_of_none (m : List (Option Nat × FFoliageMeshInfo)) (k : Option Nat)
    (v : FFoliageMeshInfo) (h : TMap.Find m k = none) :
    AllInstances (TMap.Add m k v) = AllInstances m ++ v.Instances := by
  induction m with
  | nil => simp [TMap.Add, AllInstances]
  | cons p rest ih =>
    unfold TMap.Find at h
    split at h
    · cases h
    · rename_i hp
      unfold TMap.Add
      rw [if_neg hp]
      have := ih h
      unfold AllInstances at this ⊢
      rw [List.flatMap_cons, List.flatMap_cons, this, List.append_assoc]

theorem AllInstances_Add_of_some (m : List (Option Nat × FFoliageMeshInfo)) (k : Option Nat)
    (v v0 : FFoliageMeshInfo) (added : List FFoliageInstance)
    (h : TMap.Find m k = some v0) (hv : v.Instances = v0.Instances ++ added) :
    (AllInstances (TMap.Add m k v)).Perm (AllInstances m ++ added) := by
  induction m with
  | nil => cases h
  | cons p rest ih =>
    unfold TMap.Find at h
    unfold TMap.Add
    split at h
    · rename_i hp
      rw [if_pos hp]
      cases h
      unfold AllInstances
      rw [List.flatMap_cons, List.flatMap_cons]
      simp only
      rw [hv, List.append_assoc, List.append_assoc]
      exact List.Perm.append_left _ List.perm_append_comm
    · rename_i hp
      rw [if_neg hp]
      have := ih h
      unfold AllInstances at this ⊢
      rw [List.flatMap_cons, List.flatMap_cons, List.append_assoc]
      exact List.Perm.append_left _ this

/-- Target side of a move: the collection `FindOrAddMesh` gives, extended by `added` and
written back, adds exactly `added` to the instances of the other actor. -/
theorem AllInstances_FindOrAddMesh (TypeObject : Nat → UFoliageType)
    (m : List (Option Nat × FFoliageMeshInfo)) (k : Nat) (v : FFoliageMeshInfo)
    (added : List FFoliageInstance)
    (hv : v.Instances
      = (AInstancedFoliageActor.FindOrAddMesh TypeObject m k).1.Instances ++ added) :
    (AllInstances (TMap.Add (AInstancedFoliageActor.FindOrAddMesh TypeObject m k).2
      (some k) v)).Perm (AllInstances m ++ added) := by
  unfold AInstancedFoliageActor.FindOrAddMesh at hv ⊢
  cases hf : TMap.Find m (some k) with
  | some v0 =>
    rw [hf] at hv
    simp only at hv ⊢
    exact AllInstances_Add_of_some m (some k) v v0 added hf hv
  | none =>
    rw [hf] at hv
    simp only at hv ⊢
    have h1 : TMap.Find (TMap.Add m (some k)
        { FFoliageMeshInfo.new with FoliageTypeUpdateGuid := (TypeObject k).UpdateGuid })
        (some k) = some { FFoliageMeshInfo.new with
          FoliageTypeUpdateGuid := (TypeObject k).UpdateGuid } := by
      rw [TMap.Find_Add, if_pos rfl]
    refine (AllInstances_Add_of_some _ (some k) v _ added h1 hv).trans ?_
    rw [AllInstances_Add_of_none m (some k) _ hf]
    simp [FFoliageMeshInfo.new]

theorem WellFormed_no_instance_of_base (M : FFoliageMeshInfo) (h : WellFormed M) (old : Nat)
    (hf : ∀ s, TMap.Find M.ComponentHash old = some s → s = []) :
    ∀ I ∈ M.Instances, I.BaseId ≠ old := by
  intro I hI hb
  have hB := ((WellFormed_iff M).1 h).2.1
  obtain ⟨j, hj, hje⟩ := List.getElem_of_mem hI
  obtain ⟨s, hs, hjs⟩ := (hB.2.2.2 old j trivial).2
    ⟨I, by rw [List.getElem?_eq_getElem hj, hje], hb.symm⟩
  rw [hf s hs] at hjs
  simp at hjs

theorem WellFormed_RemoveKey (M : FFoliageMeshInfo) (h : WellFormed M) (old : Nat)
    (hx : ∀ I ∈ M.Instances, I.BaseId ≠ old) :
    WellFormed { M with ComponentHash := TMap.Remove M.ComponentHash old } := by
  have hw := (WellFormed_iff M).1 h
  rw [WellFormed_iff]
  exact ⟨hw.1, BaseRel_weaken _ _ old (BaseRel_Remove _ _ old hw.2.1) hx, hw.2.2⟩

/-- One collection of a move to another actor. -/
theorem MoveMesh_spec (IsLocal : Nat → Bool) (DuplicateOf : Nat → Nat)
    (TypeObject : Nat → UFoliageType) (old new Key : Nat) (M : FFoliageMeshInfo)
    (NewMeshes : List (Option Nat × FFoliageMeshInfo)) (h : WellFormed M) :
    ∃ M1 NewMeshes1,
      AInstancedFoliageActor.MoveMesh IsLocal DuplicateOf TypeObject old new Key M NewMeshes
        = some (M1, NewMeshes1) ∧
      WellFormed M1 ∧
      M1.Instances.Perm (M.Instances.filter (fun I => decide (I.BaseId ≠ old))) ∧
      (AllInstances NewMeshes1).Perm (AllInstances NewMeshes ++
        (M.Instances.filter (fun I => decide (I.BaseId = old))).map (Rebased new)) := by
  have hnone : (∀ I ∈ M.Instances, I.BaseId ≠ old) →
      M.Instances.filter (fun I => decide (I.BaseId ≠ old)) = M.Instances ∧
      M.Instances.filter (fun I => decide (I.BaseId = old)) = [] := by
    intro hx
    constructor
    · rw [List.filter_eq_self]
      intro I hI
      simpa using hx I hI
    · rw [List.filter_eq_nil_iff]
      intro I hI
      simpa using hx I hI
  unfold AInstancedFoliageActor.MoveMesh
  simp only
  cases hf : TMap.Find M.ComponentHash old with
  | none =>
    have hx := WellFormed_no_instance_of_base M h old (fun s hs => by rw [hf] at hs; cases hs)
    obtain ⟨e1, e2⟩ := hnone hx
    refine ⟨_, _, rfl, WellFormed_RemoveKey M h old hx, ?_, ?_⟩
    · rw [e1]
    · rw [e2]; simp
  | some s =>
    simp only
    by_cases hlen : s.length ≠ 0
    · rw [if_pos hlen]
      have hr := WellFormed_Find_lt M h old s hf
      have hB := ((WellFormed_iff M).1 h).2.1
      obtain ⟨N1, h1, h2⟩ := AddMovedInstances_spec
        (TypeObject (if IsLocal Key = true then DuplicateOf Key else Key)) new M.Instances s
        (AInstancedFoliageActor.FindOrAddMesh TypeObject NewMeshes
          (if IsLocal Key = true then DuplicateOf Key else Key)).1 hr
      obtain ⟨M1, h3, h4, h5⟩ := RemoveInstances_after_RemoveAndCopyValue M old s h hf
      simp only [h1, h3]
      refine ⟨_, _, rfl, h4, h5, ?_⟩
      refine (AllInstances_FindOrAddMesh TypeObject NewMeshes _ N1 _ h2).trans ?_
      apply List.Perm.append_left
      exact filterMap_getElem_perm (fun I => decide (I.BaseId = old)) (Rebased new)
        M.Instances s (hB.2.1 old s hf) hr
        (fun j I hI => by rw [WellFormed_Find M h old s hf j I hI]; simp)
    · rw [if_neg hlen]
      have hs : s = [] := List.length_eq_zero.1 (not_not.1 hlen)
      have hx := WellFormed_no_instance_of_base M h old (fun s1 hs1 => by
        rw [hf] at hs1; cases hs1; exact hs)
      obtain ⟨e1, e2⟩ := hnone hx
      refine ⟨_, _, rfl, WellFormed_RemoveKey M h old hx, ?_, ?_⟩
      · rw [e1]
      · rw [e2]; simp

theorem MoveLoop_spec (IsLocal : Nat → Bool) (DuplicateOf : Nat → Nat)
    (TypeObject : Nat → UFoliageType) (old new : Nat) :
    ∀ (Meshes NewMeshes : List (Option Nat × FFoliageMeshInfo)),
      (∀ p ∈ Meshes, WellFormed p.2) → (∀ p ∈ Meshes, p.1 ≠ none) →
      ∃ Meshes1 NewMeshes1,
        AInstancedFoliageActor.MoveLoop IsLocal DuplicateOf TypeObject old new Meshes NewMeshes
          = some (Meshes1, NewMeshes1) ∧
        List.Forall₂ (fun p q => q.1 = p.1 ∧ WellFormed q.2 ∧
          q.2.Instances.Perm (p.2.Instances.filter (fun I => decide (I.BaseId ≠ old))))
          Meshes Meshes1 ∧
        (AllInstances NewMeshes1).Perm (AllInstances NewMeshes ++
          ((AllInstances Meshes).filter (fun I => decide (I.BaseId = old))).map
            (Rebased new)) := by
  intro Meshes
  induction Meshes with
  | nil =>
    intro NewMeshes _ _
    exact ⟨[], NewMeshes, rfl, List.Forall₂.nil, by simp [AllInstances]⟩
  | cons p rest ih =>
    intro NewMeshes hwf hkeys
    obtain ⟨Key, hKey⟩ := Option.ne_none_iff_exists'.1 (hkeys p (List.mem_cons_self _ _))
    obtain ⟨M1, NM1, h1, h2, h3, h4⟩ := MoveMesh_spec IsLocal DuplicateOf TypeObject old new
      Key p.2 NewMeshes (hwf p (List.mem_cons_self _ _))
    obtain ⟨rest1, NM2, h5, h6, h7⟩ := ih NM1
      (fun q hq => hwf q (List.mem_cons_of_mem _ hq))
      (fun q hq => hkeys q (List.mem_cons_of_mem _ hq))
    refine ⟨(p.1, M1) :: rest1, NM2, ?_, List.Forall₂.cons ⟨rfl, h2, h3⟩ h6, ?_⟩
    · unfold AInstancedFoliageActor.MoveLoop
      simp only [hKey, h1, h5]
    · refine h7.trans ?_
      have e : (AllInstances (p :: rest)).filter (fun I => decide (I.BaseId = old))
          = p.2.Instances.filter (fun I => decide (I.BaseId = old))
            ++ (AllInstances rest).filter (fun I => decide (I.BaseId = old)) := by
        unfold AllInstances
        rw [List.flatMap_cons, List.filter_append]
      rw [e, List.map_append, ← List.append_assoc]
      exact List.Perm.append_right _ h4

theorem AllInstances_perm_of_forall₂ (q : FFoliageInstance → Bool)
    (R : Option Nat × FFoliageMeshInfo → Option Nat × FFoliageMeshInfo → Prop)
    (hR : ∀ a b, R a b → b.2.Instances.Perm (a.2.Instances.filter q)) :
    ∀ (Meshes Meshes1 : List (Option Nat × FFoliageMeshInfo)),
      List.Forall₂ R Meshes Meshes1 →
      (AllInstances Meshes1).Perm ((AllInstances Meshes).filter q) := by
  intro Meshes Meshes1 h
  induction h with
  | nil => exact List.Perm.refl _
  | cons hab _ ih =>
    unfold AllInstances at ih ⊢
    rw [List.flatMap_cons, List.flatMap_cons, List.filter_append]
    exact List.Perm.append (hR _ _ hab) ih

theorem length_filter_add_length_filter_not {α : Type} (q : α → Bool) (xs : List α) :
    (xs.filter (fun a => !q a)).length + (xs.filter q).length = xs.length := by
  have := (List.filter_append_perm q xs).length_eq
  rw [List.length_append] at this
  omega

/-! ## Foliage type arithmetic -/

lemma FMath.Clamp_eq (x : ℚ) : FMath.Clamp x 0 1 = max 0 (min x 1) := by
  unfold FMath.Clamp
  split_ifs with h1 h2
  · rw [max_eq_left]
    exact le_trans (min_le_left _ _) h1.le
  · rw [min_eq_left h2.le, max_eq_right (not_lt.mp h1)]
  · rw [min_eq_right (not_lt.mp h2), max_eq_right zero_le_one]

lemma FMath.Clamp_nonneg (x : ℚ) : 0 ≤ FMath.Clamp x 0 1 := by
  rw [FMath.Clamp_eq]
  exact le_max_left _ _

lemma FMath.Clamp_le_one (x : ℚ) : FMath.Clamp x 0 1 ≤ 1 := by
  rw [FMath.Clamp_eq]
  exact max_le zero_le_one (min_le_right _ _)

lemma FMath.Clamp_mono {x y : ℚ} (h : x ≤ y) : FMath.Clamp x 0 1 ≤ FMath.Clamp y 0 1 := by
  rw [FMath.Clamp_eq, FMath.Clamp_eq]
  exact max_le_max le_rfl (min_le_min h le_rfl)

lemma FMath.Clamp_of_nonpos {x : ℚ} (h : x ≤ 0) : FMath.Clamp x 0 1 = 0 := by
  rw [FMath.Clamp_eq, max_eq_left]
  exact le_trans (min_le_left _ _) h

lemma FMath.Clamp_of_one_le {x : ℚ} (h : 1 ≤ x) : FMath.Clamp x 0 1 = 1 := by
  rw [FMath.Clamp_eq, min_eq_right h, max_eq_right zero_le_one]

/-! ## Traces -/

lemma FoliageTraceLoop_non_procedural (OverlapTest : Nat → FVector → Bool)
    (D : FDesiredFoliageInstance) (OutHit : FHitResult)
    (hMode : D.PlacementMode ≠ EFoliagePlacementMode.Procedural) :
    ∀ (Hits : List FHitResult) (b : Bool),
      (∀ Hit ∈ Hits, ∃ C B, Hit.Component = some C ∧ C.BodyInstance = some B) →
      FoliageTraceLoop OverlapTest D OutHit Hits b =
        some (match Hits.find? FHitResult.IsBlocking with
          | some H => (true, H)
          | none => (false, OutHit)) := by
  intro Hits
  induction Hits with
  | nil => intro b _; rfl
  | cons Hit Rest ih =>
    intro b hC
    obtain ⟨C, B, h1, h2⟩ := hC Hit (List.mem_cons_self _ _)
    have ih1 := ih
    simp only [FoliageTraceLoop, FoliageTraceBody, if_neg hMode, FoliageTraceBlocking, h1, h2,
      List.find?_cons, FHitResult.IsBlocking]
    by_cases hb : B.CollisionEnabled = ECollisionEnabled.QueryAndPhysics ∧
        B.ResponseToWorldStatic = ECollisionResponse.ECR_Block
    · obtain ⟨hb1, hb2⟩ := hb
      cases hl : C.ComponentLevel with
      | none =>
        simp [hb1, hb2, hl]
        exact ih b (fun H hH => hC H (List.mem_cons_of_mem _ hH))
      | some l =>
        simp [hb1, hb2, hl, hMode]
    · have hb2 : B.CollisionEnabled ≠ ECollisionEnabled.QueryAndPhysics ∨
          B.ResponseToWorldStatic ≠ ECollisionResponse.ECR_Block := by tauto
      rw [if_pos hb2]
      have hf : (decide (B.CollisionEnabled = ECollisionEnabled.QueryAndPhysics) &&
          decide (B.ResponseToWorldStatic = ECollisionResponse.ECR_Block) &&
          C.ComponentLevel.isSome) = false := by
        rcases hb2 with h | h <;> simp [h]
      rw [hf]
      exact ih b (fun H hH => hC H (List.mem_cons_of_mem _ hH))

/-! ## Flags -/

lemma lor_land_self (x a : Nat) : (x ||| a) &&& a = a := by
  apply Nat.eq_of_testBit_eq
  intro i
  simp only [Nat.testBit_and, Nat.testBit_or]
  cases x.testBit i <;> cases a.testBit i <;> rfl

lemma lor_lor_land_self (x a b : Nat) : (x ||| a ||| b) &&& a = a := by
  apply Nat.eq_of_testBit_eq
  intro i
  simp only [Nat.testBit_and, Nat.testBit_or]
  cases x.testBit i <;> cases a.testBit i <;> cases b.testBit i <;> rfl

/-! ## Reallocation and loading -/

theorem ReAddInstances_spec (S : UFoliageType) (Old : List FFoliageInstance) :
    ∀ (M : FFoliageMeshInfo),
      ∃ M1, M.ReAddInstances S Old = some M1 ∧
        M1.Instances = M.Instances ++
          Old.filter (fun I => decide (I.Flags &&& FOLIAGE_InstanceDeleted = 0)) ∧
        M1.FoliageTypeUpdateGuid = M.FoliageTypeUpdateGuid := by
  induction Old with
  | nil => intro M; exact ⟨M, rfl, by simp, rfl⟩
  | cons I t ih =>
    intro M
    unfold FFoliageMeshInfo.ReAddInstances
    by_cases hI : I.Flags &&& FOLIAGE_InstanceDeleted = 0
    · rw [if_pos hI]
      simp only [FFoliageMeshInfo.AddInstance_eq]
      obtain ⟨M1, h1, h2, h3⟩ := ih (AddResult M I)
      refine ⟨M1, h1, ?_, ?_⟩
      · rw [h2, List.filter_cons_of_pos (by simpa using hI)]
        simp [AddResult]
      · rw [h3]; rfl
    · rw [if_neg hI]
      obtain ⟨M1, h1, h2, h3⟩ := ih M
      refine ⟨M1, h1, ?_, h3⟩
      rw [h2, List.filter_cons_of_neg (by simpa using hI)]

/-- `ReallocateClusters` returns a well-formed collection that holds the live instances of the
old array in order and carries the GUID of the foliage type. -/
theorem ReallocateClusters_spec (M : FFoliageMeshInfo) (S : UFoliageType) :
    ∃ M1, M.ReallocateClusters S = some M1 ∧ WellFormed M1 ∧
      M1.Instances =
        M.Instances.filter (fun I => decide (I.Flags &&& FOLIAGE_InstanceDeleted = 0)) ∧
      M1.FoliageTypeUpdateGuid = S.UpdateGuid := by
  obtain ⟨M1, h1, hW⟩ := WellFormed_ReallocateClusters M S
  refine ⟨M1, h1, hW, ?_⟩
  unfold FFoliageMeshInfo.ReallocateClusters at h1
  obtain ⟨M2, h2, h3, h4⟩ := ReAddInstances_spec S M.Instances
    { Component := none
      FoliageTypeUpdateGuid := S.UpdateGuid
      Instances := []
      InstanceHash := M.InstanceHash.Empty
      ComponentHash := []
      SelectedIndices := [] }
  simp only at h1
  rw [h2] at h1
  cases h1
  exact ⟨by simpa using h3, h4⟩

theorem AddToBaseHash_eq (M : FFoliageMeshInfo) (k : Nat) (I : FFoliageInstance)
    (h : M.Instances[k]? = some I) :
    M.AddToBaseHash k =
      some { M with ComponentHash := BaseHashAdded M.ComponentHash I.BaseId k } := by
  unfold FFoliageMeshInfo.AddToBaseHash BaseHashAdded
  rw [h]
  cases hf : TMap.Find M.ComponentHash I.BaseId <;> simp only [hf]

theorem RebuildHashLoop_spec :
    ∀ (r k : Nat) (M : FFoliageMeshInfo), k + r = M.Instances.length →
      HashRel (M.Instances.take k) M.InstanceHash.CellMap →
      BaseRel (fun _ => True) (M.Instances.take k) M.ComponentHash →
      ∃ M1, RebuildHashLoop M (List.range' k r) = some M1 ∧
        M1.Instances = M.Instances ∧ M1.FoliageTypeUpdateGuid = M.FoliageTypeUpdateGuid ∧
        M1.Component = M.Component ∧ M1.SelectedIndices = M.SelectedIndices ∧
        HashRel M1.Instances M1.InstanceHash.CellMap ∧
        BaseRel (fun _ => True) M1.Instances M1.ComponentHash := by
  intro r
  induction r with
  | zero =>
    intro k M hk hH hB
    have hk2 : k = M.Instances.length := by omega
    rw [hk2, List.take_length] at hH hB
    exact ⟨M, rfl, rfl, rfl, rfl, rfl, hH, hB⟩
  | succ r ih =>
    intro k M hk hH hB
    have hlt : k < M.Instances.length := by omega
    have hI : M.Instances[k]? = some M.Instances[k] := List.getElem?_eq_getElem hlt
    have htake : M.Instances.take (k + 1) = M.Instances.take k ++ [M.Instances[k]] := by
      rw [List.take_succ, hI]
      rfl
    have hlen : (M.Instances.take k).length = k := by
      rw [List.length_take]; omega
    have hH1 := HashRel_add _ M.InstanceHash M.Instances[k] hH
    have hB1 := BaseRel_add (fun _ => True) _ M.ComponentHash M.Instances[k] trivial hB
    rw [hlen, ← htake] at hH1 hB1
    obtain ⟨M1, h1, h2, h3, h4, h5, h6, h7⟩ := ih (k + 1)
      { M with
        ComponentHash := BaseHashAdded M.ComponentHash M.Instances[k].BaseId k
        InstanceHash := M.InstanceHash.InsertInstance M.Instances[k].Location k }
      (by simp only; omega) hH1 hB1
    refine ⟨M1, ?_, h2, h3, h4, h5, h6, h7⟩
    rw [List.range'_succ, RebuildHashLoop, AddToBaseHash_eq M k _ hI]
    simp only [hI]
    exact h1

/-- The rebuild of `PostLoad` returns, whatever the two indexes held before, and leaves both
consistent with the instance array, which it does not change. -/
theorem RebuildHash_spec (M : FFoliageMeshInfo) :
    ∃ M1, RebuildHash M = some M1 ∧
      M1.Instances = M.Instances ∧ M1.FoliageTypeUpdateGuid = M.FoliageTypeUpdateGuid ∧
      M1.Component = M.Component ∧ M1.SelectedIndices = M.SelectedIndices ∧
      HashConsistent M1 ∧ BaseHashConsistent M1 := by
  unfold RebuildHash
  rw [List.range_eq_range']
  obtain ⟨M1, h1, h2, h3, h4, h5, h6, h7⟩ := RebuildHashLoop_spec M.Instances.length 0
    { M with ComponentHash := [], InstanceHash := M.InstanceHash.Empty }
    (by simp)
    (by
      simp only [List.take_zero, FFoliageInstanceHash.Empty]
      refine ⟨List.nodup_nil, ?_⟩
      intro c j
      simp)
    (by
      simp only [List.take_zero]
      refine ⟨List.nodup_nil, ?_, ?_, ?_⟩
      · intro b s h; simp [TMap.Find] at h
      · intro b hb; exact absurd trivial hb
      · intro b j _
        simp [InBase, TMap.Find])
  exact ⟨M1, h1, h2, h3, h4, h5, (HashConsistent_iff M1).2 h6, (BaseHashConsistent_iff M1).2 h7⟩

theorem ReconcileUpdateGuid_spec (M : FFoliageMeshInfo) (T : UFoliageType) :
    ∃ M1, ReconcileUpdateGuid M T = some M1 ∧ M1.FoliageTypeUpdateGuid = T.UpdateGuid := by
  unfold ReconcileUpdateGuid
  by_cases hg : M.FoliageTypeUpdateGuid ≠ T.UpdateGuid
  · rw [if_pos hg]
    by_cases hv : FGuid.IsValid M.FoliageTypeUpdateGuid = true
    · obtain ⟨M1, h1, _, _, _⟩ := ReallocateClusters_spec M T
      simp only [hv, if_true, h1, Option.map_some']
      exact ⟨_, rfl, rfl⟩
    · simp only [hv, Bool.false_eq_true, if_false, Option.map_some']
      exact ⟨_, rfl, rfl⟩
  · rw [if_neg hg]
    exact ⟨M, rfl, not_not.mp hg⟩

/-- Loading one collection returns, and leaves the GUID of the foliage type cached and both
indexes consistent with the instance array. -/
theorem PostLoadMesh_spec (V : Nat) (T : UFoliageType) (M : FFoliageMeshInfo) :
    ∃ M1, PostLoadMesh V T M = some M1 ∧ M1.FoliageTypeUpdateGuid = T.UpdateGuid ∧
      HashConsistent M1 ∧ BaseHashConsistent M1 := by
  unfold PostLoadMesh
  have hrep : ∃ M0, (if M.Instances.length ≠ 0 ∧ M.Component = none then
      M.ReallocateClusters T else some M) = some M0 := by
    split
    · obtain ⟨M0, h0, _⟩ := ReallocateClusters_spec M T
      exact ⟨M0, h0⟩
    · exact ⟨M, rfl⟩
  obtain ⟨M0, h0⟩ := hrep
  obtain ⟨M2, h2, hg2⟩ := ReconcileUpdateGuid_spec M0 T
  obtain ⟨M3, h3, _, hg3, _, _, hH3, hB3⟩ := RebuildHash_spec M2
  rw [h0]
  dsimp only
  rw [Option.some_bind, h2]
  dsimp only
  rw [h3]
  dsimp only
  split
  · obtain ⟨M4, h4, hW, _, hg4⟩ := ReallocateClusters_spec M3 T
    exact ⟨M4, h4, hg4, hW.1, hW.2.1⟩
  · exact ⟨M3, rfl, hg3.trans hg2, hH3, hB3⟩

theorem PostLoadLoop_spec (TypeObject : Nat → UFoliageType) (V : Nat) :
    ∀ (Meshes : List (Option Nat × FFoliageMeshInfo)), (∀ p ∈ Meshes, p.1 ≠ none) →
      ∃ Done, PostLoadLoop TypeObject V Meshes = some Done ∧
        Done.map Prod.fst = Meshes.map Prod.fst ∧
        ∀ p ∈ Done, ∃ t, p.1 = some t ∧
          p.2.FoliageTypeUpdateGuid = (TypeObject t).UpdateGuid ∧
          HashConsistent p.2 ∧ BaseHashConsistent p.2 := by
  intro Meshes
  induction Meshes with
  | nil => intro _; exact ⟨[], rfl, rfl, by simp⟩
  | cons P Rest ih =>
    intro hk
    obtain ⟨Done, h1, h2, h3⟩ := ih (fun p hp => hk p (List.mem_cons_of_mem _ hp))
    have hP := hk P (List.mem_cons_self _ _)
    obtain ⟨t, ht⟩ := Option.ne_none_iff_exists'.mp hP
    obtain ⟨M1, hm, hg, hH, hB⟩ := PostLoadMesh_spec V (TypeObject t) P.2
    refine ⟨(P.1, M1) :: Done, ?_, ?_, ?_⟩
    · rw [PostLoadLoop]
      simp only [ht, hm, h1, Option.map_some']
    · simp [h2]
    · intro p hp
      rcases List.mem_cons.1 hp with rfl | hp
      · exact ⟨t, ht, hg, hH, hB⟩
      · exact h3 p hp

theorem RemoveNullMeshes_eq (Meshes : List (Option Nat × FFoliageMeshInfo)) :
    RemoveNullMeshes Meshes = Meshes.filter (fun p => decide (p.1 ≠ none)) := by
  unfold RemoveNullMeshes TMap.Remove
  simp only [List.filter_filter, Bool.and_self, ite_self]

/-- Loading returns, and every collection it leaves belongs to a foliage type, caches the GUID
of that type and has both indexes consistent with its instance array. -/
theorem PostLoad_spec (IFA : AInstancedFoliageActor) (TypeObject : Nat → UFoliageType)
    (IsResolvable : Nat → Bool) (V : Nat)
    (Deprecated : List (Option Nat × FFoliageMeshInfo_Deprecated)) :
    ∃ A1, IFA.PostLoad TypeObject IsResolvable V Deprecated = some A1 ∧
      ∀ p ∈ A1.FoliageMeshes, ∃ t, p.1 = some t ∧
        p.2.FoliageTypeUpdateGuid = (TypeObject t).UpdateGuid ∧
        HashConsistent p.2 ∧ BaseHashConsistent p.2 := by
  unfold AInstancedFoliageActor.PostLoad
  simp only
  obtain ⟨Done, h1, _, h3⟩ := PostLoadLoop_spec TypeObject V
    (RemoveNullMeshes (if V < FFoliageCustomVersion.CrossLevelBase then
      ConvertDeprecatedFoliageMeshes IFA Deprecated else IFA).FoliageMeshes)
    (by
      intro p hp
      rw [RemoveNullMeshes_eq, List.mem_filter] at hp
      simpa using hp.2)
  rw [h1]
  exact ⟨_, rfl, h3⟩

/-! ## Selection -/

theorem SelectLoop_spec (b : Bool) :
    ∀ (L Sel : List Nat) (C : UHierarchicalInstancedStaticMeshComponent),
      (∀ i ∈ L, i < C.SelectedInstances.length) →
      ∃ Sel1 C1, FFoliageMeshInfo.SelectLoop b Sel C L = some (Sel1, C1) ∧
        C1.PerInstanceSMData = C.PerInstanceSMData ∧
        C1.SelectedInstances.length = C.SelectedInstances.length := by
  intro L
  induction L with
  | nil => intro Sel C _; exact ⟨Sel, C, rfl, rfl, rfl⟩
  | cons a t ih =>
    intro Sel C h
    have ha := h a (List.mem_cons_self _ _)
    obtain ⟨Sel1, C1, h1, h2, h3⟩ := ih
      (if b then TSet.Add Sel a else TSet.Remove Sel a)
      { C with SelectedInstances := C.SelectedInstances.set a b }
      (fun i hi => by
        simp only [List.length_set]
        exact h i (List.mem_cons_of_mem _ hi))
    refine ⟨Sel1, C1, ?_, h2, ?_⟩
    · rw [FFoliageMeshInfo.SelectLoop, if_pos ha]
      exact h1
    · rw [h3]
      simp only [List.length_set]

/-- `SelectInstances` returns when the indices fit the render sink (and the selection buffer
is empty or as long as the sink when deselecting); the cached GUID and the instance array are
as before. -/
theorem SelectInstances_frame (M : FFoliageMeshInfo) (b : Bool) (L : List Nat)
    (C : UHierarchicalInstancedStaticMeshComponent) (hC : M.Component = some C)
    (hL : ∀ i ∈ L, i < C.PerInstanceSMData.length)
    (hS : b = false → C.SelectedInstances.length = 0 ∨
      C.SelectedInstances.length = C.PerInstanceSMData.length) :
    ∃ M1, M.SelectInstances b L = some M1 ∧
      M1.FoliageTypeUpdateGuid = M.FoliageTypeUpdateGuid ∧ M1.Instances = M.Instances := by
  unfold FFoliageMeshInfo.SelectInstances
  by_cases hne : L.length ≠ 0
  · rw [if_pos hne, hC]
    dsimp only
    cases b with
    | true =>
      simp only [if_true]
      obtain ⟨Sel1, C1, h1, _, _⟩ := SelectLoop_spec true L M.SelectedIndices
        (if C.SelectedInstances.length ≠ C.PerInstanceSMData.length then
          { C with SelectedInstances := List.replicate C.PerInstanceSMData.length false }
        else C)
        (by
          intro i hi
          split
          · simpa using hL i hi
          · rename_i h
            rw [not_not.mp h]
            exact hL i hi)
      rw [h1]
      exact ⟨_, rfl, rfl, rfl⟩
    | false =>
      simp only [Bool.false_eq_true, if_false]
      by_cases h0 : C.SelectedInstances.length ≠ 0
      · rw [if_pos h0]
        have hlen : C.SelectedInstances.length = C.PerInstanceSMData.length := by
          rcases hS rfl with h | h
          · exact absurd h h0
          · exact h
        obtain ⟨Sel1, C1, h1, _, _⟩ := SelectLoop_spec false L M.SelectedIndices C
          (fun i hi => by rw [hlen]; exact hL i hi)
        rw [h1]
        exact ⟨_, rfl, rfl, rfl⟩
      · rw [if_neg h0]
        exact ⟨M, rfl, rfl, rfl⟩
  · rw [if_neg hne]
    exact ⟨M, rfl, rfl, rfl⟩

theorem RemoveInstances_guid (M : FFoliageMeshInfo) (L : List Nat)
    (hL : ∀ i ∈ L, i < M.Instances.length)
    (hC : M.Instances ≠ [] → M.Component.isSome = true) :
    ∃ M1, M.RemoveInstances L = some M1 ∧
      M1.FoliageTypeUpdateGuid = M.FoliageTypeUpdateGuid := by
  apply RemoveInstances_induction
    (fun N _ => N.FoliageTypeUpdateGuid = M.FoliageTypeUpdateGuid) _ M L hL hC rfl
  intro N i rest inst C last _ hR _ _ _
  rw [PassResult_FoliageTypeUpdateGuid]
  exact hR

/-! ## Moving with a base -/

theorem FTranslationMatrix_mul (a b : FVector) :
    FTranslationMatrix a * FTranslationMatrix b = FTranslationMatrix (a.add b) := by
  ext i j
  fin_cases i <;> fin_cases j <;>
    simp [Matrix.mul_apply, Fin.sum_univ_four, FTranslationMatrix, FVector.add]

theorem FScaleMatrix_one : FScaleMatrix ⟨1, 1, 1⟩ = 1 := by
  ext i j
  fin_cases i <;> fin_cases j <;>
    simp [FScaleMatrix, Matrix.one_apply, Matrix.vecHead, Matrix.vecTail]

theorem GetOrigin_rotation_translation (R : FMatrix) (V : FVector)
    (hR : ∀ j, R 3 j = if j = 3 then 1 else 0) :
    FMatrix.GetOrigin (R * FTranslationMatrix V) = V := by
  have h0 := hR 0
  have h1 := hR 1
  have h2 := hR 2
  have h3 := hR 3
  simp only [Fin.isValue] at h0 h1 h2 h3
  simp [FMatrix.GetOrigin, Matrix.mul_apply, Fin.sum_univ_four, FTranslationMatrix, h0, h1, h2,
    h3]

theorem FVector.div_self (s : FVector) (hx : s.X ≠ 0) (hy : s.Y ≠ 0) (hz : s.Z ≠ 0) :
    s.div s = ⟨1, 1, 1⟩ := by
  simp [FVector.div, Int.ediv_self hx, Int.ediv_self hy, Int.ediv_self hz]

/-- A pure translation of the base by `T` makes `DeltaTransfrom` the translation by `T`. -/
theorem DeltaTransfrom_translation (E : FRotationEngine)
    (hInv : ∀ r, E.FInverseRotationMatrix r * E.FRotationMatrix r = 1)
    (Old New : FFoliageInstanceBaseInfo) (T : FVector)
    (hL : New.CachedLocation = Old.CachedLocation.add T)
    (hR : New.CachedRotation = Old.CachedRotation)
    (hS : New.CachedDrawScale = Old.CachedDrawScale)
    (hx : Old.CachedDrawScale.X ≠ 0) (hy : Old.CachedDrawScale.Y ≠ 0)
    (hz : Old.CachedDrawScale.Z ≠ 0) :
    DeltaTransfrom E Old New = FTranslationMatrix T := by
  unfold DeltaTransfrom
  rw [hS, hR, hL, FVector.div_self _ hx hy hz, FScaleMatrix_one, mul_one, mul_assoc
    (FTranslationMatrix Old.CachedLocation.neg), hInv, mul_one, FTranslationMatrix_mul]
  simp [FVector.add, FVector.neg]

theorem BaseDelta_translation (E : FRotationEngine)
    (hInv : ∀ r, E.FInverseRotationMatrix r * E.FRotationMatrix r = 1)
    (hRow : ∀ r j, E.FRotationMatrix r 3 j = if j = 3 then 1 else 0)
    (Old New : FFoliageInstanceBaseInfo) (T : FVector)
    (hL : New.CachedLocation = Old.CachedLocation.add T)
    (hR : New.CachedRotation = Old.CachedRotation)
    (hS : New.CachedDrawScale = Old.CachedDrawScale)
    (hx : Old.CachedDrawScale.X ≠ 0) (hy : Old.CachedDrawScale.Y ≠ 0)
    (hz : Old.CachedDrawScale.Z ≠ 0) (Rotation : FRotator) (Location : FVector) :
    BaseDelta E Old New Rotation Location =
      (Location.add T,
        E.Rotator (E.FRotationMatrix Rotation * FTranslationMatrix (Location.add T))) := by
  unfold BaseDelta
  simp only
  rw [DeltaTransfrom_translation E hInv Old New T hL hR hS hx hy hz, mul_assoc,
    FTranslationMatrix_mul, GetOrigin_rotation_translation _ _ (hRow Rotation)]

theorem MoveInstanceWithBase_eq (Delta : FRotator → FVector → FVector × FRotator)
    (M : FFoliageMeshInfo) (i : Nat) (I : FFoliageInstance)
    (C : UHierarchicalInstancedStaticMeshComponent)
    (hI : M.Instances[i]? = some I) (hC : M.Component = some C) :
    AInstancedFoliageActor.MoveInstanceWithBase Delta M i =
      some { M with
        Instances := M.Instances.set i (MovedBy Delta I)
        Component :=
          some (C.UpdateInstanceTransform i (MovedBy Delta I).GetInstanceWorldTransform)
        InstanceHash :=
          (M.InstanceHash.RemoveInstance I.Location i).InsertInstance
            (MovedBy Delta I).Location i } := by
  unfold AInstancedFoliageActor.MoveInstanceWithBase
  rw [hI]
  dsimp only
  rw [hC]
  rfl

/-- Replacing the instance at `i` and moving its hash entry keeps the spatial hash
consistent. -/
theorem HashRel_move (xs : List FFoliageInstance) (H : FFoliageInstanceHash) (i : Nat)
    (I J : FFoliageInstance) (hH : HashRel xs H.CellMap) (hI : xs[i]? = some I) :
    HashRel (xs.set i J)
      ((H.RemoveInstance I.Location i).InsertInstance J.Location i).CellMap := by
  obtain ⟨hnd, hmem⟩ := hH
  have hi : i < xs.length := (List.getElem?_eq_some_iff.1 hI).1
  refine ⟨FFoliageInstanceHash.nodup_InsertInstance _ _ _
    (FFoliageInstanceHash.nodup_RemoveInstance _ _ _ hnd), ?_⟩
  intro c j
  rw [FFoliageInstanceHash.mem_InsertInstance, FFoliageInstanceHash.mem_RemoveInstance, hmem,
    List.getElem?_set]
  simp only [Prod.mk.injEq, ne_eq]
  by_cases hj : i = j
  · subst hj
    rw [if_pos rfl, if_pos hi, hI, exists_some_and, exists_some_and]
    tauto
  · rw [if_neg hj]
    have hj2 : ¬ j = i := fun e => hj e.symm
    generalize (∃ I, xs[j]? = some I ∧ c = HashCell I.Location) = Q
    tauto

theorem BaseRel_map (keep : Nat → Prop) (xs : List FFoliageInstance)
    (m : List (Nat × List Nat)) (f : FFoliageInstance → FFoliageInstance)
    (hf : ∀ I, (f I).BaseId = I.BaseId) (hB : BaseRel keep xs m) :
    BaseRel keep (xs.map f) m := by
  obtain ⟨h1, h2, h3, h4⟩ := hB
  refine ⟨h1, h2, h3, ?_⟩
  intro b j hk
  rw [h4 b j hk, List.getElem?_map]
  constructor
  · rintro ⟨I, hI, hb⟩
    exact ⟨f I, by rw [hI]; rfl, by rw [hf]; exact hb⟩
  · rintro ⟨J, hJ, hb⟩
    cases hx : xs[j]? with
    | none => rw [hx] at hJ; cases hJ
    | some I =>
      rw [hx] at hJ
      cases hJ
      exact ⟨I, rfl, by rw [← hf]; exact hb⟩

/-- The inner loop over a duplicate-free set of in-range indices returns; exactly the
instances at the indices of the set are replaced by their moved versions. -/
theorem MoveInstancesWithBase_spec (Delta : FRotator → FVector → FVector × FRotator)
    (s : List Nat) :
    ∀ (M : FFoliageMeshInfo), s.Nodup → (∀ j ∈ s, j < M.Instances.length) →
      M.Component.isSome = true → HashRel M.Instances M.InstanceHash.CellMap →
      ComponentConsistent M →
      ∃ M1, AInstancedFoliageActor.MoveInstancesWithBase Delta M s = some M1 ∧
        (∀ j, M1.Instances[j]? =
          (M.Instances[j]?).map (fun I => if j ∈ s then MovedBy Delta I else I)) ∧
        M1.ComponentHash = M.ComponentHash ∧
        HashRel M1.Instances M1.InstanceHash.CellMap ∧ ComponentConsistent M1 := by
  induction s with
  | nil =>
    intro M _ _ _ hH hC
    refine ⟨M, rfl, ?_, rfl, hH, hC⟩
    intro j
    cases M.Instances[j]? <;> simp
  | cons a t ih =>
    intro M hnd hr hc hH hC
    have ha : a < M.Instances.length := hr a (List.mem_cons_self _ _)
    have hI : M.Instances[a]? = some M.Instances[a] := List.getElem?_eq_getElem ha
    obtain ⟨C, hCe⟩ := Option.isSome_iff_exists.1 hc
    have hat : a ∉ t := (List.nodup_cons.1 hnd).1
    have hstep := MoveInstanceWithBase_eq Delta M a _ C hI hCe
    obtain ⟨M1, h1, h2, h3, h4, h5⟩ := ih
      { M with
        Instances := M.Instances.set a (MovedBy Delta M.Instances[a])
        Component := some (C.UpdateInstanceTransform a
          (MovedBy Delta M.Instances[a]).GetInstanceWorldTransform)
        InstanceHash := (M.InstanceHash.RemoveInstance M.Instances[a].Location a).InsertInstance
          (MovedBy Delta M.Instances[a]).Location a }
      (List.nodup_cons.1 hnd).2
      (fun j hj => by
        simp only [List.length_set]
        exact hr j (List.mem_cons_of_mem _ hj))
      rfl
      (HashRel_move _ _ _ _ _ hH hI)
      (by
        unfold ComponentConsistent at hC ⊢
        rw [hCe] at hC
        simp only at hC ⊢
        simp only [UHierarchicalInstancedStaticMeshComponent.UpdateInstanceTransform, hC]
        rw [List.map_set])
    refine ⟨M1, ?_, ?_, h3, h4, h5⟩
    · rw [AInstancedFoliageActor.MoveInstancesWithBase, hstep]
      exact h1
    · intro j
      rw [h2 j]
      simp only [List.getElem?_set]
      by_cases hj : a = j
      · subst hj
        rw [if_pos rfl, if_pos ha, hI]
        simp [hat]
      · rw [if_neg hj]
        have hj2 : ¬ j = a := fun e => hj e.symm
        cases M.Instances[j]? with
        | none => rfl
        | some I => simp [hj2]

/-- The body of the loop over the collections, on a well-formed collection: the instances
anchored to the base are replaced by their moved versions, in place, and the collection stays
well-formed. -/
theorem MoveMeshWithBase_spec (Delta : FRotator → FVector → FVector × FRotator) (b : Nat)
    (M : FFoliageMeshInfo) (hW : WellFormed M) :
    ∃ M1, (match TMap.Find M.ComponentHash b with
        | none => some M
        | some InstanceSet =>
          if InstanceSet.length ≠ 0 then
            AInstancedFoliageActor.MoveInstancesWithBase Delta M InstanceSet
          else some M) = some M1 ∧
      M1.Instances = M.Instances.map (fun I => if I.BaseId = b then MovedBy Delta I else I) ∧
      WellFormed M1 := by
  have hkeep : ∀ s, TMap.Find M.ComponentHash b = some s → s = [] →
      M.Instances.map (fun I => if I.BaseId = b then MovedBy Delta I else I) = M.Instances := by
    intro s hs he
    have hno := WellFormed_no_instance_of_base M hW b (fun s1 h1 => by
      rw [hs] at h1; cases h1; exact he)
    conv_rhs => rw [← List.map_id M.Instances]
    apply List.map_congr_left
    intro I hI
    rw [if_neg (hno I hI)]
    rfl
  cases hf : TMap.Find M.ComponentHash b with
  | none =>
    refine ⟨M, rfl, ?_, hW⟩
    have hno := WellFormed_no_instance_of_base M hW b (fun s1 h1 => by
      rw [hf] at h1; cases h1)
    conv_lhs => rw [← List.map_id M.Instances]
    apply List.map_congr_left
    intro I hI
    rw [if_neg (hno I hI)]
    rfl
  | some s =>
    by_cases hs : s.length ≠ 0
    · simp only [if_pos hs]
      have hw := (WellFormed_iff M).1 hW
      have hlt := WellFormed_Find_lt M hW b s hf
      have hne : M.Instances ≠ [] := by
        intro he
        cases s with
        | nil => exact hs rfl
        | cons a t =>
          have := hlt a (List.mem_cons_self _ _)
          rw [he] at this
          simp at this
      obtain ⟨M1, h1, h2, h3, h4, h5⟩ := MoveInstancesWithBase_spec Delta s M
        (hw.2.1.2.1 b s hf) hlt (WellFormed_Component M hW hne) hw.1 hw.2.2
      have hI : M1.Instances =
          M.Instances.map (fun I => if I.BaseId = b then MovedBy Delta I else I) := by
        apply List.ext_getElem?
        intro j
        rw [h2 j, List.getElem?_map]
        cases hx : M.Instances[j]? with
        | none => rfl
        | some I =>
          simp only [Option.map_some', Option.some.injEq]
          have := WellFormed_Find M hW b s hf j I hx
          by_cases hb : I.BaseId = b
          · rw [if_pos (this.2 hb), if_pos hb]
          · rw [if_neg (fun h => hb (this.1 h)), if_neg hb]
      refine ⟨M1, h1, hI, ?_⟩
      rw [WellFormed_iff]
      refine ⟨h4, ?_, h5⟩
      rw [hI, h3]
      apply BaseRel_map _ _ _ _ _ hw.2.1
      intro I
      split <;> rfl
    · simp only [if_neg hs]
      have he : s = [] := List.length_eq_zero.1 (not_not.1 hs)
      exact ⟨M, rfl, (hkeep s hf he).symm, hW⟩

theorem MoveInstancesLoop_spec (Delta : FRotator → FVector → FVector × FRotator) (b : Nat) :
    ∀ (Meshes : List (Option Nat × FFoliageMeshInfo)), (∀ p ∈ Meshes, WellFormed p.2) →
      ∃ R, AInstancedFoliageActor.MoveInstancesLoop Delta b Meshes = some R ∧
        List.Forall₂ (fun p q => q.1 = p.1 ∧
          q.2.Instances =
            p.2.Instances.map (fun I => if I.BaseId = b then MovedBy Delta I else I) ∧
          WellFormed q.2) Meshes R := by
  intro Meshes
  induction Meshes with
  | nil => intro _; exact ⟨[], rfl, List.Forall₂.nil⟩
  | cons P Rest ih =>
    intro hW
    obtain ⟨R, h1, h2⟩ := ih (fun p hp => hW p (List.mem_cons_of_mem _ hp))
    obtain ⟨M1, hm, hI, hW1⟩ := MoveMeshWithBase_spec Delta b P.2 (hW P (List.mem_cons_self _ _))
    refine ⟨(P.1, M1) :: R, ?_, List.Forall₂.cons ⟨rfl, hI, hW1⟩ h2⟩
    rw [AInstancedFoliageActor.MoveInstancesLoop]
    simp only [hm, h1]

theorem SelectLoop_mem (b : Bool) :
    ∀ (L Sel : List Nat) (C : UHierarchicalInstancedStaticMeshComponent)
      (Sel1 : List Nat) (C1 : UHierarchicalInstancedStaticMeshComponent),
      FFoliageMeshInfo.SelectLoop b Sel C L = some (Sel1, C1) →
      (∀ j, j ∈ Sel1 ↔ if b = true then (j ∈ Sel ∨ j ∈ L) else (j ∈ Sel ∧ j ∉ L)) ∧
      (Sel.Nodup → Sel1.Nodup) ∧
      (∀ i ∈ L, C1.SelectedInstances[i]? = some b) ∧
      (∀ i, i ∉ L → C1.SelectedInstances[i]? = C.SelectedInstances[i]?) := by
  intro L
  induction L with
  | nil =>
    intro Sel C Sel1 C1 h
    simp only [FFoliageMeshInfo.SelectLoop, Option.some.injEq, Prod.mk.injEq] at h
    obtain ⟨rfl, rfl⟩ := h
    refine ⟨?_, fun h => h, ?_, fun _ _ => rfl⟩
    · intro j; cases b <;> simp
    · intro i hi; simp at hi
  | cons a t ih =>
    intro Sel C Sel1 C1 h
    rw [FFoliageMeshInfo.SelectLoop] at h
    by_cases ha : a < C.SelectedInstances.length
    · rw [if_pos ha] at h
      obtain ⟨h1, h2, h3, h4⟩ := ih _ _ Sel1 C1 h
      refine ⟨?_, ?_, ?_, ?_⟩
      · intro j
        rw [h1 j]
        cases b with
        | true =>
          simp only [if_true, TSet.mem_Add, List.mem_cons]
          tauto
        | false =>
          simp only [Bool.false_eq_true, if_false, TSet.mem_Remove, List.mem_cons]
          tauto
      · intro hnd
        apply h2
        cases b with
        | true => exact TSet.nodup_Add hnd
        | false => exact TSet.nodup_Remove hnd
      · intro i hi
        by_cases hit : i ∈ t
        · exact h3 i hit
        · rcases List.mem_cons.1 hi with rfl | hi
          · rw [h4 i hit]
            simp only [List.getElem?_set, if_true, if_pos ha]
          · exact absurd hi hit
      · intro i hi
        have hia : ¬ a = i := fun e => hi (e ▸ List.mem_cons_self _ _)
        rw [h4 i (fun hit => hi (List.mem_cons_of_mem _ hit))]
        simp only [List.getElem?_set, if_neg hia]
    · rw [if_neg ha] at h
      cases h

/-! ## Selection through the removal loop -/

theorem PassResult_SelectedIndices_mem (M : FFoliageMeshInfo) (i : Nat)
    (inst : FFoliageInstance) (C : UHierarchicalInstancedStaticMeshComponent)
    (last : FFoliageInstance) (j : Nat) :
    j ∈ (PassResult M i inst C last).SelectedIndices ↔
      j ≠ M.Instances.length - 1 ∧
        ((j = i ∧ i ≠ M.Instances.length - 1 ∧
            M.Instances.length - 1 ∈ M.SelectedIndices) ∨
          (j ≠ i ∧ j ∈ M.SelectedIndices)) := by
  unfold PassResult
  simp only
  by_cases hne : i ≠ M.Instances.length - 1
  · rw [if_pos hne]
    simp only
    by_cases hl : M.Instances.length - 1 ∈ TSet.Remove M.SelectedIndices i
    · rw [if_pos hl, TSet.mem_Add, TSet.mem_Remove, TSet.mem_Remove]
      rw [TSet.mem_Remove] at hl
      by_cases hji : j = i
      · subst hji; tauto
      · tauto
    · rw [if_neg hl, TSet.mem_Remove]
      rw [TSet.mem_Remove] at hl
      by_cases hjl : j = M.Instances.length - 1
      · subst hjl; tauto
      · tauto
  · rw [if_neg hne]
    simp only
    rw [TSet.mem_Remove]
    have hi : i = M.Instances.length - 1 := not_not.1 hne
    rw [← hi]
    tauto

theorem PassResult_SelectedIndices_nodup (M : FFoliageMeshInfo) (i : Nat)
    (inst : FFoliageInstance) (C : UHierarchicalInstancedStaticMeshComponent)
    (last : FFoliageInstance) (h : M.SelectedIndices.Nodup) :
    (PassResult M i inst C last).SelectedIndices.Nodup := by
  unfold PassResult
  simp only
  split
  · simp only
    split
    · exact TSet.nodup_Add (TSet.nodup_Remove (TSet.nodup_Remove h))
    · exact TSet.nodup_Remove h
  · exact TSet.nodup_Remove h

/-- The selection through `RemoveInstances`: `Origin` lists, for every slot of the new array,
the old index of the instance that now sits there. -/
theorem RemoveInstances_selection (M : FFoliageMeshInfo) (L : List Nat)
    (hL : ∀ i ∈ L, i < M.Instances.length)
    (hC : M.Instances ≠ [] → M.Component.isSome = true)
    (hSn : M.SelectedIndices.Nodup)
    (hSr : ∀ j ∈ M.SelectedIndices, j < M.Instances.length) :
    ∃ (M1 : FFoliageMeshInfo) (Origin : List Nat), M.RemoveInstances L = some M1 ∧
      Origin.Perm ((List.range M.Instances.length).filter (fun k => decide (k ∉ L))) ∧
      Origin.length = M1.Instances.length ∧
      (∀ j k, Origin[j]? = some k →
        M1.Instances[j]? = M.Instances[k]? ∧
        (j ∈ M1.SelectedIndices ↔ k ∈ M.SelectedIndices)) ∧
      M1.SelectedIndices.Nodup ∧
      ∀ j ∈ M1.SelectedIndices, j < M1.Instances.length := by
  let R : FFoliageMeshInfo → List Nat → Prop := fun N P =>
    ∃ Origin : List Nat, Origin.length = N.Instances.length ∧
      (InstancesNotIn Origin P).Perm (InstancesNotIn (List.range M.Instances.length) L) ∧
      (∀ j k, Origin[j]? = some k →
        N.Instances[j]? = M.Instances[k]? ∧
        (j ∈ N.SelectedIndices ↔ k ∈ M.SelectedIndices)) ∧
      N.SelectedIndices.Nodup ∧
      ∀ j ∈ N.SelectedIndices, j < N.Instances.length
  have hstep : ∀ (N : FFoliageMeshInfo) (i : Nat) (rest : List Nat) (inst : FFoliageInstance)
      (C : UHierarchicalInstancedStaticMeshComponent) (last : FFoliageInstance),
      PendingOK N (i :: rest) → R N (i :: rest) →
      N.Instances[i]? = some inst → N.Component = some C →
      N.Instances[N.Instances.length - 1]? = some last →
      R (PassResult N i inst C last) (NextPending N.Instances.length (i :: rest) i) := by
    intro N i rest inst C last hok hR hI _ _
    obtain ⟨Origin, hlen, hperm, hpt, hnd, hr⟩ := hR
    have hi : i < N.Instances.length := (List.getElem?_eq_some_iff.1 hI).1
    have hiO : i < Origin.length := by rw [hlen]; exact hi
    refine ⟨TArray.RemoveAtSwap Origin i, ?_, ?_, ?_,
      PassResult_SelectedIndices_nodup N i inst C last hnd, ?_⟩
    · rw [PassResult_Instances, TArray.length_RemoveAtSwap, TArray.length_RemoveAtSwap, hlen]
    · rw [← hlen]
      exact (InstancesNotIn_pass Origin (i :: rest) i (List.mem_cons_self _ _)
        (fun j hj => by rw [hlen]; exact hok.2.1 j hj)).trans hperm
    · intro j k hjk
      rw [TArray.getElem?_RemoveAtSwap Origin i j hiO] at hjk
      rw [PassResult_Instances, TArray.getElem?_RemoveAtSwap N.Instances i j hi,
        PassResult_SelectedIndices_mem]
      rw [hlen] at hjk
      by_cases hjl : j = N.Instances.length - 1
      · rw [if_pos hjl] at hjk
        cases hjk
      · rw [if_neg hjl] at hjk ⊢
        by_cases hji : j = i
        · rw [if_pos hji] at hjk ⊢
          obtain ⟨h1, h2⟩ := hpt _ k hjk
          refine ⟨h1, ?_⟩
          rw [← h2]
          subst hji
          tauto
        · rw [if_neg hji] at hjk ⊢
          obtain ⟨h1, h2⟩ := hpt _ k hjk
          refine ⟨h1, ?_⟩
          rw [← h2]
          tauto
    · intro j hj
      rw [PassResult_SelectedIndices_mem] at hj
      rw [PassResult_Instances, TArray.length_RemoveAtSwap]
      obtain ⟨hjl, hj2⟩ := hj
      rcases hj2 with ⟨rfl, _, _⟩ | ⟨_, hjs⟩
      · omega
      · have := hr j hjs
        omega
  have hinit : R M (L.foldl TSet.Add []) := by
    refine ⟨List.range M.Instances.length, List.length_range _, ?_, ?_, hSn, hSr⟩
    · rw [InstancesNotIn_congr _ (L.foldl TSet.Add []) L (fun j => by
        rw [TSet.mem_foldl_Add]; simp)]
    · intro j k hjk
      by_cases hj : j < M.Instances.length
      · rw [List.getElem?_range hj] at hjk
        cases hjk
        exact ⟨rfl, Iff.rfl⟩
      · rw [List.getElem?_eq_none (by simpa using hj)] at hjk
        cases hjk
  obtain ⟨M1, h1, Origin, hlen, hperm, hpt, hnd, hr⟩ :=
    RemoveInstances_induction R hstep M L hL hC hinit
  refine ⟨M1, Origin, h1, ?_, hlen, hpt, hnd, hr⟩
  rw [InstancesNotIn_nil] at hperm
  rw [InstancesNotIn_eq_filter (fun k => decide (k ∈ L))] at hperm
  · simpa using hperm
  · intro j a hja
    have hj : j < M.Instances.length := by
      have := (List.getElem?_eq_some_iff.1 hja).1
      simpa using this
    rw [List.getElem?_range hj] at hja
    cases hja
    simp

/-! ## Keys through loading -/

theorem TMap.mem_Keys_Add {κ ν : Type} [DecidableEq κ] (m : List (κ × ν)) (k0 k : κ) (v : ν) :
    k ∈ TMap.Keys (TMap.Add m k0 v) ↔ k ∈ TMap.Keys m ∨ k = k0 := by
  unfold TMap.Keys
  induction m with
  | nil => simp [TMap.Add]
  | cons p rest ih =>
    unfold TMap.Add
    by_cases hp : p.1 = k0
    · rw [if_pos hp]
      simp only [List.map_cons, List.mem_cons]
      rw [hp]
      tauto
    · rw [if_neg hp]
      simp only [List.map_cons, List.mem_cons]
      rw [ih]
      tauto

theorem ConvertDeprecatedFoliageMeshes_keys
    (D : List (Option Nat × FFoliageMeshInfo_Deprecated)) :
    ∀ (IFA : AInstancedFoliageActor) (k : Option Nat), k ∈ TMap.Keys IFA.FoliageMeshes →
      k ∈ TMap.Keys (ConvertDeprecatedFoliageMeshes IFA D).FoliageMeshes := by
  induction D with
  | nil => intro IFA k h; exact h
  | cons P Rest ih =>
    intro IFA k h
    rw [ConvertDeprecatedFoliageMeshes]
    apply ih
    simp only
    rw [TMap.mem_Keys_Add]
    exact Or.inl h

/-- The keys `PostLoad` leaves are the keys before the loop over the collections, the null
key taken out. -/
theorem PostLoad_keys (IFA : AInstancedFoliageActor) (TypeObject : Nat → UFoliageType)
    (IsResolvable : Nat → Bool) (V : Nat)
    (Deprecated : List (Option Nat × FFoliageMeshInfo_Deprecated)) :
    ∃ A1, IFA.PostLoad TypeObject IsResolvable V Deprecated = some A1 ∧
      TMap.Keys A1.FoliageMeshes =
        (TMap.Keys (if V < FFoliageCustomVersion.CrossLevelBase then
          ConvertDeprecatedFoliageMeshes IFA Deprecated else IFA).FoliageMeshes).filter
          (fun k => decide (k ≠ none)) := by
  unfold AInstancedFoliageActor.PostLoad
  simp only
  obtain ⟨Done, h1, h2, _⟩ := PostLoadLoop_spec TypeObject V
    (RemoveNullMeshes (if V < FFoliageCustomVersion.CrossLevelBase then
      ConvertDeprecatedFoliageMeshes IFA Deprecated else IFA).FoliageMeshes)
    (by
      intro p hp
      rw [RemoveNullMeshes_eq, List.mem_filter] at hp
      simpa using hp.2)
  rw [h1]
  refine ⟨_, rfl, ?_⟩
  unfold TMap.Keys FFoliageInstanceBaseCache.CompactInstanceBaseCache
  simp only
  rw [h2, RemoveNullMeshes_eq, List.filter_map]
  rfl

/-! ## Registering a base twice -/

theorem FindBaseId_eq_invalid (m : List (Nat × FFoliageInstanceBaseInfo)) (Id : Nat)
    (hk : ∀ p ∈ m, p.1 ≠ InvalidBaseId) (h : FindBaseId m Id = InvalidBaseId) :
    ∀ p ∈ m, p.2.BasePtr ≠ Id := by
  induction m with
  | nil => intro p hp; simp at hp
  | cons q rest ih =>
    intro p hp
    unfold FindBaseId at h
    by_cases hq : q.2.BasePtr = Id
    · rw [if_pos hq] at h
      exact absurd h (hk q (List.mem_cons_self _ _))
    · rw [if_neg hq] at h
      rcases List.mem_cons.1 hp with rfl | hp
      · exact hq
      · exact ih (fun p hp => hk p (List.mem_cons_of_mem _ hp)) h p hp

theorem FindBaseId_append (m : List (Nat × FFoliageInstanceBaseInfo)) (Id n : Nat)
    (Info : FFoliageInstanceBaseInfo) (hm : ∀ p ∈ m, p.2.BasePtr ≠ Id)
    (hI : Info.BasePtr = Id) : FindBaseId (m ++ [(n, Info)]) Id = n := by
  induction m with
  | nil => simp [FindBaseId, hI]
  | cons q rest ih =>
    rw [List.cons_append, FindBaseId, if_neg (hm q (List.mem_cons_self _ _))]
    exact ih (fun p hp => hm p (List.mem_cons_of_mem _ hp))

/-- Registering a base in a valid cache: a second registration of the same base returns the
same id and the same cache, and the cache stays valid. -/
theorem AddInstanceBaseId_twice (Cache : FFoliageInstanceBaseCache) (hV : Cache.Valid)
    (Base : Option UActorComponent) :
    (Cache.AddInstanceBaseId Base).2.AddInstanceBaseId Base = Cache.AddInstanceBaseId Base ∧
    (Cache.AddInstanceBaseId Base).2.Valid := by
  cases Base with
  | none => exact ⟨rfl, hV⟩
  | some c =>
    by_cases h : Cache.GetInstanceBaseId (some c) ≠ InvalidBaseId
    · have h1 : Cache.AddInstanceBaseId (some c) = (Cache.GetInstanceBaseId (some c), Cache) := by
        unfold FFoliageInstanceBaseCache.AddInstanceBaseId
        simp only
        rw [if_pos h]
      rw [h1]
      exact ⟨h1, hV⟩
    · have h0 : FindBaseId Cache.InstanceBaseMap c.Id = InvalidBaseId := not_not.1 h
      have h1 : Cache.AddInstanceBaseId (some c) =
          (Cache.NextBaseId,
            { NextBaseId := Cache.NextBaseId + 1
              InstanceBaseMap := Cache.InstanceBaseMap ++
                [(Cache.NextBaseId, ⟨c.Id, c.Location, c.Rotation, c.DrawScale⟩)] }) := by
        unfold FFoliageInstanceBaseCache.AddInstanceBaseId
        simp only
        rw [if_neg h]
      have hfind := FindBaseId_append Cache.InstanceBaseMap c.Id Cache.NextBaseId
        ⟨c.Id, c.Location, c.Rotation, c.DrawScale⟩
        (FindBaseId_eq_invalid _ _ hV.2 h0) rfl
      rw [h1]
      refine ⟨?_, ?_, ?_⟩
      · unfold FFoliageInstanceBaseCache.AddInstanceBaseId
        simp only [FFoliageInstanceBaseCache.GetInstanceBaseId, hfind]
        rw [if_pos hV.1]
      · show Cache.NextBaseId + 1 ≠ InvalidBaseId
        unfold InvalidBaseId
        omega
      · intro p hp
        simp only [List.mem_append, List.mem_singleton] at hp
        rcases hp with hp | rfl
        · exact hV.2 p hp
        · exact hV.1

/-! ## The number of passes of the removal loop -/

theorem RemoveInstancesLoop_out_of_fuel :
    ∀ (fuel : Nat) (M : FFoliageMeshInfo) (P : List Nat), PendingOK M P → fuel < P.length →
      FFoliageMeshInfo.RemoveInstancesLoop fuel M P = none := by
  intro fuel
  induction fuel with
  | zero =>
    intro M P _ hlt
    cases P with
    | nil => simp at hlt
    | cons i rest => rfl
  | succ fuel ih =>
    intro M P hok hlt
    cases P with
    | nil => simp at hlt
    | cons i rest =>
      obtain ⟨inst, C, last, _, _, _, hpass, _, hok1⟩ := PendingOK_pass M i rest hok
      have hlen := NextPending_length (n := M.Instances.length) (i := i) hok.1
        (List.mem_cons_self i rest)
      rw [FFoliageMeshInfo.RemoveInstancesLoop, hpass]
      apply ih _ _ hok1
      simp only [List.length_cons] at hlt hlen
      omega

/-! ## Light map resolution and ages -/

theorem land_mask (x : Nat) (hx : x < 4294967296) : x &&& 4294967292 = 4 * (x / 4) := by
  have h1 : (4294967292 : Nat) = (2 ^ 30 - 1) <<< 2 := by decide
  have h2 : 4 * (x / 4) = (x >>> 2) <<< 2 := by
    rw [Nat.shiftLeft_eq, Nat.shiftRight_eq_div_pow]
    ring
  rw [h1, h2]
  apply Nat.eq_of_testBit_eq
  intro j
  simp only [Nat.testBit_and, Nat.testBit_shiftLeft, Nat.testBit_shiftRight,
    Nat.testBit_two_pow_sub_one]
  by_cases hj : 2 ≤ j
  · have e : 2 + (j - 2) = j := by omega
    rw [e]
    by_cases hj2 : j - 2 < 30
    · simp [hj, hj2]
    · have : x.testBit j = false := by
        apply Nat.testBit_lt_two_pow
        calc x < 2 ^ 32 := hx
          _ ≤ 2 ^ j := Nat.pow_le_pow_right (by norm_num) (by omega)
      simp [hj, hj2, this]
  · simp [hj]

/-- The expression `x & ~3` on a non-negative `int32`: the multiple of four below. -/
theorem Int32.And_Not_three (x : Int) (h0 : 0 ≤ x) (h1 : x < 2147483648) :
    Int32.And (Int32.Wrap x) (Int32.Not 3) = 4 * (x / 4) := by
  have hw : Int32.Wrap x = x := by unfold Int32.Wrap; omega
  have hn : Int32.Bits (Int32.Not 3) = 4294967292 := by decide
  have hb : Int32.Bits x = x.toNat := by unfold Int32.Bits; omega
  unfold Int32.And
  rw [hw, hn, hb, land_mask _ (by omega)]
  unfold Int32.Wrap
  have hx : ((x.toNat : Nat) : Int) = x := Int.toNat_of_nonneg h0
  push_cast
  rw [hx]
  omega

theorem GetNextAgeLoop_spec (T : UFoliageType) :
    ∀ (r : Nat) (A : ℚ), ∃ k : Nat, k ≤ r ∧ T.GetNextAgeLoop r A = A + k ∧
      (k = 0 ∨ A + k ≤ T.MaxAge) ∧ (k < r → ¬ (A + k + 1 ≤ T.MaxAge)) := by
  intro r
  induction r with
  | zero => intro A; exact ⟨0, le_refl _, by simp [UFoliageType.GetNextAgeLoop], Or.inl rfl,
      fun h => absurd h (lt_irrefl _)⟩
  | succ r ih =>
    intro A
    rw [UFoliageType.GetNextAgeLoop]
    by_cases hg : A + 1 ≤ T.MaxAge
    · simp only [if_pos hg]
      obtain ⟨k0, h1, h2, h3, h4⟩ := ih (A + 1)
      refine ⟨k0 + 1, by omega, ?_, Or.inr ?_, ?_⟩
      · rw [h2]; push_cast; ring
      · rcases h3 with h3 | h3
        · subst h3; simpa using hg
        · push_cast; linarith
      · intro hlt
        have := h4 (by omega)
        push_cast
        intro hc
        apply this
        linarith
    · simp only [if_neg hg]
      exact ⟨0, Nat.zero_le _, by simp, Or.inl rfl, fun _ => by simpa using hg⟩

theorem PostEditChangeProperty_res (T : UFoliageType) (Self NewGuid : Nat) (b : Bool)
    (Actors : List AInstancedFoliageActor) :
    (T.PostEditChangeProperty Self NewGuid b Actors).1.OverriddenLightMapRes =
      if 4 < T.OverriddenLightMapRes then
        Int32.And (Int32.Wrap (T.OverriddenLightMapRes + 3)) (Int32.Not 3)
      else 4 := rfl

theorem PostEditChangeProperty_res_eq (T : UFoliageType) (Self NewGuid : Nat) (b : Bool)
    (Actors : List AInstancedFoliageActor) (h : T.OverriddenLightMapRes + 3 < 2147483648) :
    (T.PostEditChangeProperty Self NewGuid b Actors).1.OverriddenLightMapRes =
      if 4 < T.OverriddenLightMapRes then 4 * ((T.OverriddenLightMapRes + 3) / 4) else 4 := by
  rw [PostEditChangeProperty_res]
  split
  · exact Int32.And_Not_three _ (by omega) h
  · rfl

/-! ## The crash allocator -/

theorem Uint32.Sub_Add (S O : Nat) (hS : S < 4294967296) :
    Uint32.Sub (Uint32.Add S O) O = S := by
  unfold Uint32.Sub Uint32.Add
  omega

/-- The search of `FindPoolFromSize` over pools whose block sizes increase: the pool found is
the first one, and the smallest one, whose block size is at least the size asked for; no pool
is found exactly when every block size is smaller. -/
theorem FindPoolFromSizeLoop_spec (K : FMallocCrashEnum) (n : Nat) :
    ∀ (Pools : List FMallocCrashPool) (i : Nat),
      (Pools.map (fun P => Uint32.Sub P.AllocationSize K.PER_ALLOC_OVERHEAD)).Pairwise
        (fun a b => a < b) →
      (∀ r, FindPoolFromSizeLoop K n Pools i = some r →
        ∃ k P, r = i + k ∧ Pools[k]? = some P ∧
          n ≤ Uint32.Sub P.AllocationSize K.PER_ALLOC_OVERHEAD ∧
          (∀ j Q, j < k → Pools[j]? = some Q →
            Uint32.Sub Q.AllocationSize K.PER_ALLOC_OVERHEAD < n) ∧
          (∀ Q ∈ Pools, n ≤ Uint32.Sub Q.AllocationSize K.PER_ALLOC_OVERHEAD →
            Uint32.Sub P.AllocationSize K.PER_ALLOC_OVERHEAD ≤
              Uint32.Sub Q.AllocationSize K.PER_ALLOC_OVERHEAD)) ∧
      (FindPoolFromSizeLoop K n Pools i = none →
        ∀ Q ∈ Pools, Uint32.Sub Q.AllocationSize K.PER_ALLOC_OVERHEAD < n) := by
  intro Pools
  induction Pools with
  | nil =>
    intro i _
    refine ⟨?_, ?_⟩
    · intro r h
      simp [FindPoolFromSizeLoop] at h
    · intro _ Q hQ
      simp at hQ
  | cons P Rest ih =>
    intro i hs
    rw [List.map_cons, List.pairwise_cons] at hs
    obtain ⟨hP, hRest⟩ := hs
    rw [FindPoolFromSizeLoop]
    by_cases hn : n ≤ Uint32.Sub P.AllocationSize K.PER_ALLOC_OVERHEAD
    · rw [if_pos hn]
      refine ⟨?_, ?_⟩
      · intro r hr
        cases hr
        refine ⟨0, P, rfl, List.getElem?_cons_zero, hn, ?_, ?_⟩
        · intro j Q hj
          omega
        · intro Q hQ _
          rcases List.mem_cons.1 hQ with rfl | hQ
          · exact le_refl _
          · exact (hP _ (List.mem_map_of_mem _ hQ)).le
      · intro h
        cases h
    · rw [if_neg hn]
      obtain ⟨h1, h2⟩ := ih (i + 1) hRest
      refine ⟨?_, ?_⟩
      · intro r hr
        obtain ⟨k, P1, hk, hP1, hn1, hlt, hmin⟩ := h1 r hr
        refine ⟨k + 1, P1, by omega, by simpa using hP1, hn1, ?_, ?_⟩
        · intro j Q hj hQ
          cases j with
          | zero =>
            simp only [List.getElem?_cons_zero, Option.some.injEq] at hQ
            subst hQ
            omega
          | succ j =>
            simp only [List.getElem?_cons_succ] at hQ
            exact hlt j Q (by omega) hQ
        · intro Q hQ hnQ
          rcases List.mem_cons.1 hQ with rfl | hQ
          · exact absurd hnQ hn
          · exact hmin Q hQ hnQ
      · intro h Q hQ
        rcases List.mem_cons.1 hQ with rfl | hQ
        · omega
        · exact h2 h Q hQ

theorem AllocateFromSmallPool_Pools (K : FMallocCrashEnum) (M : FMallocCrash) (A : Nat)
    (R : Nat × FMallocCrash) (h : M.AllocateFromSmallPool K A = some R) :
    R.2.Pools = M.Pools := by
  unfold FMallocCrash.AllocateFromSmallPool at h
  cases hT : GetSmallPoolTotalSize K with
  | none => rw [hT] at h; cases h
  | some T =>
    rw [hT] at h
    dsimp only at h
    split at h
    · cases h
      rfl
    · cases h

theorem AllocateSlots_Pools (K : FMallocCrashEnum) (A : Nat) :
    ∀ (r : Nat) (Outer : FMallocCrash) (L : List FPtrInfo) (R : List FPtrInfo × FMallocCrash),
      FMallocCrashPool.AllocateSlots K A r Outer L = some R → R.2.Pools = Outer.Pools := by
  intro r
  induction r with
  | zero =>
    intro Outer L R h
    simp only [FMallocCrashPool.AllocateSlots, Option.some.injEq] at h
    rw [← h]
  | succ r ih =>
    intro Outer L R h
    rw [FMallocCrashPool.AllocateSlots] at h
    cases hA : Outer.AllocateFromSmallPool K A with
    | none => rw [hA] at h; cases h
    | some Q =>
      rw [hA] at h
      dsimp only at h
      rw [ih _ _ _ h]
      exact AllocateFromSmallPool_Pools K Outer A Q hA

theorem InitializeSmallPoolsLoop_sizes (K : FMallocCrashEnum) :
    ∀ (Descs : List FPoolDesc) (M M1 : FMallocCrash),
      InitializeSmallPoolsLoop K Descs M = some M1 →
      M1.Pools.map (fun P => P.AllocationSize) =
        M.Pools.map (fun P => P.AllocationSize) ++
          Descs.map (fun D => Uint32.Add D.Size K.PER_ALLOC_OVERHEAD) := by
  intro Descs
  induction Descs with
  | nil =>
    intro M M1 h
    simp only [InitializeSmallPoolsLoop, Option.some.injEq] at h
    rw [← h]
    simp
  | cons D Rest ih =>
    intro M M1 h
    rw [InitializeSmallPoolsLoop] at h
    unfold FMallocCrashPool.new at h
    dsimp only at h
    cases hA : FMallocCrashPool.AllocateSlots K (Uint32.Add D.Size K.PER_ALLOC_OVERHEAD)
        D.NumAllocs M [] with
    | none => rw [hA] at h; simp at h
    | some R =>
      rw [hA] at h
      simp only [Option.map_some'] at h
      rw [ih _ _ h]
      simp [AllocateSlots_Pools K _ _ _ _ _ hA]

/-- The allocator the constructor returns has one pool per entry of the table, with the block
size of the entry plus the overhead. -/
theorem FMallocCrash.new_sizes (K : FMallocCrashEnum) (L S : Nat) (M : FMallocCrash)
    (h : FMallocCrash.new K L S = some M) :
    M.Pools.map (fun P => P.AllocationSize) =
      AllPoolDesc.map (fun D => Uint32.Add D.Size K.PER_ALLOC_OVERHEAD) := by
  unfold FMallocCrash.new at h
  split at h
  · cases h
  · split at h
    · cases h
    · unfold FMallocCrash.InitializeSmallPools at h
      split at h
      · rename_i M1 T h1 _
        split at h
        · cases h
          simpa using InitializeSmallPoolsLoop_sizes K _ _ _ h1
        · cases h
      · cases h

theorem List.set_getElem_same {α : Type} (l : List α) (k : Nat) (h : k < l.length) :
    l.set k l[k] = l := by
  apply List.ext_getElem?
  intro j
  rw [List.getElem?_set]
  by_cases hj : k = j
  · subst hj
    rw [if_pos rfl, if_pos h, List.getElem?_eq_getElem h]
  · rw [if_neg hj]

theorem FirstUnused_size (A : List FPtrInfo) :
    ∀ (r i k : Nat), FirstUnused A i r = some (some k) →
      ∃ Q, A[k]? = some Q ∧ Q.Size = 0 := by
  intro r
  induction r with
  | zero =>
    intro i k h
    simp [FirstUnused] at h
  | succ r ih =>
    intro i k h
    rw [FirstUnused] at h
    cases hA : A[i]? with
    | none => rw [hA] at h; cases h
    | some Q =>
      rw [hA] at h
      dsimp only at h
      by_cases hQ : Q.Size = 0
      · rw [if_pos hQ] at h
        cases h
        exact ⟨Q, hA, hQ⟩
      · rw [if_neg hQ] at h
        exact ih _ _ h

/-- A slot handed out for a request of size 0 keeps a header of size 0: the pool has the same
slots as before and hands the same slot out on the next request. -/
theorem AllocateFromPool_zero (Pool : FMallocCrashPool) (p : Nat) (Pool1 : FMallocCrashPool)
    (h : Pool.AllocateFromPool 0 = some (p, Pool1)) :
    Pool1.Allocations = Pool.Allocations ∧
    ∀ n, ∃ Pool2, Pool1.AllocateFromPool n = some (p, Pool2) := by
  unfold FMallocCrashPool.AllocateFromPool at h
  cases hF : FirstUnused Pool.Allocations 0 Pool.MaxNumAllocations with
  | none => rw [hF] at h; cases h
  | some o =>
    cases o with
    | none => rw [hF] at h; cases h
    | some k =>
      obtain ⟨Q, hQ, hQ0⟩ := FirstUnused_size Pool.Allocations _ _ _ hF
      rw [hF] at h
      dsimp only at h
      rw [hQ] at h
      dsimp only at h
      simp only [Option.some.injEq, Prod.mk.injEq] at h
      obtain ⟨hp, hP1⟩ := h
      have hset : Pool.Allocations.set k { Q with Size := 0 } = Pool.Allocations := by
        have hQe : ({ Q with Size := 0 } : FPtrInfo) = Q := by
          cases Q
          simp only at hQ0
          subst hQ0
          rfl
        rw [hQe]
        obtain ⟨hlt, he⟩ := List.getElem?_eq_some_iff.1 hQ
        rw [← he]
        exact List.set_getElem_same _ _ hlt
      have hA : Pool1.Allocations = Pool.Allocations := by
        rw [← hP1]
        exact hset
      have hM : Pool1.MaxNumAllocations = Pool.MaxNumAllocations := by
        rw [← hP1]
      refine ⟨hA, ?_⟩
      intro n
      unfold FMallocCrashPool.AllocateFromPool
      rw [hA, hM, hF]
      dsimp only
      rw [hQ]
      dsimp only
      rw [hp]
      exact ⟨_, rfl⟩

/-! ## Selecting one instance -/

theorem TMap.Find_map_values {κ ν : Type} [DecidableEq κ] (f : ν → ν) (m : List (κ × ν))
    (k : κ) : TMap.Find (m.map (fun p => (p.1, f p.2))) k = (TMap.Find m k).map f := by
  induction m with
  | nil => rfl
  | cons p rest ih =>
    simp only [List.map_cons, TMap.Find]
    by_cases hp : p.1 = k
    · simp [hp]
    · simp [hp, ih]

theorem TMap.Keys_map_values {κ ν : Type} (f : ν → ν) (m : List (κ × ν)) :
    TMap.Keys (m.map (fun p => (p.1, f p.2))) = TMap.Keys m := by
  unfold TMap.Keys
  rw [List.map_map]
  rfl

theorem DeselectMesh_eq (M : FFoliageMeshInfo)
    (h : M.SelectedIndices ≠ [] → M.Component.isSome = true) :
    DeselectMesh M = some (ClearSelection M) := by
  unfold DeselectMesh ClearSelection
  by_cases hs : 0 < M.SelectedIndices.length
  · have hne : M.SelectedIndices ≠ [] := by
      intro he; rw [he] at hs; simp at hs
    obtain ⟨C, hC⟩ := Option.isSome_iff_exists.1 (h hne)
    simp only [if_pos hs, hC, Option.map_some']
  · simp only [if_neg hs]

theorem DeselectAllLoop_eq :
    ∀ (L : List (Option Nat × FFoliageMeshInfo)),
      (∀ p ∈ L, p.2.SelectedIndices ≠ [] → p.2.Component.isSome = true) →
      DeselectAllLoop L = some (L.map (fun p => (p.1, ClearSelection p.2))) := by
  intro L
  induction L with
  | nil => intro _; rfl
  | cons p rest ih =>
    intro h
    rw [DeselectAllLoop, DeselectMesh_eq p.2 (h p (List.mem_cons_self _ _)),
      ih (fun q hq => h q (List.mem_cons_of_mem _ hq))]
    rfl

theorem FindMeshOfComponent_not_mem (k : Option Nat) :
    ∀ (L : List (Option Nat × FFoliageMeshInfo)) (Found : Option (Option Nat × FFoliageMeshInfo)),
      k ∉ TMap.Keys L → FindMeshOfComponent k L Found = Found := by
  intro L
  induction L with
  | nil => intro Found _; rfl
  | cons p rest ih =>
    intro Found hk
    simp only [TMap.Keys, List.map_cons, List.mem_cons, not_or] at hk
    rw [FindMeshOfComponent, if_neg (fun h => hk.1 h.1.symm)]
    exact ih Found hk.2

/-- In a map with distinct keys the search finds the collection kept under the key, when that
collection has its component. -/
theorem FindMeshOfComponent_eq (k : Option Nat) (M : FFoliageMeshInfo)
    (hC : M.Component ≠ none) :
    ∀ (L : List (Option Nat × FFoliageMeshInfo)) (Found : Option (Option Nat × FFoliageMeshInfo)),
      (TMap.Keys L).Nodup → TMap.Find L k = some M →
      FindMeshOfComponent k L Found = some (k, M) := by
  intro L
  induction L with
  | nil => intro Found _ h; simp [TMap.Find] at h
  | cons p rest ih =>
    intro Found hnd h
    simp only [TMap.Keys, List.map_cons, List.nodup_cons] at hnd
    rw [TMap.Find] at h
    rw [FindMeshOfComponent]
    by_cases hp : p.1 = k
    · rw [if_pos hp] at h
      cases h
      rw [if_pos ⟨hp, hC⟩]
      rw [FindMeshOfComponent_not_mem k rest _ (by rw [← hp]; exact hnd.1)]
      rw [← hp]
    · rw [if_neg hp] at h
      rw [if_neg (fun hh => hp hh.1)]
      exact ih Found hnd.2 h

/-- The block on the collection found returns when the index is an instance of the component:
the collection keeps its instances, and the index is deselected when toggling an index that
was selected and selected otherwise. -/
theorem SelectInstanceInMesh_spec (M : FFoliageMeshInfo)
    (C : UHierarchicalInstancedStaticMeshComponent) (i : Nat) (b : Bool)
    (hC : M.Component = some C) (hi : i < C.PerInstanceSMData.length) :
    ∃ (M1 : FFoliageMeshInfo) (C1 : UHierarchicalInstancedStaticMeshComponent),
      SelectInstanceInMesh M i b = some M1 ∧ M1.Component = some C1 ∧
      C1.PerInstanceSMData = C.PerInstanceSMData ∧
      M1.Instances = M.Instances ∧ M1.InstanceHash = M.InstanceHash ∧
      M1.ComponentHash = M.ComponentHash ∧
      M1.FoliageTypeUpdateGuid = M.FoliageTypeUpdateGuid ∧
      (∀ j, j ∈ M1.SelectedIndices ↔
        if j = i then (b = false ∨ i ∉ M.SelectedIndices) else j ∈ M.SelectedIndices) ∧
      (M.SelectedIndices.Nodup → M1.SelectedIndices.Nodup) ∧
      (i ∈ M1.SelectedIndices → C1.SelectedInstances[i]? = some true) := by
  unfold SelectInstanceInMesh
  simp only [hC]
  generalize hC1 : (if i < C.SelectedInstances.length then
      ({ C with SelectedInstances := C.SelectedInstances.set i false } :
        UHierarchicalInstancedStaticMeshComponent) else C) = C1
  have hd1 : C1.PerInstanceSMData = C.PerInstanceSMData := by
    rw [← hC1]; split_ifs <;> rfl
  generalize hC2 : (if C1.SelectedInstances.length < C1.PerInstanceSMData.length then
      ({ C1 with SelectedInstances := List.replicate C1.PerInstanceSMData.length false } :
        UHierarchicalInstancedStaticMeshComponent) else C1) = C2
  have hd2 : C2.PerInstanceSMData = C.PerInstanceSMData := by
    rw [← hC2]; split_ifs <;> exact hd1
  have hl2 : i < C2.SelectedInstances.length := by
    rw [← hC2]
    split_ifs with h
    · simp only [List.length_replicate]; rw [hd1]; exact hi
    · rw [hd1] at h; omega
  by_cases hs : i ∈ M.SelectedIndices
  · cases b
    · simp only [hs, decide_True, Bool.not_false, Bool.true_or, if_true, hl2]
      refine ⟨_, _, rfl, rfl, hd2, rfl, rfl, rfl, rfl, ?_, ?_, ?_⟩
      · intro j
        simp only [TSet.mem_Add, TSet.mem_Remove]
        by_cases hj : j = i
        · simp [hj]
        · simp [hj]
      · intro hnd
        exact TSet.nodup_Add (TSet.nodup_Remove hnd)
      · intro _
        simp [List.getElem?_set, hl2]
    · simp only [hs, decide_True, Bool.not_true, Bool.or_self, if_true]
      refine ⟨_, _, rfl, rfl, hd1, rfl, rfl, rfl, rfl, ?_, ?_, ?_⟩
      · intro j
        simp only [TSet.mem_Remove]
        by_cases hj : j = i
        · simp [hj, hs]
        · simp [hj]
      · intro hnd
        exact TSet.nodup_Remove hnd
      · intro h
        exact absurd h (by simp [TSet.mem_Remove])
  · have hor : (!b || !decide (i ∈ M.SelectedIndices)) = true := by simp [hs]
    simp only [hor, if_true, hl2]
    simp only [hs, decide_False, if_false]
    refine ⟨_, _, rfl, rfl, hd2, rfl, rfl, rfl, rfl, ?_, ?_, ?_⟩
    · intro j
      simp only [TSet.mem_Add]
      by_cases hj : j = i
      · simp [hj, hs]
      · simp [hj]
    · intro hnd
      exact TSet.nodup_Add hnd
    · intro _
      simp [List.getElem?_set, hl2]

/-- Toggling an instance of the component of the collection under `k` returns, with only that
collection replaced. -/
theorem SelectInstance_toggle (IFA : AInstancedFoliageActor) (k : Option Nat)
    (M : FFoliageMeshInfo) (C : UHierarchicalInstancedStaticMeshComponent) (i : Nat)
    (hK : (TMap.Keys IFA.FoliageMeshes).Nodup) (hF : IFA.FindMesh k = some M)
    (hC : M.Component = some C) (hi : i < C.PerInstanceSMData.length) :
    ∃ (M1 : FFoliageMeshInfo) (C1 : UHierarchicalInstancedStaticMeshComponent),
      IFA.SelectInstance (some k) i true
        = some { IFA with FoliageMeshes := TMap.Add IFA.FoliageMeshes k M1 } ∧
      M1.Component = some C1 ∧ C1.PerInstanceSMData = C.PerInstanceSMData ∧
      M1.Instances = M.Instances ∧
      (∀ j, j ∈ M1.SelectedIndices ↔
        if j = i then i ∉ M.SelectedIndices else j ∈ M.SelectedIndices) := by
  obtain ⟨M1, C1, h1, h2, h3, h4, _, _, _, h5, _, _⟩ :=
    SelectInstanceInMesh_spec M C i true hC hi
  refine ⟨M1, C1, ?_, h2, h3, h4, ?_⟩
  · unfold AInstancedFoliageActor.SelectInstance
    have hne : M.Component ≠ none := by rw [hC]; simp
    simp only [Bool.not_true, Bool.false_eq_true, if_false]
    rw [FindMeshOfComponent_eq k M hne IFA.FoliageMeshes none hK hF]
    simp only [h1, Option.map_some']
  · intro j
    rw [h5 j]
    simp

/-- Selecting an instance of the component of the collection under `k` without toggling
returns when every collection with a selection has its component: every collection is
cleared, and the collection under `k` is replaced by one whose only selected index is `i`. -/
theorem SelectInstance_select (IFA : AInstancedFoliageActor) (k : Option Nat)
    (M : FFoliageMeshInfo) (C : UHierarchicalInstancedStaticMeshComponent) (i : Nat)
    (hK : (TMap.Keys IFA.FoliageMeshes).Nodup) (hF : IFA.FindMesh k = some M)
    (hC : M.Component = some C) (hi : i < C.PerInstanceSMData.length)
    (hS : ∀ p ∈ IFA.FoliageMeshes, p.2.SelectedIndices ≠ [] → p.2.Component.isSome = true) :
    ∃ (M1 : FFoliageMeshInfo),
      IFA.SelectInstance (some k) i false
        = some ⟨IFA.InstanceBaseCache,
            TMap.Add (IFA.FoliageMeshes.map (fun p => (p.1, ClearSelection p.2))) k M1⟩ ∧
      M1.Instances = M.Instances ∧
      (∀ j, j ∈ M1.SelectedIndices ↔ j = i) := by
  have hF0 : TMap.Find (IFA.FoliageMeshes.map (fun p => (p.1, ClearSelection p.2))) k
      = some (ClearSelection M) := by
    rw [TMap.Find_map_values]
    unfold AInstancedFoliageActor.FindMesh at hF
    rw [hF]; rfl
  have hK0 : (TMap.Keys (IFA.FoliageMeshes.map (fun p => (p.1, ClearSelection p.2)))).Nodup := by
    rw [TMap.Keys_map_values]; exact hK
  obtain ⟨C0, hC0, hd0⟩ : ∃ C0, (ClearSelection M).Component = some C0 ∧
      C0.PerInstanceSMData = C.PerInstanceSMData := by
    unfold ClearSelection
    simp only [hC, Option.map_some']
    split_ifs
    · exact ⟨_, rfl, rfl⟩
    · exact ⟨_, rfl, rfl⟩
    · exact ⟨_, rfl, rfl⟩
  obtain ⟨M1, C1, h1, _, _, h4, _, _, _, h5, _, _⟩ :=
    SelectInstanceInMesh_spec (ClearSelection M) C0 i false hC0 (by rw [hd0]; exact hi)
  refine ⟨M1, ?_, ?_, ?_⟩
  · unfold AInstancedFoliageActor.SelectInstance
    have hne : (ClearSelection M).Component ≠ none := by rw [hC0]; simp
    simp only [Bool.not_false, if_true]
    rw [DeselectAllLoop_eq IFA.FoliageMeshes hS]
    simp only []
    rw [FindMeshOfComponent_eq k (ClearSelection M) hne _ none hK0 hF0]
    simp only [h1, Option.map_some']
  · rw [h4]; rfl
  · intro j
    rw [h5 j]
    by_cases hj : j = i
    · simp [hj]
    · simp [hj, ClearSelection]

/-! ## The claims -/

/-- C1: for every list `L` of in-range indices (repeats allowed), `RemoveInstances` returns
a collection whose instance array has the old length minus the number of distinct indices of
`L`, and that array is a permutation of the instances that stood at the positions not in `L`.
The render component is assumed to exist when there are instances, as `check(Component)`
demands. -/
theorem RemoveInstances_leaves_exactly_the_rest (M : FFoliageMeshInfo) (L : List Nat)
    (hL : ∀ i ∈ L, i < M.Instances.length)
    (hC : M.Instances ≠ [] → M.Component.isSome = true) :
    ∃ M1, M.RemoveInstances L = some M1 ∧
      M1.Instances.length = M.Instances.length - L.dedup.length ∧
      M1.Instances.Perm (InstancesNotIn M.Instances L) := by
  obtain ⟨M1, h1, h2, h3⟩ := RemoveInstances_array M L hL hC
  exact ⟨M1, h1, by omega, h3⟩

/-- C1, witness: `[A, B, C, D, E]` with `L = [0, 2]`. -/
theorem RemoveInstances_leaves_exactly_the_rest_witness :
    (∀ i ∈ [0, 2], i < SampleMeshInfo.Instances.length) ∧
    (SampleMeshInfo.Instances ≠ [] → SampleMeshInfo.Component.isSome = true) ∧
    ∃ M1, SampleMeshInfo.RemoveInstances [0, 2] = some M1 ∧
      M1.Instances.length = SampleMeshInfo.Instances.length - [0, 2].dedup.length ∧
      M1.Instances.Perm (InstancesNotIn SampleMeshInfo.Instances [0, 2]) :=
  ⟨by decide, by decide,
    RemoveInstances_leaves_exactly_the_rest SampleMeshInfo [0, 2] (by decide) (by decide)⟩

/-- C2: in every collection reached from the empty one by `AddInstance`, `RemoveInstances`
(in-range indices), `DuplicateInstances` (in-range indices) and `ReallocateClusters`, the instance
array length equals the total size of the base-index sets, the number of entries of
the spatial hash and the instance count of the render component; and every further such
operation returns a collection for which the same holds. -/
theorem counts_agree_after_every_operation (M : FFoliageMeshInfo) (h : Reachable M) :
    (M.Instances.length = ComponentHashTotal M ∧
      M.Instances.length = InstanceHashTotal M ∧
      M.Instances.length = ComponentInstanceCount M) ∧
    ∀ op : MeshOp, op.InRange M → ∃ M1, op.Apply M = some M1 ∧
      M1.Instances.length = ComponentHashTotal M1 ∧
      M1.Instances.length = InstanceHashTotal M1 ∧
      M1.Instances.length = ComponentInstanceCount M1 := by
  have hw := Reachable_WellFormed M h
  refine ⟨WellFormed_counts M hw, ?_⟩
  intro op hr
  obtain ⟨M1, h1, h2⟩ := WellFormed_Apply M op hw hr
  exact ⟨M1, h1, WellFormed_counts M1 h2⟩

/-- C2, witness: the collection two calls of `AddInstance` leave. -/
theorem counts_agree_after_every_operation_witness :
    Reachable SampleTwo ∧
    ((SampleTwo.Instances.length = ComponentHashTotal SampleTwo ∧
      SampleTwo.Instances.length = InstanceHashTotal SampleTwo ∧
      SampleTwo.Instances.length = ComponentInstanceCount SampleTwo) ∧
    ∀ op : MeshOp, op.InRange SampleTwo → ∃ M1, op.Apply SampleTwo = some M1 ∧
      M1.Instances.length = ComponentHashTotal M1 ∧
      M1.Instances.length = InstanceHashTotal M1 ∧
      M1.Instances.length = ComponentInstanceCount M1) :=
  ⟨Reachable_SampleTwo, counts_agree_after_every_operation SampleTwo Reachable_SampleTwo⟩

/-- C3: `AddInstance(actor, settings, instance, baseComponent)` returns, and appends exactly
one element: the new array is the old one followed by the given instance with its `BaseId`
replaced by the id the base cache resolves (an id already registered for the component) or
allocates (the next id) for the component; the index of the new element, the old length,
joins the base-index set of that id and the spatial hash at the cell of the location of the instance,
nothing else changes in either index, and the render component exists afterwards. -/
theorem AddInstance_on_base_appends_one (M : FFoliageMeshInfo)
    (Cache : FFoliageInstanceBaseCache) (S : UFoliageType) (I : FFoliageInstance)
    (Base : Option UActorComponent) :
    ∃ M1, M.AddInstanceOnBase Cache S I Base = some ((Cache.AddInstanceBaseId Base).2, M1) ∧
      M1.Instances = M.Instances ++ [{ I with BaseId := (Cache.AddInstanceBaseId Base).1 }] ∧
      M1.Instances.length = M.Instances.length + 1 ∧
      (∀ j, j < M.Instances.length → M1.Instances[j]? = M.Instances[j]?) ∧
      (∀ b j, InBase M1.ComponentHash b j ↔
        InBase M.ComponentHash b j ∨
          (b = (Cache.AddInstanceBaseId Base).1 ∧ j = M.Instances.length)) ∧
      (∀ e, e ∈ M1.InstanceHash.CellMap ↔
        e ∈ M.InstanceHash.CellMap ∨ e = (HashCell I.Location, M.Instances.length)) ∧
      M1.Component.isSome = true ∧
      (Cache.GetInstanceBaseId Base ≠ InvalidBaseId →
        Cache.AddInstanceBaseId Base = (Cache.GetInstanceBaseId Base, Cache)) ∧
      (Base ≠ none → Cache.GetInstanceBaseId Base = InvalidBaseId →
        (Cache.AddInstanceBaseId Base).1 = Cache.NextBaseId) := by
  refine ⟨AddResult M { I with BaseId := (Cache.AddInstanceBaseId Base).1 }, ?_, rfl, ?_, ?_,
    ?_, ?_, rfl, ?_, ?_⟩
  · unfold FFoliageMeshInfo.AddInstanceOnBase
    simp only [FFoliageMeshInfo.AddInstance_eq]
  · simp [AddResult]
  · intro j hj
    show (M.Instances ++ [_])[j]? = M.Instances[j]?
    rw [List.getElem?_append_left hj]
  · intro b j
    exact InBase_BaseHashAdded _ _ _ _ _
  · intro e
    exact FFoliageInstanceHash.mem_InsertInstance _ _ _ _
  · intro h
    cases Base with
    | none => exact absurd rfl h
    | some c =>
      unfold FFoliageInstanceBaseCache.AddInstanceBaseId
      simp only
      rw [if_pos h]
  · intro hb h
    cases Base with
    | none => exact absurd rfl hb
    | some c =>
      unfold FFoliageInstanceBaseCache.AddInstanceBaseId
      simp only
      rw [if_neg (not_not.2 h)]

/-- C4: when the spatial hash holds exactly the entry `(Instances[i].Location, i)` for every
index `i`, the box query returns every index located in the bounding box of the sphere, and
`GetInstancesInsideSphere` returns, appending to the output each index whose location passes
the point-in-sphere re-test exactly once and no other index. -/
theorem GetInstancesInsideSphere_exact (M : FFoliageMeshInfo) (Sphere : FSphere)
    (Out : List Nat) (h : HashConsistent M) :
    (∀ i I, M.Instances[i]? = some I →
      (FBox.BuildAABB Sphere.Center ⟨Sphere.W, Sphere.W, Sphere.W⟩).IsInside I.Location = true →
      i ∈ M.InstanceHash.GetInstancesOverlappingBox
        (FBox.BuildAABB Sphere.Center ⟨Sphere.W, Sphere.W, Sphere.W⟩)) ∧
    ∃ found, M.GetInstancesInsideSphere Sphere Out = some (Out ++ found) ∧ found.Nodup ∧
      ∀ i, i ∈ found ↔
        ∃ I, M.Instances[i]? = some I ∧ (FSphere.mk I.Location 0).IsInside Sphere = true := by
  refine ⟨?_, GetInstancesInsideSphere_spec M Sphere Out h⟩
  intro i I hI hb
  exact ((GetInstancesOverlappingBox_spec M _ h).2 i).2
    ⟨I, hI, CellTouchesBox_of_IsInside _ _ hb⟩

/-- C4, witness: the five sample instances and the sphere of radius 700 around `(600, 0, 0)`. -/
theorem GetInstancesInsideSphere_exact_witness :
    HashConsistent SampleMeshInfo ∧
    ∃ found, SampleMeshInfo.GetInstancesInsideSphere ⟨⟨600, 0, 0⟩, 700⟩ [] = some ([] ++ found) ∧
      found.Nodup ∧
      ∀ i, i ∈ found ↔
        ∃ I, SampleMeshInfo.Instances[i]? = some I ∧
          (FSphere.mk I.Location 0).IsInside ⟨⟨600, 0, 0⟩, 700⟩ = true :=
  ⟨by decide, (GetInstancesInsideSphere_exact SampleMeshInfo ⟨⟨600, 0, 0⟩, 700⟩ []
    (by decide)).2⟩

/-- C5: on a collection with a consistent spatial hash,
`CheckForOverlappingInstanceExcluding(t, r, E)` returns, and returns true iff some index
`j ≠ t` outside `E` has its location inside the sphere of radius `r` around the location of instance
`t`.  In particular it returns false when `E` holds every index, and false when only
the tested instance itself is inside the sphere. -/
theorem CheckForOverlappingInstanceExcluding_iff (M : FFoliageMeshInfo) (t : Nat)
    (Radius : Int) (E : List Nat) (h : HashConsistent M) (T : FFoliageInstance)
    (ht : M.Instances[t]? = some T) :
    ∃ res, M.CheckForOverlappingInstanceExcluding t Radius E = some res ∧
      (res = true ↔ ∃ j I, j ≠ t ∧ j ∉ E ∧ M.Instances[j]? = some I ∧
        (FSphere.mk I.Location 0).IsInside ⟨T.Location, Radius⟩ = true) ∧
      ((∀ j, j < M.Instances.length → j ∈ E) → res = false) ∧
      ((∀ j I, M.Instances[j]? = some I →
          (FSphere.mk I.Location 0).IsInside ⟨T.Location, Radius⟩ = true → j = t) →
        res = false) := by
  obtain ⟨res, h1, h2⟩ := CheckForOverlappingInstanceExcluding_spec M t Radius E h T ht
  refine ⟨res, h1, h2, ?_, ?_⟩
  · intro hall
    cases hres : res with
    | false => rfl
    | true =>
      obtain ⟨j, I, _, h4, hI, _⟩ := h2.1 hres
      exact absurd (hall j (List.getElem?_eq_some_iff.1 hI).1) h4
  · intro hself
    cases hres : res with
    | false => rfl
    | true =>
      obtain ⟨j, I, h3, _, hI, h5⟩ := h2.1 hres
      exact absurd (hself j I hI h5) h3

/-- C5, witness: instance 0 of the sample collection, radius 700, nothing excluded. -/
theorem CheckForOverlappingInstanceExcluding_iff_witness :
    HashConsistent SampleMeshInfo ∧
    SampleMeshInfo.Instances[0]? = some (SampleInstance 0 1) ∧
    ∃ res, SampleMeshInfo.CheckForOverlappingInstanceExcluding 0 700 [] = some res ∧
      (res = true ↔ ∃ j I, j ≠ 0 ∧ j ∉ ([] : List Nat) ∧ SampleMeshInfo.Instances[j]? = some I ∧
        (FSphere.mk I.Location 0).IsInside ⟨(SampleInstance 0 1).Location, 700⟩ = true) ∧
      ((∀ j, j < SampleMeshInfo.Instances.length → j ∈ ([] : List Nat)) → res = false) ∧
      ((∀ j I, SampleMeshInfo.Instances[j]? = some I →
          (FSphere.mk I.Location 0).IsInside ⟨(SampleInstance 0 1).Location, 700⟩ = true →
          j = 0) →
        res = false) :=
  ⟨by decide, by decide,
    CheckForOverlappingInstanceExcluding_iff SampleMeshInfo 0 700 [] (by decide)
      (SampleInstance 0 1) (by decide)⟩

/-- C6: after `N` calls of `AddInstance` on the empty collection and `RemoveInstances` of a
list of `M` distinct in-range indices, the array is a permutation of the survivors, the
spatial hash holds exactly one entry per index of the new array (nothing stale), and a sphere
query whose sphere contains every instance location returns each index `0 .. N-M-1` once and
nothing else. -/
theorem add_remove_query_roundtrip (S : UFoliageType) (insts : List FFoliageInstance)
    (L : List Nat) (Sphere : FSphere)
    (hnd : L.Nodup) (hL : ∀ i ∈ L, i < insts.length)
    (hcover : ∀ I ∈ insts, (FSphere.mk I.Location 0).IsInside Sphere = true) :
    ∃ M0 M1 found, AddInstances FFoliageMeshInfo.new S insts = some M0 ∧
      M0.Instances = insts ∧
      M0.RemoveInstances L = some M1 ∧
      M1.Instances.Perm (InstancesNotIn insts L) ∧
      M1.Instances.length = insts.length - L.length ∧
      HashConsistent M1 ∧
      M1.GetInstancesInsideSphere Sphere [] = some found ∧
      found.Perm (List.range (insts.length - L.length)) := by
  obtain ⟨M0, h0, h1, h2⟩ := AddInstances_spec S insts FFoliageMeshInfo.new WellFormed_new
  have hI : M0.Instances = insts := by rw [h1]; rfl
  have hL0 : ∀ i ∈ L, i < M0.Instances.length := by rw [hI]; exact hL
  obtain ⟨M1, h3, h4⟩ := WellFormed_RemoveInstances M0 L hL0 h2
  obtain ⟨M2, h5, h6, h7⟩ := RemoveInstances_array M0 L hL0 (WellFormed_Component M0 h2)
  have hM : M2 = M1 := Option.some.inj (h5.symm.trans h3)
  subst hM
  rw [hI] at h6 h7
  rw [List.Nodup.dedup hnd] at h6
  obtain ⟨found, h8, h9, h10⟩ := GetInstancesInsideSphere_spec M2 Sphere [] h4.1
  have hlen : M2.Instances.length = insts.length - L.length := by omega
  refine ⟨M0, M2, found, h0, hI, h3, h7, hlen, h4.1, by simpa using h8, ?_⟩
  rw [List.perm_ext_iff_of_nodup h9 (List.nodup_range _)]
  intro i
  rw [h10, List.mem_range, ← hlen]
  constructor
  · rintro ⟨I, hI2, _⟩
    exact (List.getElem?_eq_some_iff.1 hI2).1
  · intro hi
    refine ⟨M2.Instances[i], List.getElem?_eq_getElem hi, ?_⟩
    apply hcover
    exact mem_of_mem_InstancesNotIn insts L _ (h7.subset (List.getElem_mem hi))

/-- C6, witness: the five sample instances, indices 0 and 2 removed, queried with the sphere
of radius 5000 around the origin. -/
theorem add_remove_query_roundtrip_witness :
    [0, 2].Nodup ∧ (∀ i ∈ [0, 2], i < SampleMeshInfo.Instances.length) ∧
    (∀ I ∈ SampleMeshInfo.Instances,
      (FSphere.mk I.Location 0).IsInside ⟨⟨0, 0, 0⟩, 5000⟩ = true) ∧
    ∃ M0 M1 found,
      AddInstances FFoliageMeshInfo.new (UFoliageType.new 0) SampleMeshInfo.Instances = some M0 ∧
      M0.Instances = SampleMeshInfo.Instances ∧
      M0.RemoveInstances [0, 2] = some M1 ∧
      M1.Instances.Perm (InstancesNotIn SampleMeshInfo.Instances [0, 2]) ∧
      M1.Instances.length = SampleMeshInfo.Instances.length - [0, 2].length ∧
      HashConsistent M1 ∧
      M1.GetInstancesInsideSphere ⟨⟨0, 0, 0⟩, 5000⟩ [] = some found ∧
      found.Perm (List.range (SampleMeshInfo.Instances.length - [0, 2].length)) :=
  ⟨by decide, by decide, by decide,
    add_remove_query_roundtrip (UFoliageType.new 0) SampleMeshInfo.Instances [0, 2] ⟨⟨0, 0, 0⟩, 5000⟩
      (by decide) (by decide) (by decide)⟩

/-- C7: for a component registered in the base cache with id `b ≠ InvalidBaseId`, on an actor
whose collections are well-formed, `DeleteInstancesForComponent(component)` returns and
leaves, in every collection, a permutation of the instances whose `BaseId` is not `b` (so
none with `BaseId = b` remains and every other one is retained); the overload taking a
foliage type does this for the collection of that type and leaves every other collection as
it was. -/
theorem DeleteInstancesForComponent_removes_exactly_the_base (A : AInstancedFoliageActor)
    (Comp : Option UActorComponent) (b : Nat)
    (hb : A.InstanceBaseCache.GetInstanceBaseId Comp = b) (hbv : b ≠ InvalidBaseId)
    (hwf : ∀ p ∈ A.FoliageMeshes, WellFormed p.2) :
    (∃ A1, A.DeleteInstancesForComponent Comp = some A1 ∧
      List.Forall₂ (fun p q => q.1 = p.1 ∧ WellFormed q.2 ∧
        q.2.Instances.Perm (p.2.Instances.filter (fun I => decide (I.BaseId ≠ b))))
        A.FoliageMeshes A1.FoliageMeshes) ∧
    ∀ FoliageType : Option Nat,
      ∃ A2, A.DeleteInstancesForComponentOfType Comp FoliageType = some A2 ∧
        (∀ k, k ≠ FoliageType → A2.FindMesh k = A.FindMesh k) ∧
        (A.FindMesh FoliageType = none → A2 = A) ∧
        (∀ M, A.FindMesh FoliageType = some M →
          ∃ M1, A2.FindMesh FoliageType = some M1 ∧
            M1.Instances.Perm (M.Instances.filter (fun I => decide (I.BaseId ≠ b)))) := by
  constructor
  · obtain ⟨Meshes1, h1, h2⟩ := DeleteInstancesLoop_spec b A.FoliageMeshes hwf
    refine ⟨{ A with FoliageMeshes := Meshes1 }, ?_, h2⟩
    unfold AInstancedFoliageActor.DeleteInstancesForComponent
    simp only [hb, if_neg hbv, h1]
  · intro FoliageType
    unfold AInstancedFoliageActor.DeleteInstancesForComponentOfType
    simp only [hb, if_neg hbv]
    cases hf : A.FindMesh FoliageType with
    | none =>
      refine ⟨A, rfl, fun _ _ => rfl, fun _ => rfl, ?_⟩
      intro M hM; cases hM
    | some M =>
      have hmem : (FoliageType, M) ∈ A.FoliageMeshes := by
        have : ∀ (m : List (Option Nat × FFoliageMeshInfo)),
            TMap.Find m FoliageType = some M → (FoliageType, M) ∈ m := by
          intro m
          induction m with
          | nil => intro h; cases h
          | cons p rest ih =>
            intro h
            unfold TMap.Find at h
            split at h
            · rename_i hp
              cases h
              rw [← hp]
              exact List.mem_cons_self _ _
            · exact List.mem_cons_of_mem _ (ih h)
        exact this _ hf
      obtain ⟨M1, h1, _, h3⟩ := DeleteInstancesOfBase_spec b M (hwf _ hmem)
      simp only [h1]
      refine ⟨_, rfl, ?_, ?_, ?_⟩
      · intro k hk
        unfold AInstancedFoliageActor.FindMesh
        simp only
        rw [TMap.Find_Add, if_neg hk]
      · intro h; cases h
      · intro M2 hM2
        cases hM2
        refine ⟨M1, ?_, h3⟩
        unfold AInstancedFoliageActor.FindMesh
        simp only
        rw [TMap.Find_Add, if_pos rfl]

/-- C7, witness: the sample actor and component 7, registered under base id 1. -/
theorem DeleteInstancesForComponent_removes_exactly_the_base_witness :
    SampleActor.InstanceBaseCache.GetInstanceBaseId (some (SampleComponent 7)) = 1 ∧
    1 ≠ InvalidBaseId ∧ (∀ p ∈ SampleActor.FoliageMeshes, WellFormed p.2) ∧
    ((∃ A1, SampleActor.DeleteInstancesForComponent (some (SampleComponent 7)) = some A1 ∧
      List.Forall₂ (fun p q => q.1 = p.1 ∧ WellFormed q.2 ∧
        q.2.Instances.Perm (p.2.Instances.filter (fun I => decide (I.BaseId ≠ 1))))
        SampleActor.FoliageMeshes A1.FoliageMeshes) ∧
    ∀ FoliageType : Option Nat,
      ∃ A2, SampleActor.DeleteInstancesForComponentOfType (some (SampleComponent 7))
          FoliageType = some A2 ∧
        (∀ k, k ≠ FoliageType → A2.FindMesh k = SampleActor.FindMesh k) ∧
        (SampleActor.FindMesh FoliageType = none → A2 = SampleActor) ∧
        (∀ M, SampleActor.FindMesh FoliageType = some M →
          ∃ M1, A2.FindMesh FoliageType = some M1 ∧
            M1.Instances.Perm (M.Instances.filter (fun I => decide (I.BaseId ≠ 1))))) :=
  ⟨by decide, by decide, by decide,
    DeleteInstancesForComponent_removes_exactly_the_base SampleActor
      (some (SampleComponent 7)) 1 (by decide) (by decide) (by decide)⟩

/-- C8: when the base cache has no id for the component, both overloads of
`DeleteInstancesForComponent` and `MoveInstancesForMovedComponent` return the actor exactly
as it was (instances, base-index maps, spatial hashes, selections, cache).  And whatever the
component, a delete-for-base sweep over well-formed collections keeps, in every collection,
the instances whose `BaseId` is `InvalidBaseId`. -/
theorem unregistered_component_changes_nothing
    (DeltaOf : FFoliageInstanceBaseInfo → FFoliageInstanceBaseInfo →
      FRotator → FVector → FVector × FRotator)
    (A : AInstancedFoliageActor) (Comp : Option UActorComponent) (FoliageType : Option Nat) :
    (A.InstanceBaseCache.GetInstanceBaseId Comp = InvalidBaseId →
      A.DeleteInstancesForComponent Comp = some A ∧
      A.DeleteInstancesForComponentOfType Comp FoliageType = some A ∧
      A.MoveInstancesForMovedComponent DeltaOf Comp = some A) ∧
    ((∀ p ∈ A.FoliageMeshes, WellFormed p.2) →
      ∃ A1, A.DeleteInstancesForComponent Comp = some A1 ∧
        List.Forall₂ (fun p q => q.1 = p.1 ∧
          (q.2.Instances.filter (fun I => decide (I.BaseId = InvalidBaseId))).Perm
            (p.2.Instances.filter (fun I => decide (I.BaseId = InvalidBaseId))))
          A.FoliageMeshes A1.FoliageMeshes) := by
  constructor
  · intro h
    refine ⟨?_, ?_, ?_⟩
    · unfold AInstancedFoliageActor.DeleteInstancesForComponent
      simp only [h, if_true]
    · unfold AInstancedFoliageActor.DeleteInstancesForComponentOfType
      simp only [h, if_true]
    · unfold AInstancedFoliageActor.MoveInstancesForMovedComponent
      simp only [h, if_true]
  · intro hwf
    by_cases h : A.InstanceBaseCache.GetInstanceBaseId Comp = InvalidBaseId
    · refine ⟨A, ?_, ?_⟩
      · unfold AInstancedFoliageActor.DeleteInstancesForComponent
        simp only [h, if_true]
      · exact List.forall₂_same.2 (fun p _ => ⟨rfl, List.Perm.refl _⟩)
    · obtain ⟨Meshes1, h1, h2⟩ := DeleteInstancesLoop_spec
        (A.InstanceBaseCache.GetInstanceBaseId Comp) A.FoliageMeshes hwf
      refine ⟨{ A with FoliageMeshes := Meshes1 }, ?_, ?_⟩
      · unfold AInstancedFoliageActor.DeleteInstancesForComponent
        simp only [if_neg h, h1]
      · refine h2.imp ?_
        rintro p q ⟨e1, _, e3⟩
        refine ⟨e1, ?_⟩
        have e4 := e3.filter (fun I => decide (I.BaseId = InvalidBaseId))
        rw [List.filter_filter] at e4
        refine e4.trans (List.Perm.of_eq ?_)
        apply List.filter_congr
        intro I _
        by_cases hI : I.BaseId = InvalidBaseId
        · have hne : ¬ InvalidBaseId = A.InstanceBaseCache.GetInstanceBaseId Comp :=
            fun e => h e.symm
          simp [hI, hne]
        · simp [hI]

/-- C8, witness: component 9 is not registered in the cache of the sample actor. -/
theorem unregistered_component_changes_nothing_witness :
    SampleActor.InstanceBaseCache.GetInstanceBaseId (some (SampleComponent 9)) = InvalidBaseId ∧
    (∀ p ∈ SampleActor.FoliageMeshes, WellFormed p.2) ∧
    SampleActor.DeleteInstancesForComponent (some (SampleComponent 9)) = some SampleActor ∧
    SampleActor.DeleteInstancesForComponentOfType (some (SampleComponent 9)) (some 10)
      = some SampleActor ∧
    SampleActor.MoveInstancesForMovedComponent (fun _ _ R L => (L, R))
      (some (SampleComponent 9)) = some SampleActor :=
  ⟨by decide, by decide,
    (unregistered_component_changes_nothing (fun _ _ R L => (L, R)) SampleActor
      (some (SampleComponent 9)) (some 10)).1 (by decide)⟩

/-- C9, the code at the failing input: one collection with instance 0 anchored to the old
base (id 1) and instance 1 already anchored to the new base (id 2); the new component lies in
the level of this actor.  After `MoveInstancesToNewComponent` both instances carry base id 2
but the set stored under id 2 is `{0}`: `ComponentHash.Add(NewBaseId, ...)` has replaced the
set that held index 1, and the base-index map is no longer consistent with the array. -/
theorem MoveInstancesToNewComponent_same_actor_replaces_the_set :
    (∀ p ∈ TwoBasesActor.FoliageMeshes, WellFormed p.2) ∧
    ∃ A1, TwoBasesActor.MoveInstancesToNewComponent (fun _ => false) id (fun _ => UFoliageType.new 0) none
        (some (SampleComponent 7)) (SampleComponent 8) = some (A1, none) ∧
      A1.FoliageMeshes.map (fun p => p.2.Instances.map (fun I => I.BaseId)) = [[2, 2]] ∧
      A1.FoliageMeshes.map (fun p => p.2.ComponentHash) = [[(2, [0])]] ∧
      ¬ (∀ p ∈ A1.FoliageMeshes, BaseHashConsistent p.2) :=
  ⟨by decide, _, rfl, rfl, rfl, by decide⟩

/-- C10: when the new component belongs to another foliage actor, on an actor whose
collections are well-formed and keyed by non-null foliage types,
`MoveInstancesToNewComponent` returns; every source collection keeps its key, is left with a
permutation of its instances not anchored to the old base, and its array length, base-index
total and spatial-hash total still agree; the instances of the other actor are, up to order,
its old instances plus the moved ones with `BaseId` set to the id its cache gives the new
component; and the total number of instances of both actors is unchanged. -/
theorem MoveInstancesToNewComponent_to_other_actor (IsLocal : Nat → Bool)
    (DuplicateOf : Nat → Nat) (TypeObject : Nat → UFoliageType)
    (A Other : AInstancedFoliageActor) (Old : Option UActorComponent) (New : UActorComponent)
    (hwf : ∀ p ∈ A.FoliageMeshes, WellFormed p.2)
    (hkeys : ∀ p ∈ A.FoliageMeshes, p.1 ≠ none) :
    ∃ A1 T1, A.MoveInstancesToNewComponent IsLocal DuplicateOf TypeObject (some Other) Old New
        = some (A1, some T1) ∧
      List.Forall₂ (fun p q => q.1 = p.1 ∧
        q.2.Instances.Perm (p.2.Instances.filter
          (fun I => decide (I.BaseId ≠ A.InstanceBaseCache.GetInstanceBaseId Old))) ∧
        q.2.Instances.length = ComponentHashTotal q.2 ∧
        q.2.Instances.length = InstanceHashTotal q.2)
        A.FoliageMeshes A1.FoliageMeshes ∧
      (AllInstances T1.FoliageMeshes).Perm (AllInstances Other.FoliageMeshes ++
        ((AllInstances A.FoliageMeshes).filter
          (fun I => decide (I.BaseId = A.InstanceBaseCache.GetInstanceBaseId Old))).map
          (Rebased (Other.InstanceBaseCache.AddInstanceBaseId (some New)).1)) ∧
      (AllInstances A1.FoliageMeshes).length + (AllInstances T1.FoliageMeshes).length
        = (AllInstances A.FoliageMeshes).length + (AllInstances Other.FoliageMeshes).length := by
  obtain ⟨Meshes1, NM1, h1, h2, h3⟩ := MoveLoop_spec IsLocal DuplicateOf TypeObject
    (A.InstanceBaseCache.GetInstanceBaseId Old)
    (Other.InstanceBaseCache.AddInstanceBaseId (some New)).1
    A.FoliageMeshes Other.FoliageMeshes hwf hkeys
  refine ⟨{ A with FoliageMeshes := Meshes1 },
    { InstanceBaseCache := (Other.InstanceBaseCache.AddInstanceBaseId (some New)).2
      FoliageMeshes := NM1 }, ?_, ?_, h3, ?_⟩
  · unfold AInstancedFoliageActor.MoveInstancesToNewComponent
    simp only [h1]
  · refine h2.imp ?_
    rintro p q ⟨e1, e2, e3⟩
    have hc := WellFormed_counts q.2 e2
    exact ⟨e1, e3, hc.1, hc.2.1⟩
  · have hp := AllInstances_perm_of_forall₂
      (fun I => decide (I.BaseId ≠ A.InstanceBaseCache.GetInstanceBaseId Old)) _
      (fun a b hab => hab.2.2) A.FoliageMeshes Meshes1 h2
    have hl1 := hp.length_eq
    have hl2 := h3.length_eq
    rw [List.length_append, List.length_map] at hl2
    have hfe : (fun I : FFoliageInstance =>
        decide (I.BaseId ≠ A.InstanceBaseCache.GetInstanceBaseId Old))
        = (fun I => !decide (I.BaseId = A.InstanceBaseCache.GetInstanceBaseId Old)) := by
      funext I; simp
    rw [hfe] at hl1
    have hsum := length_filter_add_length_filter_not
      (fun I : FFoliageInstance =>
        decide (I.BaseId = A.InstanceBaseCache.GetInstanceBaseId Old))
      (AllInstances A.FoliageMeshes)
    simp only at hl1 hl2 ⊢
    omega

/-- C10, witness: the sample actor, an empty other actor, component 7 as the old base. -/
theorem MoveInstancesToNewComponent_to_other_actor_witness :
    (∀ p ∈ SampleActor.FoliageMeshes, WellFormed p.2) ∧
    (∀ p ∈ SampleActor.FoliageMeshes, p.1 ≠ none) ∧
    ∃ A1 T1, SampleActor.MoveInstancesToNewComponent (fun _ => false) id (fun _ => UFoliageType.new 0)
        (some ⟨FFoliageInstanceBaseCache.new, []⟩) (some (SampleComponent 7))
        (SampleComponent 8) = some (A1, some T1) ∧
      List.Forall₂ (fun p q => q.1 = p.1 ∧
        q.2.Instances.Perm (p.2.Instances.filter
          (fun I => decide (I.BaseId ≠ SampleActor.InstanceBaseCache.GetInstanceBaseId
            (some (SampleComponent 7))))) ∧
        q.2.Instances.length = ComponentHashTotal q.2 ∧
        q.2.Instances.length = InstanceHashTotal q.2)
        SampleActor.FoliageMeshes A1.FoliageMeshes ∧
      (AllInstances T1.FoliageMeshes).Perm (AllInstances [] ++
        ((AllInstances SampleActor.FoliageMeshes).filter
          (fun I => decide (I.BaseId = SampleActor.InstanceBaseCache.GetInstanceBaseId
            (some (SampleComponent 7))))).map
          (Rebased (FFoliageInstanceBaseCache.new.AddInstanceBaseId
            (some (SampleComponent 8))).1)) ∧
      (AllInstances A1.FoliageMeshes).length + (AllInstances T1.FoliageMeshes).length
        = (AllInstances SampleActor.FoliageMeshes).length + (AllInstances []).length :=
  ⟨by decide, by decide,
    MoveInstancesToNewComponent_to_other_actor (fun _ => false) id (fun _ => UFoliageType.new 0) SampleActor
      ⟨FFoliageInstanceBaseCache.new, []⟩ (some (SampleComponent 7)) (SampleComponent 8)
      (by decide) (by decide)⟩

/-- C11: a registered base whose transform differs from the cached one by a pure translation
`T` (same rotation, same scale without a zero component), on an actor whose collections are
well-formed, the rotation matrices of the engine being affine and inverse to each other:
`MoveInstancesForMovedComponent` returns; in every collection the instances anchored to the
base have their location shifted by exactly `T` and the others are untouched, in place; and
the collection is well-formed again, so the spatial hash holds every instance under its index
at the cell of its new location and no entry of an old location. -/
theorem MoveInstancesForMovedComponent_pure_translation (E : FRotationEngine)
    (A : AInstancedFoliageActor) (Comp : UActorComponent) (b : Nat)
    (Old : FFoliageInstanceBaseInfo) (T : FVector)
    (hInv : ∀ r, E.FInverseRotationMatrix r * E.FRotationMatrix r = 1)
    (hRow : ∀ r j, E.FRotationMatrix r 3 j = if j = 3 then 1 else 0)
    (hb : A.InstanceBaseCache.GetInstanceBaseId (some Comp) = b) (hb0 : b ≠ InvalidBaseId)
    (hOld : AInstancedFoliageActor.GetInstanceBaseInfo A.InstanceBaseCache b = some Old)
    (hL : Comp.Location = Old.CachedLocation.add T)
    (hR : Comp.Rotation = Old.CachedRotation)
    (hS : Comp.DrawScale = Old.CachedDrawScale)
    (hx : Old.CachedDrawScale.X ≠ 0) (hy : Old.CachedDrawScale.Y ≠ 0)
    (hz : Old.CachedDrawScale.Z ≠ 0)
    (hW : ∀ p ∈ A.FoliageMeshes, WellFormed p.2) :
    ∃ A1, A.MoveInstancesForMovedComponent (BaseDelta E) (some Comp) = some A1 ∧
      List.Forall₂ (fun p q => q.1 = p.1 ∧
        q.2.Instances = p.2.Instances.map (ShiftedWithBase E b T) ∧
        WellFormed q.2 ∧
        (∀ (j : Nat) (I : FFoliageInstance), p.2.Instances[j]? = some I → I.BaseId = b →
          ∃ J, q.2.Instances[j]? = some J ∧ J.Location = I.Location.add T ∧
            (HashCell (I.Location.add T), j) ∈ q.2.InstanceHash.CellMap ∧
            (HashCell I.Location ≠ HashCell (I.Location.add T) →
              (HashCell I.Location, j) ∉ q.2.InstanceHash.CellMap)) ∧
        (∀ (j : Nat) (I : FFoliageInstance), p.2.Instances[j]? = some I → I.BaseId ≠ b → q.2.Instances[j]? = some I))
        A.FoliageMeshes A1.FoliageMeshes := by
  have hf : (fun I : FFoliageInstance => if I.BaseId = b then
      MovedBy (BaseDelta E Old ⟨Comp.Id, Comp.Location, Comp.Rotation, Comp.DrawScale⟩) I
      else I) = ShiftedWithBase E b T := by
    funext I
    unfold ShiftedWithBase MovedBy
    rw [BaseDelta_translation E hInv hRow Old _ T hL hR hS hx hy hz]
  obtain ⟨R, h1, h2⟩ := MoveInstancesLoop_spec
    (BaseDelta E Old ⟨Comp.Id, Comp.Location, Comp.Rotation, Comp.DrawScale⟩) b
    A.FoliageMeshes hW
  rw [hf] at h2
  refine ⟨⟨(AInstancedFoliageActor.UpdateInstanceBaseInfoTransform A.InstanceBaseCache Comp).2,
    R⟩, ?_, ?_⟩
  · unfold AInstancedFoliageActor.MoveInstancesForMovedComponent
    simp only [hb, if_neg hb0, hOld]
    simp only [AInstancedFoliageActor.UpdateInstanceBaseInfoTransform, h1]
  · refine List.Forall₂.imp ?_ h2
    rintro p q ⟨hk, hI, hWq⟩
    have hH := ((WellFormed_iff q.2).1 hWq).1
    refine ⟨hk, hI, hWq, ?_, ?_⟩
    · intro j I hj hbI
      have hq : q.2.Instances[j]? = some (ShiftedWithBase E b T I) := by
        rw [hI, List.getElem?_map, hj]
        rfl
      have hloc : (ShiftedWithBase E b T I).Location = I.Location.add T := by
        unfold ShiftedWithBase
        rw [if_pos hbI]
      refine ⟨_, hq, hloc, ?_, ?_⟩
      · rw [hH.2]
        exact ⟨_, hq, by rw [hloc]⟩
      · intro hne hmem
        rw [hH.2] at hmem
        obtain ⟨J, hJ, hc⟩ := hmem
        rw [hq] at hJ
        cases hJ
        rw [hloc] at hc
        exact hne hc
    · intro j I hj hbI
      rw [hI, List.getElem?_map, hj]
      unfold ShiftedWithBase
      simp [hbI]

/-- Witness for C11: component 7, cached at the origin under base id 1, has moved by
`(100, 0, 0)`; the instances of the sample collection at indices 0 and 2 are anchored to it. -/
theorem MoveInstancesForMovedComponent_pure_translation_witness :
    SampleActor.InstanceBaseCache.GetInstanceBaseId (some SampleMovedComponent) = 1 ∧
    (∀ p ∈ SampleActor.FoliageMeshes, WellFormed p.2) ∧
    ∃ A1, SampleActor.MoveInstancesForMovedComponent (BaseDelta SampleRotationEngine)
        (some SampleMovedComponent) = some A1 ∧
      List.Forall₂ (fun p q => q.1 = p.1 ∧
        q.2.Instances = p.2.Instances.map (ShiftedWithBase SampleRotationEngine 1 ⟨100, 0, 0⟩) ∧
        WellFormed q.2 ∧
        (∀ (j : Nat) (I : FFoliageInstance), p.2.Instances[j]? = some I → I.BaseId = 1 →
          ∃ J, q.2.Instances[j]? = some J ∧ J.Location = I.Location.add ⟨100, 0, 0⟩ ∧
            (HashCell (I.Location.add ⟨100, 0, 0⟩), j) ∈ q.2.InstanceHash.CellMap ∧
            (HashCell I.Location ≠ HashCell (I.Location.add ⟨100, 0, 0⟩) →
              (HashCell I.Location, j) ∉ q.2.InstanceHash.CellMap)) ∧
        (∀ (j : Nat) (I : FFoliageInstance), p.2.Instances[j]? = some I → I.BaseId ≠ 1 → q.2.Instances[j]? = some I))
        SampleActor.FoliageMeshes A1.FoliageMeshes :=
  ⟨by decide, by decide,
   MoveInstancesForMovedComponent_pure_translation SampleRotationEngine SampleActor
     SampleMovedComponent 1 ⟨7, ⟨0, 0, 0⟩, ⟨0, 0, 0⟩, ⟨1, 1, 1⟩⟩ ⟨100, 0, 0⟩
     (fun _ => by simp [SampleRotationEngine])
     (fun _ j => by
       simp only [SampleRotationEngine, Matrix.one_apply]
       by_cases h : j = 3 <;> simp [h, eq_comm])
     (by decide) (by decide) (by decide) (by decide) (by decide) (by decide)
     (by decide) (by decide) (by decide) (by decide)⟩

/-- C12 (counterexample): a collection operation does not look at the GUID of the descriptor.
The sample collection caches GUID 0, the descriptor carries GUID 9; `AddInstance` returns with
the new instance appended and the cached GUID still 0, so no reallocation has brought the
cached GUID to that of the descriptor. -/
theorem AddInstance_keeps_a_stale_update_guid :
    SampleMeshInfo.FoliageTypeUpdateGuid ≠ (UFoliageType.new 9).UpdateGuid ∧
    ∃ M1, SampleMeshInfo.AddInstance (UFoliageType.new 9) (SampleInstance 50 1) = some M1 ∧
      M1.Instances = SampleMeshInfo.Instances ++ [SampleInstance 50 1] ∧
      M1.FoliageTypeUpdateGuid = 0 ∧
      M1.FoliageTypeUpdateGuid ≠ (UFoliageType.new 9).UpdateGuid := by
  refine ⟨by decide, _, FFoliageMeshInfo.AddInstance_eq _ _ _, rfl, rfl, by decide⟩

/-- C12 (amended): `AddInstance`, `RemoveInstances` and `SelectInstances` return with the
cached GUID as it was, whatever GUID the descriptor carries (the overlap queries return a
value and no collection).  The reallocation is run by `NotifyFoliageTypeChanged`: on an actor
holding the collection under the descriptor it runs `ReallocateClusters` once on that
collection, after which the cached GUID is that of the descriptor and the render sink holds as
many instances as the collection. -/
theorem UpdateGuid_follows_the_descriptor_on_notification (M : FFoliageMeshInfo)
    (S : UFoliageType) :
    (∀ I, ∃ M1, M.AddInstance S I = some M1 ∧
      M1.FoliageTypeUpdateGuid = M.FoliageTypeUpdateGuid) ∧
    (∀ L, (∀ i ∈ L, i < M.Instances.length) →
      (M.Instances ≠ [] → M.Component.isSome = true) →
      ∃ M1, M.RemoveInstances L = some M1 ∧
        M1.FoliageTypeUpdateGuid = M.FoliageTypeUpdateGuid) ∧
    (∀ b L C, M.Component = some C → (∀ i ∈ L, i < C.PerInstanceSMData.length) →
      (b = false → C.SelectedInstances.length = 0 ∨
        C.SelectedInstances.length = C.PerInstanceSMData.length) →
      ∃ M1, M.SelectInstances b L = some M1 ∧
        M1.FoliageTypeUpdateGuid = M.FoliageTypeUpdateGuid) ∧
    (∀ (IFA : AInstancedFoliageActor) (TypeObject : Nat → UFoliageType) (t : Nat),
      IFA.FindMesh (some t) = some M →
      ∃ A1 M1, IFA.NotifyFoliageTypeChanged TypeObject (some t) = some A1 ∧
        M.ReallocateClusters (TypeObject t) = some M1 ∧
        A1.FindMesh (some t) = some M1 ∧
        M1.FoliageTypeUpdateGuid = (TypeObject t).UpdateGuid ∧
        ComponentInstanceCount M1 = M1.Instances.length) := by
  refine ⟨?_, ?_, ?_, ?_⟩
  · intro I
    exact ⟨_, FFoliageMeshInfo.AddInstance_eq M S I, rfl⟩
  · intro L hL hC
    exact RemoveInstances_guid M L hL hC
  · intro b L C hC hL hS
    obtain ⟨M1, h1, h2, _⟩ := SelectInstances_frame M b L C hC hL hS
    exact ⟨M1, h1, h2⟩
  · intro IFA TypeObject t hF
    obtain ⟨M1, h1, hW, _, hg⟩ := ReallocateClusters_spec M (TypeObject t)
    refine ⟨{ IFA with FoliageMeshes := TMap.Add IFA.FoliageMeshes (some t) M1 }, M1, ?_, h1, ?_,
      hg, (WellFormed_counts M1 hW).2.2.symm⟩
    · unfold AInstancedFoliageActor.NotifyFoliageTypeChanged
      rw [hF]
      dsimp only
      rw [h1]
      rfl
    · unfold AInstancedFoliageActor.FindMesh
      rw [TMap.Find_Add]
      simp

/-- Witness for C12 (amended): the sample actor holds the sample collection, which caches
GUID 0, under foliage type 10; notified of the change of that type to GUID 9 it reallocates
the collection, which then caches GUID 9 and has a sink as long as its instance array. -/
theorem UpdateGuid_follows_the_descriptor_on_notification_witness :
    SampleActor.FindMesh (some 10) = some SampleMeshInfo ∧
    ∃ A1 M1, SampleActor.NotifyFoliageTypeChanged (fun _ => UFoliageType.new 9) (some 10) =
        some A1 ∧
      SampleMeshInfo.ReallocateClusters (UFoliageType.new 9) = some M1 ∧
      A1.FindMesh (some 10) = some M1 ∧
      M1.FoliageTypeUpdateGuid = (UFoliageType.new 9).UpdateGuid ∧
      ComponentInstanceCount M1 = M1.Instances.length :=
  ⟨rfl, (UpdateGuid_follows_the_descriptor_on_notification SampleMeshInfo
      (UFoliageType.new 9)).2.2.2 SampleActor (fun _ => UFoliageType.new 9) 10 rfl⟩

/-- C13 (counterexample): a mismatch with the zero GUID cached is not reallocated.  The stale
sample collection caches GUID 0 and its descriptor carries GUID 5; `PostLoad` (latest version,
nothing deprecated) leaves its instance array and its component as they were, the instance
flagged as deleted included, whereas `ReallocateClusters` leaves the live instance only. -/
theorem PostLoad_does_not_reallocate_on_zero_guid :
    StaleMeshInfo.FoliageTypeUpdateGuid ≠ (UFoliageType.new 5).UpdateGuid ∧
    (StaleActor.PostLoad (fun _ => UFoliageType.new 5) (fun _ => true)
        FFoliageCustomVersion.LatestVersion []).map
      (fun A1 => A1.FoliageMeshes.map
        (fun p => (p.1, p.2.Instances, p.2.Component, p.2.FoliageTypeUpdateGuid))) =
      some [(some 10, StaleMeshInfo.Instances, StaleMeshInfo.Component, 5)] ∧
    StaleMeshInfo.Instances.length = 2 ∧
    (StaleMeshInfo.ReallocateClusters (UFoliageType.new 5)).map
      (fun R => R.Instances) = some [SampleInstance 0 1] := by
  decide

/-- C13 (amended): `PostLoad` in the editor returns, and afterwards every collection caches
the GUID of its descriptor.  A collection that has its component (or no instance), loaded from
a version that is not older than `FoliageUsingHierarchicalISMC`, whose cached GUID differs from
that of the descriptor, is reallocated through `ReallocateClusters` when the cached GUID is
valid; when it is the zero GUID the collection is only given the GUID of the descriptor.  In
both cases the indexes are rebuilt afterwards. -/
theorem PostLoad_reconciles_update_guids (IFA : AInstancedFoliageActor)
    (TypeObject : Nat → UFoliageType) (IsResolvable : Nat → Bool) (LinkerVersion : Nat)
    (FoliageMeshes_Deprecated : List (Option Nat × FFoliageMeshInfo_Deprecated)) :
    (∃ A1, IFA.PostLoad TypeObject IsResolvable LinkerVersion FoliageMeshes_Deprecated = some A1 ∧
      ∀ p ∈ A1.FoliageMeshes, ∃ t, p.1 = some t ∧
        p.2.FoliageTypeUpdateGuid = (TypeObject t).UpdateGuid) ∧
    (∀ (M : FFoliageMeshInfo) (T : UFoliageType),
      M.FoliageTypeUpdateGuid ≠ T.UpdateGuid →
      FFoliageCustomVersion.FoliageUsingHierarchicalISMC ≤ LinkerVersion →
      (M.Instances.length = 0 ∨ M.Component ≠ none) →
      PostLoadMesh LinkerVersion T M =
        (if FGuid.IsValid M.FoliageTypeUpdateGuid then M.ReallocateClusters T
         else some { M with FoliageTypeUpdateGuid := T.UpdateGuid }).bind RebuildHash) := by
  refine ⟨?_, ?_⟩
  · obtain ⟨A1, h1, h2⟩ := PostLoad_spec IFA TypeObject IsResolvable LinkerVersion
      FoliageMeshes_Deprecated
    refine ⟨A1, h1, ?_⟩
    intro p hp
    obtain ⟨t, ht, hg, _⟩ := h2 p hp
    exact ⟨t, ht, hg⟩
  · intro M T hg hV hC
    have hrep : ¬ (M.Instances.length ≠ 0 ∧ M.Component = none) := by
      rintro ⟨h1, h2⟩
      rcases hC with h | h
      · exact h1 h
      · exact h h2
    have hV2 : ¬ LinkerVersion < FFoliageCustomVersion.FoliageUsingHierarchicalISMC := by omega
    unfold PostLoadMesh
    rw [if_neg hrep]
    dsimp only
    rw [Option.some_bind]
    unfold ReconcileUpdateGuid
    rw [if_pos hg]
    dsimp only
    have hrec : Option.map (fun N : FFoliageMeshInfo =>
          { N with FoliageTypeUpdateGuid := T.UpdateGuid })
        (if FGuid.IsValid M.FoliageTypeUpdateGuid = true then M.ReallocateClusters T
          else some M) =
        (if FGuid.IsValid M.FoliageTypeUpdateGuid = true then M.ReallocateClusters T
         else some { M with FoliageTypeUpdateGuid := T.UpdateGuid }) := by
      split
      · obtain ⟨M1, h1, _, _, hg1⟩ := ReallocateClusters_spec M T
        rw [h1, Option.map_some', ← hg1]
      · rfl
    rw [hrec]
    cases hX : (if FGuid.IsValid M.FoliageTypeUpdateGuid = true then M.ReallocateClusters T
         else some { M with FoliageTypeUpdateGuid := T.UpdateGuid }) with
    | none => rfl
    | some M2 =>
      rw [Option.some_bind]
      dsimp only
      cases RebuildHash M2 with
      | none => rfl
      | some M3 => simp only [if_neg hV2]

/-- Witness for C13 (amended): the stale sample collection, cached GUID 0 against GUID 5 of
the descriptor, is loaded without reallocation. -/
theorem PostLoad_reconciles_update_guids_witness :
    StaleMeshInfo.FoliageTypeUpdateGuid ≠ (UFoliageType.new 5).UpdateGuid ∧
    PostLoadMesh FFoliageCustomVersion.LatestVersion (UFoliageType.new 5) StaleMeshInfo =
      (if FGuid.IsValid StaleMeshInfo.FoliageTypeUpdateGuid then
        StaleMeshInfo.ReallocateClusters (UFoliageType.new 5)
       else some { StaleMeshInfo with
         FoliageTypeUpdateGuid := (UFoliageType.new 5).UpdateGuid }).bind RebuildHash :=
  ⟨by decide,
   (PostLoad_reconciles_update_guids StaleActor (fun _ => UFoliageType.new 5) (fun _ => true)
      FFoliageCustomVersion.LatestVersion []).2 StaleMeshInfo (UFoliageType.new 5)
      (by decide) (by decide) (Or.inr (by decide))⟩

/-- C14: `PostLoad` in the editor returns, whatever the base-index maps and spatial hashes of
the collections held before, and afterwards, in every collection, the base-index map holds
index `i` under `Instances[i].BaseId` for every index of the array and nothing else, and the
spatial hash holds exactly one entry `(cell of Instances[i].Location, i)` per instance. -/
theorem PostLoad_rebuilds_both_indexes (IFA : AInstancedFoliageActor)
    (TypeObject : Nat → UFoliageType) (IsResolvable : Nat → Bool) (LinkerVersion : Nat)
    (FoliageMeshes_Deprecated : List (Option Nat × FFoliageMeshInfo_Deprecated)) :
    ∃ A1, IFA.PostLoad TypeObject IsResolvable LinkerVersion FoliageMeshes_Deprecated = some A1 ∧
      ∀ p ∈ A1.FoliageMeshes,
        BaseHashConsistent p.2 ∧ HashConsistent p.2 ∧
        (∀ b j, InBase p.2.ComponentHash b j ↔
          ∃ I, p.2.Instances[j]? = some I ∧ b = I.BaseId) ∧
        (∀ c j, (c, j) ∈ p.2.InstanceHash.CellMap ↔
          ∃ I, p.2.Instances[j]? = some I ∧ c = HashCell I.Location) := by
  obtain ⟨A1, h1, h2⟩ := PostLoad_spec IFA TypeObject IsResolvable LinkerVersion
    FoliageMeshes_Deprecated
  refine ⟨A1, h1, ?_⟩
  intro p hp
  obtain ⟨_, _, _, hH, hB⟩ := h2 p hp
  refine ⟨hB, hH, ?_, ?_⟩
  · intro b j
    exact ((BaseHashConsistent_iff p.2).1 hB).2.2.2 b j trivial
  · exact ((HashConsistent_iff p.2).1 hH).2

/-- C15: `ReallocateClusters` returns with the instance array equal to the old array filtered
to the instances whose `FOLIAGE_InstanceDeleted` flag is clear, in the same order and with the
same field values, and with a render sink that holds the transform of each of them, in that
order.  An instance the legacy reader takes from an archive older than
`FoliageUsingHierarchicalISMC` with cluster index `INDEX_NONE` carries the flag after the read
and after the conversion to the current layout, so it is in no reallocated array. -/
theorem ReallocateClusters_keeps_exactly_the_live_instances (M : FFoliageMeshInfo)
    (S : UFoliageType) :
    (∃ M1, M.ReallocateClusters S = some M1 ∧
      M1.Instances =
        M.Instances.filter (fun I => decide (I.Flags &&& FOLIAGE_InstanceDeleted = 0)) ∧
      ComponentConsistent M1 ∧ ComponentInstanceCount M1 = M1.Instances.length) ∧
    (∀ (CustomVer : Nat) (ArIsFilterEditorOnly : Bool) (Ar : FLegacyInstanceData)
      (I0 : FFoliageInstance_Deprecated) (Cache : FFoliageInstanceBaseCache),
      CustomVer < FFoliageCustomVersion.FoliageUsingHierarchicalISMC →
      Ar.OldClusterIndex = INDEX_NONE →
      ∃ I, (ConvertDeprecatedInstances Cache []
          [FFoliageInstance_Deprecated.Load CustomVer ArIsFilterEditorOnly Ar I0]).2 = [I] ∧
        I.Flags &&& FOLIAGE_InstanceDeleted ≠ 0 ∧
        ∀ M1, M.ReallocateClusters S = some M1 → I ∉ M1.Instances) := by
  obtain ⟨M1, h1, hW, hI, _⟩ := ReallocateClusters_spec M S
  refine ⟨⟨M1, h1, hI, hW.2.2, (WellFormed_counts M1 hW).2.2.symm⟩, ?_⟩
  intro CustomVer Filter Ar I0 Cache hV hO
  have hflag : (FFoliageInstance_Deprecated.Load CustomVer Filter Ar I0).Flags =
      Ar.Flags ||| FOLIAGE_InstanceDeleted := by
    unfold FFoliageInstance_Deprecated.Load
    simp only [hV, if_true, hO]
    split <;> rfl
  refine ⟨_, rfl, ?_, ?_⟩
  · show (FFoliageInstance_Deprecated.Load CustomVer Filter Ar I0).Flags &&&
      FOLIAGE_InstanceDeleted ≠ 0
    rw [hflag, lor_land_self]
    decide
  · intro M2 h2 hmem
    rw [h1] at h2
    cases h2
    rw [hI, List.mem_filter] at hmem
    have h3 := hmem.2
    simp only [decide_eq_true_eq] at h3
    have h4 : (FFoliageInstance_Deprecated.Load CustomVer Filter Ar I0).Flags &&&
        FOLIAGE_InstanceDeleted = 0 := h3
    rw [hflag, lor_land_self] at h4
    exact absurd h4 (by decide)

/-- Witness for C15: the stale sample collection keeps its live instance only, and the legacy
sample instance (version 0, cluster index `-1`) carries the deleted flag after conversion. -/
theorem ReallocateClusters_keeps_exactly_the_live_instances_witness :
    (0 < FFoliageCustomVersion.FoliageUsingHierarchicalISMC) ∧
    SampleLegacyData.OldClusterIndex = INDEX_NONE ∧
    (∃ M1, StaleMeshInfo.ReallocateClusters (UFoliageType.new 5) = some M1 ∧
      M1.Instances = [SampleInstance 0 1]) ∧
    ∃ I, (ConvertDeprecatedInstances FFoliageInstanceBaseCache.new []
        [FFoliageInstance_Deprecated.Load 0 false SampleLegacyData SampleLegacyInstance]).2 =
          [I] ∧
      I.Flags &&& FOLIAGE_InstanceDeleted ≠ 0 ∧
      ∀ M1, StaleMeshInfo.ReallocateClusters (UFoliageType.new 5) = some M1 →
        I ∉ M1.Instances :=
  ⟨by decide, rfl, by decide,
   (ReallocateClusters_keeps_exactly_the_live_instances StaleMeshInfo (UFoliageType.new 5)).2
     0 false SampleLegacyData SampleLegacyInstance FFoliageInstanceBaseCache.new
     (by decide) rfl⟩

/-- C16 (code bug): in `LockXZ` mode `GetRandomScale` does not return the vector whose X and Z
share one draw.  The case has no `break`, so for every descriptor in that mode the result is
what the `LockYZ` statements compute two draws later: Y and Z share the third draw and X uses
the fourth.  With all three ranges `[10, 20]` and the draws `0, 0, 1, 0` the result is
`(10, 20, 20)` after four draws, and no single `a` interpolates both X and Z. -/
theorem GetRandomScale_LockXZ_runs_into_LockYZ :
    (∀ (T : UFoliageType) (Rand : Nat → Int) (k : Nat), T.Scaling = EFoliageScaling.LockXZ →
      T.GetRandomScale Rand k =
        (⟨T.ScaleX.Interpolate (Rand (k + 3)), T.ScaleY.Interpolate (Rand (k + 2)),
          T.ScaleZ.Interpolate (Rand (k + 2))⟩, k + 4)) ∧
    (let T : UFoliageType :=
        { UFoliageType.new 0 with
          Scaling := EFoliageScaling.LockXZ
          ScaleX := ⟨10, 20⟩
          ScaleY := ⟨10, 20⟩
          ScaleZ := ⟨10, 20⟩ }
     let Rand : Nat → Int := fun k => if k = 2 then 1 else 0
     T.GetRandomScale Rand 0 = (⟨10, 20, 20⟩, 4) ∧
     ¬ ∃ a : Int,
        (T.GetRandomScale Rand 0).1.X = T.ScaleX.Min + a * (T.ScaleX.Max - T.ScaleX.Min) ∧
        (T.GetRandomScale Rand 0).1.Z = T.ScaleZ.Min + a * (T.ScaleZ.Max - T.ScaleZ.Min)) := by
  refine ⟨?_, ?_⟩
  · intro T Rand k h
    simp only [UFoliageType.GetRandomScale, h, UFoliageType.GetRandomScale.CaseLockYZ]
  · have hv : ({ UFoliageType.new 0 with
          Scaling := EFoliageScaling.LockXZ
          ScaleX := ⟨10, 20⟩
          ScaleY := ⟨10, 20⟩
          ScaleZ := ⟨10, 20⟩ } : UFoliageType).GetRandomScale
          (fun k => if k = 2 then 1 else 0) 0 = (⟨10, 20, 20⟩, 4) := by decide
    refine ⟨hv, ?_⟩
    rintro ⟨a, h1, h2⟩
    rw [hv] at h1 h2
    simp only [UFoliageType.new] at h1 h2
    omega

/-- C17: `GetScaleForAge` is `MinScale + (MaxScale - MinScale) * ScaleCurve(t)` with
`t = clamp(Age / MaxAge, 0, 1)`, and `t = 1` when `MaxAge = 0`.  When the curve is the default
one (keys `(0,0)` and `(1,1)`, evaluating to `t` at every `t` of `[0, 1]`), `MaxAge > 0` and
`MinScale ≤ MaxScale`, the result lies between `MinScale` and `MaxScale`, is non-decreasing in
the age, is `MinScale` for `Age ≤ 0` and `MaxScale` for `Age ≥ MaxAge`. -/
theorem GetScaleForAge_formula_and_range (T : UFoliageType) (Eval : List (ℚ × ℚ) → ℚ → ℚ) :
    (∀ Age, ∃ t, 0 ≤ t ∧ t ≤ 1 ∧ (T.MaxAge = 0 → t = 1) ∧
        (T.MaxAge ≠ 0 → t = max 0 (min (Age / T.MaxAge) 1)) ∧
        T.GetScaleForAge Eval Age = T.MinScale + (T.MaxScale - T.MinScale) * Eval T.ScaleCurve t) ∧
    (T.ScaleCurve = [(0, 0), (1, 1)] →
      (∀ t, 0 ≤ t → t ≤ 1 → Eval [(0, 0), (1, 1)] t = t) →
      0 < T.MaxAge → T.MinScale ≤ T.MaxScale →
      (∀ Age, T.MinScale ≤ T.GetScaleForAge Eval Age ∧ T.GetScaleForAge Eval Age ≤ T.MaxScale) ∧
      (∀ A B, A ≤ B → T.GetScaleForAge Eval A ≤ T.GetScaleForAge Eval B) ∧
      (∀ Age, Age ≤ 0 → T.GetScaleForAge Eval Age = T.MinScale) ∧
      (∀ Age, T.MaxAge ≤ Age → T.GetScaleForAge Eval Age = T.MaxScale)) := by
  refine ⟨?_, ?_⟩
  · intro Age
    refine ⟨FMath.Clamp (if T.MaxAge = 0 then 1 else Age / T.MaxAge) 0 1,
      FMath.Clamp_nonneg _, FMath.Clamp_le_one _, ?_, ?_, rfl⟩
    · intro h
      rw [if_pos h]
      exact FMath.Clamp_of_one_le le_rfl
    · intro h
      rw [if_neg h, FMath.Clamp_eq]
  · intro hK hE hA hS
    have hne : T.MaxAge ≠ 0 := ne_of_gt hA
    have hval : ∀ Age, T.GetScaleForAge Eval Age =
        T.MinScale + (T.MaxScale - T.MinScale) * FMath.Clamp (Age / T.MaxAge) 0 1 := by
      intro Age
      simp only [UFoliageType.GetScaleForAge, if_neg hne, hK]
      rw [hE _ (FMath.Clamp_nonneg _) (FMath.Clamp_le_one _)]
    have hd : 0 ≤ T.MaxScale - T.MinScale := sub_nonneg.mpr hS
    refine ⟨?_, ?_, ?_, ?_⟩
    · intro Age
      rw [hval]
      have h0 := FMath.Clamp_nonneg (Age / T.MaxAge)
      have h1 := FMath.Clamp_le_one (Age / T.MaxAge)
      constructor
      · nlinarith [mul_nonneg hd h0]
      · nlinarith [mul_nonneg hd (sub_nonneg.mpr h1)]
    · intro A B hAB
      rw [hval, hval]
      have hm : FMath.Clamp (A / T.MaxAge) 0 1 ≤ FMath.Clamp (B / T.MaxAge) 0 1 :=
        FMath.Clamp_mono (div_le_div_of_nonneg_right hAB hA.le)
      nlinarith [mul_le_mul_of_nonneg_left hm hd]
    · intro Age h
      rw [hval, FMath.Clamp_of_nonpos (div_nonpos_of_nonpos_of_nonneg h hA.le)]
      ring
    · intro Age h
      rw [hval, FMath.Clamp_of_one_le ((one_le_div hA).mpr h)]
      ring

/-- Witness for C17: the freshly constructed descriptor (`MinScale = 1`, `MaxScale = 3`,
`MaxAge = 10`, default curve) with the curve evaluated as the identity on `[0, 1]`. -/
theorem GetScaleForAge_formula_and_range_witness :
    (UFoliageType.new 0).GetScaleForAge (fun _ t => t) 5 = 2 ∧
    (∀ Age, (UFoliageType.new 0).MinScale ≤ (UFoliageType.new 0).GetScaleForAge (fun _ t => t) Age ∧
      (UFoliageType.new 0).GetScaleForAge (fun _ t => t) Age ≤ (UFoliageType.new 0).MaxScale) :=
  ⟨by norm_num [UFoliageType.GetScaleForAge, UFoliageType.new, FMath.Clamp],
   ((GetScaleForAge_formula_and_range (UFoliageType.new 0) (fun _ t => t)).2 rfl
      (fun _ _ _ => rfl) (by norm_num [UFoliageType.new]) (by norm_num [UFoliageType.new])).1⟩

/-- C18: manual placement with `AlignToNormal = true`, `RandomYaw = false`, no random pitch and
the offset range `[0, 0]` (the constructor defaults, with `Density = 100`), on a hit whose normal
points straight up, the tilt onto that normal being the zero rotation and the zero rotation
composing to the other factor: for every random draw and every instance written into, the
rotation has yaw, pitch and roll 0, the `FOLIAGE_NoRandomYaw` flag is set, and the location is
the hit point. -/
theorem PlaceInstance_on_level_ground (E : FPlacementEngine) (P : FPotentialInstance)
    (Settings : UFoliageType)
    (hMode : P.DesiredInstance.PlacementMode ≠ EFoliagePlacementMode.Procedural)
    (hNormal : P.HitNormal = ⟨0, 0, 1⟩)
    (hAlign : Settings.AlignToNormal = true) (hYaw : Settings.RandomYaw = false)
    (hPitch : Settings.RandomPitchAngle = 0) (hOffset : Settings.ZOffset = ⟨0, 0⟩)
    (hTilt : E.NormalTilt ⟨0, 0, 1⟩ Settings.AlignMaxAngle = ⟨0, 0, 0⟩)
    (hCompose : ∀ R, E.Compose ⟨0, 0, 0⟩ R = R) :
    ∀ (Rand : Nat → Int) (k : Nat) (Inst : FFoliageInstance) (bSkipCollision : Bool),
      (P.PlaceInstance E Rand k Settings Inst bSkipCollision).2.1.Rotation = ⟨0, 0, 0⟩ ∧
      (P.PlaceInstance E Rand k Settings Inst bSkipCollision).2.1.Flags &&& FOLIAGE_NoRandomYaw =
        FOLIAGE_NoRandomYaw ∧
      (P.PlaceInstance E Rand k Settings Inst bSkipCollision).2.1.Location = P.HitLocation := by
  intro Rand k Inst bSkipCollision
  have hz : ∀ a, Settings.ZOffset.Interpolate a = 0 := by
    intro a
    simp [FFloatInterval.Interpolate, hOffset]
  simp only [FPotentialInstance.PlaceInstance, hMode, decide_False, Bool.false_eq_true, if_false,
    hYaw, hAlign, if_true, hPitch, mul_zero, FFoliageInstance.AlignToNormal, hNormal, hTilt,
    hCompose, hz, abs_zero, lt_self_iff_false]
  exact ⟨trivial, lor_lor_land_self _ _ _, trivial⟩

/-- Witness for C18: the constructor defaults with random yaw switched off, on level ground at
the origin, whatever the draws are. -/
theorem PlaceInstance_on_level_ground_witness :
    ({ UFoliageType.new 0 with RandomYaw := false } : UFoliageType).Density = 100 ∧
    SamplePotential.HitLocation = ⟨0, 0, 0⟩ ∧
    ∀ (Rand : Nat → Int) (k : Nat) (Inst : FFoliageInstance) (bSkipCollision : Bool),
      (SamplePotential.PlaceInstance SampleEngine Rand k
        { UFoliageType.new 0 with RandomYaw := false } Inst bSkipCollision).2.1.Rotation =
          ⟨0, 0, 0⟩ ∧
      (SamplePotential.PlaceInstance SampleEngine Rand k
        { UFoliageType.new 0 with RandomYaw := false } Inst bSkipCollision).2.1.Flags &&&
          FOLIAGE_NoRandomYaw = FOLIAGE_NoRandomYaw ∧
      (SamplePotential.PlaceInstance SampleEngine Rand k
        { UFoliageType.new 0 with RandomYaw := false } Inst bSkipCollision).2.1.Location =
          SamplePotential.HitLocation :=
  ⟨rfl, rfl,
   PlaceInstance_on_level_ground SampleEngine SamplePotential
     { UFoliageType.new 0 with RandomYaw := false } (by decide) rfl rfl rfl rfl rfl rfl
     (fun R => by simp [SampleEngine])⟩

/-- C19: for non-procedural placement over sweep hits that all carry a component with a body,
`FoliageTrace` returns true exactly when some hit is blocking (collision enabled as
`QueryAndPhysics`, `Block` response on the world-static channel, component in a level);
`OutHit` is then the first such hit in sweep order, the hits before it being skipped, and when
no hit qualifies the result is false and `OutHit` is untouched. -/
theorem FoliageTrace_non_procedural_returns_first_blocking_hit
    (OverlapTest : Nat → FVector → Bool) (Hits : List FHitResult) (OutHit : FHitResult)
    (D : FDesiredFoliageInstance)
    (hMode : D.PlacementMode ≠ EFoliagePlacementMode.Procedural)
    (hC : ∀ Hit ∈ Hits, ∃ C B, Hit.Component = some C ∧ C.BodyInstance = some B) :
    ∃ r, AInstancedFoliageActor.FoliageTrace OverlapTest Hits OutHit D = some r ∧
      (r.1 = true ↔ ∃ H ∈ Hits, H.IsBlocking = true) ∧
      (∀ Pre H Post, Hits = Pre ++ H :: Post → (∀ x ∈ Pre, x.IsBlocking = false) →
        H.IsBlocking = true → r = (true, H)) ∧
      ((∀ H ∈ Hits, H.IsBlocking = false) → r = (false, OutHit)) := by
  refine ⟨_, FoliageTraceLoop_non_procedural OverlapTest D OutHit hMode Hits false hC, ?_, ?_, ?_⟩
  · cases hf : Hits.find? FHitResult.IsBlocking with
    | none =>
      simp only [Bool.false_eq_true, false_iff, not_exists, not_and]
      intro H hH hB
      have := List.find?_eq_none.mp hf H hH
      exact this hB
    | some H =>
      simp only [true_iff]
      exact ⟨H, List.mem_of_find?_eq_some hf, List.find?_some hf⟩
  · intro Pre H Post hEq hPre hH
    subst hEq
    have : (Pre ++ H :: Post).find? FHitResult.IsBlocking = some H := by
      rw [List.find?_append]
      have h1 : Pre.find? FHitResult.IsBlocking = none := by
        rw [List.find?_eq_none]
        intro x hx
        simp [hPre x hx]
      rw [h1, List.find?_cons, hH]
      rfl
    rw [this]
  · intro hAll
    have : Hits.find? FHitResult.IsBlocking = none := by
      rw [List.find?_eq_none]
      intro x hx
      simp [hAll x hx]
    rw [this]

/-- Witness for C19: a manual trace that first meets a surface without collision and then
blocking ground returns the ground hit. -/
theorem FoliageTrace_non_procedural_returns_first_blocking_hit_witness :
    (SampleDesired EFoliagePlacementMode.Manual).PlacementMode ≠
        EFoliagePlacementMode.Procedural ∧
    AInstancedFoliageActor.FoliageTrace (fun _ _ => false)
        [SampleNoCollisionHit, SampleGroundHit] SampleOutHit
        (SampleDesired EFoliagePlacementMode.Manual) = some (true, SampleGroundHit) ∧
    ∃ r, AInstancedFoliageActor.FoliageTrace (fun _ _ => false)
        [SampleNoCollisionHit, SampleGroundHit] SampleOutHit
        (SampleDesired EFoliagePlacementMode.Manual) = some r ∧
      (r.1 = true ↔ ∃ H ∈ [SampleNoCollisionHit, SampleGroundHit], H.IsBlocking = true) ∧
      (∀ Pre H Post, [SampleNoCollisionHit, SampleGroundHit] = Pre ++ H :: Post →
        (∀ x ∈ Pre, x.IsBlocking = false) → H.IsBlocking = true → r = (true, H)) ∧
      ((∀ H ∈ [SampleNoCollisionHit, SampleGroundHit], H.IsBlocking = false) →
        r = (false, SampleOutHit)) :=
  ⟨by decide, by decide,
   FoliageTrace_non_procedural_returns_first_blocking_hit (fun _ _ => false)
     [SampleNoCollisionHit, SampleGroundHit] SampleOutHit
     (SampleDesired EFoliagePlacementMode.Manual) (by decide)
     (by
       intro Hit hH
       simp only [List.mem_cons, List.mem_singleton, List.not_mem_nil, or_false] at hH
       rcases hH with rfl | rfl <;> exact ⟨_, _, rfl, rfl⟩)⟩

/-- C20 (counterexample): a hit on an instanced foliage actor is not skipped in procedural
mode.  The trace whose only hit is blocking ground inside the procedural volume returns true
with that hit; the same trace with a hit on an instanced foliage actor in front of it returns
false and leaves `OutHit` untouched, so the later ground hit is not considered. -/
theorem FoliageTrace_procedural_foliage_actor_hit_is_not_skipped :
    AInstancedFoliageActor.FoliageTrace (fun _ _ => true) [SampleGroundHit] SampleOutHit
        (SampleDesired EFoliagePlacementMode.Procedural) = some (true, SampleGroundHit) ∧
    AInstancedFoliageActor.FoliageTrace (fun _ _ => true)
        [SampleFoliageActorHit, SampleGroundHit] SampleOutHit
        (SampleDesired EFoliagePlacementMode.Procedural) = some (false, SampleOutHit) := by
  decide

/-- C20 (amended): in procedural mode, at whatever point of the sweep the loop of
`FoliageTrace` stands, a hit on a blocking volume without owning actor, without owning
component or with the GUID of the desired instance ends the trace with false, and so does a hit
on an instanced foliage actor; a hit on the procedural spawning volume is skipped, the trace
going on with the later hits in the same state. -/
theorem FoliageTrace_procedural_vetoes_and_skips
    (OverlapTest : Nat → FVector → Bool) (D : FDesiredFoliageInstance) (OutHit Hit : FHitResult)
    (Rest : List FHitResult) (b : Bool)
    (hMode : D.PlacementMode = EFoliagePlacementMode.Procedural) :
    (∀ Owner, Hit.Actor = some (AActor.ProceduralFoliageBlockingVolume Owner) →
      (Owner = none ∨ (∃ A, Owner = some A ∧ A.ProceduralComponent = none) ∨
        (∃ A C, Owner = some A ∧ A.ProceduralComponent = some C ∧
          C.ProceduralGuid = D.ProceduralGuid)) →
      FoliageTraceLoop OverlapTest D OutHit (Hit :: Rest) b = some (false, OutHit)) ∧
    (Hit.Actor = some AActor.InstancedFoliageActor →
      FoliageTraceLoop OverlapTest D OutHit (Hit :: Rest) b = some (false, OutHit)) ∧
    (Hit.Actor = some AActor.ProceduralFoliageActor →
      FoliageTraceLoop OverlapTest D OutHit (Hit :: Rest) b =
        FoliageTraceLoop OverlapTest D OutHit Rest b) := by
  refine ⟨?_, ?_, ?_⟩
  · intro Owner hA hO
    rcases hO with h | ⟨A, h, hc⟩ | ⟨A, C, h, hc, hg⟩
    · simp [FoliageTraceLoop, FoliageTraceBody, hMode, hA, h]
    · simp [FoliageTraceLoop, FoliageTraceBody, hMode, hA, h, hc]
    · simp [FoliageTraceLoop, FoliageTraceBody, hMode, hA, h, hc, hg]
  · intro hA
    simp [FoliageTraceLoop, FoliageTraceBody, hMode, hA]
  · intro hA
    simp [FoliageTraceLoop, FoliageTraceBody, hMode, hA]

/-- Witness for C20 (amended): the three kinds of hit in front of blocking ground. -/
theorem FoliageTrace_procedural_vetoes_and_skips_witness :
    (SampleDesired EFoliagePlacementMode.Procedural).PlacementMode =
        EFoliagePlacementMode.Procedural ∧
    FoliageTraceLoop (fun _ _ => true) (SampleDesired EFoliagePlacementMode.Procedural)
        SampleOutHit (SampleFoliageActorHit :: [SampleGroundHit]) false =
      some (false, SampleOutHit) :=
  ⟨rfl, (FoliageTrace_procedural_vetoes_and_skips (fun _ _ => true)
      (SampleDesired EFoliagePlacementMode.Procedural) SampleOutHit SampleFoliageActorHit
      [SampleGroundHit] false rfl).2.1 rfl⟩

/-- C21 (counterexample): deselecting does not shrink the selection set when the selection
buffer of the render sink is empty.  The sample collection with index 0 selected and an empty
buffer is returned by `SelectInstances(false, [0])` exactly as it was, index 0 still
selected. -/
theorem SelectInstances_deselect_skipped_on_empty_buffer :
    SelectedMeshInfo.Component.map (fun C => C.SelectedInstances.length) = some 0 ∧
    SelectedMeshInfo.SelectInstances false [0] = some SelectedMeshInfo ∧
    0 ∈ SelectedMeshInfo.SelectedIndices := by
  decide

/-- C21 (amended): for a non-empty list `L` of indices in range of the render sink,
`SelectInstances(true, L)` returns with the selection set equal to the old one united with
`L`, whatever the length of the selection buffer; `SelectInstances(false, L)` returns with
the selection set equal to the old one minus `L` when the buffer is as long as the sink, and
returns the collection untouched when the buffer is empty.  The instance array is unchanged
in every case. -/
theorem SelectInstances_updates_the_selection (M : FFoliageMeshInfo) (L : List Nat)
    (C : UHierarchicalInstancedStaticMeshComponent) (hC : M.Component = some C)
    (hne : L ≠ []) (hL : ∀ i ∈ L, i < C.PerInstanceSMData.length) :
    (∃ M1, M.SelectInstances true L = some M1 ∧
      (∀ j, j ∈ M1.SelectedIndices ↔ j ∈ M.SelectedIndices ∨ j ∈ L) ∧
      M1.Instances = M.Instances) ∧
    (C.SelectedInstances.length = C.PerInstanceSMData.length →
      ∃ M1, M.SelectInstances false L = some M1 ∧
        (∀ j, j ∈ M1.SelectedIndices ↔ j ∈ M.SelectedIndices ∧ j ∉ L) ∧
        M1.Instances = M.Instances) ∧
    (C.SelectedInstances.length = 0 → M.SelectInstances false L = some M) := by
  have hlen : L.length ≠ 0 := fun h => hne (List.length_eq_zero.1 h)
  refine ⟨?_, ?_, ?_⟩
  · obtain ⟨Sel1, C1, h1, _, _⟩ := SelectLoop_spec true L M.SelectedIndices
      (if C.SelectedInstances.length ≠ C.PerInstanceSMData.length then
        { C with SelectedInstances := List.replicate C.PerInstanceSMData.length false }
      else C)
      (by
        intro i hi
        split
        · simpa using hL i hi
        · rename_i h
          rw [not_not.mp h]
          exact hL i hi)
    have hm := (SelectLoop_mem true L _ _ Sel1 C1 h1).1
    refine ⟨{ M with SelectedIndices := Sel1, Component := some C1 }, ?_, ?_, rfl⟩
    · unfold FFoliageMeshInfo.SelectInstances
      rw [if_pos hlen, hC]
      simp only [if_true, h1, Option.map_some']
    · intro j
      simpa using hm j
  · intro hb
    have h0 : C.SelectedInstances.length ≠ 0 := by
      cases L with
      | nil => exact absurd rfl hne
      | cons a t =>
        have := hL a (List.mem_cons_self _ _)
        omega
    obtain ⟨Sel1, C1, h1, _, _⟩ := SelectLoop_spec false L M.SelectedIndices C
      (fun i hi => by rw [hb]; exact hL i hi)
    have hm := (SelectLoop_mem false L _ _ Sel1 C1 h1).1
    refine ⟨{ M with SelectedIndices := Sel1, Component := some C1 }, ?_, ?_, rfl⟩
    · unfold FFoliageMeshInfo.SelectInstances
      rw [if_pos hlen, hC]
      simp only [Bool.false_eq_true, if_false, if_pos h0, h1, Option.map_some']
    · intro j
      simpa using hm j
  · intro h0
    unfold FFoliageMeshInfo.SelectInstances
    rw [if_pos hlen, hC]
    simp [h0]

/-- Witness for C21 (amended): selecting indices 1 and 3 of the sample collection, which has
index 0 selected. -/
theorem SelectInstances_updates_the_selection_witness :
    SelectedMeshInfo.Component = SampleMeshInfo.Component ∧
    ∃ M1, SelectedMeshInfo.SelectInstances true [1, 3] = some M1 ∧
      (∀ j, j ∈ M1.SelectedIndices ↔ j ∈ SelectedMeshInfo.SelectedIndices ∨ j ∈ [1, 3]) ∧
      M1.Instances = SelectedMeshInfo.Instances :=
  ⟨rfl, (SelectInstances_updates_the_selection SelectedMeshInfo [1, 3]
      ⟨[(SampleInstance 0 1).GetInstanceWorldTransform,
        (SampleInstance 600 2).GetInstanceWorldTransform,
        (SampleInstance 1200 1).GetInstanceWorldTransform,
        (SampleInstance 1800 0).GetInstanceWorldTransform,
        (SampleInstance 2400 2).GetInstanceWorldTransform], []⟩ rfl (by decide)
      (by decide)).1⟩

/-- C22: on a collection whose selection set is duplicate-free and in range, for in-range
indices `L`, `RemoveInstances` returns, and there is a list `Origin` giving for every slot `j`
of the new array the old index `k` of the instance now in that slot, a rearrangement of the
old indices not in `L`, such that slot `j` is selected afterwards exactly when index `k` was
selected before.  So a selected survivor stays selected under its new index, an unselected
survivor is not selected, every selected index comes from a selected survivor, and every
selected index is smaller than the new length. -/
theorem RemoveInstances_keeps_the_selection_of_survivors (M : FFoliageMeshInfo)
    (L : List Nat) (hL : ∀ i ∈ L, i < M.Instances.length)
    (hC : M.Instances ≠ [] → M.Component.isSome = true)
    (hSn : M.SelectedIndices.Nodup)
    (hSr : ∀ j ∈ M.SelectedIndices, j < M.Instances.length) :
    ∃ (M1 : FFoliageMeshInfo) (Origin : List Nat), M.RemoveInstances L = some M1 ∧
      Origin.Perm ((List.range M.Instances.length).filter (fun k => decide (k ∉ L))) ∧
      Origin.length = M1.Instances.length ∧
      (∀ j k, Origin[j]? = some k →
        M1.Instances[j]? = M.Instances[k]? ∧
        (j ∈ M1.SelectedIndices ↔ k ∈ M.SelectedIndices)) ∧
      (∀ j ∈ M1.SelectedIndices, j < M1.Instances.length ∧
        ∃ k, Origin[j]? = some k ∧ k ∈ M.SelectedIndices ∧ k ∉ L) ∧
      M1.SelectedIndices.Nodup := by
  obtain ⟨M1, Origin, h1, hperm, hlen, hpt, hnd, hr⟩ :=
    RemoveInstances_selection M L hL hC hSn hSr
  refine ⟨M1, Origin, h1, hperm, hlen, hpt, ?_, hnd⟩
  intro j hj
  have hjl := hr j hj
  have hjO : j < Origin.length := by rw [hlen]; exact hjl
  have hk : Origin[j]? = some Origin[j] := List.getElem?_eq_getElem hjO
  refine ⟨hjl, Origin[j], hk, ((hpt j _ hk).2).1 hj, ?_⟩
  have hmem : Origin[j] ∈ (List.range M.Instances.length).filter (fun k => decide (k ∉ L)) :=
    hperm.mem_iff.1 (List.getElem_mem hjO)
  rw [List.mem_filter] at hmem
  simpa using hmem.2

/-- Witness for C22: the last instance of the sample collection is selected and index 1 is
removed; the last instance is swapped into slot 1 and is selected there. -/
theorem RemoveInstances_keeps_the_selection_of_survivors_witness :
    (LastSelectedMeshInfo.RemoveInstances [1]).map
      (fun M1 => (M1.SelectedIndices, M1.Instances[1]?)) =
      some ([1], LastSelectedMeshInfo.Instances[4]?) ∧
    ∃ (M1 : FFoliageMeshInfo) (Origin : List Nat),
      LastSelectedMeshInfo.RemoveInstances [1] = some M1 ∧
      Origin.Perm ((List.range LastSelectedMeshInfo.Instances.length).filter
        (fun k => decide (k ∉ [1]))) ∧
      Origin.length = M1.Instances.length ∧
      (∀ j k, Origin[j]? = some k →
        M1.Instances[j]? = LastSelectedMeshInfo.Instances[k]? ∧
        (j ∈ M1.SelectedIndices ↔ k ∈ LastSelectedMeshInfo.SelectedIndices)) ∧
      (∀ j ∈ M1.SelectedIndices, j < M1.Instances.length ∧
        ∃ k, Origin[j]? = some k ∧ k ∈ LastSelectedMeshInfo.SelectedIndices ∧ k ∉ [1]) ∧
      M1.SelectedIndices.Nodup :=
  ⟨by decide,
   RemoveInstances_keeps_the_selection_of_survivors LastSelectedMeshInfo [1] (by decide)
     (by decide) (by decide) (by decide)⟩

/-- C23: `PostLoad` in the editor returns with no collection under the null foliage type, and
with every non-null key of the map before the call still a key.  When nothing is converted
from the legacy layout (the version is `CrossLevelBase` or later) the keys afterwards are
exactly the keys before with the null key taken out, in the same order. -/
theorem PostLoad_removes_exactly_the_null_key (IFA : AInstancedFoliageActor)
    (TypeObject : Nat → UFoliageType) (IsResolvable : Nat → Bool) (LinkerVersion : Nat)
    (FoliageMeshes_Deprecated : List (Option Nat × FFoliageMeshInfo_Deprecated)) :
    ∃ A1, IFA.PostLoad TypeObject IsResolvable LinkerVersion FoliageMeshes_Deprecated = some A1 ∧
      A1.FindMesh none = none ∧
      (∀ p ∈ A1.FoliageMeshes, p.1 ≠ none) ∧
      (∀ k, k ≠ none → k ∈ TMap.Keys IFA.FoliageMeshes → k ∈ TMap.Keys A1.FoliageMeshes) ∧
      (FFoliageCustomVersion.CrossLevelBase ≤ LinkerVersion →
        TMap.Keys A1.FoliageMeshes =
          (TMap.Keys IFA.FoliageMeshes).filter (fun k => decide (k ≠ none))) := by
  obtain ⟨A1, h1, hk⟩ := PostLoad_keys IFA TypeObject IsResolvable LinkerVersion
    FoliageMeshes_Deprecated
  have hnull : ∀ p ∈ A1.FoliageMeshes, p.1 ≠ none := by
    intro p hp
    have : p.1 ∈ TMap.Keys A1.FoliageMeshes := List.mem_map_of_mem _ hp
    rw [hk, List.mem_filter] at this
    simpa using this.2
  refine ⟨A1, h1, ?_, hnull, ?_, ?_⟩
  · unfold AInstancedFoliageActor.FindMesh
    rw [TMap.Find_eq_none_iff]
    intro hmem
    obtain ⟨p, hp, hp1⟩ := List.mem_map.1 hmem
    exact hnull p hp hp1
  · intro k hk0 hmem
    rw [hk, List.mem_filter]
    refine ⟨?_, by simpa using hk0⟩
    split
    · exact ConvertDeprecatedFoliageMeshes_keys _ IFA k hmem
    · exact hmem
  · intro hV
    rw [hk, if_neg (by omega)]

/-- Witness for C23: an actor of the latest version holding collections under the null type
and under type 10 keeps the one under type 10 only. -/
theorem PostLoad_removes_exactly_the_null_key_witness :
    FFoliageCustomVersion.CrossLevelBase ≤ FFoliageCustomVersion.LatestVersion ∧
    TMap.Keys NullKeyActor.FoliageMeshes = [none, some 10] ∧
    ∃ A1, NullKeyActor.PostLoad (fun _ => UFoliageType.new 0) (fun _ => true)
        FFoliageCustomVersion.LatestVersion [] = some A1 ∧
      A1.FindMesh none = none ∧
      (∀ p ∈ A1.FoliageMeshes, p.1 ≠ none) ∧
      (∀ k, k ≠ none → k ∈ TMap.Keys NullKeyActor.FoliageMeshes →
        k ∈ TMap.Keys A1.FoliageMeshes) ∧
      (FFoliageCustomVersion.CrossLevelBase ≤ FFoliageCustomVersion.LatestVersion →
        TMap.Keys A1.FoliageMeshes =
          (TMap.Keys NullKeyActor.FoliageMeshes).filter (fun k => decide (k ≠ none))) :=
  ⟨by decide, by decide,
   PostLoad_removes_exactly_the_null_key NullKeyActor (fun _ => UFoliageType.new 0)
     (fun _ => true) FFoliageCustomVersion.LatestVersion []⟩

/-- C24: in a valid base cache (`InvalidBaseId` is neither the next id nor a key),
`AddInstanceBaseId` called a second time on the same object returns the id of the first call
and leaves the cache the first call left; so two calls of
`AddInstance(actor, settings, instance, baseComponent)` with the same base component return,
the second leaves the cache as the first left it, and the two appended instances carry the same
`BaseId`. -/
theorem AddInstanceBaseId_is_idempotent (Cache : FFoliageInstanceBaseCache)
    (hV : Cache.Valid) (Base : Option UActorComponent) (M : FFoliageMeshInfo)
    (S : UFoliageType) (I1 I2 : FFoliageInstance) :
    (Cache.AddInstanceBaseId Base).2.AddInstanceBaseId Base = Cache.AddInstanceBaseId Base ∧
    ((Cache.AddInstanceBaseId Base).2.AddInstanceBaseId Base).2.InstanceBaseMap.length =
      (Cache.AddInstanceBaseId Base).2.InstanceBaseMap.length ∧
    ∃ M1 M2,
      M.AddInstanceOnBase Cache S I1 Base = some ((Cache.AddInstanceBaseId Base).2, M1) ∧
      M1.AddInstanceOnBase (Cache.AddInstanceBaseId Base).2 S I2 Base =
        some ((Cache.AddInstanceBaseId Base).2, M2) ∧
      M2.Instances = M.Instances ++
        [{ I1 with BaseId := (Cache.AddInstanceBaseId Base).1 },
         { I2 with BaseId := (Cache.AddInstanceBaseId Base).1 }] := by
  obtain ⟨h2, _⟩ := AddInstanceBaseId_twice Cache hV Base
  refine ⟨h2, by rw [h2], ?_⟩
  refine ⟨AddResult M { I1 with BaseId := (Cache.AddInstanceBaseId Base).1 },
    AddResult (AddResult M { I1 with BaseId := (Cache.AddInstanceBaseId Base).1 })
      { I2 with BaseId := (Cache.AddInstanceBaseId Base).1 }, ?_, ?_, ?_⟩
  · unfold FFoliageMeshInfo.AddInstanceOnBase
    simp only [FFoliageMeshInfo.AddInstance_eq]
  · unfold FFoliageMeshInfo.AddInstanceOnBase
    simp only [FFoliageMeshInfo.AddInstance_eq, h2]
  · simp [AddResult]

/-- Witness for C24: the fresh cache and a sample component, which is given id 1 by the first
call and by the second. -/
theorem AddInstanceBaseId_is_idempotent_witness :
    FFoliageInstanceBaseCache.new.Valid ∧
    (FFoliageInstanceBaseCache.new.AddInstanceBaseId (some (SampleComponent 7))).1 = 1 ∧
    ((FFoliageInstanceBaseCache.new.AddInstanceBaseId
        (some (SampleComponent 7))).2.AddInstanceBaseId (some (SampleComponent 7))).1 = 1 ∧
    ((FFoliageInstanceBaseCache.new.AddInstanceBaseId (some (SampleComponent 7))).2.AddInstanceBaseId
        (some (SampleComponent 7)) =
      FFoliageInstanceBaseCache.new.AddInstanceBaseId (some (SampleComponent 7))) :=
  ⟨by decide, by decide, by decide,
   (AddInstanceBaseId_is_idempotent FFoliageInstanceBaseCache.new (by decide)
      (some (SampleComponent 7)) FFoliageMeshInfo.new (UFoliageType.new 0)
      (SampleInstance 0 0) (SampleInstance 600 0)).1⟩

/-- C25: for in-range indices `L` on a collection with a render component, the work set `S`
built from `L` holds the distinct indices of `L`; the loop of `RemoveInstances` returns when
allowed `|S|` passes and does not when allowed fewer.  The work set starts duplicate-free and
in range, and from every such state one pass returns (so no subscript is out of range), leaves
the pending set duplicate-free and in range of the array, now one shorter, and drops exactly
one pending index: when the picked index `i` is not the last one and the last index is
pending, the last index is dropped and `i` stays pending; otherwise `i` is dropped. -/
theorem RemoveInstances_loop_runs_once_per_distinct_index (M : FFoliageMeshInfo)
    (L : List Nat) (hL : ∀ i ∈ L, i < M.Instances.length)
    (hC : M.Component.isSome = true) :
    (L.foldl TSet.Add []).length = L.dedup.length ∧
    (∀ j, j ∈ L.foldl TSet.Add [] ↔ j ∈ L) ∧
    (∃ M1, FFoliageMeshInfo.RemoveInstancesLoop (L.foldl TSet.Add []).length M
      (L.foldl TSet.Add []) = some M1) ∧
    (∀ fuel, fuel < (L.foldl TSet.Add []).length →
      FFoliageMeshInfo.RemoveInstancesLoop fuel M (L.foldl TSet.Add []) = none) ∧
    PendingOK M (L.foldl TSet.Add []) ∧
    (∀ (N : FFoliageMeshInfo) (i : Nat) (rest : List Nat), PendingOK N (i :: rest) →
      ∃ N1 P1, N.RemoveInstancesPass (i :: rest) = some (N1, P1) ∧
        PendingOK N1 P1 ∧
        N1.Instances.length + 1 = N.Instances.length ∧
        P1.length + 1 = (i :: rest).length ∧
        (i ≠ N.Instances.length - 1 → N.Instances.length - 1 ∈ rest →
          i ∈ P1 ∧ N.Instances.length - 1 ∉ P1 ∧
          ∀ j, j ∈ P1 ↔ j ∈ i :: rest ∧ j ≠ N.Instances.length - 1) ∧
        (¬ (i ≠ N.Instances.length - 1 ∧ N.Instances.length - 1 ∈ rest) →
          ∀ j, j ∈ P1 ↔ j ∈ i :: rest ∧ j ≠ i)) := by
  have hok : PendingOK M (L.foldl TSet.Add []) := by
    refine ⟨TSet.nodup_foldl_Add _ _ List.nodup_nil, ?_, hC⟩
    intro j hj
    rw [TSet.mem_foldl_Add] at hj
    rcases hj with hj | hj
    · simp at hj
    · exact hL j hj
  refine ⟨length_foldl_Add L, ?_, ?_, ?_, hok, ?_⟩
  · intro j
    rw [TSet.mem_foldl_Add]
    simp
  · obtain ⟨M1, h1, _⟩ := RemoveInstancesLoop_induction (fun _ _ => True)
      (fun _ _ _ _ _ _ _ _ _ _ _ => trivial) (L.foldl TSet.Add []).length M
      (L.foldl TSet.Add []) hok (Nat.le_refl _) trivial
    exact ⟨M1, h1⟩
  · intro fuel hlt
    exact RemoveInstancesLoop_out_of_fuel fuel M _ hok hlt
  · intro N i rest hN
    obtain ⟨inst, C, last, hI, _, _, hpass, hInst, hok1⟩ := PendingOK_pass N i rest hN
    have hi : i < N.Instances.length := hN.2.1 i (List.mem_cons_self _ _)
    refine ⟨_, _, hpass, hok1, ?_, NextPending_length hN.1 (List.mem_cons_self i rest), ?_, ?_⟩
    · rw [hInst, TArray.length_RemoveAtSwap]
      omega
    · intro hne hlast
      have hc : i ≠ N.Instances.length - 1 ∧ N.Instances.length - 1 ∈ i :: rest :=
        ⟨hne, List.mem_cons_of_mem _ hlast⟩
      unfold NextPending
      rw [if_pos hc]
      refine ⟨?_, ?_, ?_⟩
      · rw [TSet.mem_Remove]
        exact ⟨List.mem_cons_self _ _, hne⟩
      · rw [TSet.mem_Remove]
        exact fun h => h.2 rfl
      · intro j
        rw [TSet.mem_Remove]
    · intro hc
      have hc2 : ¬ (i ≠ N.Instances.length - 1 ∧ N.Instances.length - 1 ∈ i :: rest) := by
        rintro ⟨h1, h2⟩
        rcases List.mem_cons.1 h2 with h | h
        · exact h1 h.symm
        · exact hc ⟨h1, h⟩
      intro j
      unfold NextPending
      rw [if_neg hc2, TSet.mem_Remove]

/-- Witness for C25: removing the indices `[1, 4, 1]` from the sample collection takes two
passes; the first picks index 1 while the last index, 4, is pending, and drops 4. -/
theorem RemoveInstances_loop_runs_once_per_distinct_index_witness :
    [1, 4, 1].foldl TSet.Add [] = [1, 4] ∧
    (SampleMeshInfo.RemoveInstancesPass [1, 4]).map Prod.snd = some [1] ∧
    FFoliageMeshInfo.RemoveInstancesLoop 1 SampleMeshInfo [1, 4] = none ∧
    (∃ M1, FFoliageMeshInfo.RemoveInstancesLoop ([1, 4, 1].foldl TSet.Add []).length
      SampleMeshInfo ([1, 4, 1].foldl TSet.Add []) = some M1) :=
  ⟨by decide, by decide, by decide,
   (RemoveInstances_loop_runs_once_per_distinct_index SampleMeshInfo [1, 4, 1] (by decide)
      (by decide)).2.2.1⟩

/-- C26: the table has 14 pools of strictly increasing block sizes `64, 96, 128, ..., 32768`.
On an allocator whose pools have these block sizes plus the overhead (as the constructor
leaves them), `FindPoolFromSize(n)` returns for `n ≤ 32768` the pool whose block size is the
smallest one that is at least `n`, and returns null exactly when `n > 32768`; `Malloc` on the
crashed thread then takes the block from the linear large pool, at the aligned offset, or ends
the process when the large pool is full. -/
theorem FindPoolFromSize_returns_the_smallest_fitting_pool (K : FMallocCrashEnum)
    (M : FMallocCrash) (n : Nat)
    (hP : M.Pools.map (fun P => P.AllocationSize) =
      AllPoolDesc.map (fun D => Uint32.Add D.Size K.PER_ALLOC_OVERHEAD)) :
    AllPoolDesc.length = NUM_POOLS ∧
    AllPoolDesc.map (fun D => D.Size) =
      [64, 96, 128, 192, 256, 384, 512, 768, 1024, 2048, 4096, 8192, 16384, 32768] ∧
    (AllPoolDesc.map (fun D => D.Size)).Pairwise (fun a b => a < b) ∧
    (n ≤ 32768 → ∃ i D P, M.FindPoolFromSize K n = some i ∧ GetPoolDesc i = some D ∧
      M.Pools[i]? = some P ∧ P.AllocationSize = Uint32.Add D.Size K.PER_ALLOC_OVERHEAD ∧
      n ≤ D.Size ∧ ∀ D1 ∈ AllPoolDesc, n ≤ D1.Size → D.Size ≤ D1.Size) ∧
    (M.FindPoolFromSize K n = none ↔ 32768 < n) ∧
    (32768 < n → n < 4294967296 → ∀ Alignment : Nat,
      M.Malloc K M.CrashedThreadId n Alignment =
        if Uint32.Add (Align M.LargeMemoryPoolOffset K.REQUIRED_ALIGNMENT)
            (Uint32.Add n K.PER_ALLOC_OVERHEAD) ≤ K.LARGE_MEMORYPOOL_SIZE then
          some (M.LargeMemoryPool + Align M.LargeMemoryPoolOffset K.REQUIRED_ALIGNMENT +
              K.PER_ALLOC_OVERHEAD,
            { M with
              LargeMemoryPoolOffset :=
                Uint32.Add (Align M.LargeMemoryPoolOffset K.REQUIRED_ALIGNMENT)
                  (Uint32.Add n K.PER_ALLOC_OVERHEAD)
              LargeAllocations := M.LargeAllocations ++
                [⟨n, M.LargeMemoryPool + Align M.LargeMemoryPoolOffset K.REQUIRED_ALIGNMENT +
                  K.PER_ALLOC_OVERHEAD⟩] })
        else none) := by
  have hS : M.Pools.map (fun P => Uint32.Sub P.AllocationSize K.PER_ALLOC_OVERHEAD) =
      AllPoolDesc.map (fun D => D.Size) := by
    have h1 : M.Pools.map (fun P => Uint32.Sub P.AllocationSize K.PER_ALLOC_OVERHEAD) =
        (M.Pools.map (fun P => P.AllocationSize)).map
          (fun a => Uint32.Sub a K.PER_ALLOC_OVERHEAD) := by
      rw [List.map_map]; rfl
    rw [h1, hP, List.map_map]
    apply List.map_congr_left
    intro D hD
    have hlt : D.Size < 4294967296 := by
      revert D
      decide
    exact Uint32.Sub_Add D.Size K.PER_ALLOC_OVERHEAD hlt
  have hpw : (M.Pools.map (fun P => Uint32.Sub P.AllocationSize
      K.PER_ALLOC_OVERHEAD)).Pairwise (fun a b => a < b) := by
    rw [hS]; decide
  obtain ⟨hsome, hnone⟩ := FindPoolFromSizeLoop_spec K n M.Pools 0 hpw
  have hle : ∀ s ∈ AllPoolDesc.map (fun D => D.Size), s ≤ 32768 := by decide
  have hiff : M.FindPoolFromSize K n = none ↔ 32768 < n := by
    constructor
    · intro h
      have hall := hnone h
      have hmem : (32768 : Nat) ∈ M.Pools.map
          (fun P => Uint32.Sub P.AllocationSize K.PER_ALLOC_OVERHEAD) := by
        rw [hS]; decide
      obtain ⟨Q, hQ, hQe⟩ := List.mem_map.1 hmem
      have := hall Q hQ
      omega
    · intro h
      cases hf : M.FindPoolFromSize K n with
      | none => rfl
      | some r =>
        obtain ⟨k, P, _, hPk, hn, _, _⟩ := hsome r hf
        have hmem : Uint32.Sub P.AllocationSize K.PER_ALLOC_OVERHEAD ∈
            AllPoolDesc.map (fun D => D.Size) := by
          rw [← hS]
          obtain ⟨hlt, he⟩ := List.getElem?_eq_some_iff.1 hPk
          rw [← he]
          exact List.mem_map_of_mem _ (List.getElem_mem hlt)
        have := hle _ hmem
        omega
  refine ⟨rfl, rfl, by decide, ?_, hiff, ?_⟩
  · intro hn
    cases hf : M.FindPoolFromSize K n with
    | none => exact absurd (hiff.1 hf) (by omega)
    | some r =>
      obtain ⟨k, P, hk, hPk, hnP, _, hmin⟩ := hsome r hf
      have hk0 : r = k := by omega
      subst hk0
      have hget : (AllPoolDesc.map (fun D => D.Size))[r]? =
          some (Uint32.Sub P.AllocationSize K.PER_ALLOC_OVERHEAD) := by
        rw [← hS, List.getElem?_map, hPk]
        rfl
      have hgetA : (AllPoolDesc.map (fun D => Uint32.Add D.Size K.PER_ALLOC_OVERHEAD))[r]? =
          some P.AllocationSize := by
        rw [← hP, List.getElem?_map, hPk]
        rfl
      rw [List.getElem?_map] at hget hgetA
      cases hD : AllPoolDesc[r]? with
      | none => rw [hD] at hget; cases hget
      | some D =>
        rw [hD] at hget hgetA
        simp only [Option.map_some', Option.some.injEq] at hget hgetA
        refine ⟨r, D, P, rfl, hD, hPk, hgetA.symm, by omega, ?_⟩
        intro D1 hD1 hn1
        have hmem : D1.Size ∈ M.Pools.map
            (fun P => Uint32.Sub P.AllocationSize K.PER_ALLOC_OVERHEAD) := by
          rw [hS]
          exact List.mem_map_of_mem _ hD1
        obtain ⟨Q, hQ, hQe⟩ := List.mem_map.1 hmem
        have := hmin Q hQ (by omega)
        omega
  · intro h1 h2 Alignment
    have hmod : n % 4294967296 = n := Nat.mod_eq_of_lt h2
    unfold FMallocCrash.Malloc FMallocCrash.IsOnCrashedThread
    simp only [if_true, hmod, hiff.2 h1]

set_option maxRecDepth 100000 in
set_option maxHeartbeats 2000000 in
/-- Witness for C26: the constructor returns for the sample constants; on the allocator it
returns, a request of 100 bytes is served by pool 2 (blocks of 128 bytes) and a request of
32769 bytes by no pool. -/
theorem FindPoolFromSize_returns_the_smallest_fitting_pool_witness :
    (FMallocCrash.new SampleEnum 1048576 4194304).isSome = true ∧
    SampleMallocCrash.FindPoolFromSize SampleEnum 100 = some 2 ∧
    (SampleMallocCrash.FindPoolFromSize SampleEnum 32769 = none ↔ 32768 < 32769) :=
  ⟨by decide, by decide,
   (FindPoolFromSize_returns_the_smallest_fitting_pool SampleEnum SampleMallocCrash 32769
      (by decide)).2.2.2.2.1⟩

/-- C27: after `PostEditChangeProperty`, a prior `OverriddenLightMapRes` of at most 4 has
become 4, and a prior value `v > 4` with `v + 3` below `2^31` has become the smallest multiple
of 4 that is at least `v`; in both cases the new value is a multiple of 4, is at least 4, and
a further call leaves it as it is. -/
theorem PostEditChangeProperty_normalises_the_light_map_resolution (T : UFoliageType)
    (Self NewGuid : Nat) (bReallocationRequired : Bool)
    (Actors : List AInstancedFoliageActor)
    (hv : T.OverriddenLightMapRes + 3 < 2147483648) :
    (T.OverriddenLightMapRes ≤ 4 →
      (T.PostEditChangeProperty Self NewGuid bReallocationRequired
        Actors).1.OverriddenLightMapRes = 4) ∧
    (4 < T.OverriddenLightMapRes →
      T.OverriddenLightMapRes ≤
        (T.PostEditChangeProperty Self NewGuid bReallocationRequired
          Actors).1.OverriddenLightMapRes ∧
      ∀ m : Int, 4 ∣ m → T.OverriddenLightMapRes ≤ m →
        (T.PostEditChangeProperty Self NewGuid bReallocationRequired
          Actors).1.OverriddenLightMapRes ≤ m) ∧
    4 ∣ (T.PostEditChangeProperty Self NewGuid bReallocationRequired
      Actors).1.OverriddenLightMapRes ∧
    4 ≤ (T.PostEditChangeProperty Self NewGuid bReallocationRequired
      Actors).1.OverriddenLightMapRes ∧
    ∀ (Guid2 : Nat) (b2 : Bool) (Actors2 : List AInstancedFoliageActor),
      ((T.PostEditChangeProperty Self NewGuid bReallocationRequired
          Actors).1.PostEditChangeProperty Self Guid2 b2 Actors2).1.OverriddenLightMapRes =
        (T.PostEditChangeProperty Self NewGuid bReallocationRequired
          Actors).1.OverriddenLightMapRes := by
  have hr := PostEditChangeProperty_res_eq T Self NewGuid bReallocationRequired Actors hv
  refine ⟨?_, ?_, ?_, ?_, ?_⟩
  · intro h
    rw [hr, if_neg (by omega)]
  · intro h
    rw [hr, if_pos h]
    refine ⟨by omega, ?_⟩
    intro m hm hle
    omega
  · rw [hr]
    split <;> omega
  · rw [hr]
    split <;> omega
  · intro Guid2 b2 Actors2
    generalize hT1 : (T.PostEditChangeProperty Self NewGuid bReallocationRequired Actors).1 = T1
      at hr ⊢
    have hr2 := PostEditChangeProperty_res_eq T1 Self Guid2 b2 Actors2
      (by rw [hr]; split <;> omega)
    rw [hr2]
    split
    · rw [hr] at *
      split at * <;> omega
    · rw [hr] at *
      split at * <;> omega

/-- Witness for C27: a resolution of 13 becomes 16. -/
theorem PostEditChangeProperty_normalises_the_light_map_resolution_witness :
    ({ UFoliageType.new 0 with OverriddenLightMapRes := 13 } : UFoliageType).OverriddenLightMapRes
      + 3 < 2147483648 ∧
    (({ UFoliageType.new 0 with OverriddenLightMapRes := 13 } :
      UFoliageType).PostEditChangeProperty 10 1 false []).1.OverriddenLightMapRes = 16 ∧
    4 ∣ (({ UFoliageType.new 0 with OverriddenLightMapRes := 13 } :
      UFoliageType).PostEditChangeProperty 10 1 false []).1.OverriddenLightMapRes :=
  ⟨by decide, by decide,
   (PostEditChangeProperty_normalises_the_light_map_resolution
      { UFoliageType.new 0 with OverriddenLightMapRes := 13 } 10 1 false []
      (by decide)).2.2.1⟩

/-- C28: `GetNextAge(CurrentAge, NumSteps)` is `CurrentAge + k` for the largest `k` with
`0 ≤ k ≤ max(NumSteps, 0)` and (`k = 0` or `CurrentAge + k ≤ MaxAge`).  The result is never
below `CurrentAge`, does not exceed `MaxAge` when `CurrentAge` does not, is `CurrentAge` when
`NumSteps ≤ 0` or `CurrentAge + 1 > MaxAge`, and is non-decreasing in `NumSteps`. -/
theorem GetNextAge_takes_the_largest_number_of_steps (T : UFoliageType) (CurrentAge : ℚ)
    (NumSteps : Int) :
    (∃ k : Nat, T.GetNextAge CurrentAge NumSteps = CurrentAge + k ∧
      (k : Int) ≤ max NumSteps 0 ∧ (k = 0 ∨ CurrentAge + k ≤ T.MaxAge) ∧
      ∀ k1 : Nat, (k1 : Int) ≤ max NumSteps 0 → (k1 = 0 ∨ CurrentAge + k1 ≤ T.MaxAge) →
        k1 ≤ k) ∧
    CurrentAge ≤ T.GetNextAge CurrentAge NumSteps ∧
    (CurrentAge ≤ T.MaxAge → T.GetNextAge CurrentAge NumSteps ≤ T.MaxAge) ∧
    (NumSteps ≤ 0 ∨ T.MaxAge < CurrentAge + 1 → T.GetNextAge CurrentAge NumSteps = CurrentAge) ∧
    (∀ MoreSteps : Int, NumSteps ≤ MoreSteps →
      T.GetNextAge CurrentAge NumSteps ≤ T.GetNextAge CurrentAge MoreSteps) := by
  have hmax : ∀ (n : Int), ∃ k : Nat, T.GetNextAge CurrentAge n = CurrentAge + k ∧
      (k : Int) ≤ max n 0 ∧ (k = 0 ∨ CurrentAge + k ≤ T.MaxAge) ∧
      ∀ k1 : Nat, (k1 : Int) ≤ max n 0 → (k1 = 0 ∨ CurrentAge + k1 ≤ T.MaxAge) → k1 ≤ k := by
    intro n
    obtain ⟨k, h1, h2, h3, h4⟩ := GetNextAgeLoop_spec T n.toNat CurrentAge
    have hn : ((n.toNat : Nat) : Int) = max n 0 := Int.toNat_eq_max n
    refine ⟨k, h2, by omega, h3, ?_⟩
    intro k1 hk1 hfit
    by_contra hlt
    have hkr : k < n.toNat := by omega
    apply h4 hkr
    rcases hfit with h | h
    · omega
    · have : (k : ℚ) + 1 ≤ k1 := by exact_mod_cast (by omega : k + 1 ≤ k1)
      linarith
  obtain ⟨k, hk1, hk2, hk3, hk4⟩ := hmax NumSteps
  have hk0 : (0 : ℚ) ≤ k := Nat.cast_nonneg k
  refine ⟨⟨k, hk1, hk2, hk3, hk4⟩, ?_, ?_, ?_, ?_⟩
  · rw [hk1]; linarith
  · intro hA
    rw [hk1]
    rcases hk3 with h | h
    · subst h; simpa using hA
    · exact h
  · intro h
    rw [hk1]
    have : k = 0 := by
      rcases h with h | h
      · omega
      · rcases hk3 with h3 | h3
        · exact h3
        · by_contra hne
          have : (1 : ℚ) ≤ k := by exact_mod_cast (by omega : 1 ≤ k)
          linarith
    subst this
    simp
  · intro MoreSteps hle
    obtain ⟨k2, hm1, hm2, hm3, hm4⟩ := hmax MoreSteps
    have hkk : k ≤ k2 := hm4 k (by omega) hk3
    rw [hk1, hm1]
    have : (k : ℚ) ≤ k2 := by exact_mod_cast hkk
    linarith

/-- Claim C29, `AInstancedFoliageActor::SelectInstance(component, i, bToggle)`.  Let the
component be the render sink `C` of the collection `M` the actor keeps under the key `k`, in a
map with distinct keys, and let `i` be an instance of that component.

Without toggling, when every collection that has selected indices has its component (the
`check` of the deselecting loop), the call returns and afterwards an index `j` is selected in
the collection under a key `k1` exactly when `k1 = k` and `j = i`; the collection under `k`
keeps its instances and the other collections are the old ones with the selection cleared.

With toggling the call returns; in the collection under `k` the membership of `i` in the
selected set is flipped and that of every other index is kept, and the collection under every
other key is unchanged.  Toggling the same instance again returns and restores the selected
set of the collection under `k`, with every other collection unchanged. -/
theorem SelectInstance_selects_one_or_toggles (IFA : AInstancedFoliageActor) (k : Option Nat)
    (M : FFoliageMeshInfo) (C : UHierarchicalInstancedStaticMeshComponent) (i : Nat)
    (hK : (TMap.Keys IFA.FoliageMeshes).Nodup) (hF : IFA.FindMesh k = some M)
    (hC : M.Component = some C) (hi : i < C.PerInstanceSMData.length) :
    ((∀ p ∈ IFA.FoliageMeshes, p.2.SelectedIndices ≠ [] → p.2.Component.isSome = true) →
      ∃ (A1 : AInstancedFoliageActor) (M1 : FFoliageMeshInfo),
        IFA.SelectInstance (some k) i false = some A1 ∧
        A1.FindMesh k = some M1 ∧ M1.Instances = M.Instances ∧
        (∀ k1, k1 ≠ k → A1.FindMesh k1 = (IFA.FindMesh k1).map ClearSelection) ∧
        (∀ k1 N1, A1.FindMesh k1 = some N1 →
          ∀ j, j ∈ N1.SelectedIndices ↔ (k1 = k ∧ j = i))) ∧
    (∃ (A1 : AInstancedFoliageActor) (M1 : FFoliageMeshInfo),
        IFA.SelectInstance (some k) i true = some A1 ∧
        A1.FindMesh k = some M1 ∧ M1.Instances = M.Instances ∧
        (∀ j, j ∈ M1.SelectedIndices ↔
          if j = i then i ∉ M.SelectedIndices else j ∈ M.SelectedIndices) ∧
        (∀ k1, k1 ≠ k → A1.FindMesh k1 = IFA.FindMesh k1) ∧
        ∃ (A2 : AInstancedFoliageActor) (M2 : FFoliageMeshInfo),
          A1.SelectInstance (some k) i true = some A2 ∧
          A2.FindMesh k = some M2 ∧ M2.Instances = M.Instances ∧
          (∀ j, j ∈ M2.SelectedIndices ↔ j ∈ M.SelectedIndices) ∧
          (∀ k1, k1 ≠ k → A2.FindMesh k1 = IFA.FindMesh k1)) := by
  constructor
  · intro hS
    obtain ⟨M1, h1, h2, h3⟩ := SelectInstance_select IFA k M C i hK hF hC hi hS
    have hk : ∀ k1, k1 ≠ k →
        AInstancedFoliageActor.FindMesh
          ⟨IFA.InstanceBaseCache,
            TMap.Add (IFA.FoliageMeshes.map (fun p => (p.1, ClearSelection p.2))) k M1⟩ k1
          = (IFA.FindMesh k1).map ClearSelection := by
      intro k1 hk1
      unfold AInstancedFoliageActor.FindMesh
      simp only []
      rw [TMap.Find_Add, if_neg hk1, TMap.Find_map_values]
    have hkk : AInstancedFoliageActor.FindMesh
          ⟨IFA.InstanceBaseCache,
            TMap.Add (IFA.FoliageMeshes.map (fun p => (p.1, ClearSelection p.2))) k M1⟩ k
          = some M1 := by
      unfold AInstancedFoliageActor.FindMesh
      simp only []
      rw [TMap.Find_Add, if_pos rfl]
    refine ⟨_, M1, h1, hkk, h2, hk, ?_⟩
    intro k1 N1 hN1 j
    by_cases hk1 : k1 = k
    · subst hk1
      rw [hkk] at hN1
      cases hN1
      rw [h3 j]
      simp
    · rw [hk k1 hk1] at hN1
      obtain ⟨N, _, hN⟩ := Option.map_eq_some'.1 hN1
      rw [← hN]
      simp [ClearSelection, hk1]
  · obtain ⟨M1, C1, h1, h2, h3, h4, h5⟩ := SelectInstance_toggle IFA k M C i hK hF hC hi
    have hkk : AInstancedFoliageActor.FindMesh
        { IFA with FoliageMeshes := TMap.Add IFA.FoliageMeshes k M1 } k = some M1 := by
      unfold AInstancedFoliageActor.FindMesh
      simp only []
      rw [TMap.Find_Add, if_pos rfl]
    have hk : ∀ k1, k1 ≠ k → AInstancedFoliageActor.FindMesh
        { IFA with FoliageMeshes := TMap.Add IFA.FoliageMeshes k M1 } k1 = IFA.FindMesh k1 := by
      intro k1 hk1
      unfold AInstancedFoliageActor.FindMesh
      simp only []
      rw [TMap.Find_Add, if_neg hk1]
    have hK1 : (TMap.Keys ({ IFA with FoliageMeshes := TMap.Add IFA.FoliageMeshes k M1 } :
        AInstancedFoliageActor).FoliageMeshes).Nodup := TMap.Keys_Add_nodup _ _ _ hK
    obtain ⟨M2, C2, g1, _, _, g4, g5⟩ :=
      SelectInstance_toggle _ k M1 C1 i hK1 hkk h2 (by rw [h3]; exact hi)
    refine ⟨_, M1, h1, hkk, h4, h5, hk, _, M2, g1, ?_, ?_, ?_, ?_⟩
    · unfold AInstancedFoliageActor.FindMesh
      simp only []
      rw [TMap.Find_Add, if_pos rfl]
    · rw [g4, h4]
    · intro j
      rw [g5 j]
      by_cases hj : j = i
      · subst hj
        rw [if_pos rfl, h5 j, if_pos rfl]
        exact not_not
      · rw [if_neg hj, h5 j, if_neg hj]
    · intro k1 hk1
      rw [← hk k1 hk1]
      unfold AInstancedFoliageActor.FindMesh
      simp only []
      rw [TMap.Find_Add, if_neg hk1]

/-- Witness for C29: instance 1 of the sample collection, kept with index 0 selected under
foliage type 10 in an actor with two collections. -/
theorem SelectInstance_selects_one_or_toggles_witness :
    (TMap.Keys TwoMeshesActor.FoliageMeshes).Nodup ∧
    TwoMeshesActor.FindMesh (some 10) = some SelectedMeshInfo ∧
    SelectedMeshInfo.Component = SampleMeshInfo.Component ∧
    ((TwoMeshesActor.SelectInstance (some (some 10)) 1 false).map
        (fun A => A.FoliageMeshes.map (fun p => (p.1, p.2.SelectedIndices)))
      = some [(some 10, [1]), (some 11, [])]) ∧
    ((TwoMeshesActor.SelectInstance (some (some 10)) 1 true).map
        (fun A => A.FoliageMeshes.map (fun p => (p.1, p.2.SelectedIndices)))
      = some [(some 10, [0, 1]), (some 11, [])]) ∧
    (((TwoMeshesActor.SelectInstance (some (some 10)) 1 true).bind
        (fun A => A.SelectInstance (some (some 10)) 1 true)).map
        (fun A => A.FoliageMeshes.map (fun p => (p.1, p.2.SelectedIndices)))
      = some [(some 10, [0]), (some 11, [])]) ∧
    ((∀ p ∈ TwoMeshesActor.FoliageMeshes,
        p.2.SelectedIndices ≠ [] → p.2.Component.isSome = true) →
      ∃ (A1 : AInstancedFoliageActor) (M1 : FFoliageMeshInfo),
        TwoMeshesActor.SelectInstance (some (some 10)) 1 false = some A1 ∧
        A1.FindMesh (some 10) = some M1 ∧ M1.Instances = SelectedMeshInfo.Instances ∧
        (∀ k1, k1 ≠ some 10 →
          A1.FindMesh k1 = (TwoMeshesActor.FindMesh k1).map ClearSelection) ∧
        (∀ k1 N1, A1.FindMesh k1 = some N1 →
          ∀ j, j ∈ N1.SelectedIndices ↔ (k1 = some 10 ∧ j = 1))) :=
  ⟨by decide, by decide, rfl, by decide, by decide, by decide,
    (SelectInstance_selects_one_or_toggles TwoMeshesActor (some 10) SelectedMeshInfo
      ⟨[(SampleInstance 0 1).GetInstanceWorldTransform,
        (SampleInstance 600 2).GetInstanceWorldTransform,
        (SampleInstance 1200 1).GetInstanceWorldTransform,
        (SampleInstance 1800 0).GetInstanceWorldTransform,
        (SampleInstance 2400 2).GetInstanceWorldTransform], []⟩
      1 (by decide) (by decide) rfl (by decide)).1⟩

set_option maxRecDepth 100000 in
set_option maxHeartbeats 2000000 in
/-- C30 (code bug): a request of size 0 does not mark its slot as used.  `AllocateFromPool`
finds a free slot by a header of size 0 and marks the slot by writing the size requested, so
after a request of size 0 the pool has the same slots as before and the next request gets the
same pointer.  On the fresh sample allocator, on the crashed thread, `Malloc(0)` followed by
`Malloc(0)`, and `Malloc(0)` followed by `Malloc(16)`, return the pointer `4194320` both times
with no `Free` in between, while the pool counts two blocks in use. -/
theorem Malloc_of_size_zero_hands_the_slot_out_again :
    (∀ (Pool : FMallocCrashPool) (p : Nat) (Pool1 : FMallocCrashPool),
      Pool.AllocateFromPool 0 = some (p, Pool1) →
      Pool1.Allocations = Pool.Allocations ∧
      ∀ n, ∃ Pool2, Pool1.AllocateFromPool n = some (p, Pool2)) ∧
    (SampleMallocCrash.Malloc SampleEnum 1 0 16).bind
      (fun R => (R.2.Malloc SampleEnum 1 0 16).map
        (fun R2 => (R.1, R2.1, R2.2.Pools.head?.map (fun P => P.NumUsed)))) =
      some (4194320, 4194320, some 2) ∧
    (SampleMallocCrash.Malloc SampleEnum 1 0 16).bind
      (fun R => (R.2.Malloc SampleEnum 1 16 16).map (fun R2 => (R.1, R2.1))) =
      some (4194320, 4194320) := by
  refine ⟨AllocateFromPool_zero, ?_, ?_⟩
  · decide
  · decide

end Foliage
